import Mathlib

/-!
# The transactional object store of `obj.c`

A shallow embedding of the transaction engine of `src/src/obj.c`:
the thread's chain of `struct tx` frames, the doubly linked `struct txop`
operation log of each frame, the commit and abort fan-outs of
`pmemobj_tx_action_tid`, and the mutators `pmemobj_alloc_tid`,
`pmemobj_zalloc_tid`, `pmemobj_strdup_tid`, `pmemobj_free_tid` and
`pmemobj_memcpy_tid`.

Pointers to `struct tx` and `struct txop` are indices into the lists of
cells that `zalloc` has handed out (`none` is `NULL`).  The functions that
`obj.c` calls but does not define (`Malloc`, `pmalloc`, `pfree`, the
`pthread_*` family) are parameters, collected in `Env`, and each call of one
of them is recorded in the state's `trace`.  A function of `obj.c` is a
definition of the same name that takes the state and returns the new state
with the C return value, or the `Fault` with which the C code stops.

The list primitive of `src/src/obj_list.c` is embedded on top of it.  List
nodes live in the byte map `mem`; an object id in memory is 16 bytes.  The
by-value parameters whose address `PMEMOBJ_SET` takes are stored at the
addresses that `Auto` names, so that every field-set is the `pmemobj_memcpy`
of `obj.c` between two addresses.

A pool file is a `File`: what it holds by offset from its start.  Opening a
pool maps the file at the address the operating system chooses, which makes
the contents of the file the contents of the state at that address, and
closing it gives the file back as the mapping left it.  What
`pmemobj_pool_open` takes from `obj.h`, `util.c` and the operating system is
collected in `OpenEnv`.

The locking calls on the cells `PMEMmutex`, `PMEMrwlock` and `PMEMcond` are
embedded one by one, and `run_sync` runs any of those that take one cell.  The
walk `objlog_walk` of the test `obj_log_basic.c` is embedded with its callback
as a parameter; its result lists the calls of the callback.
-/

namespace Obj

/-! ## Data model -/

/-- The modulus of `uint64_t` arithmetic. -/
def U64 : Nat := 2 ^ 64

/-- `ENOMEM` of `errno.h`. -/
def ENOMEM : Int := 12

/-- The ways in which a run of the C code fails to return. -/
inductive Fault where
  /-- A `NULL` pointer is dereferenced. -/
  | null_deref
  /-- A pointer to no live cell is dereferenced (freed or never allocated). -/
  | bad_pointer
  /-- A loop does not terminate. -/
  | diverge
  deriving DecidableEq, Repr

/-- The enum `op_t`. -/
inductive op_t where
  | TXOP_ALLOC
  | TXOP_FREE
  | TXOP_SET
  deriving DecidableEq, Repr

/-- The union `txop_args`, by layout: `alloc.addr`, `free.addr` and `set.addr`
share the first word, `set.data` is the second and `set.len` the third. -/
structure txop_args where
  addr : Nat := 0
  data : Nat := 0
  len : Nat := 0
  deriving DecidableEq, Repr

/-- The cell `struct txop`; the default value is the zeroed cell of `zalloc`. -/
structure txop where
  op : op_t := op_t.TXOP_ALLOC
  next : Option Nat := none
  prev : Option Nat := none
  args : txop_args := {}
  deriving DecidableEq, Repr

/-- The frame `struct tx`; the default value is the zeroed cell of `zalloc`.
`env` holds the copied contents of the caller's `jmp_buf`, `pool` the
`PMEMobjpool *`, `next` the outer transaction. -/
structure tx where
  valid_env : Int := 0
  env : Nat := 0
  mutexp : Option Nat := none
  rwlockp : Option Nat := none
  pool : Nat := 0
  next : Option Nat := none
  head : Option Nat := none
  tail : Option Nat := none
  deriving DecidableEq, Repr

/-- Modelled from the spec: `PMEMoid` is declared in `obj.h`, which is not among
the sources. It is the pair of the pool's mapped address and an offset; `obj.c`
reads and writes the fields `pool` and `off`. -/
structure PMEMoid where
  pool : Nat := 0
  off : Nat := 0
  deriving DecidableEq, Repr

/-- Modelled from the spec: `struct pool_hdr` is declared in `util.h`, which is
not among the sources. These are the fields `pmemobj_pool_open` reads and
writes, each held as the number or the characters it stands for, so that
`htole32`, `htole64` and the conversion to host byte order change nothing.
`signature` is the characters of the field before the first zero byte. The
default value is the header `memset` has zeroed. -/
structure pool_hdr where
  signature : List Nat := []
  major : Nat := 0
  compat_features : Nat := 0
  incompat_features : Nat := 0
  ro_compat_features : Nat := 0
  uuid : Nat := 0
  crtime : Nat := 0
  checksum : Nat := 0
  deriving DecidableEq, Repr

/-- Modelled from the spec: `struct pmemobjpool` is declared in `obj.h`, which is
not among the sources. These are the fields that `obj.c` reads and writes: the
mapped address, the size, the root object id and the pool header. The field
`rootlock` is a lock cell of the state, at the address `rootlock` gives. -/
structure pmemobjpool where
  addr : Nat := 0
  size : Nat := 0
  root : PMEMoid := {}
  hdr : pool_hdr := {}
  deriving DecidableEq, Repr

/-- Modelled from the spec: `PMEMmutex`, `PMEMrwlock` and `PMEMcond` are declared
in `obj.h`, which is not among the sources. Each is a persistent cell of two
fields, as `mutexof`, `rwlockof` and `condof` use them: a 64-bit run id and a
pointer to the pthread object in DRAM. -/
structure SyncCell where
  runid : Nat := 0
  pthreadp : Option Nat := none
  deriving DecidableEq, Repr

/-- The pthread entry points that `obj.c` calls. -/
inductive PthreadFn where
  | mutex_init
  | mutex_lock
  | mutex_trylock
  | mutex_unlock
  | rwlock_init
  | rwlock_rdlock
  | rwlock_wrlock
  | rwlock_unlock
  | cond_init
  | rwlock_timedrdlock
  | rwlock_timedwrlock
  | rwlock_tryrdlock
  | rwlock_trywrlock
  | cond_broadcast
  | cond_signal
  | cond_timedwait
  | cond_wait
  deriving DecidableEq, Repr

/-- One call of a function that `obj.c` uses and does not define. -/
inductive Event where
  /-- The call `pmalloc(&pool->allocator, ptrp, size)` stored `off` in `*ptrp`. -/
  | pmalloc (pool size off : Nat)
  /-- The call `pfree(&pool->allocator, off)`. -/
  | pfree (pool off : Nat)
  /-- The call `libpmem_persist(is_pmem, addr, len)`. -/
  | persist (addr len : Nat)
  /-- A pthread call on the pthread object `p`. -/
  | pthread (fn : PthreadFn) (p : Nat)
  /-- The call `longjmp(env, val)`. -/
  | longjmp (env : Nat) (val : Int)
  /-- The call `util_map(fd, len, 0)` returned `addr`. -/
  | util_map (len addr : Nat)
  /-- The call `util_unmap(addr, len)`. -/
  | util_unmap (addr len : Nat)
  /-- The call `allocator_init(&pop->allocator, ...)` on the pool at `pop`. -/
  | allocator_init (pop : Nat)
  /-- A pthread call on the condition variable `condp` and the mutex `mutexp`. -/
  | pthread_cond (fn : PthreadFn) (condp mutexp : Nat)
  deriving DecidableEq, Repr

/-- What the functions outside `obj.c` answer; they are parameters of every
definition below. `Runid` is the value `obj_init` gave the static `Runid`,
`Malloc_ok k` tells whether the `k`-th call of `Malloc` returns memory,
`pmalloc_off k` is the offset the `k`-th call of `pmalloc` stores, `pthread_ret n`
is the value a pthread call returns when `n` calls have been traced before it. -/
structure Env where
  Runid : Nat
  Malloc_ok : Nat → Bool
  pmalloc_off : Nat → Nat
  pthread_ret : Nat → Int

/-- The state of the process, as far as `obj.c` reads and writes it.
`mem` is the byte at each address; `pools` the `struct pmemobjpool` at each
pool address; `txs` and `txops` the cells `zalloc` returned for frames (`none`
once freed) and log entries; `Curthread_txinfop` is `NULL` or the `txp` field
of the thread's `struct txinfo`; `mutexes`, `rwlocks` and `conds` are the
persistent lock and condition cells by address. -/
structure State where
  mem : Nat → Nat
  pools : Nat → Option pmemobjpool
  txs : List (Option tx)
  txops : List txop
  Curthread_txinfop : Option Nat
  mutexes : Nat → SyncCell
  rwlocks : Nat → SyncCell
  npthread : Nat
  nmalloc : Nat
  npmalloc : Nat
  errno : Int
  trace : List Event
  conds : Nat → SyncCell := fun _ => {}

/-! ## Memory and cell access -/

/-- The C `memcpy(dst, src, len)` on the byte map: every byte of the destination
becomes the byte the source held before the call. -/
def memcpy (m : Nat → Nat) (dst src len : Nat) : Nat → Nat :=
  fun a => if dst ≤ a ∧ a < dst + len then m (src + (a - dst)) else m a

/-- The C `memset(dst, c, len)` on the byte map. -/
def memset (m : Nat → Nat) (dst c len : Nat) : Nat → Nat :=
  fun a => if dst ≤ a ∧ a < dst + len then c else m a

/-- Store the bytes `bs` at `dst`, `dst + 1`, ... -/
def store_bytes (m : Nat → Nat) (dst : Nat) (bs : List Nat) : Nat → Nat :=
  fun a => if dst ≤ a ∧ a < dst + bs.length then bs.getD (a - dst) 0 else m a

/-- Read the frame a `struct tx *` points to. -/
def tx_get (s : State) (p : Nat) : Except Fault tx :=
  match s.txs[p]? with
  | some (some t) => Except.ok t
  | _ => Except.error Fault.bad_pointer

/-- Write the frame a `struct tx *` points to. -/
def tx_put (s : State) (p : Nat) (t : tx) : State :=
  { s with txs := s.txs.set p (some t) }

/-- Read the entry a `struct txop *` points to. -/
def txop_get (s : State) (p : Nat) : Except Fault txop :=
  match s.txops[p]? with
  | some c => Except.ok c
  | none => Except.error Fault.bad_pointer

/-- Write the entry a `struct txop *` points to. -/
def txop_put (s : State) (p : Nat) (c : txop) : State :=
  { s with txops := s.txops.set p c }

/-- Read the `struct pmemobjpool` a `PMEMobjpool *` points to. -/
def pool_get (s : State) (p : Nat) : Except Fault pmemobjpool :=
  match s.pools p with
  | some P => Except.ok P
  | none => Except.error Fault.bad_pointer

/-- Dereferencing a pointer that may be `NULL`. -/
def nonnull (p : Option Nat) : Except Fault Nat :=
  match p with
  | some q => Except.ok q
  | none => Except.error Fault.null_deref

/-- Modelled from the spec: `Malloc` is a macro of `util.h`, which is not among
the sources. One call of it: whether it returned memory, as the environment
says. -/
def Malloc (E : Env) (s : State) : State × Bool :=
  ({ s with nmalloc := s.nmalloc + 1 }, E.Malloc_ok s.nmalloc)

/-- The `zalloc(sizeof (struct tx))` of `pmemobj_tx_begin`: a new zeroed frame,
or `NULL`. -/
def zalloc_tx (E : Env) (s : State) : State × Option Nat :=
  let r := Malloc E s
  if r.2 then ({ r.1 with txs := r.1.txs ++ [some {}] }, some r.1.txs.length)
  else (r.1, none)

/-- The `zalloc(sizeof (struct txop))` of the `pmemobj_log_prepare_*` functions: a
new zeroed entry, or `NULL`. -/
def zalloc_txop (E : Env) (s : State) : State × Option Nat :=
  let r := Malloc E s
  if r.2 then ({ r.1 with txops := r.1.txops ++ [{}] }, some r.1.txops.length)
  else (r.1, none)

/-- Modelled from the spec: `pmalloc` is declared in `allocator.h`, which is not
among the sources; the allocator is an interface over the pool's bytes whose
own metadata is no object byte. The call `pmalloc(&pool->allocator, ptrp, size)`
is traced and writes no byte of `mem`; the result is the offset the call stores
in `*ptrp`, which the caller below writes to the cell `ptrp` points at. -/
def pmalloc (E : Env) (s : State) (pool size : Nat) : State × Nat :=
  let off := E.pmalloc_off s.npmalloc
  ({ s with npmalloc := s.npmalloc + 1,
            trace := s.trace ++ [Event.pmalloc pool size off] }, off)

/-- Modelled from the spec: `pfree` is declared in `allocator.h`, which is not
among the sources. The call `pfree(&pool->allocator, off)` is traced and writes
no byte of `mem`. -/
def pfree (s : State) (pool off : Nat) : State :=
  { s with trace := s.trace ++ [Event.pfree pool off] }

/-- A call of a function of `pthread.h` on the object `p`: traced, and answered by
the environment. -/
def pthread_call (E : Env) (s : State) (fn : PthreadFn) (p : Nat) : State × Int :=
  ({ s with trace := s.trace ++ [Event.pthread fn p] }, E.pthread_ret s.trace.length)

/-! ## Locks kept in persistent memory -/

/-- The function `tx_error`: set `errno`, return -1. -/
def tx_error (s : State) (errnum : Int) : State × Int :=
  ({ s with errno := errnum }, -1)

/-- The function `mutexof`: find or allocate the `pthread_mutex_t` of a `PMEMmutex`. -/
def mutexof (E : Env) (s : State) (mutexp : Nat) : State × Option Nat :=
  if (s.mutexes mutexp).runid = E.Runid then
    (s, (s.mutexes mutexp).pthreadp)
  else
    let r := Malloc E s
    if r.2 then
      let p := r.1.npthread
      let c1 : SyncCell := { r.1.mutexes mutexp with pthreadp := some p }
      let s1 : State := { r.1 with
        npthread := p + 1, mutexes := Function.update r.1.mutexes mutexp c1 }
      let c := pthread_call E s1 PthreadFn.mutex_init p
      let s2 : State := { c.1 with errno := c.2 }
      if c.2 ≠ 0 then (s2, none)
      else
        let c2 : SyncCell := { s2.mutexes mutexp with runid := E.Runid }
        ({ s2 with mutexes := Function.update s2.mutexes mutexp c2 }, c2.pthreadp)
    else
      let c1 : SyncCell := { r.1.mutexes mutexp with pthreadp := none }
      ({ r.1 with mutexes := Function.update r.1.mutexes mutexp c1 }, none)

/-- The function `rwlockof`: find or allocate the `pthread_rwlock_t` of a `PMEMrwlock`. -/
def rwlockof (E : Env) (s : State) (rwlockp : Nat) : State × Option Nat :=
  if (s.rwlocks rwlockp).runid = E.Runid then
    (s, (s.rwlocks rwlockp).pthreadp)
  else
    let r := Malloc E s
    if r.2 then
      let p := r.1.npthread
      let c1 : SyncCell := { r.1.rwlocks rwlockp with pthreadp := some p }
      let s1 : State := { r.1 with
        npthread := p + 1, rwlocks := Function.update r.1.rwlocks rwlockp c1 }
      let c := pthread_call E s1 PthreadFn.rwlock_init p
      let s2 : State := { c.1 with errno := c.2 }
      if c.2 ≠ 0 then (s2, none)
      else
        let c2 : SyncCell := { s2.rwlocks rwlockp with runid := E.Runid }
        ({ s2 with rwlocks := Function.update s2.rwlocks rwlockp c2 }, c2.pthreadp)
    else
      let c1 : SyncCell := { r.1.rwlocks rwlockp with pthreadp := none }
      ({ r.1 with rwlocks := Function.update r.1.rwlocks rwlockp c1 }, none)

/-- The function `pmemobj_mutex_lock`. -/
def pmemobj_mutex_lock (E : Env) (s : State) (mutexp : Nat) : State × Int :=
  let r := mutexof E s mutexp
  match r.2 with
  | none => tx_error r.1 ENOMEM
  | some p => pthread_call E r.1 PthreadFn.mutex_lock p

/-- The function `pmemobj_mutex_unlock`. -/
def pmemobj_mutex_unlock (E : Env) (s : State) (mutexp : Nat) : State × Int :=
  let r := mutexof E s mutexp
  match r.2 with
  | none => tx_error r.1 ENOMEM
  | some p => pthread_call E r.1 PthreadFn.mutex_unlock p

/-- The function `pmemobj_rwlock_wrlock`. -/
def pmemobj_rwlock_wrlock (E : Env) (s : State) (rwlockp : Nat) : State × Int :=
  let r := rwlockof E s rwlockp
  match r.2 with
  | none => tx_error r.1 ENOMEM
  | some p => pthread_call E r.1 PthreadFn.rwlock_wrlock p

/-- The function `pmemobj_rwlock_unlock`. -/
def pmemobj_rwlock_unlock (E : Env) (s : State) (rwlockp : Nat) : State × Int :=
  let r := rwlockof E s rwlockp
  match r.2 with
  | none => tx_error r.1 ENOMEM
  | some p => pthread_call E r.1 PthreadFn.rwlock_unlock p

/-! ## The transaction engine -/

/-- The function `pmemobj_tx_begin`; `env` is `NULL` or the contents of the
caller's `jmp_buf`. The result is the state and the new tid. -/
def pmemobj_tx_begin (E : Env) (s : State) (pop : Nat) (env : Option Nat) :
    Except Fault (State × Nat) := do
  let z := zalloc_tx E s
  let txp ← nonnull z.2
  let t ← tx_get z.1 txp
  let s1 := tx_put z.1 txp { t with pool := pop }
  let s2 ← (match env with
    | some e => do
      let t1 ← tx_get s1 txp
      pure (tx_put s1 txp { t1 with valid_env := 1, env := e })
    | none => pure s1)
  match s2.Curthread_txinfop with
  | none =>
    let m := Malloc E s2
    if m.2 then do
      let s3 : State := { m.1 with Curthread_txinfop := some txp }
      let t2 ← tx_get s3 txp
      pure (tx_put s3 txp { t2 with next := none }, txp)
    else throw Fault.null_deref
  | some cur => do
    let t2 ← tx_get s2 txp
    let s3 := tx_put s2 txp { t2 with next := some cur }
    pure ({ s3 with Curthread_txinfop := some txp }, txp)

/-- The function `pmemobj_tx_begin_lock`. -/
def pmemobj_tx_begin_lock (E : Env) (s : State) (pop : Nat) (env : Option Nat)
    (mutexp : Nat) : Except Fault (State × Nat) := do
  let b ← pmemobj_tx_begin E s pop env
  let l := pmemobj_mutex_lock E b.1 mutexp
  let t ← tx_get l.1 b.2
  pure (tx_put l.1 b.2 { t with mutexp := some mutexp }, b.2)

/-- The function `pmemobj_tx_begin_wrlock`. -/
def pmemobj_tx_begin_wrlock (E : Env) (s : State) (pop : Nat) (env : Option Nat)
    (rwlockp : Nat) : Except Fault (State × Nat) := do
  let b ← pmemobj_tx_begin E s pop env
  let l := pmemobj_rwlock_wrlock E b.1 rwlockp
  let t ← tx_get l.1 b.2
  pure (tx_put l.1 b.2 { t with rwlockp := some rwlockp }, b.2)

/-- The type `pmemobj_txop_onaction_t`: state, `struct tx *txp`, `union txop_args`. -/
abbrev Action := State → Nat → txop_args → Except Fault State

/-- The function `pmemobj_txop_oncommit_alloc`. -/
def pmemobj_txop_oncommit_alloc : Action :=
  fun s _ _ => pure s

/-- The function `pmemobj_txop_oncommit_free`. -/
def pmemobj_txop_oncommit_free : Action :=
  fun s txp args => do
    let t ← tx_get s txp
    pure (pfree s t.pool args.addr)

/-- The function `pmemobj_txop_oncommit_set`. -/
def pmemobj_txop_oncommit_set : Action :=
  fun s txp args => do
    let t ← tx_get s txp
    pure (pfree s t.pool args.data)

/-- The table `oncommit_funcs`, indexed by `op_t`. -/
def oncommit_funcs : op_t → Action
  | op_t.TXOP_ALLOC => pmemobj_txop_oncommit_alloc
  | op_t.TXOP_FREE => pmemobj_txop_oncommit_free
  | op_t.TXOP_SET => pmemobj_txop_oncommit_set

/-- The function `pmemobj_txop_onabort_alloc`. -/
def pmemobj_txop_onabort_alloc : Action :=
  fun s txp args => do
    let t ← tx_get s txp
    pure (pfree s t.pool args.addr)

/-- The function `pmemobj_txop_onabort_free`. -/
def pmemobj_txop_onabort_free : Action :=
  fun s _ _ => pure s

/-- The function `pmemobj_txop_onabort_set`. -/
def pmemobj_txop_onabort_set : Action :=
  fun s txp args => do
    let t ← tx_get s txp
    let P ← pool_get s t.pool
    let base := P.addr
    pure { s with mem := memcpy s.mem args.addr ((base + args.data) % U64) args.len }

/-- The table `onabort_funcs`, indexed by `op_t`. -/
def onabort_funcs : op_t → Action
  | op_t.TXOP_ALLOC => pmemobj_txop_onabort_alloc
  | op_t.TXOP_FREE => pmemobj_txop_onabort_free
  | op_t.TXOP_SET => pmemobj_txop_onabort_set

/-- The loop `for (op = tx->tail; op != NULL; op = op->prev) actions[op->op](tx, op->args)`
of `pmemobj_tx_action_tid`, started at `op`. The first argument bounds the
number of iterations: the loop is run with the number of `struct txop` cells
ever allocated, which a chain of `prev` pointers through distinct cells cannot
exceed, so running out of it means the chain is cyclic and the C loop does not
end. -/
def txop_loop (actions : op_t → Action) (txp : Nat) :
    Nat → Option Nat → State → Except Fault State
  | _, none, s => pure s
  | 0, some _, _ => throw Fault.diverge
  | fuel + 1, some op, s => do
    let c ← txop_get s op
    let s1 ← actions c.op s txp c.args
    let c1 ← txop_get s1 op
    txop_loop actions txp fuel c1.prev s1

/-- The function `pmemobj_tx_action_tid`. -/
def pmemobj_tx_action_tid (s : State) (tid : Nat) (actions : op_t → Action) :
    Except Fault (State × Int) := do
  let t ← tx_get s tid
  match t.next with
  | none =>
    let s1 ← txop_loop actions tid s.txops.length t.tail s
    let s2 : State := { s1 with txs := s1.txs.set tid none }
    pure ({ s2 with Curthread_txinfop := none }, 0)
  | some nx =>
    let p ← tx_get s nx
    let h ← nonnull t.head
    let hc ← txop_get s h
    let s1 := txop_put s h { hc with prev := p.tail }
    let pt ← nonnull p.tail
    let ptc ← txop_get s1 pt
    let s2 := txop_put s1 pt { ptc with next := t.head }
    let s3 := tx_put s2 nx { p with tail := t.tail }
    match s3.Curthread_txinfop with
    | none => throw Fault.null_deref
    | some _ =>
      pure ({ s3 with Curthread_txinfop := some nx, txs := s3.txs.set tid none }, 0)

/-- The function `pmemobj_unlock_locks_tid`. -/
def pmemobj_unlock_locks_tid (E : Env) (s : State) (tid : Nat) : Except Fault State := do
  let t ← tx_get s tid
  let s1 ← (match t.mutexp with
    | some m => do
      let u := pmemobj_mutex_unlock E s m
      let t1 ← tx_get u.1 tid
      pure (tx_put u.1 tid { t1 with mutexp := none })
    | none => pure s)
  let t2 ← tx_get s1 tid
  match t2.rwlockp with
  | some r => do
    let u := pmemobj_rwlock_unlock E s1 r
    let t3 ← tx_get u.1 tid
    pure (tx_put u.1 tid { t3 with rwlockp := none })
  | none => pure s1

/-- The function `pmemobj_tx_commit_tid`. -/
def pmemobj_tx_commit_tid (E : Env) (s : State) (tid : Nat) : Except Fault (State × Int) := do
  let s1 ← pmemobj_unlock_locks_tid E s tid
  pmemobj_tx_action_tid s1 tid oncommit_funcs

/-- The function `pmemobj_tx_commit`. -/
def pmemobj_tx_commit (E : Env) (s : State) : Except Fault (State × Int) := do
  let txp ← nonnull s.Curthread_txinfop
  pmemobj_tx_commit_tid E s txp

/-- The function `pmemobj_tx_abort_tid`. -/
def pmemobj_tx_abort_tid (E : Env) (s : State) (tid : Nat) (_errnum : Int) :
    Except Fault (State × Int) := do
  let s1 ← pmemobj_unlock_locks_tid E s tid
  pmemobj_tx_action_tid s1 tid onabort_funcs

/-- The loop `while (Curthread_txinfop != NULL) status = pmemobj_tx_abort_tid(...)` of
`pmemobj_tx_abort`. Every iteration that returns has freed the frame it was
given, so the loop is run with one more iteration than there are frame cells. -/
def tx_abort_loop (E : Env) (errnum : Int) : Nat → State → Int → Except Fault (State × Int)
  | 0, s, status =>
    match s.Curthread_txinfop with
    | none => pure (s, status)
    | some _ => throw Fault.diverge
  | fuel + 1, s, status =>
    match s.Curthread_txinfop with
    | none => pure (s, status)
    | some txp => do
      let r ← pmemobj_tx_abort_tid E s txp errnum
      tx_abort_loop E errnum fuel r.1 r.2

/-- The function `pmemobj_tx_abort`. -/
def pmemobj_tx_abort (E : Env) (s : State) (errnum : Int) : Except Fault (State × Int) :=
  tx_abort_loop E errnum (s.txs.length + 1) s (-1)

/-! ## The operation log and the mutators -/

/-- The function `pmemobj_log_prepare_alloc`; the result is the new entry, whose
field `args.alloc.addr` is what `*addrpp` is set to point at. -/
def pmemobj_log_prepare_alloc (E : Env) (s : State) : Except Fault (State × Nat) := do
  let z := zalloc_txop E s
  let txop ← nonnull z.2
  let c ← txop_get z.1 txop
  pure (txop_put z.1 txop { c with op := op_t.TXOP_ALLOC, args := { c.args with addr := 0 } },
    txop)

/-- The function `pmemobj_log_prepare_free`. -/
def pmemobj_log_prepare_free (E : Env) (s : State) (addr : Nat) : Except Fault (State × Nat) := do
  let z := zalloc_txop E s
  let txop ← nonnull z.2
  let c ← txop_get z.1 txop
  pure (txop_put z.1 txop { c with op := op_t.TXOP_FREE, args := { c.args with addr := addr } },
    txop)

/-- The function `pmemobj_log_prepare_set`. -/
def pmemobj_log_prepare_set (E : Env) (s : State) (addr data len : Nat) :
    Except Fault (State × Nat) := do
  let z := zalloc_txop E s
  let txop ← nonnull z.2
  let c ← txop_get z.1 txop
  pure (txop_put z.1 txop
    { c with op := op_t.TXOP_SET, args := { addr := addr, data := data, len := len } }, txop)

/-- The function `pmemobj_log_add`. -/
def pmemobj_log_add (s : State) (tid : Nat) (txop : Nat) : Except Fault State := do
  let t ← tx_get s tid
  let s1 ← (match t.head with
    | none => pure (tx_put s tid { t with head := some txop })
    | some _ => do
      let tl ← nonnull t.tail
      let tc ← txop_get s tl
      let s0 := txop_put s tl { tc with next := some txop }
      let c ← txop_get s0 txop
      pure (txop_put s0 txop { c with prev := t.tail }))
  let t1 ← tx_get s1 tid
  pure (tx_put s1 tid { t1 with tail := some txop })

/-- The function `pmemobj_log_add_alloc`; the result is `*addrpp`, given as the
entry whose `args.alloc.addr` it points at. -/
def pmemobj_log_add_alloc (E : Env) (s : State) (tid : Nat) : Except Fault (State × Nat) := do
  let r ← pmemobj_log_prepare_alloc E s
  let s1 ← pmemobj_log_add r.1 tid r.2
  pure (s1, r.2)

/-- The function `pmemobj_log_add_free`. -/
def pmemobj_log_add_free (E : Env) (s : State) (tid : Nat) (addr : Nat) : Except Fault State := do
  let r ← pmemobj_log_prepare_free E s addr
  pmemobj_log_add r.1 tid r.2

/-- The function `pmemobj_log_add_set`. -/
def pmemobj_log_add_set (E : Env) (s : State) (tid : Nat) (addr data len : Nat) :
    Except Fault State := do
  let r ← pmemobj_log_prepare_set E s addr data len
  pmemobj_log_add r.1 tid r.2

/-- The statement `pmalloc(&(tx->pool->allocator), ptrp, size)` where `ptrp` points at
the field `args.alloc.addr` of the entry `ptrp`. -/
def pmalloc_into (E : Env) (s : State) (pool ptrp size : Nat) : Except Fault State := do
  let m := pmalloc E s pool size
  let c ← txop_get m.1 ptrp
  pure (txop_put m.1 ptrp { c with args := { c.args with addr := m.2 } })

/-- The function `pmemobj_alloc_tid`. -/
def pmemobj_alloc_tid (E : Env) (s : State) (tid : Nat) (size : Nat) :
    Except Fault (State × PMEMoid) := do
  let t ← tx_get s tid
  let P ← pool_get s t.pool
  let a ← pmemobj_log_add_alloc E s tid
  let s1 ← pmalloc_into E a.1 t.pool a.2 size
  let c ← txop_get s1 a.2
  pure (s1, { pool := P.addr, off := c.args.addr })

/-- The function `pmemobj_zalloc_tid`. -/
def pmemobj_zalloc_tid (E : Env) (s : State) (tid : Nat) (size : Nat) :
    Except Fault (State × PMEMoid) := do
  let t ← tx_get s tid
  let P ← pool_get s t.pool
  let a ← pmemobj_log_add_alloc E s tid
  let s1 ← pmalloc_into E a.1 t.pool a.2 size
  let c ← txop_get s1 a.2
  let n : PMEMoid := { pool := P.addr, off := c.args.addr }
  pure ({ s1 with mem := memset s1.mem ((n.pool + n.off) % U64) 0 size }, n)

/-- The function `pmemobj_strdup_tid`; `str` is the characters of the C string
`s` before its terminating zero byte. -/
def pmemobj_strdup_tid (E : Env) (s : State) (tid : Nat) (str : List Nat) :
    Except Fault (State × PMEMoid) := do
  let t ← tx_get s tid
  let size := str.length + 1
  let P ← pool_get s t.pool
  let a ← pmemobj_log_add_alloc E s tid
  let s1 ← pmalloc_into E a.1 t.pool a.2 size
  let c ← txop_get s1 a.2
  let n : PMEMoid := { pool := P.addr, off := c.args.addr }
  pure ({ s1 with mem := store_bytes s1.mem ((n.pool + n.off) % U64) (str ++ [0]) }, n)

/-- The function `pmemobj_free_tid`. -/
def pmemobj_free_tid (E : Env) (s : State) (tid : Nat) (oid : PMEMoid) :
    Except Fault (State × Int) := do
  let s1 ← pmemobj_log_add_free E s tid oid.off
  pure (s1, 0)

/-- The function `pmemobj_direct`. -/
def pmemobj_direct (oid : PMEMoid) : Nat :=
  (oid.pool + oid.off) % U64

/-- The function `pmemobj_memcpy_tid`. -/
def pmemobj_memcpy_tid (E : Env) (s : State) (tid : Nat) (dstp srcp size : Nat) :
    Except Fault (State × Int) := do
  let a ← pmemobj_log_add_alloc E s tid
  let t ← tx_get a.1 tid
  let s1 ← pmalloc_into E a.1 t.pool a.2 size
  let t1 ← tx_get s1 tid
  let P ← pool_get s1 t1.pool
  let base := P.addr
  let old ← txop_get s1 a.2
  let s2 : State := { s1 with mem := memcpy s1.mem ((base + old.args.addr) % U64) dstp size }
  let s3 ← pmemobj_log_add_set E s2 tid dstp old.args.addr size
  pure ({ s3 with mem := memcpy s3.mem dstp srcp size }, 0)

/-- The function `pmemobj_memcpy`. -/
def pmemobj_memcpy (E : Env) (s : State) (dstp srcp size : Nat) : Except Fault (State × Int) := do
  let txp ← nonnull s.Curthread_txinfop
  pmemobj_memcpy_tid E s txp dstp srcp size

/-! ## Sequences of mutator calls -/

/-- One call of a mutator on a tid. -/
inductive TxCall where
  | alloc (size : Nat)
  | zalloc (size : Nat)
  | strdup (str : List Nat)
  | free (oid : PMEMoid)
  | memcpy (dstp srcp size : Nat)
  deriving DecidableEq, Repr

/-- Run one mutator call on `tid`, dropping the value it returns. -/
def run_call (E : Env) (tid : Nat) (s : State) : TxCall → Except Fault State
  | TxCall.alloc size => do
    let r ← pmemobj_alloc_tid E s tid size
    pure r.1
  | TxCall.zalloc size => do
    let r ← pmemobj_zalloc_tid E s tid size
    pure r.1
  | TxCall.strdup str => do
    let r ← pmemobj_strdup_tid E s tid str
    pure r.1
  | TxCall.free oid => do
    let r ← pmemobj_free_tid E s tid oid
    pure r.1
  | TxCall.memcpy dstp srcp size => do
    let r ← pmemobj_memcpy_tid E s tid dstp srcp size
    pure r.1

/-- Run the calls of a list on `tid`, one after the other. -/
def run_calls (E : Env) (tid : Nat) : List TxCall → State → Except Fault State
  | [], s => pure s
  | c :: cs, s => do
    let s1 ← run_call E tid s c
    run_calls E tid cs s1

/-! ## Vocabulary of the statements -/

/-- What an entry action is handed: the `op` and the `args` of a `struct txop`. -/
structure LogEntry where
  op : op_t
  args : txop_args
  deriving DecidableEq, Repr

/-- `PrevPath h p l`: following `prev` from the pointer `p` through the cells `h`
visits exactly the cells listed in `l`, which hold the entries listed with
them, and then reaches `NULL`. -/
def PrevPath (h : List txop) : Option Nat → List (Nat × LogEntry) → Prop
  | p, [] => p = none
  | p, x :: rest =>
    p = some x.1 ∧ ∃ c, h[x.1]? = some c ∧ c.op = x.2.op ∧ c.args = x.2.args ∧
      PrevPath h c.prev rest

/-- `LogOf s tid t l`: `tid` points to the live frame `t`, whose log read from
`tail` backwards is `l` (cell pointers with their entries, the newest first),
and whose `head` is the oldest cell of `l`. -/
def LogOf (s : State) (tid : Nat) (t : tx) (l : List (Nat × LogEntry)) : Prop :=
  s.txs[tid]? = some (some t) ∧ PrevPath s.txops t.tail l ∧
    t.head = l.getLast?.map Prod.fst ∧ (l.map Prod.fst).Nodup

/-- Every cell of `h` is a cell of `h1` with the same `op`, `args` and `prev`. -/
def CellsKept (h h1 : List txop) : Prop :=
  ∀ (q : Nat) (c : txop), h[q]? = some c → ∃ c1 : txop, h1[q]? = some c1 ∧ c1.op = c.op ∧ c1.args = c.args ∧
    c1.prev = c.prev

/-- The number of `pmalloc` calls a mutator call makes. -/
def TxCall.npm : TxCall → Nat
  | TxCall.free _ => 0
  | _ => 1

/-- The entries a mutator call logs, oldest first, when `k` calls of `pmalloc`
have been made before it. -/
def call_entries (E : Env) (k : Nat) : TxCall → List LogEntry
  | TxCall.alloc _ => [⟨op_t.TXOP_ALLOC, { addr := E.pmalloc_off k }⟩]
  | TxCall.zalloc _ => [⟨op_t.TXOP_ALLOC, { addr := E.pmalloc_off k }⟩]
  | TxCall.strdup _ => [⟨op_t.TXOP_ALLOC, { addr := E.pmalloc_off k }⟩]
  | TxCall.free oid => [⟨op_t.TXOP_FREE, { addr := oid.off }⟩]
  | TxCall.memcpy dstp _ size =>
    [⟨op_t.TXOP_ALLOC, { addr := E.pmalloc_off k }⟩,
     ⟨op_t.TXOP_SET, { addr := dstp, data := E.pmalloc_off k, len := size }⟩]

/-- The bytes after a mutator call on a pool mapped at `base`. -/
def call_mem (E : Env) (base k : Nat) (m : Nat → Nat) : TxCall → Nat → Nat
  | TxCall.alloc _ => m
  | TxCall.zalloc size => memset m ((base + E.pmalloc_off k) % U64) 0 size
  | TxCall.strdup str => store_bytes m ((base + E.pmalloc_off k) % U64) (str ++ [0])
  | TxCall.free _ => m
  | TxCall.memcpy dstp srcp size =>
    memcpy (memcpy m ((base + E.pmalloc_off k) % U64) dstp size) dstp srcp size

/-- The allocator calls a mutator call makes on the pool `pool`. -/
def call_events (E : Env) (pool k : Nat) : TxCall → List Event
  | TxCall.alloc size => [Event.pmalloc pool size (E.pmalloc_off k)]
  | TxCall.zalloc size => [Event.pmalloc pool size (E.pmalloc_off k)]
  | TxCall.strdup str => [Event.pmalloc pool (str.length + 1) (E.pmalloc_off k)]
  | TxCall.free _ => []
  | TxCall.memcpy _ _ size => [Event.pmalloc pool size (E.pmalloc_off k)]

/-- The number of `pmalloc` calls of a sequence of mutator calls. -/
def calls_npm : List TxCall → Nat
  | [] => 0
  | c :: cs => c.npm + calls_npm cs

/-- The entries a sequence of mutator calls logs, oldest first. -/
def calls_entries (E : Env) (k : Nat) : List TxCall → List LogEntry
  | [] => []
  | c :: cs => call_entries E k c ++ calls_entries E (k + c.npm) cs

/-- The bytes after a sequence of mutator calls. -/
def calls_mem (E : Env) (base k : Nat) (m : Nat → Nat) : List TxCall → Nat → Nat
  | [] => m
  | c :: cs => calls_mem E base (k + c.npm) (call_mem E base k m c) cs

/-- The allocator calls of a sequence of mutator calls. -/
def calls_events (E : Env) (pool k : Nat) : List TxCall → List Event
  | [] => []
  | c :: cs => call_events E pool k c ++ calls_events E pool (k + c.npm) cs

/-- What `onabort_funcs` does to the bytes for one entry. -/
def abort_mem (base : Nat) (m : Nat → Nat) (e : LogEntry) : Nat → Nat :=
  match e.op with
  | op_t.TXOP_SET => memcpy m e.args.addr ((base + e.args.data) % U64) e.args.len
  | _ => m

/-- The allocator calls of `onabort_funcs` for one entry. -/
def abort_events (pool : Nat) (e : LogEntry) : List Event :=
  match e.op with
  | op_t.TXOP_ALLOC => [Event.pfree pool e.args.addr]
  | _ => []

/-- The allocator calls of `oncommit_funcs` for one entry. -/
def commit_events (pool : Nat) (e : LogEntry) : List Event :=
  match e.op with
  | op_t.TXOP_ALLOC => []
  | op_t.TXOP_FREE => [Event.pfree pool e.args.addr]
  | op_t.TXOP_SET => [Event.pfree pool e.args.data]

/-- The state after the abort actions of one entry. -/
def abort_step (base pool : Nat) (s : State) (e : LogEntry) : State :=
  { s with mem := abort_mem base s.mem e, trace := s.trace ++ abort_events pool e }

/-- The state after the commit actions of one entry. -/
def commit_step (pool : Nat) (s : State) (e : LogEntry) : State :=
  { s with trace := s.trace ++ commit_events pool e }

/-- A region of memory: its first address and its length. -/
abbrev Region := Nat × Nat

/-- The address `a` lies in the region `r`. -/
def InRegion (a : Nat) (r : Region) : Prop :=
  r.1 ≤ a ∧ a < r.1 + r.2

instance (a : Nat) (r : Region) : Decidable (InRegion a r) :=
  inferInstanceAs (Decidable (_ ∧ _))

/-- Two regions share no address. -/
def Disj (r1 r2 : Region) : Prop :=
  r1.2 = 0 ∨ r2.2 = 0 ∨ r1.1 + r1.2 ≤ r2.1 ∨ r2.1 + r2.2 ≤ r1.1

instance (r1 r2 : Region) : Decidable (Disj r1 r2) :=
  inferInstanceAs (Decidable (_ ∨ _))

/-- The region a mutator call writes in the memory it has just allocated: the
undo backup of `memcpy`, the object of `zalloc` and of `strdup`. -/
def call_fresh (E : Env) (base k : Nat) : TxCall → List Region
  | TxCall.alloc _ => []
  | TxCall.zalloc size => [((base + E.pmalloc_off k) % U64, size)]
  | TxCall.strdup str => [((base + E.pmalloc_off k) % U64, str.length + 1)]
  | TxCall.free _ => []
  | TxCall.memcpy _ _ size => [((base + E.pmalloc_off k) % U64, size)]

/-- The regions a sequence of mutator calls writes in freshly allocated memory. -/
def calls_fresh (E : Env) (base k : Nat) : List TxCall → List Region
  | [] => []
  | c :: cs => call_fresh E base k c ++ calls_fresh E base (k + c.npm) cs

/-- The destination of a `memcpy` call. -/
def call_dsts : TxCall → List Region
  | TxCall.memcpy dstp _ size => [(dstp, size)]
  | _ => []

/-- The destinations of the `memcpy` calls of a sequence. -/
def calls_dsts : List TxCall → List Region
  | [] => []
  | c :: cs => call_dsts c ++ calls_dsts cs

/-- The allocator's contract as the transaction engine relies on it: the
regions written in freshly allocated memory share no address with each other
nor with any `memcpy` destination. -/
def FreshRegions (E : Env) (base k : Nat) (cs : List TxCall) : Prop :=
  (calls_fresh E base k cs).Pairwise Disj ∧
    ∀ w ∈ calls_fresh E base k cs, ∀ d ∈ calls_dsts cs, Disj w d

instance (E : Env) (base k : Nat) (cs : List TxCall) : Decidable (FreshRegions E base k cs) :=
  inferInstanceAs (Decidable (_ ∧ _))

/-- The calls of `pfree` in a trace, in call order: pool and offset. -/
def pfrees : List Event → List (Nat × Nat)
  | [] => []
  | Event.pfree pool off :: evs => (pool, off) :: pfrees evs
  | _ :: evs => pfrees evs

/-- The calls of `pmalloc` in a trace, in call order: pool and the offset produced. -/
def pmallocs : List Event → List (Nat × Nat)
  | [] => []
  | Event.pmalloc pool _ off :: evs => (pool, off) :: pmallocs evs
  | _ :: evs => pmallocs evs

/-- The ranges handed to `libpmem_persist`, in call order. -/
def persists : List Event → List Region
  | [] => []
  | Event.persist addr len :: evs => (addr, len) :: persists evs
  | _ :: evs => persists evs

/-- `SameFrame t t1`: the frames agree on every field but `head` and `tail`. -/
structure SameFrame (t t1 : tx) : Prop where
  valid_env : t1.valid_env = t.valid_env
  env : t1.env = t.env
  mutexp : t1.mutexp = t.mutexp
  rwlockp : t1.rwlockp = t.rwlockp
  pool : t1.pool = t.pool
  next : t1.next = t.next

/-- `Same s s1 tid`: the states agree on everything that logging on the frame
`tid` leaves alone: pools, current transaction, locks, `errno`, the other
frames, and the `op`, `args` and `prev` of the entries that exist in `s`. -/
structure Same (s s1 : State) (tid : Nat) : Prop where
  pools : s1.pools = s.pools
  cur : s1.Curthread_txinfop = s.Curthread_txinfop
  mutexes : s1.mutexes = s.mutexes
  rwlocks : s1.rwlocks = s.rwlocks
  npthread : s1.npthread = s.npthread
  errno : s1.errno = s.errno
  txs_len : s1.txs.length = s.txs.length
  others : ∀ j : Nat, j ≠ tid → s1.txs[j]? = s.txs[j]?
  kept : CellsKept s.txops s1.txops
  txops_len : s.txops.length ≤ s1.txops.length

/-- The allocator calls of `onabort_funcs` over a list of entries, in order. -/
def abort_trace (pool : Nat) : List LogEntry → List Event
  | [] => []
  | e :: es => abort_events pool e ++ abort_trace pool es

/-- The allocator calls of `oncommit_funcs` over a list of entries, in order. -/
def commit_trace (pool : Nat) : List LogEntry → List Event
  | [] => []
  | e :: es => commit_events pool e ++ commit_trace pool es

/-- The offsets a mutator call leaves for `pfree` at commit: the object of
`pmemobj_free_tid` and the undo backup of `pmemobj_memcpy_tid`. -/
def call_commit_frees (E : Env) (pool k : Nat) : TxCall → List (Nat × Nat)
  | TxCall.free oid => [(pool, oid.off)]
  | TxCall.memcpy _ _ _ => [(pool, E.pmalloc_off k)]
  | _ => []

/-- The offsets a sequence of mutator calls leaves for `pfree` at commit, in call order. -/
def calls_commit_frees (E : Env) (pool k : Nat) : List TxCall → List (Nat × Nat)
  | [] => []
  | c :: cs => call_commit_frees E pool k c ++ calls_commit_frees E pool (k + c.npm) cs

/-- The three ways in which `obj.c` begins a transaction. -/
inductive BeginCall where
  | plain
  | lock (mutexp : Nat)
  | wrlock (rwlockp : Nat)
  deriving DecidableEq, Repr

/-- Begin a transaction with `pmemobj_tx_begin`, `pmemobj_tx_begin_lock` or
`pmemobj_tx_begin_wrlock`. -/
def run_begin (E : Env) (s : State) (pop : Nat) (env : Option Nat) :
    BeginCall → Except Fault (State × Nat)
  | BeginCall.plain => pmemobj_tx_begin E s pop env
  | BeginCall.lock mutexp => pmemobj_tx_begin_lock E s pop env mutexp
  | BeginCall.wrlock rwlockp => pmemobj_tx_begin_wrlock E s pop env rwlockp

/-- Every event of the list is a pthread call. -/
def IsSync (evs : List Event) : Prop :=
  ∀ e ∈ evs, ∃ fn p, e = Event.pthread fn p

/-- `SyncStep s s1`: the states differ at most in what a call on a persistent
lock changes: the lock cells, the pthread objects, `errno`, the count of
`Malloc` calls, and the trace, which has grown by pthread calls only. -/
structure SyncStep (s s1 : State) : Prop where
  mem : s1.mem = s.mem
  pools : s1.pools = s.pools
  txs : s1.txs = s.txs
  txops : s1.txops = s.txops
  cur : s1.Curthread_txinfop = s.Curthread_txinfop
  npmalloc : s1.npmalloc = s.npmalloc
  trace : ∃ evs, s1.trace = s.trace ++ evs ∧ IsSync evs

/-- `LockStep s s1 tid`: the states differ at most in what locking or unlocking
for the frame `tid` changes: what `SyncStep` allows, and the frame `tid` itself. -/
structure LockStep (s s1 : State) (tid : Nat) : Prop where
  mem : s1.mem = s.mem
  pools : s1.pools = s.pools
  txops : s1.txops = s.txops
  cur : s1.Curthread_txinfop = s.Curthread_txinfop
  npmalloc : s1.npmalloc = s.npmalloc
  trace : ∃ evs, s1.trace = s.trace ++ evs ∧ IsSync evs
  txs_len : s1.txs.length = s.txs.length
  others : ∀ j : Nat, j ≠ tid → s1.txs[j]? = s.txs[j]?

/-- The function `pmemobj_direct_ntx`. -/
def pmemobj_direct_ntx (oid : PMEMoid) : Nat :=
  (oid.pool + oid.off) % U64

/-- The function `pmemobj_nulloid`. -/
def pmemobj_nulloid (oid : PMEMoid) : Int :=
  if oid.off = 0 then 1 else 0

/-! ## Object ids in memory -/

/-- The unsigned integer that the `n` bytes at `a` hold, least significant byte
first. -/
def load_le (m : Nat → Nat) : Nat → Nat → Nat
  | _, 0 => 0
  | a, n + 1 => m a % 256 + 256 * load_le m (a + 1) n

/-- The `n` bytes of the unsigned integer `v`, least significant byte first. -/
def le_bytes : Nat → Nat → List Nat
  | _, 0 => []
  | v, n + 1 => v % 256 :: le_bytes (v / 256) n

/-- Modelled from the spec: the layout of `PMEMoid` is declared in `obj.h`, which
is not among the sources. An object id in memory is two 64-bit words, `pool`
then `off`, 16 bytes in all. This reads the object id stored at `a`. -/
def load_oid (m : Nat → Nat) (a : Nat) : PMEMoid :=
  { pool := load_le m a 8, off := load_le m (a + 8) 8 }

/-- The 16 bytes of an object id in memory. -/
def oid_bytes (o : PMEMoid) : List Nat :=
  le_bytes o.pool 8 ++ le_bytes o.off 8

/-- The bytes after the object id `v` is stored at `a`. -/
def store_oid (m : Nat → Nat) (a : Nat) (v : PMEMoid) : Nat → Nat :=
  store_bytes m a (oid_bytes v)

/-- The object id is a value of the C type: both fields are 64-bit words. -/
def Rep (o : PMEMoid) : Prop :=
  o.pool < U64 ∧ o.off < U64

instance (o : PMEMoid) : Decidable (Rep o) :=
  inferInstanceAs (Decidable (_ ∧ _))

/-! ## The list primitive of `obj_list.c` -/

/-- Modelled from the spec: `sizeof (PMEMLIST)`; `PMEMLIST` is declared in
`obj_list.h`, which is not among the sources, and is a `PMEMoid`. -/
def PMEMLIST_SIZE : Nat := 16

/-- Modelled from the spec: `PMEMlist` is declared in `obj_list.h`, which is not
among the sources; the linkage of a list node is `{ next, prev }`, two object
ids. This is the offset of the field `next`. -/
def PMEMlist_next : Nat := 0

/-- Modelled from the spec: the offset of the field `prev` of `PMEMlist`. -/
def PMEMlist_prev : Nat := 16

/-- Modelled from the spec: the macro `PMEMOBJ_SET(lhs, rhs)` is defined in
`libpmemobj.h`, which is not among the sources; the field-set is
`pmemobj_memcpy(&lhs, &rhs, sizeof (lhs))`. `lhs` and `rhs` are the two
addresses. -/
def PMEMOBJ_SET (E : Env) (s : State) (lhs rhs size : Nat) : Except Fault (State × Int) :=
  pmemobj_memcpy E s lhs rhs size

/-- Where the automatic variables of one call of a list function are: `env` is
what its `jmp_buf` holds after `setjmp`, the other fields are the addresses of
the `PMEMLIST` parameters of that name, whose address `PMEMOBJ_SET` takes. -/
structure Auto where
  env : Nat := 0
  head : Nat := 0
  new : Nat := 0
  prev : Nat := 0
  next : Nat := 0
  deriving DecidableEq, Repr

/-- The function `pmemobj_list_init_head`. The call `setjmp(env)` returns 0; it
returns a second time only from a `longjmp`, which `obj.c` never calls. The
parameter `head` is passed by value and `PMEMOBJ_SET` takes its address, so it
is stored in its automatic variable first. -/
def pmemobj_list_init_head (E : Env) (s : State) (pool : Nat) (head : PMEMoid) (au : Auto) :
    Except Fault (State × Int) := do
  let s0 : State := { s with mem := store_oid s.mem au.head head }
  let b ← pmemobj_tx_begin E s0 pool (some au.env)
  let dhead := pmemobj_direct head
  let r1 ← PMEMOBJ_SET E b.1 (dhead + PMEMlist_next) au.head PMEMLIST_SIZE
  let r2 ← PMEMOBJ_SET E r1.1 (dhead + PMEMlist_prev) au.head PMEMLIST_SIZE
  let c ← pmemobj_tx_commit E r2.1
  pure (c.1, 0)

/-- The function `__pmemobj_list_add`. The parameters `new`, `prev` and `next` are
passed by value and `PMEMOBJ_SET` takes their addresses, so they are stored in
their automatic variables first. -/
def __pmemobj_list_add (E : Env) (s : State) (pool : Nat) (new prev next : PMEMoid)
    (au : Auto) : Except Fault (State × Int) := do
  let s0 : State :=
    { s with mem := store_oid (store_oid (store_oid s.mem au.new new) au.prev prev) au.next next }
  let b ← pmemobj_tx_begin E s0 pool (some au.env)
  let dnew := pmemobj_direct new
  let dprev := pmemobj_direct prev
  let dnext := pmemobj_direct next
  let r1 ← PMEMOBJ_SET E b.1 (dnext + PMEMlist_prev) au.new PMEMLIST_SIZE
  let r2 ← PMEMOBJ_SET E r1.1 (dnew + PMEMlist_next) au.next PMEMLIST_SIZE
  let r3 ← PMEMOBJ_SET E r2.1 (dnew + PMEMlist_prev) au.prev PMEMLIST_SIZE
  let r4 ← PMEMOBJ_SET E r3.1 (dprev + PMEMlist_next) au.new PMEMLIST_SIZE
  let c ← pmemobj_tx_commit E r4.1
  pure (c.1, 0)

/-- The function `pmemobj_list_add`. -/
def pmemobj_list_add (E : Env) (s : State) (pool : Nat) (new head : PMEMoid) (au : Auto) :
    Except Fault (State × Int) :=
  let dhead := pmemobj_direct head
  __pmemobj_list_add E s pool new head (load_oid s.mem (dhead + PMEMlist_next)) au

/-- The function `pmemobj_list_add_tail`. -/
def pmemobj_list_add_tail (E : Env) (s : State) (pool : Nat) (new head : PMEMoid) (au : Auto) :
    Except Fault (State × Int) :=
  let dhead := pmemobj_direct head
  __pmemobj_list_add E s pool new (load_oid s.mem (dhead + PMEMlist_prev)) head au

/-- The function `__pmemobj_list_del`; `prev` and `next` are stored in their
automatic variables first. -/
def __pmemobj_list_del (E : Env) (s : State) (pool : Nat) (prev next : PMEMoid) (au : Auto) :
    Except Fault (State × Int) := do
  let s0 : State := { s with mem := store_oid (store_oid s.mem au.prev prev) au.next next }
  let b ← pmemobj_tx_begin E s0 pool (some au.env)
  let dprev := pmemobj_direct prev
  let dnext := pmemobj_direct next
  let r1 ← PMEMOBJ_SET E b.1 (dnext + PMEMlist_prev) au.prev PMEMLIST_SIZE
  let r2 ← PMEMOBJ_SET E r1.1 (dprev + PMEMlist_next) au.next PMEMLIST_SIZE
  let c ← pmemobj_tx_commit E r2.1
  pure (c.1, 0)

/-- The function `pmemobj_list_del`. -/
def pmemobj_list_del (E : Env) (s : State) (pool : Nat) (item : PMEMoid) (au : Auto) :
    Except Fault (State × Int) :=
  let ditem := pmemobj_direct item
  __pmemobj_list_del E s pool (load_oid s.mem (ditem + PMEMlist_prev))
    (load_oid s.mem (ditem + PMEMlist_next)) au

/-- The function `pmemobj_list_replace`; `new` is stored in its automatic variable
first. The sources `dold->next` and `dold->prev` are read from the list node
when the field-set runs. -/
def pmemobj_list_replace (E : Env) (s : State) (pool : Nat) (old new : PMEMoid) (au : Auto) :
    Except Fault (State × Int) := do
  let s0 : State := { s with mem := store_oid s.mem au.new new }
  let b ← pmemobj_tx_begin E s0 pool (some au.env)
  let dold := pmemobj_direct old
  let dold_next := pmemobj_direct (load_oid b.1.mem (dold + PMEMlist_next))
  let dold_prev := pmemobj_direct (load_oid b.1.mem (dold + PMEMlist_prev))
  let dnew := pmemobj_direct new
  let r1 ← PMEMOBJ_SET E b.1 (dnew + PMEMlist_next) (dold + PMEMlist_next) PMEMLIST_SIZE
  let r2 ← PMEMOBJ_SET E r1.1 (dold_next + PMEMlist_prev) au.new PMEMLIST_SIZE
  let r3 ← PMEMOBJ_SET E r2.1 (dnew + PMEMlist_prev) (dold + PMEMlist_prev) PMEMLIST_SIZE
  let r4 ← PMEMOBJ_SET E r3.1 (dold_prev + PMEMlist_next) au.new PMEMLIST_SIZE
  let c ← pmemobj_tx_commit E r4.1
  pure (c.1, 0)

/-! ## Vocabulary of the statements about lists -/

/-- The field `next` of the list node `o`. -/
def nxt (m : Nat → Nat) (o : PMEMoid) : PMEMoid :=
  load_oid m (pmemobj_direct o + PMEMlist_next)

/-- The field `prev` of the list node `o`. -/
def prv (m : Nat → Nat) (o : PMEMoid) : PMEMoid :=
  load_oid m (pmemobj_direct o + PMEMlist_prev)

/-- The bytes of the linkage of the list node `o`. -/
def link (o : PMEMoid) : Region :=
  (pmemobj_direct o, 2 * PMEMLIST_SIZE)

/-- The bytes of one object id stored at `a`. -/
def slot (a : Nat) : Region :=
  (a, PMEMLIST_SIZE)

/-- Starting at the object id `p` and following the link `f`, the nodes `xs` are
visited in this order, and after them `h` is reached. -/
def Walk (f : PMEMoid → PMEMoid) (h : PMEMoid) : PMEMoid → List PMEMoid → Prop
  | p, [] => p = h
  | p, x :: rest => p = x ∧ Walk f h (f x) rest

/-- Deciding a walk on given bytes. -/
def Walk.dec (f : PMEMoid → PMEMoid) (h : PMEMoid) :
    (p : PMEMoid) → (xs : List PMEMoid) → Decidable (Walk f h p xs)
  | p, [] => inferInstanceAs (Decidable (p = h))
  | p, x :: rest => @instDecidableAnd (p = x) (Walk f h (f x) rest) _ (Walk.dec f h (f x) rest)

instance (f : PMEMoid → PMEMoid) (h p : PMEMoid) (xs : List PMEMoid) :
    Decidable (Walk f h p xs) :=
  Walk.dec f h p xs

/-- The forward traversal: following `next` from `h.next` visits the nodes `xs`
in this order and then reaches the head `h`. -/
def NextWalk (m : Nat → Nat) (h : PMEMoid) (xs : List PMEMoid) : Prop :=
  Walk (nxt m) h (nxt m h) xs

/-- The backward traversal: following `prev` from `h.prev` visits the nodes `ys`
in this order and then reaches the head `h`. -/
def PrevWalk (m : Nat → Nat) (h : PMEMoid) (ys : List PMEMoid) : Prop :=
  Walk (prv m) h (prv m h) ys

/-- The linkages of the nodes of the list share no byte. -/
def Apart (ns : List PMEMoid) : Prop :=
  ns.Pairwise (fun a b => Disj (link a) (link b))

instance (ns : List PMEMoid) : Decidable (Apart ns) :=
  inferInstanceAs (Decidable (List.Pairwise _ _))

/-- A well-formed list with the sentinel `h` and the items `xs`: the forward
traversal from `h.next` visits `xs` and reaches `h`, the backward traversal
from `h.prev` visits `xs` in the reverse order and reaches `h`, and the nodes
are different objects. -/
def WellFormed (m : Nat → Nat) (h : PMEMoid) (xs : List PMEMoid) : Prop :=
  NextWalk m h xs ∧ PrevWalk m h xs.reverse ∧ Apart (h :: xs)

instance (m : Nat → Nat) (h : PMEMoid) (xs : List PMEMoid) : Decidable (WellFormed m h xs) :=
  inferInstanceAs (Decidable (Walk _ _ _ _ ∧ Walk _ _ _ _ ∧ _))

/-- The undo backups of `n` field-sets when `k` calls of `pmalloc` were made
before, on a pool mapped at `base`. -/
def backups (E : Env) (base k n : Nat) : List Region :=
  (List.range n).map (fun i => ((base + E.pmalloc_off (k + i)) % U64, PMEMLIST_SIZE))

/-- What a list function relies on about the addresses: the nodes `ns` are
different objects, the automatic variables `ls` are different objects, no
automatic variable overlaps a node, and no undo backup `bs` overlaps a node or
an automatic variable. -/
def Layout (ns : List PMEMoid) (ls : List Nat) (bs : List Region) : Prop :=
  Apart ns ∧ ls.Pairwise (fun a b => Disj (slot a) (slot b)) ∧
    (∀ o ∈ ns, ∀ a ∈ ls, Disj (link o) (slot a)) ∧
    (∀ b ∈ bs, ∀ o ∈ ns, Disj b (link o)) ∧ (∀ b ∈ bs, ∀ a ∈ ls, Disj b (slot a))

instance (ns : List PMEMoid) (ls : List Nat) (bs : List Region) : Decidable (Layout ns ls bs) :=
  inferInstanceAs (Decidable (_ ∧ _ ∧ _ ∧ _ ∧ _))

/-- The thread is where a list function can run its transaction: no
transaction is open, or the current frame has a well-formed log that is not
empty. -/
def TxReady (s : State) : Prop :=
  s.Curthread_txinfop = none ∨
    ∃ tid t l, s.Curthread_txinfop = some tid ∧ LogOf s tid t l ∧ l ≠ []

/-- Two neighbours of a list: `b` is the `next` of `a` and `a` is the `prev` of `b`. -/
def Adj (m : Nat → Nat) (a b : PMEMoid) : Prop :=
  nxt m a = b ∧ prv m b = a

/-- The relation holds between every element of the cycle `l` and the one after
it, the first coming after the last. -/
def Cyc {α : Type} (R : α → α → Prop) (l : List α) : Prop :=
  List.Chain' R (l ++ l.take 1)

/-- The places where an object id is stored: the two fields of a node, and an
automatic variable. -/
inductive SlotId where
  | next (o : PMEMoid)
  | prev (o : PMEMoid)
  | auto (a : Nat)
  deriving DecidableEq, Repr

/-- The address of a place. -/
def SlotId.addr : SlotId → Nat
  | SlotId.next o => pmemobj_direct o + PMEMlist_next
  | SlotId.prev o => pmemobj_direct o + PMEMlist_prev
  | SlotId.auto a => a

/-- The places of the nodes `ns` and of the automatic variables `ls`. -/
def SlotId.In (ns : List PMEMoid) (ls : List Nat) : SlotId → Prop
  | SlotId.next o => o ∈ ns
  | SlotId.prev o => o ∈ ns
  | SlotId.auto a => a ∈ ls

/-- The object ids in the places after a sequence of field-sets, each given as
destination and source. -/
def sets_abs (F : SlotId → PMEMoid) : List (SlotId × SlotId) → SlotId → PMEMoid
  | [] => F
  | p :: rest => sets_abs (Function.update F p.1 (F p.2)) rest

/-- The field-sets as calls of `pmemobj_memcpy_tid`. -/
def set_calls (ops : List (Nat × Nat)) : List TxCall :=
  ops.map (fun p => TxCall.memcpy p.1 p.2 PMEMLIST_SIZE)

/-- The field-sets of a list function, run one after the other. -/
def run_sets (E : Env) : List (Nat × Nat) → State → Except Fault State
  | [], s => pure s
  | p :: rest, s => do
    let r ← PMEMOBJ_SET E s p.1 p.2 PMEMLIST_SIZE
    run_sets E rest r.1

/-- The transaction of a list function: begin, the field-sets, commit. -/
def list_tx (E : Env) (s : State) (pool env : Nat) (ops : List (Nat × Nat)) :
    Except Fault (State × Int) := do
  let b ← pmemobj_tx_begin E s pool (some env)
  let s2 ← run_sets E ops b.1
  let c ← pmemobj_tx_commit E s2
  pure (c.1, 0)

/-- The bytes after the parameters `ps` of a call, each an address and the
object id passed, are stored in their automatic variables. -/
def store_oids (m : Nat → Nat) (ps : List (Nat × PMEMoid)) : Nat → Nat :=
  ps.foldl (fun m1 p => store_oid m1 p.1 p.2) m

/-- The object ids in the places when a list function begins: the fields of
the nodes as the bytes `m` hold them, and the parameters `ps`. -/
def slots0 (m : Nat → Nat) (ps : List (Nat × PMEMoid)) : SlotId → PMEMoid
  | SlotId.next o => nxt m o
  | SlotId.prev o => prv m o
  | SlotId.auto a => (ps.lookup a).getD {}

/-- The field-sets given by places, as pairs of addresses. -/
def slot_ops (sops : List (SlotId × SlotId)) : List (Nat × Nat) :=
  sops.map (fun p => (p.1.addr, p.2.addr))

/-! ## Tests on a list -/

/-- Modelled from the spec: `pmemobj_oids_equal` is declared in `obj_list.h`,
which is not among the sources. Two object ids are equal when their offsets
are. -/
def pmemobj_oids_equal (a b : PMEMoid) : Int :=
  if a.off = b.off then 1 else 0

/-- The function `pmemobj_list_empty`. -/
def pmemobj_list_empty (s : State) (head : PMEMoid) : Int :=
  let dhead := pmemobj_direct head
  pmemobj_oids_equal (load_oid s.mem (dhead + PMEMlist_next)) head

/-- Modelled from the spec: the loop of the macro `PMEMOBJ_LIST_FOREACH`, which
is defined in `obj_list.h`, not among the sources, from the item `item` on: the
items it visits before it is at the head again. With no step left the loop has
not ended. -/
def list_foreach_from (s : State) (head : PMEMoid) : Nat → PMEMoid → Except Fault (List PMEMoid)
  | 0, _ => throw Fault.diverge
  | fuel + 1, item =>
    if pmemobj_oids_equal item head = 1 then pure []
    else do
      let rest ← list_foreach_from s head fuel (load_oid s.mem (pmemobj_direct item + PMEMlist_next))
      pure (item :: rest)

/-- Modelled from the spec: the macro `PMEMOBJ_LIST_FOREACH(item, head)` is
defined in `obj_list.h`, which is not among the sources: the forward traversal,
which starts at the `next` of the head and follows `next` until it is at the
head again. The result is the items visited, in at most `fuel` steps. -/
def PMEMOBJ_LIST_FOREACH (s : State) (head : PMEMoid) (fuel : Nat) : Except Fault (List PMEMoid) :=
  list_foreach_from s head fuel (load_oid s.mem (pmemobj_direct head + PMEMlist_next))

/-! ## Condition variables kept in persistent memory -/

/-- The function `condof`: find or allocate the `pthread_cond_t` of a `PMEMcond`. -/
def condof (E : Env) (s : State) (condp : Nat) : State × Option Nat :=
  if (s.conds condp).runid = E.Runid then
    (s, (s.conds condp).pthreadp)
  else
    let r := Malloc E s
    if r.2 then
      let p := r.1.npthread
      let c1 : SyncCell := { r.1.conds condp with pthreadp := some p }
      let s1 : State := { r.1 with
        npthread := p + 1, conds := Function.update r.1.conds condp c1 }
      let c := pthread_call E s1 PthreadFn.cond_init p
      let s2 : State := { c.1 with errno := c.2 }
      if c.2 ≠ 0 then (s2, none)
      else
        let c2 : SyncCell := { s2.conds condp with runid := E.Runid }
        ({ s2 with conds := Function.update s2.conds condp c2 }, c2.pthreadp)
    else
      let c1 : SyncCell := { r.1.conds condp with pthreadp := none }
      ({ r.1 with conds := Function.update r.1.conds condp c1 }, none)

/-- A call of a function of `pthread.h` on a condition variable and a mutex:
traced, and answered by the environment. -/
def pthread_call2 (E : Env) (s : State) (fn : PthreadFn) (p q : Nat) : State × Int :=
  ({ s with trace := s.trace ++ [Event.pthread_cond fn p q] }, E.pthread_ret s.trace.length)

/-- The function `pmemobj_mutex_init`. -/
def pmemobj_mutex_init (E : Env) (s : State) (mutexp : Nat) : State × Int :=
  let r := mutexof E s mutexp
  match r.2 with
  | none => tx_error r.1 ENOMEM
  | some p => pthread_call E r.1 PthreadFn.mutex_init p

/-- The function `pmemobj_mutex_trylock`. -/
def pmemobj_mutex_trylock (E : Env) (s : State) (mutexp : Nat) : State × Int :=
  let r := mutexof E s mutexp
  match r.2 with
  | none => tx_error r.1 ENOMEM
  | some p => pthread_call E r.1 PthreadFn.mutex_trylock p

/-- The function `pmemobj_rwlock_init`. -/
def pmemobj_rwlock_init (E : Env) (s : State) (rwlockp : Nat) : State × Int :=
  let r := rwlockof E s rwlockp
  match r.2 with
  | none => tx_error r.1 ENOMEM
  | some p => pthread_call E r.1 PthreadFn.rwlock_init p

/-- The function `pmemobj_rwlock_rdlock`. -/
def pmemobj_rwlock_rdlock (E : Env) (s : State) (rwlockp : Nat) : State × Int :=
  let r := rwlockof E s rwlockp
  match r.2 with
  | none => tx_error r.1 ENOMEM
  | some p => pthread_call E r.1 PthreadFn.rwlock_rdlock p

/-- The function `pmemobj_rwlock_timedrdlock`; the time-out is handed on to the
pthread call. -/
def pmemobj_rwlock_timedrdlock (E : Env) (s : State) (rwlockp _abs_timeout : Nat) :
    State × Int :=
  let r := rwlockof E s rwlockp
  match r.2 with
  | none => tx_error r.1 ENOMEM
  | some p => pthread_call E r.1 PthreadFn.rwlock_timedrdlock p

/-- The function `pmemobj_rwlock_timedwrlock`; the time-out is handed on to the
pthread call. -/
def pmemobj_rwlock_timedwrlock (E : Env) (s : State) (rwlockp _abs_timeout : Nat) :
    State × Int :=
  let r := rwlockof E s rwlockp
  match r.2 with
  | none => tx_error r.1 ENOMEM
  | some p => pthread_call E r.1 PthreadFn.rwlock_timedwrlock p

/-- The function `pmemobj_rwlock_tryrdlock`. -/
def pmemobj_rwlock_tryrdlock (E : Env) (s : State) (rwlockp : Nat) : State × Int :=
  let r := rwlockof E s rwlockp
  match r.2 with
  | none => tx_error r.1 ENOMEM
  | some p => pthread_call E r.1 PthreadFn.rwlock_tryrdlock p

/-- The function `pmemobj_rwlock_trywrlock`. -/
def pmemobj_rwlock_trywrlock (E : Env) (s : State) (rwlockp : Nat) : State × Int :=
  let r := rwlockof E s rwlockp
  match r.2 with
  | none => tx_error r.1 ENOMEM
  | some p => pthread_call E r.1 PthreadFn.rwlock_trywrlock p

/-- The function `pmemobj_cond_init`. -/
def pmemobj_cond_init (E : Env) (s : State) (condp : Nat) : State × Int :=
  let r := condof E s condp
  match r.2 with
  | none => tx_error r.1 ENOMEM
  | some p => pthread_call E r.1 PthreadFn.cond_init p

/-- The function `pmemobj_cond_broadcast`. -/
def pmemobj_cond_broadcast (E : Env) (s : State) (condp : Nat) : State × Int :=
  let r := condof E s condp
  match r.2 with
  | none => tx_error r.1 ENOMEM
  | some p => pthread_call E r.1 PthreadFn.cond_broadcast p

/-- The function `pmemobj_cond_signal`. -/
def pmemobj_cond_signal (E : Env) (s : State) (condp : Nat) : State × Int :=
  let r := condof E s condp
  match r.2 with
  | none => tx_error r.1 ENOMEM
  | some p => pthread_call E r.1 PthreadFn.cond_signal p

/-- The function `pmemobj_cond_timedwait`; the time-out is handed on to the
pthread call. -/
def pmemobj_cond_timedwait (E : Env) (s : State) (condp mutexp _abstime : Nat) : State × Int :=
  let c := condof E s condp
  let m := mutexof E c.1 mutexp
  match c.2, m.2 with
  | some pc, some pm => pthread_call2 E m.1 PthreadFn.cond_timedwait pc pm
  | _, _ => tx_error m.1 ENOMEM

/-- The function `pmemobj_cond_wait`. -/
def pmemobj_cond_wait (E : Env) (s : State) (condp mutexp : Nat) : State × Int :=
  let c := condof E s condp
  let m := mutexof E c.1 mutexp
  match c.2, m.2 with
  | some pc, some pm => pthread_call2 E m.1 PthreadFn.cond_wait pc pm
  | _, _ => tx_error m.1 ENOMEM

/-- The three kinds of persistent cell: `PMEMmutex`, `PMEMrwlock`, `PMEMcond`. -/
inductive CellKind where
  | mutex
  | rwlock
  | cond
  deriving DecidableEq, Repr

/-- The cell of the given kind at the address `c`. -/
def cell_of (s : State) : CellKind → Nat → SyncCell
  | CellKind.mutex, c => s.mutexes c
  | CellKind.rwlock, c => s.rwlocks c
  | CellKind.cond, c => s.conds c

/-- The functions of `obj.c` that work on one persistent cell; the timed ones
with their time-out. -/
inductive SyncCall where
  | mutex_init
  | mutex_lock
  | mutex_trylock
  | mutex_unlock
  | rwlock_init
  | rwlock_rdlock
  | rwlock_wrlock
  | rwlock_timedrdlock (abs_timeout : Nat)
  | rwlock_timedwrlock (abs_timeout : Nat)
  | rwlock_tryrdlock
  | rwlock_trywrlock
  | rwlock_unlock
  | cond_init
  | cond_broadcast
  | cond_signal
  deriving DecidableEq, Repr

/-- The kind of cell a function works on. -/
def SyncCall.kind : SyncCall → CellKind
  | SyncCall.mutex_init => CellKind.mutex
  | SyncCall.mutex_lock => CellKind.mutex
  | SyncCall.mutex_trylock => CellKind.mutex
  | SyncCall.mutex_unlock => CellKind.mutex
  | SyncCall.cond_init => CellKind.cond
  | SyncCall.cond_broadcast => CellKind.cond
  | SyncCall.cond_signal => CellKind.cond
  | _ => CellKind.rwlock

/-- One call of a function that works on one persistent cell, at the address `c`. -/
def run_sync (E : Env) (s : State) (c : Nat) : SyncCall → State × Int
  | SyncCall.mutex_init => pmemobj_mutex_init E s c
  | SyncCall.mutex_lock => pmemobj_mutex_lock E s c
  | SyncCall.mutex_trylock => pmemobj_mutex_trylock E s c
  | SyncCall.mutex_unlock => pmemobj_mutex_unlock E s c
  | SyncCall.rwlock_init => pmemobj_rwlock_init E s c
  | SyncCall.rwlock_rdlock => pmemobj_rwlock_rdlock E s c
  | SyncCall.rwlock_wrlock => pmemobj_rwlock_wrlock E s c
  | SyncCall.rwlock_timedrdlock t => pmemobj_rwlock_timedrdlock E s c t
  | SyncCall.rwlock_timedwrlock t => pmemobj_rwlock_timedwrlock E s c t
  | SyncCall.rwlock_tryrdlock => pmemobj_rwlock_tryrdlock E s c
  | SyncCall.rwlock_trywrlock => pmemobj_rwlock_trywrlock E s c
  | SyncCall.rwlock_unlock => pmemobj_rwlock_unlock E s c
  | SyncCall.cond_init => pmemobj_cond_init E s c
  | SyncCall.cond_broadcast => pmemobj_cond_broadcast E s c
  | SyncCall.cond_signal => pmemobj_cond_signal E s c

/-- The function `obj_init`, as far as it sets `Runid`: `clock` is the seconds and
nanoseconds `clock_gettime` stored, or `none` when it failed, and `rnd` is what
`random()` returns then. The result is a `uint64_t`. -/
def obj_init (clock : Option (Nat × Nat)) (rnd : Nat) : Nat :=
  match clock with
  | none => rnd % U64
  | some ts => (ts.1 * 1000000000 + ts.2) % U64

/-! ## The root object -/

/-- Modelled from the spec: `sizeof (struct pool_hdr)`; `struct pool_hdr` is
declared in `util.h`, which is not among the sources. The header is the first
page of the pool. -/
def POOL_HDR_SIZE : Nat := 4096

/-- Modelled from the spec: the address `&pop->rootlock`; `struct pmemobjpool` is
declared in `obj.h`, which is not among the sources. After the header comes the
root descriptor: the object id `root`, then the mutex that guards its
creation. -/
def rootlock (pop : Nat) : Nat :=
  pop + POOL_HDR_SIZE + 16

/-- The function `pmemobj_root_direct`. -/
def pmemobj_root_direct (E : Env) (s : State) (pop size : Nat) : Except Fault (State × Nat) := do
  let l := pmemobj_mutex_lock E s (rootlock pop)
  let P ← pool_get l.1 pop
  let s2 ← (if P.root.off = 0 then do
      let P1 : pmemobjpool := { P with root := { P.root with pool := P.addr } }
      let s1 : State := { l.1 with pools := Function.update l.1.pools pop (some P1) }
      let m := pmalloc E s1 pop size
      let P2 ← pool_get m.1 pop
      let P3 : pmemobjpool := { P2 with root := { P2.root with off := m.2 } }
      pure { m.1 with pools := Function.update m.1.pools pop (some P3) }
    else pure l.1)
  let u := pmemobj_mutex_unlock E s2 (rootlock pop)
  let P4 ← pool_get u.1 pop
  pure (u.1, pmemobj_direct P4.root)

/-- A sequence of `pmemobj_root_direct` calls on one pool, one for each size
of the list; the result is the state and what the calls returned, in order. -/
def root_direct_calls (E : Env) (pop : Nat) : List Nat → State → Except Fault (State × List Nat)
  | [], s => pure (s, [])
  | size :: rest, s => do
    let r ← pmemobj_root_direct E s pop size
    let q ← root_direct_calls E pop rest r.1
    pure (q.1, r.2 :: q.2)

/-- The pthread calls of `n` calls of `pmemobj_root_direct` that find the root
object there: each locks the pthread mutex `p` of the root lock and unlocks
it. -/
def root_found_events (p : Nat) : Nat → List Event
  | 0 => []
  | n + 1 =>
    Event.pthread PthreadFn.mutex_lock p :: Event.pthread PthreadFn.mutex_unlock p ::
      root_found_events p n

/-! ## Opening and closing a pool -/

/-- `EINVAL` of `errno.h`. -/
def EINVAL : Int := 22

/-- Modelled from the spec: `PMEMOBJ_MIN_POOL` is defined in `libpmemobj.h`,
which is not among the sources; the smallest pool is 2 MiB. -/
def PMEMOBJ_MIN_POOL : Nat := 1024 * 1024 * 2

/-- Modelled from the spec: a pool file. `util_map` maps the whole file shared,
so that what the process stores in the mapped range is what the file holds.
The contents are kept by offset from the start of the file: the
`struct pmemobjpool` at offset 0, the persistent lock cells, and the bytes. -/
structure File where
  st_size : Nat
  pop : pmemobjpool := {}
  mutexes : Nat → SyncCell := fun _ => {}
  rwlocks : Nat → SyncCell := fun _ => {}
  conds : Nat → SyncCell := fun _ => {}
  bytes : Nat → Nat := fun _ => 0

/-- What `pmemobj_pool_open` takes from outside `obj.c` in one call: the
constants of `obj.h` and `util.h`, which are not among the sources, and what the
operating system and `util.c` answer. `stat_errno` and `open_errno` are `none`
when `stat` and `open` succeed, else the `errno` they set; `util_map` is the
address of the mapping, or `none` when `util_map` returns `NULL`, having set
`errno` to `util_map_errno`; `checksum` is the checksum of a header whose
checksum field holds 0; `uuid` and `time` are what `uuid_generate` and `time`
give. -/
structure OpenEnv where
  OBJ_HDR_SIG : List Nat
  POOL_HDR_SIG_LEN : Nat
  OBJ_FORMAT_MAJOR : Nat
  OBJ_FORMAT_COMPAT : Nat
  OBJ_FORMAT_INCOMPAT : Nat
  OBJ_FORMAT_RO_COMPAT : Nat
  stat_errno : Option Int
  open_errno : Option Int
  util_map : Option Nat
  util_map_errno : Int
  checksum : pool_hdr → Nat
  uuid : Nat
  time : Nat

/-- The file `f` seen through a mapping at `addr`. -/
def map_file (s : State) (f : File) (addr : Nat) : State :=
  { s with
    mem := fun a => if addr ≤ a ∧ a < addr + f.st_size then f.bytes (a - addr) else s.mem a,
    pools := Function.update s.pools addr (some f.pop),
    mutexes := fun a =>
      if addr ≤ a ∧ a < addr + f.st_size then f.mutexes (a - addr) else s.mutexes a,
    rwlocks := fun a =>
      if addr ≤ a ∧ a < addr + f.st_size then f.rwlocks (a - addr) else s.rwlocks a,
    conds := fun a =>
      if addr ≤ a ∧ a < addr + f.st_size then f.conds (a - addr) else s.conds a }

/-- The file that is mapped at `addr` with the length `len`, read through the
mapping. -/
def file_of (s : State) (addr len : Nat) : File :=
  { st_size := len,
    pop := (s.pools addr).getD {},
    mutexes := fun o => s.mutexes (addr + o),
    rwlocks := fun o => s.rwlocks (addr + o),
    conds := fun o => s.conds (addr + o),
    bytes := fun o => s.mem (addr + o) }

/-- Modelled from the spec: `util_map` is defined in `util.c`, which is not among
the sources. The call `util_map(fd, len, 0)` maps the whole file, shared, where
the operating system chooses, or returns `NULL` with `errno` set. -/
def util_map (O : OpenEnv) (s : State) (f : File) : State × Option Nat :=
  match O.util_map with
  | some addr =>
    ({ map_file s f addr with trace := s.trace ++ [Event.util_map f.st_size addr] }, some addr)
  | none => ({ s with errno := O.util_map_errno }, none)

/-- Modelled from the spec: `util_unmap` is defined in `util.c`, which is not
among the sources. The call `util_unmap(addr, len)` ends the mapping: the pool
is no longer at `addr`, and the file holds what the mapping held. -/
def util_unmap (s : State) (addr len : Nat) : State × File :=
  ({ s with pools := Function.update s.pools addr none,
            trace := s.trace ++ [Event.util_unmap addr len] }, file_of s addr len)

/-- Modelled from the spec: `util_checksum` is defined in `util.c`, which is not
among the sources. The checksum of a header is computed with the checksum field
taken as zero; the call with `insert` stores it in the field, the call without
tells whether the field holds it. -/
def util_checksum (O : OpenEnv) (h : pool_hdr) (insert : Bool) : pool_hdr × Bool :=
  let c := O.checksum { h with checksum := 0 }
  if insert then ({ h with checksum := c }, true) else (h, decide (h.checksum = c))

/-- Modelled from the spec: `util_convert_hdr` is defined in `util.c`, which is
not among the sources. It converts the header to host byte order and tells
whether the header is valid: a header of an uninitialized pool (all zeros, so
with the major version 0) is not, and else it is when its checksum is. -/
def util_convert_hdr (O : OpenEnv) (h : pool_hdr) : Bool :=
  if h.major = 0 then false else (util_checksum O h false).2

/-- Modelled from the spec: `util_feature_check` is defined in `util.c`, which is
not among the sources. Unknown incompat bits fail with `EINVAL`, unknown
ro-compat bits ask for read-only mode, unknown compat bits are accepted. -/
def util_feature_check (s : State) (h : pool_hdr) (incompat ro_compat _compat : Nat) :
    State × Int :=
  if h.incompat_features &&& incompat ≠ h.incompat_features then
    ({ s with errno := EINVAL }, -1)
  else if h.ro_compat_features &&& ro_compat ≠ h.ro_compat_features then (s, 0)
  else (s, 1)

/-- The label `err` of `pmemobj_pool_open`: unmap, keep `errno`, return `NULL`. -/
def pool_open_err (s : State) (addr len : Nat) : State × Option Nat × File :=
  let oerrno := s.errno
  let u := util_unmap s addr len
  ({ u.1 with errno := oerrno }, none, u.2)

/-- The end of `pmemobj_pool_open` on both branches: the run-time fields of the
pool and the allocator. The page protections set by `util_range_none` and
`RANGE_RW` are not part of the state. -/
def pool_open_finish (s : State) (addr len : Nat) : Except Fault (State × Option Nat × File) := do
  let P ← pool_get s addr
  let s1 : State := { s with
    pools := Function.update s.pools addr (some { P with addr := addr, size := len }) }
  let s2 : State := { s1 with trace := s1.trace ++ [Event.allocator_init addr] }
  pure (s2, some addr, file_of s2 addr len)

/-- The function `pmemobj_pool_open` on the file `f` that `path` names. The
result is the state, the pool or `NULL`, and the file as the call leaves it.
The file descriptor is closed once the file is mapped; what `pmem_is_pmem`
answers is only handed on to `libpmem_persist` and `allocator_init`. -/
def pmemobj_pool_open (O : OpenEnv) (s : State) (f : File) :
    Except Fault (State × Option Nat × File) :=
  match O.stat_errno with
  | some e => pure ({ s with errno := e }, none, f)
  | none =>
    if f.st_size < PMEMOBJ_MIN_POOL then pure ({ s with errno := EINVAL }, none, f)
    else
      match O.open_errno with
      | some e => pure ({ s with errno := e }, none, f)
      | none =>
        let m := util_map O s f
        match m.2 with
        | none => pure (m.1, none, f)
        | some addr => do
          let pop := addr
          let P ← pool_get m.1 pop
          let hdr := P.hdr
          if util_convert_hdr O hdr then
            if hdr.signature.take O.POOL_HDR_SIG_LEN ≠ O.OBJ_HDR_SIG.take O.POOL_HDR_SIG_LEN then
              pure (pool_open_err { m.1 with errno := EINVAL } addr f.st_size)
            else if hdr.major ≠ O.OBJ_FORMAT_MAJOR then
              pure (pool_open_err { m.1 with errno := EINVAL } addr f.st_size)
            else
              let r := util_feature_check m.1 hdr O.OBJ_FORMAT_INCOMPAT O.OBJ_FORMAT_RO_COMPAT
                O.OBJ_FORMAT_COMPAT
              if r.2 < 0 then pure (pool_open_err r.1 addr f.st_size)
              else pool_open_finish r.1 addr f.st_size
          else
            let h0 : pool_hdr := {}
            let h1 : pool_hdr := { h0 with
              signature := O.OBJ_HDR_SIG.take O.POOL_HDR_SIG_LEN,
              major := O.OBJ_FORMAT_MAJOR,
              compat_features := O.OBJ_FORMAT_COMPAT,
              incompat_features := O.OBJ_FORMAT_INCOMPAT,
              ro_compat_features := O.OBJ_FORMAT_RO_COMPAT,
              uuid := O.uuid,
              crtime := O.time }
            let h2 := (util_checksum O h1 true).1
            let s1 : State := { m.1 with
              pools := Function.update m.1.pools pop (some { P with hdr := h2 }),
              trace := m.1.trace ++ [Event.persist pop POOL_HDR_SIZE] }
            let s2 : State := { s1 with mutexes := Function.update s1.mutexes (rootlock pop) {} }
            let P1 ← pool_get s2 pop
            let s3 : State := { s2 with
              pools := Function.update s2.pools pop (some { P1 with root := { P1.root with off := 0 } }) }
            pool_open_finish s3 addr f.st_size

/-- The function `pmemobj_pool_close`; the second result is the file as the
mapping leaves it. -/
def pmemobj_pool_close (s : State) (pop : Nat) : Except Fault (State × File) := do
  let P ← pool_get s pop
  pure (util_unmap s P.addr P.size)

/-! ## Vocabulary of the statements about stacks of frames -/

/-- `NextPath h p cells`: following `next` from the pointer `p` through the cells
`h` visits exactly the cells `cells`, in this order, and then reaches `NULL`. -/
def NextPath (h : List txop) : Option Nat → List Nat → Prop
  | p, [] => p = none
  | p, x :: rest => p = some x ∧ ∃ c, h[x]? = some c ∧ NextPath h c.next rest

/-- An open frame: its pointer, its contents, and its log, the newest entry
first. -/
abbrev Frame := Nat × tx × List (Nat × LogEntry)

/-- `FrameStack s p fs`: following `next` from the frame pointer `p` visits the
frames `fs`, the innermost first, and then reaches `NULL`; each is live and has
a well-formed log that is not empty. -/
def FrameStack (s : State) : Option Nat → List Frame → Prop
  | p, [] => p = none
  | p, f :: rest =>
    p = some f.1 ∧ LogOf s f.1 f.2.1 f.2.2 ∧ f.2.2 ≠ [] ∧ FrameStack s f.2.1.next rest

/-- The log cells of a stack of frames. -/
def stack_cells : List Frame → List Nat
  | [] => []
  | f :: rest => f.2.2.map Prod.fst ++ stack_cells rest

/-- The log entries of a stack of frames: those of the innermost frame from the
last to the first, then those of its parent from the last to the first, and so
on to the outermost frame. -/
def stack_entries : List Frame → List LogEntry
  | [] => []
  | f :: rest => f.2.2.map Prod.snd ++ stack_entries rest

/-! ## The log of the test `obj_log_basic` -/

/-- Modelled from the spec: `sizeof (PMEMmutex)`; `PMEMmutex` is declared in
`obj.h`, which is not among the sources, and holds a 64-bit run id and a
pointer. -/
def PMEMMUTEX_SIZE : Nat := 16

/-- The offset of the field `data` of `struct log_s`. -/
def log_s_data : Nat := 0

/-- The offset of the field `size` of `struct log_s`, behind the object id `data`. -/
def log_s_size : Nat := 16

/-- The offset of the field `offset` of `struct log_s`. -/
def log_s_offset : Nat := 24

/-- The offset of the field `mutex` of `struct log_s`. -/
def log_s_mutex : Nat := 32

/-- The size of `struct log_s`. -/
def LOG_S_SIZE : Nat := log_s_mutex + PMEMMUTEX_SIZE

/-- The loop `while (position < offset)` of `objlog_walk`. `process_chunk k buf len`
is what the callback returns for the buffer `buf` of length `len` when `k` calls
of it have been made before. The result is the calls made, in order, each with
its buffer and its length. With no iteration left the loop has not ended. -/
def objlog_walk_loop (chunksize offset data : Nat) (process_chunk : Nat → Nat → Nat → Int) :
    Nat → Nat → Nat → Except Fault (List (Nat × Nat))
  | 0, position, _ => if position < offset then throw Fault.diverge else pure []
  | fuel + 1, position, k =>
    if position < offset then
      let len := min chunksize (offset - position)
      if process_chunk k (data + position) len = 0 then pure [(data + position, len)]
      else do
        let rest ← objlog_walk_loop chunksize offset data process_chunk fuel
          ((position + chunksize) % U64) (k + 1)
        pure ((data + position, len) :: rest)
    else pure []

/-- The function `objlog_walk` of the test `obj_log_basic.c`. The result is the
state and the calls of the callback, in order, each with its buffer and its
length. Every iteration of the loop moves `position` on by `chunksize`, which is
not 0 there, so the loop is run with one more iteration than `offset`. -/
def objlog_walk (E : Env) (s : State) (pool chunksize : Nat)
    (process_chunk : Nat → Nat → Nat → Int) : Except Fault (State × List (Nat × Nat)) := do
  let r ← pmemobj_root_direct E s pool LOG_S_SIZE
  let log := r.2
  let l := pmemobj_mutex_lock E r.1 (log + log_s_mutex)
  let dataoid := load_oid l.1.mem (log + log_s_data)
  let data := pmemobj_direct dataoid
  let offset := load_le l.1.mem (log + log_s_offset) 8
  let calls ← (if chunksize = 0 then
      let len := offset
      let _ := process_chunk 0 data len
      pure [(data, len)]
    else objlog_walk_loop chunksize offset data process_chunk (offset + 1) 0 0)
  let u := pmemobj_mutex_unlock E l.1 (log + log_s_mutex)
  pure (u.1, calls)

/-! ## Vocabulary of the statements about the log walk -/

/-- The `len` bytes at `a`. -/
def read_bytes (m : Nat → Nat) (a len : Nat) : List Nat :=
  (List.range len).map (fun i => m (a + i))

/-- The slices of `n` bytes at `data` in chunks of `c` bytes, from the position
`p` on: the `k`-th is at `p + k * c` and ends where the next begins or at `n`. -/
def chunks_from (data n c p : Nat) : List (Nat × Nat) :=
  (List.range ((n - p + c - 1) / c)).map (fun k => (data + (p + k * c), min c (n - (p + k * c))))

/-- The calls a walk makes when it is to visit the buffers `xs` and `k` calls
have been made before: it stops behind the first call that returns 0. -/
def stop_at_zero (process_chunk : Nat → Nat → Nat → Int) : Nat → List (Nat × Nat) → List (Nat × Nat)
  | _, [] => []
  | k, x :: xs =>
    if process_chunk k x.1 x.2 = 0 then [x] else x :: stop_at_zero process_chunk (k + 1) xs

/-! ## Sample inputs -/

/-- A sample environment: `Malloc` always returns memory, the `k`-th `pmalloc`
returns the offset `500 + 16 * k`, every pthread call returns 0. -/
def sample_env : Env :=
  { Runid := 7,
    Malloc_ok := fun _ => true,
    pmalloc_off := fun k => 500 + 16 * k,
    pthread_ret := fun _ => 0 }

/-- The `struct pmemobjpool` of the sample state: a pool of 2 MiB mapped at 1000. -/
def sample_pool : pmemobjpool :=
  { addr := 1000, size := 2097152, root := {} }

/-- A sample state: one pool mapped at address 1000, no transaction open, no
lock bound, the byte at address `a` is `a % 7`. -/
def sample_state : State :=
  { mem := fun a => a % 7,
    pools := fun p => if p = 1000 then some sample_pool else none,
    txs := [],
    txops := [],
    Curthread_txinfop := none,
    mutexes := fun _ => {},
    rwlocks := fun _ => {},
    npthread := 0,
    nmalloc := 0,
    npmalloc := 0,
    errno := 0,
    trace := [] }

/-- Two `memcpy` calls whose destinations overlap. -/
def sample_memcpys : List TxCall :=
  [TxCall.memcpy 1100 1200 4, TxCall.memcpy 1102 1210 4]

/-- A sequence with every kind of mutator call. -/
def sample_calls : List TxCall :=
  [TxCall.alloc 32, TxCall.memcpy 1100 1200 4, TxCall.zalloc 8, TxCall.strdup [104, 105],
   TxCall.free { pool := 1000, off := 300 }, TxCall.memcpy 1102 1210 4]

/-- The frame of `sample_open_state`: on the sample pool, one entry logged. -/
def sample_frame : tx :=
  { pool := 1000, head := some 0, tail := some 0 }

/-- The sample state with one transaction open, in whose log one Free entry
for the offset 300 stands. -/
def sample_open_state : State :=
  { sample_state with
    txs := [some sample_frame],
    txops := [{ op := op_t.TXOP_FREE, args := { addr := 300 } }],
    Curthread_txinfop := some 0,
    nmalloc := 3 }

/-- The calls of an outer transaction before the nested one begins. -/
def sample_outer_calls : List TxCall :=
  [TxCall.alloc 32, TxCall.memcpy 1100 1200 4]

/-- The calls of a nested transaction. -/
def sample_inner_calls : List TxCall :=
  [TxCall.zalloc 8, TxCall.memcpy 1102 1210 4, TxCall.free { pool := 1000, off := 300 }]

/-- The sentinel of the sample list. -/
def sample_h : PMEMoid := { pool := 1000, off := 64 }

/-- The first item of the sample list. -/
def sample_a : PMEMoid := { pool := 1000, off := 128 }

/-- The second item of the sample list. -/
def sample_b : PMEMoid := { pool := 1000, off := 192 }

/-- A node that is not in the sample list. -/
def sample_x : PMEMoid := { pool := 1000, off := 256 }

/-- A sample state that holds the list `h`, `a`, `b` in the sample pool: the
linkage of a node is at the address of the node. -/
def sample_list_state : State :=
  { sample_state with
    mem := store_oids (fun _ => 0)
      [(1064, sample_a), (1080, sample_b), (1128, sample_b), (1144, sample_h),
       (1192, sample_h), (1208, sample_a)] }

/-- Automatic variables of a call of a list function, on the stack. -/
def sample_auto : Auto :=
  { env := 1, head := 9000, new := 9016, prev := 9032, next := 9048 }

/-- Automatic variables of a second call. -/
def sample_auto2 : Auto :=
  { env := 2, head := 9100, new := 9116, prev := 9132, next := 9148 }

/-- The sample environment with an allocator that hands out offsets behind the
pool's own data: the `k`-th `pmalloc` returns the offset `8192 + 64 * k`. -/
def sample_heap_env : Env :=
  { sample_env with pmalloc_off := fun k => 8192 + 64 * k }

/-- The sample state before any pool is open. -/
def sample_boot : State :=
  { sample_state with pools := fun _ => none }

/-- Sample constants and answers for a call of `pmemobj_pool_open`: `stat` and
`open` succeed, the file is mapped at 1000, the signature is the characters of
`PMEMOBJ`, the checksum of a header is the sum of its fields. -/
def sample_open : OpenEnv :=
  { OBJ_HDR_SIG := [80, 77, 69, 77, 79, 66, 74],
    POOL_HDR_SIG_LEN := 8,
    OBJ_FORMAT_MAJOR := 1,
    OBJ_FORMAT_COMPAT := 0,
    OBJ_FORMAT_INCOMPAT := 0,
    OBJ_FORMAT_RO_COMPAT := 0,
    stat_errno := none,
    open_errno := none,
    util_map := some 1000,
    util_map_errno := 12,
    checksum := fun h => h.signature.sum + h.major + h.compat_features + h.incompat_features +
      h.ro_compat_features + h.uuid + h.crtime,
    uuid := 77,
    time := 1000000 }

/-- The same constants for a later call, which maps the file at 5000. -/
def sample_reopen : OpenEnv :=
  { sample_open with util_map := some 5000, uuid := 78, time := 2000000 }

/-- A file of 2 MiB that has never held a pool: its header is all zeros; the
byte at offset `o` is `o % 5 + 1`. -/
def sample_file : File :=
  { st_size := 2097152, bytes := fun o => o % 5 + 1 }

/-- A file one byte short of 2 MiB. -/
def sample_small_file : File :=
  { st_size := 2097151, bytes := fun o => o % 5 + 1 }

/-- A file of 2 MiB with a valid header of another pool type (the characters of
`PMEMLOG`), whose checksum verifies. -/
def sample_log_file : File :=
  { st_size := 2097152,
    pop := { hdr := { signature := [80, 77, 69, 77, 76, 79, 71], major := 1, uuid := 5,
                      crtime := 900000, checksum := 900535 } } }

/-- A file of 2 MiB that held an object pool with a root object at the offset
500, and whose header checksum no longer verifies (it should be 900528). -/
def sample_damaged_file : File :=
  { st_size := 2097152,
    pop := { addr := 1000, size := 2097152, root := { pool := 1000, off := 500 },
             hdr := { signature := [80, 77, 69, 77, 79, 66, 74], major := 1, uuid := 5,
                      crtime := 900000, checksum := 1 } },
    mutexes := fun o => if o = 4112 then { runid := 3, pthreadp := some 0 } else {} }

/-- The sample environment in which `Malloc` never returns memory. -/
def sample_nomem_env : Env :=
  { sample_env with Malloc_ok := fun _ => false }

/-- The sample environment of a run in which `clock_gettime` failed and
`random()` returned 0. -/
def sample_zero_env : Env :=
  { sample_env with Runid := obj_init none 0 }

/-- The sample state after: begin P with the mutex at 2000, `memcpy` of 4 bytes
to 1100, begin T nested in P with the rwlock at 2100, `memcpy` of 4 bytes to
1102. -/
def sample_nested : State :=
  match (do
    let b1 ← pmemobj_tx_begin_lock sample_env sample_state 1000 none 2000
    let m1 ← pmemobj_memcpy_tid sample_env b1.1 b1.2 1100 1200 4
    let b2 ← pmemobj_tx_begin_wrlock sample_env m1.1 1000 none 2100
    let m2 ← pmemobj_memcpy_tid sample_env b2.1 b2.2 1102 1210 4
    pure m2.1 : Except Fault State) with
  | Except.ok s => s
  | Except.error _ => sample_state

/-- The state `sample_nested` after: begin of a third transaction nested in T,
allocation of 8 bytes. -/
def sample_nested3 : State :=
  match (do
    let b3 ← pmemobj_tx_begin sample_env sample_nested 1000 none
    let a3 ← pmemobj_alloc_tid sample_env b3.1 b3.2 8
    pure a3.1 : Except Fault State) with
  | Except.ok s => s
  | Except.error _ => sample_state

/-- The sample pool with the root object at the offset 8192. -/
def sample_log_pool : pmemobjpool :=
  { sample_pool with root := { pool := 1000, off := 8192 } }

/-- A sample state that holds a log of the test `obj_log_basic` in its root
object at 9192: the data are at 9808, the write offset is 40; the byte at the
address `a` is `a % 7` elsewhere. -/
def sample_log_state : State :=
  { sample_state with
    pools := fun p => if p = 1000 then some sample_log_pool else none,
    mem := store_bytes
      (store_bytes (store_oid (fun a => a % 7) 9192 { pool := 1000, off := 8808 }) 9208
        (le_bytes 1024 8)) 9216 (le_bytes 40 8) }

/-- The three open frames of `sample_nested3`, the innermost first, each with its
log, the newest entry first. -/
def sample_frames3 : List Frame :=
  [(2, { pool := 1000, next := some 1, head := some 4, tail := some 4 },
      [(4, ⟨op_t.TXOP_ALLOC, { addr := 532 }⟩)]),
   (1, { rwlockp := some 2100, pool := 1000, next := some 0, head := some 2, tail := some 3 },
      [(3, ⟨op_t.TXOP_SET, { addr := 1102, data := 516, len := 4 }⟩),
       (2, ⟨op_t.TXOP_ALLOC, { addr := 516 }⟩)]),
   (0, { mutexp := some 2000, pool := 1000, head := some 0, tail := some 1 },
      [(1, ⟨op_t.TXOP_SET, { addr := 1100, data := 500, len := 4 }⟩),
       (0, ⟨op_t.TXOP_ALLOC, { addr := 500 }⟩)])]

/-- The `struct pmemobjpool` of a second pool of 2 MiB, mapped at 5000000. -/
def sample_pool2 : pmemobjpool :=
  { addr := 5000000, size := 2097152, root := {} }

/-- The sample state with a second pool open, mapped at 5000000. -/
def sample_two_pools : State :=
  { sample_state with
    pools := fun p =>
      if p = 1000 then some sample_pool else if p = 5000000 then some sample_pool2 else none }

/-! ## The operation log: appending entries -/

theorem set_length_append {α : Type} (l : List α) (a b : α) :
    (l ++ [a]).set l.length b = l ++ [b] := by
  induction l with
  | nil => rfl
  | cons x xs ih => simp [List.set, ih]

theorem PrevPath.mono {h h1 : List txop} (hk : CellsKept h h1) :
    ∀ (l : List (Nat × LogEntry)) (p : Option Nat), PrevPath h p l → PrevPath h1 p l := by
  intro l
  induction l with
  | nil => intro p hp; exact hp
  | cons x rest ih =>
    intro p hp
    obtain ⟨hp1, c, hc, hop, hargs, hrest⟩ := hp
    obtain ⟨c1, hc1, e1, e2, e3⟩ := hk _ _ hc
    refine ⟨hp1, c1, hc1, e1.trans hop, e2.trans hargs, ?_⟩
    rw [e3]
    exact ih _ hrest

theorem PrevPath.lt {h : List txop} :
    ∀ (l : List (Nat × LogEntry)) (p : Option Nat), PrevPath h p l → ∀ x ∈ l, x.1 < h.length := by
  intro l
  induction l with
  | nil => intro p _ x hx; cases hx
  | cons y rest ih =>
    intro p hp x hx
    obtain ⟨_, c, hc, _, _, hrest⟩ := hp
    rcases List.mem_cons.1 hx with rfl | hx
    · exact (List.getElem?_eq_some_iff.1 hc).1
    · exact ih _ hrest x hx

theorem CellsKept_refl (h : List txop) : CellsKept h h :=
  fun _ c hc => ⟨c, hc, rfl, rfl, rfl⟩

theorem CellsKept_trans {h h1 h2 : List txop} (a : CellsKept h h1) (b : CellsKept h1 h2) :
    CellsKept h h2 := by
  intro q c hc
  obtain ⟨c1, hc1, e1, e2, e3⟩ := a q c hc
  obtain ⟨c2, hc2, f1, f2, f3⟩ := b q c1 hc1
  exact ⟨c2, hc2, f1.trans e1, f2.trans e2, f3.trans e3⟩

theorem SameFrame_refl (t : tx) : SameFrame t t := ⟨rfl, rfl, rfl, rfl, rfl, rfl⟩

theorem SameFrame_trans {t t1 t2 : tx} (a : SameFrame t t1) (b : SameFrame t1 t2) :
    SameFrame t t2 :=
  ⟨b.valid_env.trans a.valid_env, b.env.trans a.env, b.mutexp.trans a.mutexp,
   b.rwlockp.trans a.rwlockp, b.pool.trans a.pool, b.next.trans a.next⟩

theorem Same_refl (s : State) (tid : Nat) : Same s s tid :=
  ⟨rfl, rfl, rfl, rfl, rfl, rfl, rfl, fun _ _ => rfl, CellsKept_refl _, le_refl _⟩

theorem Same_trans {s s1 s2 : State} {tid : Nat} (a : Same s s1 tid) (b : Same s1 s2 tid) :
    Same s s2 tid :=
  ⟨b.pools.trans a.pools, b.cur.trans a.cur, b.mutexes.trans a.mutexes,
   b.rwlocks.trans a.rwlocks, b.npthread.trans a.npthread, b.errno.trans a.errno,
   b.txs_len.trans a.txs_len, fun j hj => (b.others j hj).trans (a.others j hj),
   CellsKept_trans a.kept b.kept, le_trans a.txops_len b.txops_len⟩

theorem CellsKept.append (h : List txop) (c : txop) : CellsKept h (h ++ [c]) := by
  intro q d hd
  have hq : q < h.length := (List.getElem?_eq_some_iff.1 hd).1
  exact ⟨d, by simp [List.getElem?_append_left, hq, hd], rfl, rfl, rfl⟩

theorem CellsKept.set_next (h : List txop) (q : Nat) (cq : txop) (hq : h[q]? = some cq)
    (n : Option Nat) : CellsKept h (h.set q { cq with next := n }) := by
  intro r d hd
  by_cases hrq : q = r
  · subst hrq
    have hlt : q < h.length := (List.getElem?_eq_some_iff.1 hd).1
    rw [hq] at hd
    cases hd
    exact ⟨{ cq with next := n }, by simp [hlt], rfl, rfl, rfl⟩
  · exact ⟨d, by simp [hrq, hd], rfl, rfl, rfl⟩

/-- Appending a fresh entry to the log of a frame. -/
theorem log_add_fresh (s : State) (tid : Nat) (t : tx) (l : List (Nat × LogEntry)) (c : txop)
    (hL : LogOf s tid t l) (hc : c.prev = none) :
    ∃ s1 t1, pmemobj_log_add { s with txops := s.txops ++ [c] } tid s.txops.length = Except.ok s1 ∧
      LogOf s1 tid t1 ((s.txops.length, ⟨c.op, c.args⟩) :: l) ∧ SameFrame t t1 ∧ Same s s1 tid ∧
      s1.mem = s.mem ∧ s1.trace = s.trace ∧ s1.npmalloc = s.npmalloc ∧ s1.nmalloc = s.nmalloc ∧
      s1.txops.length = s.txops.length + 1 := by
  obtain ⟨htx, hpath, hhead, hnd⟩ := hL
  have htid : tid < s.txs.length := (List.getElem?_eq_some_iff.1 htx).1
  have hlt := PrevPath.lt l _ hpath
  cases l with
  | nil =>
    have hh : t.head = none := by simpa using hhead
    have htl : t.tail = none := hpath
    refine ⟨{ s with txops := s.txops ++ [c],
                     txs := s.txs.set tid (some { t with head := some s.txops.length,
                                                           tail := some s.txops.length }) },
      { t with head := some s.txops.length, tail := some s.txops.length }, ?_, ?_, ?_, ?_, ?_⟩
    · simp [pmemobj_log_add, tx_get, htx, hh, tx_put, bind, Except.bind, pure, Except.pure, htid]
    · refine ⟨by simp [htid], ?_, by simp, by simp⟩
      exact ⟨rfl, c, by simp, rfl, rfl, by rw [hc]; rfl⟩
    · exact ⟨rfl, rfl, rfl, rfl, rfl, rfl⟩
    · exact ⟨rfl, rfl, rfl, rfl, rfl, rfl, by simp, fun j hj => by simp [Ne.symm hj],
        CellsKept.append _ _, by simp⟩
    · simp
  | cons x rest =>
    obtain ⟨htl, cq, hcq, hop, hargs, hrest⟩ := hpath
    have hxlt : x.1 < s.txops.length := hlt x (List.mem_cons_self _ _)
    have hh : ∃ hd, t.head = some hd := by
      rw [hhead]
      cases hgl : (x :: rest).getLast? with
      | none => simp at hgl
      | some y => exact ⟨y.1, rfl⟩
    obtain ⟨hd, hhd⟩ := hh
    have hk : CellsKept s.txops (((s.txops ++ [c]).set x.1 { cq with next := some s.txops.length }).set
        s.txops.length { c with prev := some x.1 }) := by
      intro r d hdr
      have hr : r < s.txops.length := (List.getElem?_eq_some_iff.1 hdr).1
      by_cases hrx : x.1 = r
      · subst hrx
        rw [hcq] at hdr
        cases hdr
        exact ⟨{ cq with next := some s.txops.length }, by
          simp [ne_of_gt hr, List.getElem?_append_left, hr], rfl, rfl, rfl⟩
      · exact ⟨d, by simp [ne_of_gt hr, hrx, List.getElem?_append_left, hr, hdr], rfl, rfl, rfl⟩
    refine ⟨{ s with txops := ((s.txops ++ [c]).set x.1 { cq with next := some s.txops.length }).set
                         s.txops.length { c with prev := some x.1 },
                     txs := s.txs.set tid (some { t with tail := some s.txops.length }) },
      { t with tail := some s.txops.length }, ?_, ?_, ?_, ?_, ?_⟩
    · simp [pmemobj_log_add, tx_get, htx, hhd, htl, tx_put, txop_get, txop_put, nonnull, bind,
        Except.bind, pure, Except.pure, htid, List.getElem?_append_left, hxlt, hcq, ne_of_lt hxlt]
    · refine ⟨by simp [htid], ?_, ?_, ?_⟩
      · refine ⟨rfl, { c with prev := some x.1 }, by simp, rfl, rfl, ?_⟩
        exact PrevPath.mono hk _ _ ⟨rfl, cq, hcq, hop, hargs, hrest⟩
      · simpa [List.getLast?_cons_cons] using hhead
      · rw [List.map_cons, List.nodup_cons]
        refine ⟨?_, hnd⟩
        intro hmem
        obtain ⟨y, hy, hy1⟩ := List.mem_map.1 hmem
        have := hlt y hy
        simp only at hy1
        omega
    · exact ⟨rfl, rfl, rfl, rfl, rfl, rfl⟩
    · exact ⟨rfl, rfl, rfl, rfl, rfl, rfl, by simp, fun j hj => by simp [Ne.symm hj], hk, by simp⟩
    · simp

theorem log_add_prepared (s : State) (tid : Nat) (t : tx) (l : List (Nat × LogEntry)) (c : txop)
    (hL : LogOf s tid t l) (hc : c.prev = none) :
    ∃ s1 t1, pmemobj_log_add { s with nmalloc := s.nmalloc + 1, txops := s.txops ++ [c] } tid
        s.txops.length = Except.ok s1 ∧
      LogOf s1 tid t1 ((s.txops.length, ⟨c.op, c.args⟩) :: l) ∧ SameFrame t t1 ∧ Same s s1 tid ∧
      s1.mem = s.mem ∧ s1.trace = s.trace ∧ s1.npmalloc = s.npmalloc ∧
      s1.txops.length = s.txops.length + 1 := by
  have hL1 : LogOf { s with nmalloc := s.nmalloc + 1 } tid t l := hL
  obtain ⟨s1, t1, h1, h2, h3, h4, h5, h6, h7, _, h9⟩ := log_add_fresh _ tid t l c hL1 hc
  exact ⟨s1, t1, h1, h2, h3,
    ⟨h4.pools, h4.cur, h4.mutexes, h4.rwlocks, h4.npthread, h4.errno, h4.txs_len, h4.others,
      h4.kept, h4.txops_len⟩, h5, h6, h7, h9⟩

theorem log_add_free_spec (E : Env) (s : State) (tid : Nat) (t : tx) (l : List (Nat × LogEntry))
    (addr : Nat) (hM : ∀ k, E.Malloc_ok k = true) (hL : LogOf s tid t l) :
    ∃ s1 t1, pmemobj_log_add_free E s tid addr = Except.ok s1 ∧
      LogOf s1 tid t1 ((s.txops.length, ⟨op_t.TXOP_FREE, { addr := addr }⟩) :: l) ∧
      SameFrame t t1 ∧ Same s s1 tid ∧
      s1.mem = s.mem ∧ s1.trace = s.trace ∧ s1.npmalloc = s.npmalloc ∧
      s1.txops.length = s.txops.length + 1 := by
  have h := log_add_prepared s tid t l { op := op_t.TXOP_FREE, args := { addr := addr } } hL rfl
  simpa [pmemobj_log_add_free, pmemobj_log_prepare_free, zalloc_txop, Malloc, hM, nonnull,
    txop_get, txop_put, bind, Except.bind, pure, Except.pure, set_length_append] using h

theorem log_add_set_spec (E : Env) (s : State) (tid : Nat) (t : tx) (l : List (Nat × LogEntry))
    (addr data len : Nat) (hM : ∀ k, E.Malloc_ok k = true) (hL : LogOf s tid t l) :
    ∃ s1 t1, pmemobj_log_add_set E s tid addr data len = Except.ok s1 ∧
      LogOf s1 tid t1
        ((s.txops.length, ⟨op_t.TXOP_SET, { addr := addr, data := data, len := len }⟩) :: l) ∧
      SameFrame t t1 ∧ Same s s1 tid ∧
      s1.mem = s.mem ∧ s1.trace = s.trace ∧ s1.npmalloc = s.npmalloc ∧
      s1.txops.length = s.txops.length + 1 := by
  have h := log_add_prepared s tid t l
    { op := op_t.TXOP_SET, args := { addr := addr, data := data, len := len } } hL rfl
  simpa [pmemobj_log_add_set, pmemobj_log_prepare_set, zalloc_txop, Malloc, hM, nonnull,
    txop_get, txop_put, bind, Except.bind, pure, Except.pure, set_length_append] using h

theorem log_add_alloc_spec (E : Env) (s : State) (tid : Nat) (t : tx) (l : List (Nat × LogEntry))
    (hM : ∀ k, E.Malloc_ok k = true) (hL : LogOf s tid t l) :
    ∃ s1 t1, pmemobj_log_add_alloc E s tid = Except.ok (s1, s.txops.length) ∧
      LogOf s1 tid t1 ((s.txops.length, ⟨op_t.TXOP_ALLOC, { addr := 0 }⟩) :: l) ∧
      SameFrame t t1 ∧ Same s s1 tid ∧
      s1.mem = s.mem ∧ s1.trace = s.trace ∧ s1.npmalloc = s.npmalloc ∧
      s1.txops.length = s.txops.length + 1 := by
  obtain ⟨s1, t1, h1, h⟩ := log_add_prepared s tid t l
    { op := op_t.TXOP_ALLOC, args := { addr := 0 } } hL rfl
  refine ⟨s1, t1, ?_, h⟩
  simp [pmemobj_log_add_alloc, pmemobj_log_prepare_alloc, zalloc_txop, Malloc, hM, nonnull,
    txop_get, txop_put, bind, Except.bind, pure, Except.pure, set_length_append]
  rw [h1]

theorem PrevPath.congr {h h1 : List txop} :
    ∀ (l : List (Nat × LogEntry)) (p : Option Nat), (∀ x ∈ l, h1[x.1]? = h[x.1]?) →
      PrevPath h p l → PrevPath h1 p l := by
  intro l
  induction l with
  | nil => intro p _ hp; exact hp
  | cons x rest ih =>
    intro p hsame hp
    obtain ⟨hp1, c, hc, hop, hargs, hrest⟩ := hp
    refine ⟨hp1, c, ?_, hop, hargs, ih _ (fun y hy => hsame y (List.mem_cons_of_mem _ hy)) hrest⟩
    rw [hsame x (List.mem_cons_self _ _)]
    exact hc

theorem getLast_fst_cons (n : Nat) (e e1 : LogEntry) (l : List (Nat × LogEntry)) :
    Option.map Prod.fst ((n, e) :: l).getLast? = Option.map Prod.fst ((n, e1) :: l).getLast? := by
  cases l with
  | nil => rfl
  | cons x rest => simp [List.getLast?_cons_cons]

theorem alloc_pmalloc_spec (E : Env) (s : State) (tid : Nat) (t : tx)
    (l : List (Nat × LogEntry)) (pool size : Nat)
    (hM : ∀ k, E.Malloc_ok k = true) (hL : LogOf s tid t l) :
    ∃ s1 s2 t1 c2, pmemobj_log_add_alloc E s tid = Except.ok (s1, s.txops.length) ∧
      pmalloc_into E s1 pool s.txops.length size = Except.ok s2 ∧
      tx_get s1 tid = Except.ok t1 ∧ tx_get s2 tid = Except.ok t1 ∧
      txop_get s2 s.txops.length = Except.ok c2 ∧ c2.args.addr = E.pmalloc_off s.npmalloc ∧
      LogOf s2 tid t1
        ((s.txops.length, ⟨op_t.TXOP_ALLOC, { addr := E.pmalloc_off s.npmalloc }⟩) :: l) ∧
      SameFrame t t1 ∧ Same s s2 tid ∧ s2.mem = s.mem ∧
      s2.trace = s.trace ++ [Event.pmalloc pool size (E.pmalloc_off s.npmalloc)] ∧
      s2.npmalloc = s.npmalloc + 1 ∧ s2.txops.length = s.txops.length + 1 := by
  obtain ⟨s1, t1, h1, hL1, hF, hS, hmem, htr, hnp, hlen⟩ := log_add_alloc_spec E s tid t l hM hL
  obtain ⟨htx1, hpath1, hhead1, hnd1⟩ := hL1
  obtain ⟨htl, c, hc, hop, hargs, hrest⟩ := hpath1
  have hn : s.txops.length < s1.txops.length := by omega
  have hnotin : ∀ x ∈ l, x.1 ≠ s.txops.length := by
    intro x hx hxe
    rw [List.map_cons, List.nodup_cons] at hnd1
    exact hnd1.1 (List.mem_map.2 ⟨x, hx, hxe⟩)
  refine ⟨s1, { s1 with npmalloc := s1.npmalloc + 1,
                        trace := s1.trace ++ [Event.pmalloc pool size (E.pmalloc_off s1.npmalloc)],
                        txops := s1.txops.set s.txops.length
                          { c with args := { c.args with addr := E.pmalloc_off s1.npmalloc } } },
    t1, { c with args := { c.args with addr := E.pmalloc_off s1.npmalloc } },
    h1, ?_, ?_, ?_, ?_, ?_, ?_, hF, ?_, hmem, ?_, ?_, ?_⟩
  · simp at hc
    simp [pmalloc_into, pmalloc, txop_get, txop_put, hc, bind, Except.bind, pure, Except.pure]
  · simp [tx_get, htx1]
  · simp [tx_get, htx1]
  · simp [txop_get, hn]
  · simp [hnp]
  · refine ⟨htx1, ?_, hhead1.trans (getLast_fst_cons _ _ _ _), hnd1⟩
    refine ⟨htl, { c with args := { c.args with addr := E.pmalloc_off s1.npmalloc } },
      by simp [hn], hop, ?_, ?_⟩
    · simp at hargs
      simp [hargs, hnp]
    · apply PrevPath.congr l _ _ hrest
      intro x hx
      simp [Ne.symm (hnotin x hx)]
  · refine ⟨hS.pools, hS.cur, hS.mutexes, hS.rwlocks, hS.npthread, hS.errno, hS.txs_len,
      hS.others, ?_, by simp; omega⟩
    intro q d hd
    have hq : q < s.txops.length := (List.getElem?_eq_some_iff.1 hd).1
    obtain ⟨d1, hd1, e⟩ := hS.kept q d hd
    exact ⟨d1, by simp [ne_of_gt hq, hd1], e⟩
  · simp [htr, hnp]
  · simp [hnp]
  · simp [hlen]

theorem alloc_tid_spec (E : Env) (s : State) (tid : Nat) (t : tx) (l : List (Nat × LogEntry))
    (P : pmemobjpool) (size : Nat) (hM : ∀ k, E.Malloc_ok k = true) (hL : LogOf s tid t l)
    (hP : s.pools t.pool = some P) :
    ∃ s1 t1, pmemobj_alloc_tid E s tid size =
        Except.ok (s1, { pool := P.addr, off := E.pmalloc_off s.npmalloc }) ∧
      LogOf s1 tid t1
        ((s.txops.length, ⟨op_t.TXOP_ALLOC, { addr := E.pmalloc_off s.npmalloc }⟩) :: l) ∧
      SameFrame t t1 ∧ Same s s1 tid ∧ s1.mem = s.mem ∧
      s1.trace = s.trace ++ [Event.pmalloc t.pool size (E.pmalloc_off s.npmalloc)] ∧
      s1.npmalloc = s.npmalloc + 1 := by
  obtain ⟨s1, s2, t1, c2, h1, h2, h3, h4, h5, h6, hL2, hF, hS, hmem, htr, hnp, hlen⟩ :=
    alloc_pmalloc_spec E s tid t l t.pool size hM hL
  refine ⟨s2, t1, ?_, hL2, hF, hS, hmem, htr, hnp⟩
  simp [pmemobj_alloc_tid, tx_get, hL.1, pool_get, hP, h1, h2, h5, h6, bind, Except.bind, pure,
    Except.pure]

theorem zalloc_tid_spec (E : Env) (s : State) (tid : Nat) (t : tx) (l : List (Nat × LogEntry))
    (P : pmemobjpool) (size : Nat) (hM : ∀ k, E.Malloc_ok k = true) (hL : LogOf s tid t l)
    (hP : s.pools t.pool = some P) :
    ∃ s1 t1, pmemobj_zalloc_tid E s tid size =
        Except.ok (s1, { pool := P.addr, off := E.pmalloc_off s.npmalloc }) ∧
      LogOf s1 tid t1
        ((s.txops.length, ⟨op_t.TXOP_ALLOC, { addr := E.pmalloc_off s.npmalloc }⟩) :: l) ∧
      SameFrame t t1 ∧ Same s s1 tid ∧
      s1.mem = memset s.mem ((P.addr + E.pmalloc_off s.npmalloc) % U64) 0 size ∧
      s1.trace = s.trace ++ [Event.pmalloc t.pool size (E.pmalloc_off s.npmalloc)] ∧
      s1.npmalloc = s.npmalloc + 1 := by
  obtain ⟨s1, s2, t1, c2, h1, h2, h3, h4, h5, h6, hL2, hF, hS, hmem, htr, hnp, hlen⟩ :=
    alloc_pmalloc_spec E s tid t l t.pool size hM hL
  refine ⟨{ s2 with mem := memset s2.mem ((P.addr + E.pmalloc_off s.npmalloc) % U64) 0 size },
    t1, ?_, hL2, hF, ?_, by simp [hmem], htr, hnp⟩
  · simp [pmemobj_zalloc_tid, tx_get, hL.1, pool_get, hP, h1, h2, h5, h6, bind, Except.bind,
      pure, Except.pure]
  · exact ⟨hS.pools, hS.cur, hS.mutexes, hS.rwlocks, hS.npthread, hS.errno, hS.txs_len,
      hS.others, hS.kept, hS.txops_len⟩

theorem strdup_tid_spec (E : Env) (s : State) (tid : Nat) (t : tx) (l : List (Nat × LogEntry))
    (P : pmemobjpool) (str : List Nat) (hM : ∀ k, E.Malloc_ok k = true) (hL : LogOf s tid t l)
    (hP : s.pools t.pool = some P) :
    ∃ s1 t1, pmemobj_strdup_tid E s tid str =
        Except.ok (s1, { pool := P.addr, off := E.pmalloc_off s.npmalloc }) ∧
      LogOf s1 tid t1
        ((s.txops.length, ⟨op_t.TXOP_ALLOC, { addr := E.pmalloc_off s.npmalloc }⟩) :: l) ∧
      SameFrame t t1 ∧ Same s s1 tid ∧
      s1.mem = store_bytes s.mem ((P.addr + E.pmalloc_off s.npmalloc) % U64) (str ++ [0]) ∧
      s1.trace = s.trace ++ [Event.pmalloc t.pool (str.length + 1) (E.pmalloc_off s.npmalloc)] ∧
      s1.npmalloc = s.npmalloc + 1 := by
  obtain ⟨s1, s2, t1, c2, h1, h2, h3, h4, h5, h6, hL2, hF, hS, hmem, htr, hnp, hlen⟩ :=
    alloc_pmalloc_spec E s tid t l t.pool (str.length + 1) hM hL
  let m1 := store_bytes s2.mem ((P.addr + E.pmalloc_off s.npmalloc) % U64) (str ++ [0])
  refine ⟨{ s2 with mem := m1 }, t1, ?_, hL2, hF, ?_, by simp [m1, hmem], htr, hnp⟩
  · simp [pmemobj_strdup_tid, tx_get, hL.1, pool_get, hP, h1, h2, h5, h6, bind, Except.bind,
      pure, Except.pure]
  · exact ⟨hS.pools, hS.cur, hS.mutexes, hS.rwlocks, hS.npthread, hS.errno, hS.txs_len,
      hS.others, hS.kept, hS.txops_len⟩

theorem free_tid_spec (E : Env) (s : State) (tid : Nat) (t : tx) (l : List (Nat × LogEntry))
    (oid : PMEMoid) (hM : ∀ k, E.Malloc_ok k = true) (hL : LogOf s tid t l) :
    ∃ s1 t1, pmemobj_free_tid E s tid oid = Except.ok (s1, 0) ∧
      LogOf s1 tid t1 ((s.txops.length, ⟨op_t.TXOP_FREE, { addr := oid.off }⟩) :: l) ∧
      SameFrame t t1 ∧ Same s s1 tid ∧ s1.mem = s.mem ∧ s1.trace = s.trace ∧
      s1.npmalloc = s.npmalloc := by
  obtain ⟨s1, t1, h1, hL1, hF, hS, hmem, htr, hnp, _⟩ := log_add_free_spec E s tid t l oid.off hM hL
  exact ⟨s1, t1, by simp [pmemobj_free_tid, h1, bind, Except.bind, pure, Except.pure],
    hL1, hF, hS, hmem, htr, hnp⟩

theorem memcpy_tid_spec (E : Env) (s : State) (tid : Nat) (t : tx) (l : List (Nat × LogEntry))
    (P : pmemobjpool) (dstp srcp size : Nat) (hM : ∀ k, E.Malloc_ok k = true)
    (hL : LogOf s tid t l) (hP : s.pools t.pool = some P) :
    ∃ s1 t1, pmemobj_memcpy_tid E s tid dstp srcp size = Except.ok (s1, 0) ∧
      LogOf s1 tid t1
        ((s.txops.length + 1, ⟨op_t.TXOP_SET,
            { addr := dstp, data := E.pmalloc_off s.npmalloc, len := size }⟩) ::
         (s.txops.length, ⟨op_t.TXOP_ALLOC, { addr := E.pmalloc_off s.npmalloc }⟩) :: l) ∧
      SameFrame t t1 ∧ Same s s1 tid ∧
      s1.mem = memcpy (memcpy s.mem ((P.addr + E.pmalloc_off s.npmalloc) % U64) dstp size)
        dstp srcp size ∧
      s1.trace = s.trace ++ [Event.pmalloc t.pool size (E.pmalloc_off s.npmalloc)] ∧
      s1.npmalloc = s.npmalloc + 1 := by
  obtain ⟨s1, s2, t1, c2, h1, h2, h3, h4, h5, h6, hL2, hF, hS, hmem, htr, hnp, hlen⟩ :=
    alloc_pmalloc_spec E s tid t l t.pool size hM hL
  have hL2' : LogOf { s2 with mem := memcpy s2.mem ((P.addr + c2.args.addr) % U64) dstp size }
      tid t1 ((s.txops.length, ⟨op_t.TXOP_ALLOC, { addr := E.pmalloc_off s.npmalloc }⟩) :: l) :=
    hL2
  obtain ⟨s3, t3, g1, gL, gF, gS, gmem, gtr, gnp, glen⟩ :=
    log_add_set_spec E _ tid t1 _ dstp c2.args.addr size hM hL2'
  have hP2 : s2.pools t.pool = some P := by rw [hS.pools]; exact hP
  refine ⟨{ s3 with mem := memcpy s3.mem dstp srcp size }, t3, ?_, ?_, SameFrame_trans hF gF, ?_, ?_, ?_, ?_⟩
  · simp [pmemobj_memcpy_tid, h1, h3, hF.pool, h2, h4, pool_get, hP2, h5, bind, Except.bind,
      pure, Except.pure]
    rw [g1]
  · simp only [hlen, h6] at gL
    exact gL
  · have g : Same s2 s3 tid := ⟨gS.pools, gS.cur, gS.mutexes, gS.rwlocks, gS.npthread, gS.errno,
      gS.txs_len, gS.others, gS.kept, gS.txops_len⟩
    have h := Same_trans hS g
    exact ⟨h.pools, h.cur, h.mutexes, h.rwlocks, h.npthread, h.errno, h.txs_len, h.others,
      h.kept, h.txops_len⟩
  · simp [gmem, hmem, h6]
  · simp [gtr, htr]
  · simp [gnp, hnp]

theorem run_call_spec (E : Env) (s : State) (tid : Nat) (t : tx) (l : List (Nat × LogEntry))
    (P : pmemobjpool) (c : TxCall) (hM : ∀ k, E.Malloc_ok k = true) (hL : LogOf s tid t l)
    (hP : s.pools t.pool = some P) :
    ∃ s1 t1 new, run_call E tid s c = Except.ok s1 ∧ LogOf s1 tid t1 (new ++ l) ∧
      new.map Prod.snd = (call_entries E s.npmalloc c).reverse ∧
      (∀ x ∈ new, s.txops.length ≤ x.1) ∧ SameFrame t t1 ∧ Same s s1 tid ∧
      s1.mem = call_mem E P.addr s.npmalloc s.mem c ∧
      s1.trace = s.trace ++ call_events E t.pool s.npmalloc c ∧
      s1.npmalloc = s.npmalloc + c.npm := by
  cases c with
  | alloc size =>
    obtain ⟨s1, t1, h1, hL1, hF, hS, hmem, htr, hnp⟩ := alloc_tid_spec E s tid t l P size hM hL hP
    exact ⟨s1, t1, [_], by simp [run_call, h1, bind, Except.bind, pure, Except.pure], hL1, rfl,
      by simp, hF, hS, hmem, htr, hnp⟩
  | zalloc size =>
    obtain ⟨s1, t1, h1, hL1, hF, hS, hmem, htr, hnp⟩ := zalloc_tid_spec E s tid t l P size hM hL hP
    exact ⟨s1, t1, [_], by simp [run_call, h1, bind, Except.bind, pure, Except.pure], hL1, rfl,
      by simp, hF, hS, hmem, htr, hnp⟩
  | strdup str =>
    obtain ⟨s1, t1, h1, hL1, hF, hS, hmem, htr, hnp⟩ := strdup_tid_spec E s tid t l P str hM hL hP
    exact ⟨s1, t1, [_], by simp [run_call, h1, bind, Except.bind, pure, Except.pure], hL1, rfl,
      by simp, hF, hS, hmem, htr, hnp⟩
  | free oid =>
    obtain ⟨s1, t1, h1, hL1, hF, hS, hmem, htr, hnp⟩ := free_tid_spec E s tid t l oid hM hL
    exact ⟨s1, t1, [_], by simp [run_call, h1, bind, Except.bind, pure, Except.pure], hL1, rfl,
      by simp, hF, hS, hmem, by simpa [call_events] using htr, hnp⟩
  | memcpy dstp srcp size =>
    obtain ⟨s1, t1, h1, hL1, hF, hS, hmem, htr, hnp⟩ :=
      memcpy_tid_spec E s tid t l P dstp srcp size hM hL hP
    exact ⟨s1, t1, [_, _], by simp [run_call, h1, bind, Except.bind, pure, Except.pure], hL1, rfl,
      by simp, hF, hS, hmem, htr, hnp⟩

theorem run_calls_spec (E : Env) (tid : Nat) (P : pmemobjpool) (hM : ∀ k, E.Malloc_ok k = true) :
    ∀ (cs : List TxCall) (s : State) (t : tx) (l : List (Nat × LogEntry)),
      LogOf s tid t l → s.pools t.pool = some P →
      ∃ s1 t1 new, run_calls E tid cs s = Except.ok s1 ∧ LogOf s1 tid t1 (new ++ l) ∧
        new.map Prod.snd = (calls_entries E s.npmalloc cs).reverse ∧
        (∀ x ∈ new, s.txops.length ≤ x.1) ∧ SameFrame t t1 ∧ Same s s1 tid ∧
        s1.mem = calls_mem E P.addr s.npmalloc s.mem cs ∧
        s1.trace = s.trace ++ calls_events E t.pool s.npmalloc cs ∧
        s1.npmalloc = s.npmalloc + calls_npm cs := by
  intro cs
  induction cs with
  | nil =>
    intro s t l hL _
    exact ⟨s, t, [], rfl, hL, rfl, by simp, SameFrame_refl _, Same_refl _ _, rfl,
      by simp [calls_events], rfl⟩
  | cons c cs ih =>
    intro s t l hL hP
    obtain ⟨s1, t1, new1, h1, hL1, hE1, hB1, hF1, hS1, hmem1, htr1, hnp1⟩ :=
      run_call_spec E s tid t l P c hM hL hP
    have hP1 : s1.pools t1.pool = some P := by rw [hS1.pools, hF1.pool]; exact hP
    obtain ⟨s2, t2, new2, h2, hL2, hE2, hB2, hF2, hS2, hmem2, htr2, hnp2⟩ :=
      ih s1 t1 (new1 ++ l) hL1 hP1
    refine ⟨s2, t2, new2 ++ new1, ?_, ?_, ?_, ?_, SameFrame_trans hF1 hF2, Same_trans hS1 hS2, ?_, ?_, ?_⟩
    · simp [run_calls, h1, h2, bind, Except.bind]
    · simpa using hL2
    · simp [calls_entries, hE1, hE2, hnp1]
    · intro x hx
      rcases List.mem_append.1 hx with hx | hx
      · exact le_trans hS1.txops_len (hB2 x hx)
      · exact hB1 x hx
    · simp [calls_mem, hmem2, hmem1, hnp1]
    · simp [calls_events, htr2, htr1, hnp1, hF1.pool]
    · simp [calls_npm, hnp2, hnp1]; omega

/-! ## The commit and abort fan-outs -/

theorem txop_loop_spec (actions : op_t → Action) (tid : Nat) (f : State → LogEntry → State)
    (Q : State → Prop)
    (hact : ∀ s e, Q s → actions e.op s tid e.args = Except.ok (f s e) ∧ Q (f s e) ∧
      (f s e).txops = s.txops) :
    ∀ (l : List (Nat × LogEntry)) (fuel : Nat) (p : Option Nat) (s : State), Q s →
      PrevPath s.txops p l → l.length ≤ fuel →
      txop_loop actions tid fuel p s = Except.ok ((l.map Prod.snd).foldl f s) := by
  intro l
  induction l with
  | nil =>
    intro fuel p s _ hp _
    have hp0 : p = none := hp
    subst hp0
    cases fuel <;> rfl
  | cons x rest ih =>
    intro fuel p s hQ hp hlen
    obtain ⟨hp1, c, hc, hop, hargs, hrest⟩ := hp
    subst hp1
    cases fuel with
    | zero => simp at hlen
    | succ k =>
      obtain ⟨ha, hQ1, htx⟩ := hact s x.2 hQ
      have hc1 : (f s x.2).txops[x.1]? = some c := by rw [htx]; exact hc
      have hrest1 : PrevPath (f s x.2).txops c.prev rest := by rw [htx]; exact hrest
      have hk : rest.length ≤ k := by simpa using hlen
      have := ih k c.prev (f s x.2) hQ1 hrest1 hk
      simp [txop_loop, txop_get, hc, hop, hargs, ha, hc1, this, bind, Except.bind]

theorem onabort_step (tid : Nat) (t : tx) (P : pmemobjpool) (s : State) (e : LogEntry)
    (hQ : s.txs[tid]? = some (some t) ∧ s.pools t.pool = some P) :
    onabort_funcs e.op s tid e.args = Except.ok (abort_step P.addr t.pool s e) ∧
      ((abort_step P.addr t.pool s e).txs[tid]? = some (some t) ∧
        (abort_step P.addr t.pool s e).pools t.pool = some P) ∧
      (abort_step P.addr t.pool s e).txops = s.txops := by
  refine ⟨?_, hQ, rfl⟩
  obtain ⟨op, args⟩ := e
  cases op <;>
    simp [onabort_funcs, pmemobj_txop_onabort_alloc, pmemobj_txop_onabort_free,
      pmemobj_txop_onabort_set, abort_step, abort_mem, abort_events, tx_get, pool_get, hQ.1, hQ.2,
      pfree, bind, Except.bind, pure, Except.pure]

theorem oncommit_step (tid : Nat) (t : tx) (s : State) (e : LogEntry)
    (hQ : s.txs[tid]? = some (some t)) :
    oncommit_funcs e.op s tid e.args = Except.ok (commit_step t.pool s e) ∧
      (commit_step t.pool s e).txs[tid]? = some (some t) ∧
      (commit_step t.pool s e).txops = s.txops := by
  refine ⟨?_, hQ, rfl⟩
  obtain ⟨op, args⟩ := e
  cases op <;>
    simp [oncommit_funcs, pmemobj_txop_oncommit_alloc, pmemobj_txop_oncommit_free,
      pmemobj_txop_oncommit_set, commit_step, commit_events, tx_get, hQ,
      pfree, bind, Except.bind, pure, Except.pure]

theorem nodup_length_le (ps : List Nat) (n : Nat) (hnd : ps.Nodup) (hlt : ∀ p ∈ ps, p < n) :
    ps.length ≤ n := by
  have hsub : ps ⊆ List.range n := fun p hp => List.mem_range.2 (hlt p hp)
  have := (List.subperm_of_subset hnd hsub).length_le
  simpa using this

theorem LogOf.length_le {s : State} {tid : Nat} {t : tx} {l : List (Nat × LogEntry)}
    (hL : LogOf s tid t l) : l.length ≤ s.txops.length := by
  obtain ⟨_, hpath, _, hnd⟩ := hL
  have := nodup_length_le (l.map Prod.fst) s.txops.length hnd (by
    intro p hp
    obtain ⟨x, hx, rfl⟩ := List.mem_map.1 hp
    exact PrevPath.lt l _ hpath x hx)
  simpa using this

/-- The abort fan-out on a top-level frame. -/
theorem abort_action_top (s : State) (tid : Nat) (t : tx) (l : List (Nat × LogEntry))
    (P : pmemobjpool) (hL : LogOf s tid t l) (hnext : t.next = none)
    (hP : s.pools t.pool = some P) :
    pmemobj_tx_action_tid s tid onabort_funcs =
      Except.ok ({ (l.map Prod.snd).foldl (abort_step P.addr t.pool) s with
        txs := s.txs.set tid none, Curthread_txinfop := none }, 0) := by
  have hloop := txop_loop_spec onabort_funcs tid (abort_step P.addr t.pool)
    (fun s => s.txs[tid]? = some (some t) ∧ s.pools t.pool = some P)
    (fun s e hQ => onabort_step tid t P s e hQ) l s.txops.length t.tail s ⟨hL.1, hP⟩ hL.2.1
    hL.length_le
  have htxs : ∀ (es : List LogEntry) (s0 : State),
      (es.foldl (abort_step P.addr t.pool) s0).txs = s0.txs := by
    intro es
    induction es with
    | nil => intro s0; rfl
    | cons e es ih => intro s0; simp [List.foldl, ih, abort_step]
  simp [pmemobj_tx_action_tid, tx_get, hL.1, hnext, hloop, htxs, bind, Except.bind, pure,
    Except.pure]

/-- The commit fan-out on a top-level frame. -/
theorem commit_action_top (s : State) (tid : Nat) (t : tx) (l : List (Nat × LogEntry))
    (hL : LogOf s tid t l) (hnext : t.next = none) :
    pmemobj_tx_action_tid s tid oncommit_funcs =
      Except.ok ({ (l.map Prod.snd).foldl (commit_step t.pool) s with
        txs := s.txs.set tid none, Curthread_txinfop := none }, 0) := by
  have hloop := txop_loop_spec oncommit_funcs tid (commit_step t.pool)
    (fun s => s.txs[tid]? = some (some t))
    (fun s e hQ => oncommit_step tid t s e hQ) l s.txops.length t.tail s hL.1 hL.2.1
    hL.length_le
  have htxs : ∀ (es : List LogEntry) (s0 : State),
      (es.foldl (commit_step t.pool) s0).txs = s0.txs := by
    intro es
    induction es with
    | nil => intro s0; rfl
    | cons e es ih => intro s0; simp [List.foldl, ih, commit_step]
  simp [pmemobj_tx_action_tid, tx_get, hL.1, hnext, hloop, htxs, bind, Except.bind, pure,
    Except.pure]

theorem unlock_none (E : Env) (s : State) (tid : Nat) (t : tx)
    (htx : s.txs[tid]? = some (some t)) (hm : t.mutexp = none) (hr : t.rwlockp = none) :
    pmemobj_unlock_locks_tid E s tid = Except.ok s := by
  simp [pmemobj_unlock_locks_tid, tx_get, htx, hm, hr, bind, Except.bind, pure, Except.pure]

theorem begin_spec (E : Env) (s : State) (pop : Nat) (env : Option Nat)
    (hM : ∀ k, E.Malloc_ok k = true) :
    ∃ s1 t1, pmemobj_tx_begin E s pop env = Except.ok (s1, s.txs.length) ∧
      s1.txs = s.txs ++ [some t1] ∧ t1.next = s.Curthread_txinfop ∧ t1.pool = pop ∧
      t1.head = none ∧ t1.tail = none ∧ t1.mutexp = none ∧ t1.rwlockp = none ∧
      t1.valid_env = (if env.isSome then 1 else 0) ∧ t1.env = env.getD 0 ∧
      s1.Curthread_txinfop = some s.txs.length ∧ s1.mem = s.mem ∧ s1.pools = s.pools ∧
      s1.trace = s.trace ∧ s1.npmalloc = s.npmalloc ∧ s1.txops = s.txops ∧
      s1.errno = s.errno ∧ s1.mutexes = s.mutexes ∧ s1.rwlocks = s.rwlocks ∧
      s1.npthread = s.npthread := by
  cases env with
  | none =>
    cases hcur : s.Curthread_txinfop with
    | none =>
      refine ⟨{ s with nmalloc := s.nmalloc + 2, txs := s.txs ++ [some { pool := pop }],
                       Curthread_txinfop := some s.txs.length }, { pool := pop }, ?_, ?_⟩
      · simp [pmemobj_tx_begin, zalloc_tx, Malloc, hM, nonnull, tx_get, tx_put, hcur, bind,
          Except.bind, pure, Except.pure, set_length_append]
      · simp
    | some c =>
      refine ⟨{ s with nmalloc := s.nmalloc + 1,
                       txs := s.txs ++ [some { pool := pop, next := some c }],
                       Curthread_txinfop := some s.txs.length },
        { pool := pop, next := some c }, ?_, ?_⟩
      · simp [pmemobj_tx_begin, zalloc_tx, Malloc, hM, nonnull, tx_get, tx_put, hcur, bind,
          Except.bind, pure, Except.pure, set_length_append]
      · simp
  | some e =>
    cases hcur : s.Curthread_txinfop with
    | none =>
      refine ⟨{ s with nmalloc := s.nmalloc + 2,
                       txs := s.txs ++ [some { pool := pop, valid_env := 1, env := e }],
                       Curthread_txinfop := some s.txs.length },
        { pool := pop, valid_env := 1, env := e }, ?_, ?_⟩
      · simp [pmemobj_tx_begin, zalloc_tx, Malloc, hM, nonnull, tx_get, tx_put, hcur, bind,
          Except.bind, pure, Except.pure, set_length_append]
      · simp
    | some c =>
      refine ⟨{ s with nmalloc := s.nmalloc + 1,
                       txs := s.txs ++ [some { pool := pop, valid_env := 1, env := e, next := some c }],
                       Curthread_txinfop := some s.txs.length },
        { pool := pop, valid_env := 1, env := e, next := some c }, ?_, ?_⟩
      · simp [pmemobj_tx_begin, zalloc_tx, Malloc, hM, nonnull, tx_get, tx_put, hcur, bind,
          Except.bind, pure, Except.pure, set_length_append]
      · simp

theorem begin_LogOf (s s1 : State) (t1 : tx) (htxs : s1.txs = s.txs ++ [some t1])
    (hh : t1.head = none) (htl : t1.tail = none) : LogOf s1 s.txs.length t1 [] := by
  refine ⟨by simp [htxs], ?_, by simp [hh], by simp⟩
  exact htl

theorem abort_fold_mem (base pool : Nat) : ∀ (es : List LogEntry) (s : State),
    (es.foldl (abort_step base pool) s).mem = es.foldl (abort_mem base) s.mem := by
  intro es
  induction es with
  | nil => intro s; rfl
  | cons e es ih => intro s; simp [List.foldl, ih, abort_step]

theorem abort_fold_trace (base pool : Nat) : ∀ (es : List LogEntry) (s : State),
    (es.foldl (abort_step base pool) s).trace = s.trace ++ abort_trace pool es := by
  intro es
  induction es with
  | nil => intro s; simp [abort_trace]
  | cons e es ih => intro s; simp [List.foldl, ih, abort_step, abort_trace]

theorem commit_fold_mem (pool : Nat) : ∀ (es : List LogEntry) (s : State),
    (es.foldl (commit_step pool) s).mem = s.mem := by
  intro es
  induction es with
  | nil => intro s; rfl
  | cons e es ih => intro s; simp [List.foldl, ih, commit_step]

theorem commit_fold_trace (pool : Nat) : ∀ (es : List LogEntry) (s : State),
    (es.foldl (commit_step pool) s).trace = s.trace ++ commit_trace pool es := by
  intro es
  induction es with
  | nil => intro s; simp [commit_trace]
  | cons e es ih => intro s; simp [List.foldl, ih, commit_step, commit_trace]

theorem abort_trace_append (pool : Nat) (a b : List LogEntry) :
    abort_trace pool (a ++ b) = abort_trace pool a ++ abort_trace pool b := by
  induction a with
  | nil => rfl
  | cons e es ih => simp [abort_trace, ih]

theorem commit_trace_append (pool : Nat) (a b : List LogEntry) :
    commit_trace pool (a ++ b) = commit_trace pool a ++ commit_trace pool b := by
  induction a with
  | nil => rfl
  | cons e es ih => simp [commit_trace, ih]

theorem pfrees_append (a b : List Event) : pfrees (a ++ b) = pfrees a ++ pfrees b := by
  induction a with
  | nil => rfl
  | cons e es ih => cases e <;> simp [pfrees, ih]

theorem pmallocs_append (a b : List Event) : pmallocs (a ++ b) = pmallocs a ++ pmallocs b := by
  induction a with
  | nil => rfl
  | cons e es ih => cases e <;> simp [pmallocs, ih]

theorem persists_append (a b : List Event) : persists (a ++ b) = persists a ++ persists b := by
  induction a with
  | nil => rfl
  | cons e es ih => cases e <;> simp [persists, ih]

/-- The abort fan-out frees what the calls allocated, newest first. -/
theorem abort_frees_allocs (E : Env) (pool : Nat) : ∀ (cs : List TxCall) (k : Nat),
    pfrees (abort_trace pool (calls_entries E k cs).reverse) =
      (pmallocs (calls_events E pool k cs)).reverse := by
  intro cs
  induction cs with
  | nil => intro k; rfl
  | cons c cs ih =>
    intro k
    simp only [calls_entries, calls_events, List.reverse_append, abort_trace_append,
      pfrees_append, pmallocs_append, ih]
    cases c <;> rfl

/-- The commit fan-out frees the objects passed to `free` and the undo backups, newest first. -/
theorem commit_frees_spec (E : Env) (pool : Nat) : ∀ (cs : List TxCall) (k : Nat),
    pfrees (commit_trace pool (calls_entries E k cs).reverse) =
      (calls_commit_frees E pool k cs).reverse := by
  intro cs
  induction cs with
  | nil => intro k; rfl
  | cons c cs ih =>
    intro k
    simp only [calls_entries, calls_commit_frees, List.reverse_append, commit_trace_append,
      pfrees_append, ih]
    cases c <;> rfl

theorem calls_events_pfrees (E : Env) (pool : Nat) : ∀ (cs : List TxCall) (k : Nat),
    pfrees (calls_events E pool k cs) = [] := by
  intro cs
  induction cs with
  | nil => intro k; rfl
  | cons c cs ih =>
    intro k
    simp only [calls_events, pfrees_append, ih]
    cases c <;> rfl

theorem abort_trace_persists (pool : Nat) : ∀ (es : List LogEntry),
    persists (abort_trace pool es) = [] := by
  intro es
  induction es with
  | nil => rfl
  | cons e es ih =>
    obtain ⟨op, args⟩ := e
    simp only [abort_trace, persists_append, ih]
    cases op <;> rfl

theorem Disj.not_both {r1 r2 : Region} (h : Disj r1 r2) (a : Nat) (h1 : InRegion a r1) :
    ¬ InRegion a r2 := by
  unfold Disj at h
  unfold InRegion at *
  omega

theorem FreshRegions.tail {E : Env} {base k : Nat} {c : TxCall} {cs : List TxCall}
    (h : FreshRegions E base k (c :: cs)) : FreshRegions E base (k + c.npm) cs := by
  obtain ⟨hp, hd⟩ := h
  simp only [calls_fresh, calls_dsts] at hp hd
  refine ⟨(List.pairwise_append.1 hp).2.1, ?_⟩
  intro w hw d hdm
  exact hd w (List.mem_append_right _ hw) d (List.mem_append_right _ hdm)

/-- Undoing the entries of a sequence of calls, newest first, restores every
byte outside the regions written in freshly allocated memory. -/
theorem undo_restores (E : Env) (base : Nat) : ∀ (cs : List TxCall) (k : Nat) (m : Nat → Nat),
    FreshRegions E base k cs → ∀ a, (∀ r ∈ calls_fresh E base k cs, ¬ InRegion a r) →
      (calls_entries E k cs).reverse.foldl (abort_mem base) (calls_mem E base k m cs) a = m a := by
  intro cs
  induction cs with
  | nil => intro k m _ a _; rfl
  | cons c cs ih =>
    intro k m hf a ha
    have hf1 := hf.tail
    obtain ⟨hp, hd⟩ := hf
    simp only [calls_fresh, calls_dsts] at hp hd ha
    have ha1 : ∀ r ∈ calls_fresh E base (k + c.npm) cs, ¬ InRegion a r :=
      fun r hr => ha r (List.mem_append_right _ hr)
    have ih1 := fun x hx => ih (k + c.npm) (call_mem E base k m c) hf1 x hx
    simp only [calls_entries, calls_mem, List.reverse_append, List.foldl_append]
    cases c with
    | alloc size =>
      simp only [call_entries, List.reverse_cons, List.reverse_nil, List.nil_append,
        List.foldl, abort_mem]
      exact ih1 a ha1
    | zalloc size =>
      simp only [call_entries, List.reverse_cons, List.reverse_nil, List.nil_append,
        List.foldl, abort_mem]
      rw [ih1 a ha1]
      have := ha _ (List.mem_append_left _ (List.mem_singleton_self _))
      simp only [call_mem, memset]
      rw [if_neg (by simpa [InRegion] using this)]
    | strdup str =>
      simp only [call_entries, List.reverse_cons, List.reverse_nil, List.nil_append,
        List.foldl, abort_mem]
      rw [ih1 a ha1]
      have := ha _ (List.mem_append_left _ (List.mem_singleton_self _))
      simp only [call_mem, store_bytes]
      rw [if_neg (by simpa [InRegion] using this)]
    | free oid =>
      simp only [call_entries, List.reverse_cons, List.reverse_nil, List.nil_append,
        List.foldl, abort_mem]
      exact ih1 a ha1
    | memcpy dstp srcp size =>
      have haB : ¬ InRegion a ((base + E.pmalloc_off k) % U64, size) :=
        ha _ (List.mem_append_left _ (List.mem_singleton_self _))
      have hBd : Disj ((base + E.pmalloc_off k) % U64, size) (dstp, size) :=
        hd _ (List.mem_append_left _ (List.mem_singleton_self _)) _
          (List.mem_append_left _ (List.mem_singleton_self _))
      have hBfresh : ∀ r ∈ calls_fresh E base (k + (TxCall.memcpy dstp srcp size).npm) cs,
          Disj ((base + E.pmalloc_off k) % U64, size) r := by
        intro r hr
        exact (List.pairwise_append.1 hp).2.2 _ (List.mem_singleton_self _) r hr
      simp only [call_entries, List.reverse_cons, List.reverse_nil, List.nil_append,
        List.singleton_append, List.foldl, abort_mem]
      show memcpy _ dstp ((base + E.pmalloc_off k) % U64) size a = m a
      unfold memcpy
      by_cases hin : dstp ≤ a ∧ a < dstp + size
      · rw [if_pos hin]
        have hx : InRegion ((base + E.pmalloc_off k) % U64 + (a - dstp))
            ((base + E.pmalloc_off k) % U64, size) := by
          unfold InRegion; simp only; omega
        rw [ih1 _ (fun r hr => (hBfresh r hr).not_both _ hx)]
        have hnd : ¬ InRegion ((base + E.pmalloc_off k) % U64 + (a - dstp)) (dstp, size) :=
          hBd.not_both _ hx
        simp only [call_mem, memcpy]
        rw [if_neg (by simpa [InRegion] using hnd)]
        rw [if_pos (by unfold InRegion at hx; simpa using hx)]
        congr 1
        omega
      · rw [if_neg hin]
        rw [ih1 a ha1]
        simp only [call_mem, memcpy]
        rw [if_neg hin, if_neg (by simpa [InRegion] using haB)]

/-! ## Locks of a frame -/

theorem IsSync_nil : IsSync [] := fun _ h => by cases h

theorem IsSync_single (fn : PthreadFn) (p : Nat) : IsSync [Event.pthread fn p] := by
  intro e he
  rw [List.mem_singleton] at he
  exact ⟨fn, p, he⟩

theorem IsSync_append {a b : List Event} (ha : IsSync a) (hb : IsSync b) : IsSync (a ++ b) := by
  intro e he
  rcases List.mem_append.1 he with h | h
  · exact ha e h
  · exact hb e h

theorem IsSync_pfrees : ∀ (evs : List Event), IsSync evs → pfrees evs = [] := by
  intro evs
  induction evs with
  | nil => intro _; rfl
  | cons e es ih =>
    intro h
    obtain ⟨fn, p, rfl⟩ := h e (List.mem_cons_self _ _)
    exact ih (fun x hx => h x (List.mem_cons_of_mem _ hx))

theorem IsSync_pmallocs : ∀ (evs : List Event), IsSync evs → pmallocs evs = [] := by
  intro evs
  induction evs with
  | nil => intro _; rfl
  | cons e es ih =>
    intro h
    obtain ⟨fn, p, rfl⟩ := h e (List.mem_cons_self _ _)
    exact ih (fun x hx => h x (List.mem_cons_of_mem _ hx))

theorem SyncStep_refl (s : State) : SyncStep s s :=
  ⟨rfl, rfl, rfl, rfl, rfl, rfl, [], by simp, IsSync_nil⟩

theorem SyncStep_trans {s s1 s2 : State} (a : SyncStep s s1) (b : SyncStep s1 s2) :
    SyncStep s s2 := by
  obtain ⟨e1, h1, g1⟩ := a.trace
  obtain ⟨e2, h2, g2⟩ := b.trace
  exact ⟨b.mem.trans a.mem, b.pools.trans a.pools, b.txs.trans a.txs, b.txops.trans a.txops,
    b.cur.trans a.cur, b.npmalloc.trans a.npmalloc, e1 ++ e2,
    by rw [h2, h1, List.append_assoc], IsSync_append g1 g2⟩

theorem mutexof_sync (E : Env) (s : State) (m : Nat) : SyncStep s (mutexof E s m).1 := by
  unfold mutexof
  by_cases h1 : (s.mutexes m).runid = E.Runid
  · simp only [h1, if_true]
    exact SyncStep_refl s
  · simp only [h1, if_false]
    by_cases h2 : E.Malloc_ok s.nmalloc = true
    · simp only [Malloc, h2, if_true]
      by_cases h3 : E.pthread_ret s.trace.length = 0
      · simp only [pthread_call, h3, ne_eq, not_true_eq_false, if_false]
        exact ⟨rfl, rfl, rfl, rfl, rfl, rfl, _, rfl, IsSync_single _ _⟩
      · simp only [pthread_call, ne_eq, h3, not_false_eq_true, if_true]
        exact ⟨rfl, rfl, rfl, rfl, rfl, rfl, _, rfl, IsSync_single _ _⟩
    · simp only [Malloc, h2]
      exact ⟨rfl, rfl, rfl, rfl, rfl, rfl, [], by simp, IsSync_nil⟩

theorem rwlockof_sync (E : Env) (s : State) (m : Nat) : SyncStep s (rwlockof E s m).1 := by
  unfold rwlockof
  by_cases h1 : (s.rwlocks m).runid = E.Runid
  · simp only [h1, if_true]
    exact SyncStep_refl s
  · simp only [h1, if_false]
    by_cases h2 : E.Malloc_ok s.nmalloc = true
    · simp only [Malloc, h2, if_true]
      by_cases h3 : E.pthread_ret s.trace.length = 0
      · simp only [pthread_call, h3, ne_eq, not_true_eq_false, if_false]
        exact ⟨rfl, rfl, rfl, rfl, rfl, rfl, _, rfl, IsSync_single _ _⟩
      · simp only [pthread_call, ne_eq, h3, not_false_eq_true, if_true]
        exact ⟨rfl, rfl, rfl, rfl, rfl, rfl, _, rfl, IsSync_single _ _⟩
    · simp only [Malloc, h2]
      exact ⟨rfl, rfl, rfl, rfl, rfl, rfl, [], by simp, IsSync_nil⟩

theorem tx_error_sync (s : State) (e : Int) : SyncStep s (tx_error s e).1 :=
  ⟨rfl, rfl, rfl, rfl, rfl, rfl, [], by simp [tx_error], IsSync_nil⟩

theorem pthread_call_sync (E : Env) (s : State) (fn : PthreadFn) (p : Nat) :
    SyncStep s (pthread_call E s fn p).1 :=
  ⟨rfl, rfl, rfl, rfl, rfl, rfl, _, rfl, IsSync_single _ _⟩

theorem mutex_lock_sync (E : Env) (s : State) (m : Nat) :
    SyncStep s (pmemobj_mutex_lock E s m).1 := by
  unfold pmemobj_mutex_lock
  dsimp only
  split
  · exact SyncStep_trans (mutexof_sync E s m) (tx_error_sync _ _)
  · exact SyncStep_trans (mutexof_sync E s m) (pthread_call_sync _ _ _ _)

theorem mutex_unlock_sync (E : Env) (s : State) (m : Nat) :
    SyncStep s (pmemobj_mutex_unlock E s m).1 := by
  unfold pmemobj_mutex_unlock
  dsimp only
  split
  · exact SyncStep_trans (mutexof_sync E s m) (tx_error_sync _ _)
  · exact SyncStep_trans (mutexof_sync E s m) (pthread_call_sync _ _ _ _)

theorem rwlock_wrlock_sync (E : Env) (s : State) (m : Nat) :
    SyncStep s (pmemobj_rwlock_wrlock E s m).1 := by
  unfold pmemobj_rwlock_wrlock
  dsimp only
  split
  · exact SyncStep_trans (rwlockof_sync E s m) (tx_error_sync _ _)
  · exact SyncStep_trans (rwlockof_sync E s m) (pthread_call_sync _ _ _ _)

theorem rwlock_unlock_sync (E : Env) (s : State) (m : Nat) :
    SyncStep s (pmemobj_rwlock_unlock E s m).1 := by
  unfold pmemobj_rwlock_unlock
  dsimp only
  split
  · exact SyncStep_trans (rwlockof_sync E s m) (tx_error_sync _ _)
  · exact SyncStep_trans (rwlockof_sync E s m) (pthread_call_sync _ _ _ _)

/-- A transaction begun in any of the three ways. -/
theorem run_begin_spec (E : Env) (s : State) (pop : Nat) (env : Option Nat) (b : BeginCall)
    (hM : ∀ k, E.Malloc_ok k = true) :
    ∃ s1 t1, run_begin E s pop env b = Except.ok (s1, s.txs.length) ∧
      s1.txs = s.txs ++ [some t1] ∧ t1.next = s.Curthread_txinfop ∧ t1.pool = pop ∧
      t1.head = none ∧ t1.tail = none ∧
      s1.Curthread_txinfop = some s.txs.length ∧ s1.mem = s.mem ∧ s1.pools = s.pools ∧
      (∃ evs, s1.trace = s.trace ++ evs ∧ IsSync evs) ∧ s1.npmalloc = s.npmalloc ∧
      s1.txops = s.txops := by
  obtain ⟨s0, t0, hb, htxs, hnext, hpool, hh, htl, _, _, _, _, hcur, hmem, hpools, htr, hnp,
    htxops, _, _, _, _⟩ := begin_spec E s pop env hM
  cases b with
  | plain =>
    exact ⟨s0, t0, hb, htxs, hnext, hpool, hh, htl, hcur, hmem, hpools,
      ⟨[], by simp [htr], IsSync_nil⟩, hnp, htxops⟩
  | lock m =>
    have hsync := mutex_lock_sync E s0 m
    obtain ⟨evs, hevs, hiss⟩ := hsync.trace
    have hget : (pmemobj_mutex_lock E s0 m).1.txs[s.txs.length]? = some (some t0) := by
      rw [hsync.txs, htxs]; simp
    refine ⟨tx_put (pmemobj_mutex_lock E s0 m).1 s.txs.length { t0 with mutexp := some m },
      { t0 with mutexp := some m }, ?_, ?_, hnext, hpool, hh, htl, ?_, ?_, ?_, ?_, ?_, ?_⟩
    · simp [run_begin, pmemobj_tx_begin_lock, hb, tx_get, hget, bind, Except.bind, pure,
        Except.pure]
    · simp [tx_put, hsync.txs, htxs, set_length_append]
    · simp [tx_put, hsync.cur, hcur]
    · simp [tx_put, hsync.mem, hmem]
    · simp [tx_put, hsync.pools, hpools]
    · exact ⟨evs, by simp [tx_put, hevs, htr], hiss⟩
    · simp [tx_put, hsync.npmalloc, hnp]
    · simp [tx_put, hsync.txops, htxops]
  | wrlock m =>
    have hsync := rwlock_wrlock_sync E s0 m
    obtain ⟨evs, hevs, hiss⟩ := hsync.trace
    have hget : (pmemobj_rwlock_wrlock E s0 m).1.txs[s.txs.length]? = some (some t0) := by
      rw [hsync.txs, htxs]; simp
    refine ⟨tx_put (pmemobj_rwlock_wrlock E s0 m).1 s.txs.length { t0 with rwlockp := some m },
      { t0 with rwlockp := some m }, ?_, ?_, hnext, hpool, hh, htl, ?_, ?_, ?_, ?_, ?_, ?_⟩
    · simp [run_begin, pmemobj_tx_begin_wrlock, hb, tx_get, hget, bind, Except.bind, pure,
        Except.pure]
    · simp [tx_put, hsync.txs, htxs, set_length_append]
    · simp [tx_put, hsync.cur, hcur]
    · simp [tx_put, hsync.mem, hmem]
    · simp [tx_put, hsync.pools, hpools]
    · exact ⟨evs, by simp [tx_put, hevs, htr], hiss⟩
    · simp [tx_put, hsync.npmalloc, hnp]
    · simp [tx_put, hsync.txops, htxops]

theorem LockStep_refl (s : State) (tid : Nat) : LockStep s s tid :=
  ⟨rfl, rfl, rfl, rfl, rfl, ⟨[], by simp, IsSync_nil⟩, rfl, fun _ _ => rfl⟩

theorem LockStep_trans {s s1 s2 : State} {tid : Nat} (a : LockStep s s1 tid)
    (b : LockStep s1 s2 tid) : LockStep s s2 tid := by
  obtain ⟨e1, h1, g1⟩ := a.trace
  obtain ⟨e2, h2, g2⟩ := b.trace
  exact ⟨b.mem.trans a.mem, b.pools.trans a.pools, b.txops.trans a.txops, b.cur.trans a.cur,
    b.npmalloc.trans a.npmalloc, ⟨e1 ++ e2, by rw [h2, h1, List.append_assoc],
    IsSync_append g1 g2⟩, b.txs_len.trans a.txs_len,
    fun j hj => (b.others j hj).trans (a.others j hj)⟩

theorem LockStep_of_put {s u : State} (tid : Nat) (t1 : tx) (h : SyncStep s u) :
    LockStep s (tx_put u tid t1) tid :=
  ⟨h.mem, h.pools, h.txops, h.cur, h.npmalloc, h.trace, by simp [tx_put, h.txs],
    fun j hj => by simp [tx_put, h.txs, Ne.symm hj]⟩

/-- Releasing the locks of a frame clears its two lock fields and leaves the
rest of the frame, the other frames and the logs as they are. -/
theorem unlock_step (E : Env) (s : State) (tid : Nat) (t : tx)
    (htx : s.txs[tid]? = some (some t)) :
    ∃ s1, pmemobj_unlock_locks_tid E s tid = Except.ok s1 ∧
      s1.txs[tid]? = some (some { t with mutexp := none, rwlockp := none }) ∧
      LockStep s s1 tid := by
  have htid : tid < s.txs.length := (List.getElem?_eq_some_iff.1 htx).1
  obtain ⟨ve, en, mx, rx, po, nx, hd, tl⟩ := t
  cases mx with
  | none =>
    cases rx with
    | none =>
      exact ⟨s, unlock_none E s tid _ htx rfl rfl, htx, LockStep_refl s tid⟩
    | some r =>
      have hsync := rwlock_unlock_sync E s r
      have hget := htx
      rw [← hsync.txs] at hget
      refine ⟨tx_put (pmemobj_rwlock_unlock E s r).1 tid ⟨ve, en, none, none, po, nx, hd, tl⟩,
        ?_, ?_, LockStep_of_put tid _ hsync⟩
      · simp [pmemobj_unlock_locks_tid, tx_get, htx, hget, bind, Except.bind, pure, Except.pure]
      · simp [tx_put, hsync.txs, htid]
  | some m =>
    have hsync := mutex_unlock_sync E s m
    have hget := htx
    rw [← hsync.txs] at hget
    have hlen : tid < (pmemobj_mutex_unlock E s m).1.txs.length := by rw [hsync.txs]; exact htid
    cases rx with
    | none =>
      refine ⟨tx_put (pmemobj_mutex_unlock E s m).1 tid ⟨ve, en, none, none, po, nx, hd, tl⟩,
        ?_, ?_, LockStep_of_put tid _ hsync⟩
      · simp [pmemobj_unlock_locks_tid, tx_get, htx, hget, hlen, tx_put, bind, Except.bind, pure,
          Except.pure]
      · simp [tx_put, hsync.txs, htid]
    | some r =>
      have hsync2 := rwlock_unlock_sync E
        (tx_put (pmemobj_mutex_unlock E s m).1 tid ⟨ve, en, none, some r, po, nx, hd, tl⟩) r
      have hg1 : (tx_put (pmemobj_mutex_unlock E s m).1 tid
          ⟨ve, en, none, some r, po, nx, hd, tl⟩).txs[tid]? =
          some (some ⟨ve, en, none, some r, po, nx, hd, tl⟩) := by
        simp [tx_put, hlen]
      have hg2 := hg1
      rw [← hsync2.txs] at hg2
      refine ⟨tx_put (pmemobj_rwlock_unlock E
          (tx_put (pmemobj_mutex_unlock E s m).1 tid ⟨ve, en, none, some r, po, nx, hd, tl⟩) r).1
          tid ⟨ve, en, none, none, po, nx, hd, tl⟩, ?_, ?_,
        LockStep_trans (LockStep_of_put tid _ hsync) (LockStep_of_put tid _ hsync2)⟩
      · simp only [pmemobj_unlock_locks_tid, tx_get, htx, hget, bind, Except.bind, pure,
          Except.pure, hg1, hg2]
      · have hl2 := (List.getElem?_eq_some_iff.1 hg2).1
        simp only [tx_put] at hl2 ⊢
        simp [hl2]

theorem unlock_spec (E : Env) (s : State) (tid : Nat) (t : tx) (l : List (Nat × LogEntry))
    (hL : LogOf s tid t l) :
    ∃ s1 t1, pmemobj_unlock_locks_tid E s tid = Except.ok s1 ∧ LogOf s1 tid t1 l ∧
      t1.mutexp = none ∧ t1.rwlockp = none ∧ t1.next = t.next ∧ t1.pool = t.pool ∧
      LockStep s s1 tid := by
  obtain ⟨s1, h1, htx1, hstep⟩ := unlock_step E s tid t hL.1
  refine ⟨s1, _, h1, ⟨htx1, ?_, hL.2.2.1, hL.2.2.2⟩, rfl, rfl, rfl, rfl, hstep⟩
  rw [hstep.txops]
  exact hL.2.1

/-! ## Nested frames -/

theorem PrevPath.mono_on {h h1 : List txop} :
    ∀ (l : List (Nat × LogEntry)) (p : Option Nat),
      (∀ x ∈ l, ∀ c, h[x.1]? = some c →
        ∃ c1, h1[x.1]? = some c1 ∧ c1.op = c.op ∧ c1.args = c.args ∧ c1.prev = c.prev) →
      PrevPath h p l → PrevPath h1 p l := by
  intro l
  induction l with
  | nil => intro p _ hp; exact hp
  | cons x rest ih =>
    intro p hk hp
    obtain ⟨hp1, c, hc, hop, hargs, hrest⟩ := hp
    obtain ⟨c1, hc1, e1, e2, e3⟩ := hk x (List.mem_cons_self _ _) c hc
    refine ⟨hp1, c1, hc1, e1.trans hop, e2.trans hargs, ?_⟩
    rw [e3]
    exact ih _ (fun y hy => hk y (List.mem_cons_of_mem _ hy)) hrest

/-- Linking the oldest cell of one chain to the newest cell of another. -/
theorem PrevPath.splice {h h1 : List txop} (lP : List (Nat × LogEntry)) (pP : Option Nat)
    (xl : Nat × LogEntry) :
    ∀ (lT : List (Nat × LogEntry)) (p : Option Nat), lT.getLast? = some xl →
      PrevPath h p lT → (lT.map Prod.fst).Nodup →
      (∀ x ∈ lT, x.1 ≠ xl.1 → h1[x.1]? = h[x.1]?) →
      (∀ c, h[xl.1]? = some c →
        ∃ c1, h1[xl.1]? = some c1 ∧ c1.op = c.op ∧ c1.args = c.args ∧ c1.prev = pP) →
      PrevPath h1 pP lP → PrevPath h1 p (lT ++ lP) := by
  intro lT
  induction lT with
  | nil => intro p hl; simp at hl
  | cons x rest ih =>
    intro p hl hp hnd hsame hlast hP
    obtain ⟨hp1, c, hc, hop, hargs, hrest⟩ := hp
    cases rest with
    | nil =>
      have hx : x = xl := by simpa using hl
      subst hx
      obtain ⟨c1, hc1, e1, e2, e3⟩ := hlast c hc
      refine ⟨hp1, c1, hc1, e1.trans hop, e2.trans hargs, ?_⟩
      rw [e3]
      exact hP
    | cons y rest2 =>
      have hl2 : (y :: rest2).getLast? = some xl := by
        rw [List.getLast?_cons_cons] at hl; exact hl
      have hmem : xl ∈ y :: rest2 := List.mem_of_getLast?_eq_some hl2
      rw [List.map_cons, List.nodup_cons] at hnd
      have hne : x.1 ≠ xl.1 := by
        intro he
        exact hnd.1 (List.mem_map.2 ⟨xl, hmem, he.symm⟩)
      have hcx : h1[x.1]? = some c := by
        rw [hsame x (List.mem_cons_self _ _) hne]; exact hc
      refine ⟨hp1, c, hcx, hop, hargs, ?_⟩
      exact ih c.prev hl2 hrest hnd.2 (fun z hz => hsame z (List.mem_cons_of_mem _ hz)) hlast hP

theorem PrevPath.cell_of_mem {h : List txop} :
    ∀ (l : List (Nat × LogEntry)) (p : Option Nat), PrevPath h p l → ∀ x ∈ l,
      ∃ c, h[x.1]? = some c := by
  intro l
  induction l with
  | nil => intro p _ x hx; cases hx
  | cons y rest ih =>
    intro p hp x hx
    obtain ⟨_, c, hc, _, _, hrest⟩ := hp
    rcases List.mem_cons.1 hx with rfl | hx
    · exact ⟨c, hc⟩
    · exact ih _ hrest x hx

/-- The branch of `pmemobj_tx_action_tid` for a nested frame: whatever the
action table, no action is run; the log of the frame is linked behind the log of
its parent, which becomes the current frame. -/
theorem action_nested (s : State) (T Pp : Nat) (tT tP : tx) (lT lP : List (Nat × LogEntry))
    (actions : op_t → Action)
    (hLT : LogOf s T tT lT) (hLP : LogOf s Pp tP lP) (hnext : tT.next = some Pp)
    (hTne : lT ≠ []) (hPne : lP ≠ []) (hdisj : ∀ x ∈ lT, ∀ y ∈ lP, x.1 ≠ y.1)
    (hTP : T ≠ Pp) (hcur : s.Curthread_txinfop = some T) :
    ∃ s1 tP1, pmemobj_tx_action_tid s T actions = Except.ok (s1, 0) ∧
      LogOf s1 Pp tP1 (lT ++ lP) ∧ SameFrame tP tP1 ∧ s1.Curthread_txinfop = some Pp ∧
      s1.mem = s.mem ∧ s1.trace = s.trace ∧ s1.pools = s.pools ∧ s1.npmalloc = s.npmalloc ∧
      s1.errno = s.errno ∧ s1.txs.length = s.txs.length := by
  obtain ⟨hTtx, hTpath, hThead, hTnd⟩ := hLT
  obtain ⟨hPtx, hPpath, hPhead, hPnd⟩ := hLP
  -- the oldest cell of T and the newest cell of P
  obtain ⟨xl, hxl⟩ : ∃ xl, lT.getLast? = some xl := by
    cases hgl : lT.getLast? with
    | none => exact absurd (List.getLast?_eq_none_iff.1 hgl) hTne
    | some y => exact ⟨y, rfl⟩
  have hxlmem : xl ∈ lT := List.mem_of_getLast?_eq_some hxl
  obtain ⟨hc, hhc⟩ := PrevPath.cell_of_mem lT _ hTpath xl hxlmem
  have hhead : tT.head = some xl.1 := by rw [hThead, hxl]; rfl
  cases lP with
  | nil => exact absurd rfl hPne
  | cons y restP =>
    obtain ⟨hPtl, pc, hpc, hpop, hpargs, hprest⟩ := hPpath
    have hne : xl.1 ≠ y.1 := hdisj xl hxlmem y (List.mem_cons_self _ _)
    have hxllt : xl.1 < s.txops.length := (List.getElem?_eq_some_iff.1 hhc).1
    have hylt : y.1 < s.txops.length := (List.getElem?_eq_some_iff.1 hpc).1
    have hTlt : T < s.txs.length := (List.getElem?_eq_some_iff.1 hTtx).1
    have hPlt : Pp < s.txs.length := (List.getElem?_eq_some_iff.1 hPtx).1
    refine ⟨{ s with
        txops := (s.txops.set xl.1 { hc with prev := tP.tail }).set y.1
          { pc with next := tT.head },
        txs := (s.txs.set Pp (some { tP with tail := tT.tail })).set T none,
        Curthread_txinfop := some Pp },
      { tP with tail := tT.tail }, ?_, ?_, ⟨rfl, rfl, rfl, rfl, rfl, rfl⟩, rfl, rfl, rfl, rfl,
      rfl, rfl, by simp⟩
    · simp [pmemobj_tx_action_tid, tx_get, hTtx, hnext, hPtx, hhead, nonnull, txop_get, hhc,
        txop_put, hPtl, hne, hpc, tx_put, hcur, bind, Except.bind, pure, Except.pure]
    · refine ⟨by simp [hTP, hPlt], ?_, ?_, ?_⟩
      · apply PrevPath.splice (y :: restP) tP.tail xl lT _ hxl hTpath hTnd
        · intro x hx hxne
          have : x.1 ≠ y.1 := hdisj x hx y (List.mem_cons_self _ _)
          simp [Ne.symm hxne, Ne.symm this]
        · intro c hcc
          rw [hhc] at hcc
          cases hcc
          exact ⟨{ hc with prev := tP.tail }, by simp [Ne.symm hne, hxllt], rfl, rfl, rfl⟩
        · apply PrevPath.mono_on (y :: restP) _ _ ⟨hPtl, pc, hpc, hpop, hpargs, hprest⟩
          intro z hz c hcz
          have hzne : xl.1 ≠ z.1 := hdisj xl hxlmem z hz
          by_cases hzy : y.1 = z.1
          · have : c = pc := by
              rw [← hzy, hpc] at hcz; cases hcz; rfl
            subst this
            exact ⟨{ c with next := tT.head }, by simp [← hzy, hylt], rfl, rfl, rfl⟩
          · exact ⟨c, by simp [hzy, hzne, hcz], rfl, rfl, rfl⟩
      · show tP.head = _
        rw [hPhead, List.getLast?_append_of_ne_nil _ (List.cons_ne_nil _ _)]
      · rw [List.map_append]
        refine List.Nodup.append hTnd hPnd ?_
        intro a ha1 ha2
        obtain ⟨x, hx, rfl⟩ := List.mem_map.1 ha1
        obtain ⟨z, hz, hze⟩ := List.mem_map.1 ha2
        exact hdisj x hx z hz hze.symm

theorem calls_npm_append (a b : List TxCall) : calls_npm (a ++ b) = calls_npm a + calls_npm b := by
  induction a with
  | nil => simp [calls_npm]
  | cons c cs ih => simp [calls_npm, ih, Nat.add_assoc]

theorem calls_entries_append (E : Env) : ∀ (a b : List TxCall) (k : Nat),
    calls_entries E k (a ++ b) = calls_entries E k a ++ calls_entries E (k + calls_npm a) b := by
  intro a
  induction a with
  | nil => intro b k; simp [calls_entries, calls_npm]
  | cons c cs ih => intro b k; simp [calls_entries, calls_npm, ih, Nat.add_assoc]

theorem calls_events_append (E : Env) (pool : Nat) : ∀ (a b : List TxCall) (k : Nat),
    calls_events E pool k (a ++ b) =
      calls_events E pool k a ++ calls_events E pool (k + calls_npm a) b := by
  intro a
  induction a with
  | nil => intro b k; simp [calls_events, calls_npm]
  | cons c cs ih => intro b k; simp [calls_events, calls_npm, ih, Nat.add_assoc]

theorem calls_mem_append (E : Env) (base : Nat) : ∀ (a b : List TxCall) (k : Nat) (m : Nat → Nat),
    calls_mem E base k m (a ++ b) =
      calls_mem E base (k + calls_npm a) (calls_mem E base k m a) b := by
  intro a
  induction a with
  | nil => intro b k m; simp [calls_mem, calls_npm]
  | cons c cs ih => intro b k m; simp [calls_mem, calls_npm, ih, Nat.add_assoc]

theorem calls_entries_ne_nil (E : Env) (k : Nat) (cs : List TxCall) (h : cs ≠ []) :
    calls_entries E k cs ≠ [] := by
  cases cs with
  | nil => exact absurd rfl h
  | cons c cs => cases c <;> simp [calls_entries, call_entries]

theorem ne_nil_of_map_snd {l : List (Nat × LogEntry)} {es : List LogEntry}
    (h : l.map Prod.snd = es.reverse) (hes : es ≠ []) : l ≠ [] := by
  intro hl
  subst hl
  simp at h
  exact hes h

/-! ## Whole transactions -/

/-- The log of a frame is untouched by logging on another frame. -/
theorem LogOf.preserved {s s1 : State} {j : Nat} {t : tx} {l : List (Nat × LogEntry)}
    (hL : LogOf s j t l) (htx : s1.txs[j]? = s.txs[j]?) (hk : CellsKept s.txops s1.txops) :
    LogOf s1 j t l :=
  ⟨htx.trans hL.1, PrevPath.mono hk _ _ hL.2.1, hL.2.2.1, hL.2.2.2⟩

theorem pmallocs_calls_events (E : Env) (pool : Nat) : ∀ (cs : List TxCall) (k : Nat),
    pmallocs (calls_events E pool k cs) =
      (List.range (calls_npm cs)).map (fun i => (pool, E.pmalloc_off (k + i))) := by
  intro cs
  induction cs with
  | nil => intro k; rfl
  | cons c cs ih =>
    intro k
    simp only [calls_events, calls_npm, pmallocs_append, ih]
    cases c <;>
      simp [call_events, pmallocs, TxCall.npm, List.range_succ_eq_map, Nat.add_comm 1,
        Function.comp_def, Nat.add_assoc]

/-- A transaction is begun, in any of the three ways, and a sequence of mutator
calls is run on it. -/
theorem begin_run_spec (E : Env) (s : State) (pop : Nat) (P : pmemobjpool) (env : Option Nat)
    (b : BeginCall) (cs : List TxCall) (hM : ∀ k, E.Malloc_ok k = true)
    (hP : s.pools pop = some P) :
    ∃ s1 s2 t2 l evs0, run_begin E s pop env b = Except.ok (s1, s.txs.length) ∧
      run_calls E s.txs.length cs s1 = Except.ok s2 ∧
      LogOf s2 s.txs.length t2 l ∧
      l.map Prod.snd = (calls_entries E s.npmalloc cs).reverse ∧
      (∀ x ∈ l, s.txops.length ≤ x.1) ∧
      t2.next = s.Curthread_txinfop ∧ t2.pool = pop ∧
      s2.Curthread_txinfop = some s.txs.length ∧ s2.pools = s.pools ∧
      s2.mem = calls_mem E P.addr s.npmalloc s.mem cs ∧
      s1.trace = s.trace ++ evs0 ∧ IsSync evs0 ∧
      s2.trace = s1.trace ++ calls_events E pop s.npmalloc cs ∧
      s2.npmalloc = s.npmalloc + calls_npm cs ∧
      s2.txs.length = s.txs.length + 1 ∧
      (∀ j, j < s.txs.length → s2.txs[j]? = s.txs[j]?) ∧ CellsKept s.txops s2.txops := by
  obtain ⟨s1, t1, hb, htxs, hnext, hpool, hh, htl, hcur, hmem, hpools, ⟨evs0, htr, hsy⟩, hnp,
    htxops⟩ := run_begin_spec E s pop env b hM
  have hL1 : LogOf s1 s.txs.length t1 [] := begin_LogOf s s1 t1 htxs hh htl
  have hP1 : s1.pools t1.pool = some P := by rw [hpools, hpool]; exact hP
  obtain ⟨s2, t2, new, hr, hL2, hE, hB, hF, hS, hmem2, htr2, hnp2⟩ :=
    run_calls_spec E s.txs.length P hM cs s1 t1 [] hL1 hP1
  refine ⟨s1, s2, t2, new, evs0, hb, hr, by simpa using hL2, by rw [hE, hnp], ?_, ?_, ?_, ?_,
    ?_, ?_, htr, hsy, ?_, ?_, ?_, ?_, ?_⟩
  · intro x hx; have := hB x hx; rw [htxops] at this; exact this
  · rw [hF.next, hnext]
  · rw [hF.pool, hpool]
  · rw [hS.cur, hcur]
  · rw [hS.pools, hpools]
  · rw [hmem2, hmem, hnp]
  · rw [htr2, hnp, hpool]
  · rw [hnp2, hnp]
  · rw [hS.txs_len, htxs]; simp
  · intro j hj
    rw [hS.others j (ne_of_lt hj), htxs]
    simp [List.getElem?_append_left, hj]
  · have := hS.kept
    rw [htxops] at this
    exact this

/-- The abort of a thread whose only open frame is `tid`. -/
theorem abort_top (E : Env) (s : State) (tid : Nat) (t : tx) (l : List (Nat × LogEntry))
    (P : pmemobjpool) (errnum : Int) (hcur : s.Curthread_txinfop = some tid)
    (hL : LogOf s tid t l) (hnext : t.next = none) (hP : s.pools t.pool = some P) :
    ∃ s3 evsU, pmemobj_tx_abort E s errnum = Except.ok (s3, 0) ∧ IsSync evsU ∧
      s3.mem = (l.map Prod.snd).foldl (abort_mem P.addr) s.mem ∧
      s3.trace = s.trace ++ (evsU ++ abort_trace t.pool (l.map Prod.snd)) ∧
      s3.Curthread_txinfop = none := by
  obtain ⟨s1, t1, h1, hL1, _, _, hn1, hp1, hstep⟩ := unlock_spec E s tid t l hL
  obtain ⟨evsU, htr, hsy⟩ := hstep.trace
  have hP1 : s1.pools t1.pool = some P := by rw [hstep.pools, hp1]; exact hP
  have h2 := abort_action_top s1 tid t1 l P hL1 (hn1.trans hnext) hP1
  refine ⟨{ (l.map Prod.snd).foldl (abort_step P.addr t1.pool) s1 with
      txs := s1.txs.set tid none, Curthread_txinfop := none }, evsU, ?_, hsy, ?_, ?_, rfl⟩
  · unfold pmemobj_tx_abort
    simp only [tx_abort_loop, hcur, pmemobj_tx_abort_tid, h1, h2, bind, Except.bind]
    cases hlen : s.txs.length <;> simp [tx_abort_loop, pure, Except.pure]
  · show (List.foldl (abort_step P.addr t1.pool) s1 (List.map Prod.snd l)).mem = _
    rw [abort_fold_mem, hstep.mem]
  · show (List.foldl (abort_step P.addr t1.pool) s1 (List.map Prod.snd l)).trace = _
    rw [abort_fold_trace, htr, hp1, List.append_assoc]

/-- The commit of a thread whose only open frame is `tid`. -/
theorem commit_top (E : Env) (s : State) (tid : Nat) (t : tx) (l : List (Nat × LogEntry))
    (hcur : s.Curthread_txinfop = some tid) (hL : LogOf s tid t l) (hnext : t.next = none) :
    ∃ s3 evsU, pmemobj_tx_commit E s = Except.ok (s3, 0) ∧ IsSync evsU ∧
      s3.mem = s.mem ∧
      s3.trace = s.trace ++ (evsU ++ commit_trace t.pool (l.map Prod.snd)) ∧
      s3.Curthread_txinfop = none := by
  obtain ⟨s1, t1, h1, hL1, _, _, hn1, hp1, hstep⟩ := unlock_spec E s tid t l hL
  obtain ⟨evsU, htr, hsy⟩ := hstep.trace
  have h2 := commit_action_top s1 tid t1 l hL1 (hn1.trans hnext)
  refine ⟨{ (l.map Prod.snd).foldl (commit_step t1.pool) s1 with
      txs := s1.txs.set tid none, Curthread_txinfop := none }, evsU, ?_, hsy, ?_, ?_, rfl⟩
  · simp [pmemobj_tx_commit, pmemobj_tx_commit_tid, hcur, nonnull, h1, h2, bind, Except.bind]
  · show (List.foldl (commit_step t1.pool) s1 (List.map Prod.snd l)).mem = _
    rw [commit_fold_mem, hstep.mem]
  · show (List.foldl (commit_step t1.pool) s1 (List.map Prod.snd l)).trace = _
    rw [commit_fold_trace, htr, hp1, List.append_assoc]

/-- The commit of a nested frame: its log is linked behind its parent's. -/
theorem commit_nested (E : Env) (s : State) (T Pp : Nat) (tT tP : tx)
    (lT lP : List (Nat × LogEntry))
    (hLT : LogOf s T tT lT) (hLP : LogOf s Pp tP lP) (hnext : tT.next = some Pp)
    (hTne : lT ≠ []) (hPne : lP ≠ []) (hdisj : ∀ x ∈ lT, ∀ y ∈ lP, x.1 ≠ y.1)
    (hTP : T ≠ Pp) (hcur : s.Curthread_txinfop = some T) :
    ∃ s1 tP1 evsU, pmemobj_tx_commit E s = Except.ok (s1, 0) ∧
      LogOf s1 Pp tP1 (lT ++ lP) ∧ SameFrame tP tP1 ∧ s1.Curthread_txinfop = some Pp ∧
      s1.mem = s.mem ∧ s1.trace = s.trace ++ evsU ∧ IsSync evsU ∧ s1.pools = s.pools ∧
      s1.npmalloc = s.npmalloc := by
  obtain ⟨s0, t0, h0, hL0, _, _, hn0, _, hstep⟩ := unlock_spec E s T tT lT hLT
  obtain ⟨evsU, htr, hsy⟩ := hstep.trace
  have hLP0 : LogOf s0 Pp tP lP :=
    ⟨(hstep.others Pp (Ne.symm hTP)).trans hLP.1, by rw [hstep.txops]; exact hLP.2.1,
      hLP.2.2.1, hLP.2.2.2⟩
  obtain ⟨s1, tP1, h1, hL1, hF, hc1, hm1, ht1, hp1, hn1, _, _⟩ :=
    action_nested s0 T Pp t0 tP lT lP oncommit_funcs hL0 hLP0 (hn0.trans hnext) hTne hPne hdisj
      hTP (hstep.cur.trans hcur)
  refine ⟨s1, tP1, evsU, ?_, hL1, hF, hc1, hm1.trans hstep.mem, ht1.trans htr, hsy,
    hp1.trans hstep.pools, hn1.trans hstep.npmalloc⟩
  simp [pmemobj_tx_commit, pmemobj_tx_commit_tid, hcur, nonnull, h0, h1, bind, Except.bind]

/-- C1. For every top-level transaction, begun with `pmemobj_tx_begin` or with one
of its locking variants, that runs any sequence of mutator calls (in particular
any sequence of `pmemobj_memcpy_tid` calls, whose destinations may repeat or
overlap) on a valid pool: when `Malloc` returns memory and the regions the
allocator hands out (the undo backups) share no address with any destination nor
with each other, the transaction runs to its end and `pmemobj_tx_abort` returns
leaving every destination byte equal to its value before the begin. The
allocator calls write no object byte. -/
theorem abort_restores_memcpy_destinations (E : Env) (s : State) (pop : Nat) (P : pmemobjpool)
    (env : Option Nat) (b : BeginCall) (cs : List TxCall) (errnum : Int)
    (hM : ∀ k, E.Malloc_ok k = true) (hcur : s.Curthread_txinfop = none)
    (hP : s.pools pop = some P) (hfresh : FreshRegions E P.addr s.npmalloc cs) :
    ∃ tid s1 s2 s3 r, run_begin E s pop env b = Except.ok (s1, tid) ∧
      run_calls E tid cs s1 = Except.ok s2 ∧
      pmemobj_tx_abort E s2 errnum = Except.ok (s3, r) ∧
      ∀ d ∈ calls_dsts cs, ∀ a, InRegion a d → s3.mem a = s.mem a := by
  obtain ⟨s1, s2, t2, l, evs0, hb, hr, hL, hE, _, hnext, hpool, hcur2, hpools, hmem, _, _, _, _,
    _, _, _⟩ := begin_run_spec E s pop P env b cs hM hP
  have hP2 : s2.pools t2.pool = some P := by rw [hpools, hpool]; exact hP
  obtain ⟨s3, evsU, ha, _, hmem3, _, _⟩ :=
    abort_top E s2 s.txs.length t2 l P errnum hcur2 hL (hnext.trans hcur) hP2
  refine ⟨_, s1, s2, s3, _, hb, hr, ha, ?_⟩
  intro d hd a had
  rw [hmem3, hE, hmem]
  apply undo_restores E P.addr cs s.npmalloc s.mem hfresh a
  intro r hr2 hin
  exact (hfresh.2 r hr2 d hd).not_both a hin had

theorem abort_restores_memcpy_destinations_witness :
    FreshRegions sample_env sample_pool.addr sample_state.npmalloc sample_memcpys ∧
    ∃ tid s1 s2 s3 r,
      run_begin sample_env sample_state 1000 none (BeginCall.lock 2000) = Except.ok (s1, tid) ∧
      run_calls sample_env tid sample_memcpys s1 = Except.ok s2 ∧
      pmemobj_tx_abort sample_env s2 5 = Except.ok (s3, r) ∧
      ∀ d ∈ calls_dsts sample_memcpys, ∀ a, InRegion a d → s3.mem a = sample_state.mem a :=
  ⟨by decide, abort_restores_memcpy_destinations sample_env sample_state 1000 sample_pool none
    (BeginCall.lock 2000) sample_memcpys 5 (fun _ => rfl) rfl rfl (by decide)⟩

/-- C2. For every top-level transaction, begun in any of the three ways, that
runs any sequence of mutator calls (`alloc`, `zalloc`, `strdup`, `free`,
`memcpy`), `pmemobj_tx_abort` returns after calling `pfree` exactly on the offsets
that `pmalloc` produced inside the transaction, one call for each `pmalloc` call
(newest first, on the same pool), where `pmalloc` was called once by each
`alloc`, `zalloc`, `strdup` and `memcpy`; no `pfree` call is made for a Free
entry, so the offset of an object passed to `pmemobj_free_tid` that no `pmalloc`
of the transaction produced is not freed. -/
theorem abort_frees_exactly_the_allocations (E : Env) (s : State) (pop : Nat) (P : pmemobjpool)
    (env : Option Nat) (b : BeginCall) (cs : List TxCall) (errnum : Int)
    (hM : ∀ k, E.Malloc_ok k = true) (hcur : s.Curthread_txinfop = none)
    (hP : s.pools pop = some P) :
    ∃ tid s1 s2 s3 r evs1 evs2, run_begin E s pop env b = Except.ok (s1, tid) ∧
      run_calls E tid cs s1 = Except.ok s2 ∧
      pmemobj_tx_abort E s2 errnum = Except.ok (s3, r) ∧
      s2.trace = s1.trace ++ evs1 ∧ s3.trace = s2.trace ++ evs2 ∧
      pmallocs evs1 =
        (List.range (calls_npm cs)).map (fun i => (pop, E.pmalloc_off (s.npmalloc + i))) ∧
      pfrees evs1 = [] ∧
      pfrees evs2 = (pmallocs evs1).reverse ∧
      ∀ oid, TxCall.free oid ∈ cs → (pop, oid.off) ∉ pmallocs evs1 →
        (pop, oid.off) ∉ pfrees evs2 := by
  obtain ⟨s1, s2, t2, l, evs0, hb, hr, hL, hE, _, hnext, hpool, hcur2, hpools, hmem, _, _, htr2,
    _, _, _, _⟩ := begin_run_spec E s pop P env b cs hM hP
  have hP2 : s2.pools t2.pool = some P := by rw [hpools, hpool]; exact hP
  obtain ⟨s3, evsU, ha, hsy, _, htr3, _⟩ :=
    abort_top E s2 s.txs.length t2 l P errnum hcur2 hL (hnext.trans hcur) hP2
  have hfr : pfrees (evsU ++ abort_trace pop (calls_entries E s.npmalloc cs).reverse) =
      (pmallocs (calls_events E pop s.npmalloc cs)).reverse := by
    rw [pfrees_append, IsSync_pfrees evsU hsy, List.nil_append]
    exact abort_frees_allocs E pop cs _
  refine ⟨_, s1, s2, s3, _, calls_events E pop s.npmalloc cs,
    evsU ++ abort_trace pop (calls_entries E s.npmalloc cs).reverse, hb, hr, ha, htr2, ?_,
    pmallocs_calls_events E pop cs _, calls_events_pfrees E pop cs _, hfr, ?_⟩
  · rw [htr3, hE, hpool]
  · intro oid _ hnot hin
    rw [hfr] at hin
    exact hnot (List.mem_reverse.1 hin)

theorem abort_frees_exactly_the_allocations_witness :
    ∃ tid s1 s2 s3 r evs1 evs2,
      run_begin sample_env sample_state 1000 none (BeginCall.wrlock 2000) =
        Except.ok (s1, tid) ∧
      run_calls sample_env tid sample_calls s1 = Except.ok s2 ∧
      pmemobj_tx_abort sample_env s2 5 = Except.ok (s3, r) ∧
      s2.trace = s1.trace ++ evs1 ∧ s3.trace = s2.trace ++ evs2 ∧
      pmallocs evs1 =
        (List.range (calls_npm sample_calls)).map
          (fun i => (1000, sample_env.pmalloc_off (sample_state.npmalloc + i))) ∧
      pfrees evs1 = [] ∧
      pfrees evs2 = (pmallocs evs1).reverse ∧
      ∀ oid, TxCall.free oid ∈ sample_calls → (1000, oid.off) ∉ pmallocs evs1 →
        (1000, oid.off) ∉ pfrees evs2 :=
  abort_frees_exactly_the_allocations sample_env sample_state 1000 sample_pool none
    (BeginCall.wrlock 2000) sample_calls 5 (fun _ => rfl) rfl rfl

/-- C3. For every top-level transaction, begun in any of the three ways, that
runs any sequence of mutator calls, `pmemobj_tx_commit` returns 0 after calling
`pfree` exactly once for each Free entry (on the offset passed to
`pmemobj_free_tid`) and once for each Set entry (on its backup offset), newest
first, and on nothing else, hence on no offset handed out by `alloc`, `zalloc` or
`strdup` that was not passed to `free`; it writes no byte, so what `memcpy` wrote
stays, and it leaves the thread with no current transaction. -/
theorem commit_frees_and_keeps_writes (E : Env) (s : State) (pop : Nat) (P : pmemobjpool)
    (env : Option Nat) (b : BeginCall) (cs : List TxCall)
    (hM : ∀ k, E.Malloc_ok k = true) (hcur : s.Curthread_txinfop = none)
    (hP : s.pools pop = some P) :
    ∃ tid s1 s2 s3 evs, run_begin E s pop env b = Except.ok (s1, tid) ∧
      run_calls E tid cs s1 = Except.ok s2 ∧
      pmemobj_tx_commit E s2 = Except.ok (s3, 0) ∧
      s3.trace = s2.trace ++ evs ∧
      pfrees evs = (calls_commit_frees E pop s.npmalloc cs).reverse ∧
      (∀ x, x ∉ calls_commit_frees E pop s.npmalloc cs → x ∉ pfrees evs) ∧
      s3.mem = s2.mem ∧ s2.mem = calls_mem E P.addr s.npmalloc s.mem cs ∧
      s3.Curthread_txinfop = none := by
  obtain ⟨s1, s2, t2, l, evs0, hb, hr, hL, hE, _, hnext, hpool, hcur2, hpools, hmem, _, _, htr2,
    _, _, _, _⟩ := begin_run_spec E s pop P env b cs hM hP
  obtain ⟨s3, evsU, hc, hsy, hmem3, htr3, hcur3⟩ :=
    commit_top E s2 s.txs.length t2 l hcur2 hL (hnext.trans hcur)
  have hfr : pfrees (evsU ++ commit_trace pop (calls_entries E s.npmalloc cs).reverse) =
      (calls_commit_frees E pop s.npmalloc cs).reverse := by
    rw [pfrees_append, IsSync_pfrees evsU hsy, List.nil_append]
    exact commit_frees_spec E pop cs s.npmalloc
  refine ⟨_, s1, s2, s3, evsU ++ commit_trace pop (calls_entries E s.npmalloc cs).reverse,
    hb, hr, hc, ?_, hfr, ?_, hmem3, hmem, hcur3⟩
  · rw [htr3, hE, hpool]
  · intro x hx hin
    rw [hfr] at hin
    exact hx (List.mem_reverse.1 hin)

theorem commit_frees_and_keeps_writes_witness :
    ∃ tid s1 s2 s3 evs,
      run_begin sample_env sample_state 1000 none (BeginCall.lock 2000) = Except.ok (s1, tid) ∧
      run_calls sample_env tid sample_calls s1 = Except.ok s2 ∧
      pmemobj_tx_commit sample_env s2 = Except.ok (s3, 0) ∧
      s3.trace = s2.trace ++ evs ∧
      pfrees evs = (calls_commit_frees sample_env 1000 sample_state.npmalloc sample_calls).reverse ∧
      (∀ x, x ∉ calls_commit_frees sample_env 1000 sample_state.npmalloc sample_calls →
        x ∉ pfrees evs) ∧
      s3.mem = s2.mem ∧
      s2.mem = calls_mem sample_env sample_pool.addr sample_state.npmalloc sample_state.mem
        sample_calls ∧
      s3.Curthread_txinfop = none :=
  commit_frees_and_keeps_writes sample_env sample_state 1000 sample_pool none
    (BeginCall.lock 2000) sample_calls (fun _ => rfl) rfl rfl

/-- The case of C4 in which both transactions are on one pool. For every outer
transaction T1 and nested transaction T2 on the same valid pool, each begun in
any of the three ways and each with a non-empty
operation log (`cs1` is run on T1 before T2 begins, `cs2` on T2), where T2 is
committed, T1 runs any further calls `cs3` and is then aborted with
`pmemobj_tx_abort`: when `Malloc` returns memory and the regions handed out by the
allocator share no address with any destination nor with each other, every call
completes, `pmemobj_tx_abort` calls `pfree` exactly once for each `pmalloc` call
made in T1 or in T2 (newest first), every byte overwritten by `memcpy` in T1 or
in T2 is restored to its value before T1 began, and no transaction is left
open. -/
theorem nested_commit_then_abort_undoes_both (E : Env) (s : State) (pop : Nat) (P : pmemobjpool)
    (env1 env2 : Option Nat) (b1 b2 : BeginCall) (cs1 cs2 cs3 : List TxCall) (errnum : Int)
    (hM : ∀ k, E.Malloc_ok k = true) (hcur : s.Curthread_txinfop = none)
    (hP : s.pools pop = some P) (h1 : cs1 ≠ []) (h2 : cs2 ≠ [])
    (hfresh : FreshRegions E P.addr s.npmalloc (cs1 ++ cs2 ++ cs3)) :
    ∃ T1 T2 s1 s2 s3 s4 s5 s6 s7 r evs1 evs2,
      run_begin E s pop env1 b1 = Except.ok (s1, T1) ∧
      run_calls E T1 cs1 s1 = Except.ok s2 ∧
      run_begin E s2 pop env2 b2 = Except.ok (s3, T2) ∧
      run_calls E T2 cs2 s3 = Except.ok s4 ∧
      pmemobj_tx_commit E s4 = Except.ok (s5, 0) ∧
      run_calls E T1 cs3 s5 = Except.ok s6 ∧
      pmemobj_tx_abort E s6 errnum = Except.ok (s7, r) ∧
      s6.trace = s.trace ++ evs1 ∧ s7.trace = s6.trace ++ evs2 ∧
      pmallocs evs1 = (List.range (calls_npm (cs1 ++ cs2 ++ cs3))).map
        (fun i => (pop, E.pmalloc_off (s.npmalloc + i))) ∧
      pfrees evs1 = [] ∧ pfrees evs2 = (pmallocs evs1).reverse ∧
      (∀ d ∈ calls_dsts (cs1 ++ cs2 ++ cs3), ∀ a, InRegion a d → s7.mem a = s.mem a) ∧
      s7.Curthread_txinfop = none := by
  -- T1 begins and runs cs1
  obtain ⟨s1, s2, tP, lP, evA, hb1, hr1, hLP2, hEP, _, hnextP, hpoolP, hcur2, hpools2, hmem2,
    htr1, hsyA, htr2, hnp2, hlen2, _, _⟩ := begin_run_spec E s pop P env1 b1 cs1 hM hP
  have hP2 : s2.pools pop = some P := by rw [hpools2]; exact hP
  -- T2 begins and runs cs2
  obtain ⟨s3, s4, tT, lT, evB, hb2, hr2, hLT4, hET, hBT, hnextT, hpoolT, hcur4, hpools4, hmem4,
    htr3, hsyB, htr4, hnp4, hlen4, hothers4, hkept4⟩ :=
    begin_run_spec E s2 pop P env2 b2 cs2 hM hP2
  have hT1lt : s.txs.length < s2.txs.length := by omega
  have hLP4 : LogOf s4 s.txs.length tP lP :=
    hLP2.preserved (hothers4 _ hT1lt) hkept4
  have hlPne : lP ≠ [] := ne_nil_of_map_snd hEP (calls_entries_ne_nil E _ cs1 h1)
  have hlTne : lT ≠ [] := ne_nil_of_map_snd hET (calls_entries_ne_nil E _ cs2 h2)
  have hdisj : ∀ x ∈ lT, ∀ y ∈ lP, x.1 ≠ y.1 := by
    intro x hx y hy
    have hxge := hBT x hx
    have hylt := PrevPath.lt lP _ hLP2.2.1 y hy
    omega
  -- T2 commits
  obtain ⟨s5, tP1, evC, hc, hLP5, hF5, hcur5, hmem5, htr5, hsyC, hpools5, hnp5⟩ :=
    commit_nested E s4 s2.txs.length s.txs.length tT tP lT lP hLT4 hLP4
      (hnextT.trans hcur2) hlTne hlPne hdisj (by omega) hcur4
  -- T1 runs cs3
  have hP5 : s5.pools tP1.pool = some P := by
    rw [hpools5, hpools4, hpools2, hF5.pool, hpoolP]; exact hP
  obtain ⟨s6, t6, new3, hr3, hL6, hE3, _, hF6, hS6, hmem6, htr6, hnp6⟩ :=
    run_calls_spec E s.txs.length P hM cs3 s5 tP1 (lT ++ lP) hLP5 hP5
  -- T1 aborts
  have hF := SameFrame_trans hF5 hF6
  have hP6 : s6.pools t6.pool = some P := by rw [hS6.pools, hF6.pool]; exact hP5
  obtain ⟨s7, evU, ha, hsyU, hmem7, htr7, hcur7⟩ :=
    abort_top E s6 s.txs.length t6 (new3 ++ (lT ++ lP)) P errnum
      (by rw [hS6.cur, hcur5]) hL6 (by rw [hF.next, hnextP, hcur]) hP6
  have hpool6 : t6.pool = pop := by rw [hF.pool, hpoolP]
  have hEall : (new3 ++ (lT ++ lP)).map Prod.snd =
      (calls_entries E s.npmalloc (cs1 ++ cs2 ++ cs3)).reverse := by
    rw [List.map_append, List.map_append, hE3, hET, hEP, calls_entries_append,
      calls_entries_append, hnp5, hnp4, hnp2, calls_npm_append]
    simp [List.reverse_append, Nat.add_assoc]
  have hmemall : s6.mem = calls_mem E P.addr s.npmalloc s.mem (cs1 ++ cs2 ++ cs3) := by
    rw [hmem6, hmem5, hmem4, hmem2, calls_mem_append, calls_mem_append, hnp5, hnp4, hnp2,
      calls_npm_append, Nat.add_assoc]
  have htrall : s6.trace = s.trace ++ (evA ++ calls_events E pop s.npmalloc cs1 ++
      (evB ++ calls_events E pop (s.npmalloc + calls_npm cs1) cs2) ++
      (evC ++ calls_events E pop (s.npmalloc + calls_npm cs1 + calls_npm cs2) cs3)) := by
    rw [htr6, htr5, htr4, htr3, htr2, htr1, hnp5, hnp4, hnp2, hF5.pool, hpoolP]
    simp [List.append_assoc]
  have hpm : pmallocs (evA ++ calls_events E pop s.npmalloc cs1 ++
      (evB ++ calls_events E pop (s.npmalloc + calls_npm cs1) cs2) ++
      (evC ++ calls_events E pop (s.npmalloc + calls_npm cs1 + calls_npm cs2) cs3)) =
      pmallocs (calls_events E pop s.npmalloc (cs1 ++ cs2 ++ cs3)) := by
    simp only [pmallocs_append, IsSync_pmallocs evA hsyA, IsSync_pmallocs evB hsyB,
      IsSync_pmallocs evC hsyC, List.nil_append, calls_events_append, calls_npm_append,
      Nat.add_assoc, List.append_assoc]
  have hpf : pfrees (evA ++ calls_events E pop s.npmalloc cs1 ++
      (evB ++ calls_events E pop (s.npmalloc + calls_npm cs1) cs2) ++
      (evC ++ calls_events E pop (s.npmalloc + calls_npm cs1 + calls_npm cs2) cs3)) = [] := by
    simp only [pfrees_append, IsSync_pfrees evA hsyA, IsSync_pfrees evB hsyB,
      IsSync_pfrees evC hsyC, calls_events_pfrees, List.append_nil]
  refine ⟨_, _, s1, s2, s3, s4, s5, s6, s7, _, _,
    evU ++ abort_trace pop (calls_entries E s.npmalloc (cs1 ++ cs2 ++ cs3)).reverse,
    hb1, hr1, hb2, hr2, hc, hr3, ha, htrall, ?_, ?_, hpf, ?_, ?_, hcur7⟩
  · rw [htr7, hEall, hpool6]
  · rw [hpm]
    exact pmallocs_calls_events E pop _ _
  · rw [hpm, pfrees_append, IsSync_pfrees evU hsyU, List.nil_append]
    exact abort_frees_allocs E pop (cs1 ++ cs2 ++ cs3) s.npmalloc
  · intro d hd a had
    rw [hmem7, hEall, hmemall]
    apply undo_restores E P.addr _ s.npmalloc s.mem hfresh a
    intro r hr hin
    exact (hfresh.2 r hr d hd).not_both a hin had

theorem nested_commit_then_abort_undoes_both_witness :
    FreshRegions sample_env sample_pool.addr sample_state.npmalloc
      (sample_outer_calls ++ sample_inner_calls ++ [TxCall.memcpy 1101 1220 2]) ∧
    ∃ T1 T2 s1 s2 s3 s4 s5 s6 s7 r evs1 evs2,
      run_begin sample_env sample_state 1000 none (BeginCall.lock 2000) = Except.ok (s1, T1) ∧
      run_calls sample_env T1 sample_outer_calls s1 = Except.ok s2 ∧
      run_begin sample_env s2 1000 (some 9) BeginCall.plain = Except.ok (s3, T2) ∧
      run_calls sample_env T2 sample_inner_calls s3 = Except.ok s4 ∧
      pmemobj_tx_commit sample_env s4 = Except.ok (s5, 0) ∧
      run_calls sample_env T1 [TxCall.memcpy 1101 1220 2] s5 = Except.ok s6 ∧
      pmemobj_tx_abort sample_env s6 5 = Except.ok (s7, r) ∧
      s6.trace = sample_state.trace ++ evs1 ∧ s7.trace = s6.trace ++ evs2 ∧
      pmallocs evs1 = (List.range (calls_npm
          (sample_outer_calls ++ sample_inner_calls ++ [TxCall.memcpy 1101 1220 2]))).map
        (fun i => (1000, sample_env.pmalloc_off (sample_state.npmalloc + i))) ∧
      pfrees evs1 = [] ∧ pfrees evs2 = (pmallocs evs1).reverse ∧
      (∀ d ∈ calls_dsts (sample_outer_calls ++ sample_inner_calls ++ [TxCall.memcpy 1101 1220 2]),
        ∀ a, InRegion a d → s7.mem a = sample_state.mem a) ∧
      s7.Curthread_txinfop = none :=
  ⟨by decide, nested_commit_then_abort_undoes_both sample_env sample_state 1000 sample_pool none
    (some 9) (BeginCall.lock 2000) BeginCall.plain sample_outer_calls sample_inner_calls
    [TxCall.memcpy 1101 1220 2] 5 (fun _ => rfl) rfl rfl (by decide) (by decide) (by decide)⟩

/-- C4, at the failing input. Two pools are open, at 1000 and at 5000000. T1 is
begun on the first and copies 4 bytes to 1100 (backup at the offset 500 of the
first pool); T2 is begun on the second, nested in T1, and copies 4 bytes to
5000100 (backup at the offset 516 of the second pool, which is the address
5000516); T2 is committed and T1 is aborted. The abort runs the entries of T2
with the pool of T1: the bytes at 5000100 are set from 1000 + 516, so they are
4, 5, 6, 0 and not 0, 1, 2, 3 as before T1 began, and the offset 516 is freed on
the allocator of the first pool, which never handed it out, while the backup in
the second pool is never freed. The bytes T1 itself overwrote are restored. -/
theorem nested_abort_undoes_with_outer_pool :
    ∃ s1 s2 s3 s4 s5 s6,
      pmemobj_tx_begin sample_env sample_two_pools 1000 none = Except.ok (s1, 0) ∧
      pmemobj_memcpy_tid sample_env s1 0 1100 1200 4 = Except.ok (s2, 0) ∧
      pmemobj_tx_begin sample_env s2 5000000 none = Except.ok (s3, 1) ∧
      pmemobj_memcpy_tid sample_env s3 1 5000100 5000200 4 = Except.ok (s4, 0) ∧
      pmemobj_tx_commit sample_env s4 = Except.ok (s5, 0) ∧
      pmemobj_tx_abort sample_env s5 5 = Except.ok (s6, 0) ∧
      pmallocs s6.trace = [(1000, 500), (5000000, 516)] ∧
      pfrees s6.trace = [(1000, 516), (1000, 500)] ∧
      [5000100, 5000101, 5000102, 5000103].map sample_two_pools.mem = [0, 1, 2, 3] ∧
      [5000100, 5000101, 5000102, 5000103].map s4.mem = [2, 3, 4, 5] ∧
      [5000100, 5000101, 5000102, 5000103].map s6.mem = [4, 5, 6, 0] ∧
      [1100, 1101, 1102, 1103].map s6.mem = [1100, 1101, 1102, 1103].map sample_two_pools.mem :=
  ⟨_, _, _, _, _, _, rfl, rfl, rfl, rfl, rfl, rfl, rfl, rfl, rfl, rfl, rfl, rfl⟩

/-- C6, at the failing input. On the sample state a transaction is begun with no
jump environment and `pmemobj_tx_abort(5)` is called: it returns 0, not -1, and
`errno` is still 0, not 5. -/
theorem abort_returns_zero_errno_untouched :
    ∃ s1 s2, pmemobj_tx_begin sample_env sample_state 1000 none = Except.ok (s1, 0) ∧
      pmemobj_tx_abort sample_env s1 5 = Except.ok (s2, 0) ∧
      sample_state.errno = 0 ∧ s2.errno = 0 :=
  ⟨_, _, rfl, rfl, rfl, rfl⟩

/-- C7, at the failing input. On the sample state a transaction is begun with a
jump environment (the frame records it, `valid_env = 1`), one `memcpy` is logged
and `pmemobj_tx_abort(5)` is called: the call returns to its caller with 0, no
`longjmp` has been made, and the `pmemobj_tx_commit` that follows the abort call
is executed and dereferences the `NULL` `Curthread_txinfop`. -/
theorem abort_returns_despite_env :
    ∃ s1 s2 s3 t, pmemobj_tx_begin sample_env sample_state 1000 (some 9) = Except.ok (s1, 0) ∧
      tx_get s1 0 = Except.ok t ∧ t.valid_env = 1 ∧ t.env = 9 ∧
      pmemobj_memcpy_tid sample_env s1 0 1100 1200 4 = Except.ok (s2, 0) ∧
      pmemobj_tx_abort sample_env s2 5 = Except.ok (s3, 0) ∧
      s3.trace = [Event.pmalloc 1000 4 500, Event.pfree 1000 500] ∧
      pmemobj_tx_commit sample_env s3 = Except.error Fault.null_deref :=
  ⟨_, _, _, _, rfl, rfl, rfl, rfl, rfl, rfl, rfl, rfl⟩

/-- C8, at the failing input. On the sample state: begin P, `memcpy` 4 bytes to
1100 in P, begin T nested in P, `memcpy` 4 bytes to 1102 in T (the byte at 1104
goes from 5 to 1), then `pmemobj_tx_abort_tid(T, 5)`. The call returns 0 having
run no on-abort action: the byte at 1104 is still 1 and `pfree` has not been
called. When P is then committed the byte is still 1, and only the two undo
backups are freed. -/
theorem nested_abort_tid_undoes_nothing :
    ∃ s1 s2 s3 s4 s5 s6,
      pmemobj_tx_begin sample_env sample_state 1000 none = Except.ok (s1, 0) ∧
      pmemobj_memcpy_tid sample_env s1 0 1100 1200 4 = Except.ok (s2, 0) ∧
      pmemobj_tx_begin sample_env s2 1000 none = Except.ok (s3, 1) ∧
      pmemobj_memcpy_tid sample_env s3 1 1102 1210 4 = Except.ok (s4, 0) ∧
      pmemobj_tx_abort_tid sample_env s4 1 5 = Except.ok (s5, 0) ∧
      s3.mem 1104 = 5 ∧ s4.mem 1104 = 1 ∧ s5.mem 1104 = 1 ∧ pfrees s5.trace = [] ∧
      pmemobj_tx_commit sample_env s5 = Except.ok (s6, 0) ∧
      s6.mem 1104 = 1 ∧ pfrees s6.trace = [(1000, 516), (1000, 500)] :=
  ⟨_, _, _, _, _, _, rfl, rfl, rfl, rfl, rfl, rfl, rfl, rfl, rfl, rfl, rfl, rfl⟩

/-- C9, at the failing input. On the sample state: begin P, `memcpy` in P, then
`pmemobj_tx_begin` immediately followed by `pmemobj_tx_commit`: the commit of the
nested frame, whose log is empty, dereferences its `NULL` `head` and does not
complete. -/
theorem nested_begin_commit_faults :
    ∃ s1 s2 s3, pmemobj_tx_begin sample_env sample_state 1000 none = Except.ok (s1, 0) ∧
      pmemobj_memcpy_tid sample_env s1 0 1100 1200 4 = Except.ok (s2, 0) ∧
      pmemobj_tx_begin sample_env s2 1000 none = Except.ok (s3, 1) ∧
      pmemobj_tx_commit sample_env s3 = Except.error Fault.null_deref :=
  ⟨_, _, _, rfl, rfl, rfl, rfl⟩

/-- C10. For every live frame with a well-formed log on a valid pool, every
destination, source and length, when `Malloc` returns memory and the backup
region the allocator hands out shares no address with the destination nor with
the source, `pmemobj_memcpy_tid` returns 0 and afterwards: the destination holds
the source bytes, the frame's log has gained exactly two entries at its tail, an
Alloc of the backup offset `b` followed by Set{dst, b, len}, and the `len` bytes
at `pool_base + b` (in 64-bit arithmetic) equal the destination's bytes before
the call. -/
theorem memcpy_tid_logs_backup_and_copies (E : Env) (s : State) (tid : Nat) (t : tx)
    (l : List (Nat × LogEntry)) (P : pmemobjpool) (dstp srcp size : Nat)
    (hM : ∀ k, E.Malloc_ok k = true) (hL : LogOf s tid t l) (hP : s.pools t.pool = some P)
    (hBd : Disj ((P.addr + E.pmalloc_off s.npmalloc) % U64, size) (dstp, size))
    (hBs : Disj ((P.addr + E.pmalloc_off s.npmalloc) % U64, size) (srcp, size)) :
    ∃ s1 t1 p1 p2 b, pmemobj_memcpy_tid E s tid dstp srcp size = Except.ok (s1, 0) ∧
      b = E.pmalloc_off s.npmalloc ∧
      LogOf s1 tid t1
        ((p2, ⟨op_t.TXOP_SET, { addr := dstp, data := b, len := size }⟩) ::
         (p1, ⟨op_t.TXOP_ALLOC, { addr := b }⟩) :: l) ∧
      (∀ i, i < size → s1.mem (dstp + i) = s.mem (srcp + i)) ∧
      (∀ i, i < size → s1.mem ((P.addr + b) % U64 + i) = s.mem (dstp + i)) := by
  obtain ⟨s1, t1, h1, hL1, _, _, hmem, _, _⟩ :=
    memcpy_tid_spec E s tid t l P dstp srcp size hM hL hP
  refine ⟨s1, t1, _, _, _, h1, rfl, hL1, ?_, ?_⟩
  · intro i hi
    have hx : InRegion (srcp + i) (srcp, size) := by unfold InRegion; simp only; omega
    have hnb : ¬ InRegion (srcp + i) ((P.addr + E.pmalloc_off s.npmalloc) % U64, size) :=
      fun hin => hBs.not_both _ hin hx
    rw [hmem]
    simp only [memcpy]
    rw [if_pos (by omega), if_neg (by simpa [InRegion] using hnb)]
    congr 1
    omega
  · intro i hi
    have hx : InRegion ((P.addr + E.pmalloc_off s.npmalloc) % U64 + i)
        ((P.addr + E.pmalloc_off s.npmalloc) % U64, size) := by
      unfold InRegion; simp only; omega
    have hnd : ¬ InRegion ((P.addr + E.pmalloc_off s.npmalloc) % U64 + i) (dstp, size) :=
      hBd.not_both _ hx
    rw [hmem]
    simp only [memcpy]
    rw [if_neg (by simpa [InRegion] using hnd), if_pos (by omega)]
    congr 1
    omega

theorem sample_open_log :
    LogOf sample_open_state 0 sample_frame [(0, ⟨op_t.TXOP_FREE, { addr := 300 }⟩)] :=
  ⟨rfl, ⟨rfl, _, rfl, rfl, rfl, rfl⟩, rfl, by decide⟩

theorem memcpy_tid_logs_backup_and_copies_witness :
    LogOf sample_open_state 0 sample_frame [(0, ⟨op_t.TXOP_FREE, { addr := 300 }⟩)] ∧
    ∃ s1 t1 p1 p2 b,
      pmemobj_memcpy_tid sample_env sample_open_state 0 1100 1200 4 = Except.ok (s1, 0) ∧
      b = sample_env.pmalloc_off sample_open_state.npmalloc ∧
      LogOf s1 0 t1
        ((p2, ⟨op_t.TXOP_SET, { addr := 1100, data := b, len := 4 }⟩) ::
         (p1, ⟨op_t.TXOP_ALLOC, { addr := b }⟩) :: [(0, ⟨op_t.TXOP_FREE, { addr := 300 }⟩)]) ∧
      (∀ i, i < 4 → s1.mem (1100 + i) = sample_open_state.mem (1200 + i)) ∧
      (∀ i, i < 4 → s1.mem ((sample_pool.addr + b) % U64 + i) = sample_open_state.mem (1100 + i)) :=
  ⟨sample_open_log, memcpy_tid_logs_backup_and_copies sample_env sample_open_state 0 sample_frame
    [(0, ⟨op_t.TXOP_FREE, { addr := 300 }⟩)] sample_pool 1100 1200 4 (fun _ => rfl)
    sample_open_log rfl (by decide) (by decide)⟩

/-! ## Object ids in memory: reading and writing -/

theorem load_le_congr (m1 m2 : Nat → Nat) : ∀ (n a b : Nat),
    (∀ i, i < n → m1 (a + i) = m2 (b + i)) → load_le m1 a n = load_le m2 b n := by
  intro n
  induction n with
  | zero => intro a b _; rfl
  | succ n ih =>
    intro a b h
    have h0 := h 0 (Nat.succ_pos n)
    simp only [Nat.add_zero] at h0
    have h1 : load_le m1 (a + 1) n = load_le m2 (b + 1) n := by
      apply ih
      intro i hi
      have := h (i + 1) (Nat.succ_lt_succ hi)
      simpa [Nat.add_assoc, Nat.add_comm 1 i] using this
    simp only [load_le, h0, h1]

theorem load_le_lt (m : Nat → Nat) : ∀ (n a : Nat), load_le m a n < 256 ^ n := by
  intro n
  induction n with
  | zero => intro a; simp [load_le]
  | succ n ih =>
    intro a
    have h1 := ih (a + 1)
    have h2 : m a % 256 < 256 := Nat.mod_lt _ (by decide)
    simp only [load_le, pow_succ]
    omega

theorem load_le_bytes (m : Nat → Nat) : ∀ (n v a : Nat),
    (∀ i, i < n → m (a + i) = (le_bytes v n).getD i 0) → load_le m a n = v % 256 ^ n := by
  intro n
  induction n with
  | zero => intro v a _; simp [load_le, Nat.mod_one]
  | succ n ih =>
    intro v a h
    have h0 := h 0 (Nat.succ_pos n)
    simp only [Nat.add_zero, le_bytes, List.getD_cons_zero] at h0
    have h1 : load_le m (a + 1) n = (v / 256) % 256 ^ n := by
      apply ih
      intro i hi
      have := h (i + 1) (Nat.succ_lt_succ hi)
      simpa [le_bytes, Nat.add_assoc, Nat.add_comm 1 i] using this
    simp only [load_le, h0, h1, Nat.mod_mod]
    rw [pow_succ', Nat.mod_mul]

theorem le_bytes_length : ∀ (n v : Nat), (le_bytes v n).length = n := by
  intro n
  induction n with
  | zero => intro v; rfl
  | succ n ih => intro v; simp [le_bytes, ih]

theorem load_oid_congr (m1 m2 : Nat → Nat) (a b : Nat)
    (h : ∀ i, i < 16 → m1 (a + i) = m2 (b + i)) : load_oid m1 a = load_oid m2 b := by
  have h1 : load_le m1 a 8 = load_le m2 b 8 :=
    load_le_congr m1 m2 8 a b (fun i hi => h i (by omega))
  have h2 : load_le m1 (a + 8) 8 = load_le m2 (b + 8) 8 :=
    load_le_congr m1 m2 8 (a + 8) (b + 8) (fun i hi => by
      have := h (8 + i) (by omega)
      simpa [Nat.add_assoc] using this)
  simp [load_oid, h1, h2]

theorem load_oid_rep (m : Nat → Nat) (a : Nat) : Rep (load_oid m a) := by
  have h1 := load_le_lt m 8 a
  have h2 := load_le_lt m 8 (a + 8)
  exact ⟨by simpa [load_oid, U64] using h1, by simpa [load_oid, U64] using h2⟩

theorem oid_bytes_length (v : PMEMoid) : (oid_bytes v).length = 16 := by
  simp [oid_bytes, le_bytes_length]

theorem load_store_same (m : Nat → Nat) (a : Nat) (v : PMEMoid) (hv : Rep v) :
    load_oid (store_oid m a v) a = v := by
  have h1 : load_le (store_oid m a v) a 8 = v.pool % 256 ^ 8 := by
    apply load_le_bytes
    intro i hi
    have : a ≤ a + i ∧ a + i < a + (oid_bytes v).length := by
      rw [oid_bytes_length]; omega
    simp only [store_oid, store_bytes, this, and_self, if_true, Nat.add_sub_cancel_left]
    simp [oid_bytes, List.getD_eq_getElem?_getD, List.getElem?_append_left, le_bytes_length, hi]
  have h2 : load_le (store_oid m a v) (a + 8) 8 = v.off % 256 ^ 8 := by
    apply load_le_bytes
    intro i hi
    have : a ≤ a + 8 + i ∧ a + 8 + i < a + (oid_bytes v).length := by
      rw [oid_bytes_length]; omega
    have e : a + 8 + i - a = 8 + i := by omega
    simp only [store_oid, store_bytes, this, and_self, if_true, e]
    simp [oid_bytes, List.getD_eq_getElem?_getD, List.getElem?_append_right, le_bytes_length]
  have p1 : v.pool % 256 ^ 8 = v.pool := Nat.mod_eq_of_lt (by simpa [U64] using hv.1)
  have p2 : v.off % 256 ^ 8 = v.off := Nat.mod_eq_of_lt (by simpa [U64] using hv.2)
  cases v
  simp_all [load_oid]

theorem load_store_other (m : Nat → Nat) (a b : Nat) (v : PMEMoid)
    (h : Disj (slot a) (slot b)) : load_oid (store_oid m a v) b = load_oid m b := by
  apply load_oid_congr
  intro i hi
  have : ¬ (a ≤ b + i ∧ b + i < a + (oid_bytes v).length) := by
    rw [oid_bytes_length]
    simp only [Disj, slot, PMEMLIST_SIZE] at h
    omega
  simp [store_oid, store_bytes, this]

/-- One field-set on the bytes: the destination holds what the source held, and
an object id stored apart from the destination and from the undo backup is
unchanged. -/
theorem set_load_dst (m : Nat → Nat) (bk d sr : Nat)
    (h1 : Disj (bk, 16) (slot sr)) :
    load_oid (memcpy (memcpy m bk d 16) d sr 16) d = load_oid m sr := by
  apply load_oid_congr
  intro i hi
  have e1 : d ≤ d + i ∧ d + i < d + 16 := by omega
  have e2 : ¬ (bk ≤ sr + i ∧ sr + i < bk + 16) := by
    simp only [Disj, slot, PMEMLIST_SIZE] at h1
    omega
  simp [memcpy, e1, e2]

theorem set_load_other (m : Nat → Nat) (bk d sr a : Nat)
    (h1 : Disj (bk, 16) (slot a)) (h2 : Disj (slot d) (slot a)) :
    load_oid (memcpy (memcpy m bk d 16) d sr 16) a = load_oid m a := by
  apply load_oid_congr
  intro i hi
  have e1 : ¬ (d ≤ a + i ∧ a + i < d + 16) := by
    simp only [Disj, slot, PMEMLIST_SIZE] at h2
    omega
  have e2 : ¬ (bk ≤ a + i ∧ a + i < bk + 16) := by
    simp only [Disj, slot, PMEMLIST_SIZE] at h1
    omega
  simp [memcpy, e1, e2]

/-! ## Field-sets on places that do not overlap -/

theorem Disj.symm {r1 r2 : Region} (h : Disj r1 r2) : Disj r2 r1 := by
  unfold Disj at *
  omega

theorem Apart.disj {ns : List PMEMoid} (h : Apart ns) {o q : PMEMoid} (ho : o ∈ ns)
    (hq : q ∈ ns) (hne : o ≠ q) : Disj (link o) (link q) :=
  List.Pairwise.forall (fun _ _ hxy => Disj.symm hxy) h ho hq hne

theorem Apart.nodup {ns : List PMEMoid} (h : Apart ns) : ns.Nodup := by
  unfold Apart at h
  refine List.Pairwise.imp ?_ h
  intro a b hab e
  subst e
  simp [Disj, link, PMEMLIST_SIZE] at hab

theorem SlotId.disj_of_layout {ns : List PMEMoid} {ls : List Nat} {bs : List Region}
    (hl : Layout ns ls bs) (i j : SlotId) (hi : SlotId.In ns ls i) (hj : SlotId.In ns ls j)
    (hne : i ≠ j) : Disj (slot i.addr) (slot j.addr) := by
  obtain ⟨hA, hL, hNL, _, _⟩ := hl
  have key : ∀ o q, o ∈ ns → q ∈ ns → o ≠ q → Disj (link o) (link q) :=
    fun o q ho hq h => hA.disj ho hq h
  have hLL : ∀ a b, a ∈ ls → b ∈ ls → a ≠ b → Disj (slot a) (slot b) :=
    fun a b ha hb h => List.Pairwise.forall (fun _ _ hxy => Disj.symm hxy) hL ha hb h
  cases i with
  | next o =>
    cases j with
    | next q =>
      have := key o q hi hj (fun e => hne (by rw [e]))
      simp only [Disj, link, slot, SlotId.addr, PMEMLIST_SIZE, PMEMlist_next] at this ⊢
      omega
    | prev q =>
      by_cases e : o = q
      · subst e
        simp only [Disj, slot, SlotId.addr, PMEMLIST_SIZE, PMEMlist_next, PMEMlist_prev]
        omega
      · have := key o q hi hj e
        simp only [Disj, link, slot, SlotId.addr, PMEMLIST_SIZE, PMEMlist_next,
          PMEMlist_prev] at this ⊢
        omega
    | auto a =>
      have := hNL o hi a hj
      simp only [Disj, link, slot, SlotId.addr, PMEMLIST_SIZE, PMEMlist_next] at this ⊢
      omega
  | prev o =>
    cases j with
    | next q =>
      by_cases e : o = q
      · subst e
        simp only [Disj, slot, SlotId.addr, PMEMLIST_SIZE, PMEMlist_next, PMEMlist_prev]
        omega
      · have := key o q hi hj e
        simp only [Disj, link, slot, SlotId.addr, PMEMLIST_SIZE, PMEMlist_next,
          PMEMlist_prev] at this ⊢
        omega
    | prev q =>
      have := key o q hi hj (fun e => hne (by rw [e]))
      simp only [Disj, link, slot, SlotId.addr, PMEMLIST_SIZE, PMEMlist_prev] at this ⊢
      omega
    | auto a =>
      have := hNL o hi a hj
      simp only [Disj, link, slot, SlotId.addr, PMEMLIST_SIZE, PMEMlist_prev] at this ⊢
      omega
  | auto a =>
    cases j with
    | next q =>
      have := hNL q hj a hi
      simp only [Disj, link, slot, SlotId.addr, PMEMLIST_SIZE, PMEMlist_next] at this ⊢
      omega
    | prev q =>
      have := hNL q hj a hi
      simp only [Disj, link, slot, SlotId.addr, PMEMLIST_SIZE, PMEMlist_prev] at this ⊢
      omega
    | auto b =>
      exact hLL a b hi hj (fun e => hne (by rw [e]))

theorem SlotId.disj_backup {ns : List PMEMoid} {ls : List Nat} {bs : List Region}
    (hl : Layout ns ls bs) (b : Region) (hb : b ∈ bs) (hb2 : b.2 = PMEMLIST_SIZE) (i : SlotId)
    (hi : SlotId.In ns ls i) : Disj b (slot i.addr) := by
  obtain ⟨_, _, _, hBN, hBL⟩ := hl
  cases i with
  | next o =>
    have := hBN b hb o hi
    simp only [Disj, link, slot, SlotId.addr, PMEMLIST_SIZE, PMEMlist_next] at this hb2 ⊢
    omega
  | prev o =>
    have := hBN b hb o hi
    simp only [Disj, link, slot, SlotId.addr, PMEMLIST_SIZE, PMEMlist_prev] at this hb2 ⊢
    omega
  | auto a => exact hBL b hb a hi

theorem sets_abs_congr (V : SlotId → Prop) : ∀ (ops : List (SlotId × SlotId))
    (F G : SlotId → PMEMoid), (∀ j, V j → F j = G j) → (∀ p ∈ ops, V p.1 ∧ V p.2) →
    ∀ i, V i → sets_abs F ops i = sets_abs G ops i := by
  intro ops
  induction ops with
  | nil => intro F G h _ i hi; exact h i hi
  | cons p rest ih =>
    intro F G h hops i hi
    simp only [sets_abs]
    apply ih _ _ _ (fun q hq => hops q (List.mem_cons_of_mem _ hq)) i hi
    intro j hj
    have hp := hops p (List.mem_cons_self _ _)
    by_cases e : j = p.1
    · subst e; simp [h _ hp.2]
    · simp [Function.update_noteq e, h j hj]

/-- The addresses of a sequence of field-sets given by places. -/
theorem sets_mem (E : Env) (base : Nat) (V : SlotId → Prop)
    (hd : ∀ i j, V i → V j → i ≠ j → Disj (slot i.addr) (slot j.addr)) :
    ∀ (ops : List (SlotId × SlotId)) (k : Nat) (m : Nat → Nat),
      (∀ p ∈ ops, V p.1 ∧ V p.2) →
      (∀ b ∈ backups E base k ops.length, ∀ i, V i → Disj b (slot i.addr)) →
      ∀ i, V i →
        load_oid (calls_mem E base k m (set_calls (ops.map (fun p => (p.1.addr, p.2.addr)))))
          i.addr = sets_abs (fun j => load_oid m j.addr) ops i := by
  intro ops
  induction ops with
  | nil => intro k m _ _ i _; rfl
  | cons p rest ih =>
    intro k m hops hbk i hi
    have hp := hops p (List.mem_cons_self _ _)
    have hb0 : ∀ j, V j → Disj ((base + E.pmalloc_off k) % U64, 16) (slot j.addr) := by
      intro j hj
      apply hbk _ _ j hj
      simp only [backups, List.mem_map, List.mem_range]
      exact ⟨0, by simp, by simp [PMEMLIST_SIZE]⟩
    have hbk1 : ∀ b ∈ backups E base (k + 1) rest.length, ∀ j, V j → Disj b (slot j.addr) := by
      intro b hb j hj
      apply hbk b _ j hj
      simp only [backups, List.mem_map, List.mem_range] at hb ⊢
      obtain ⟨n, hn, e⟩ := hb
      exact ⟨n + 1, by simpa using hn, by rw [← e]; simp [Nat.add_assoc, Nat.add_comm 1 n]⟩
    simp only [set_calls, List.map_cons, List.map_map, calls_mem, TxCall.npm, call_mem]
    have := ih (k + 1)
      (memcpy (memcpy m ((base + E.pmalloc_off k) % U64) p.1.addr PMEMLIST_SIZE) p.1.addr
        p.2.addr PMEMLIST_SIZE)
      (fun q hq => hops q (List.mem_cons_of_mem _ hq)) hbk1 i hi
    simp only [set_calls, List.map_map] at this
    rw [this]
    simp only [sets_abs]
    apply sets_abs_congr V rest _ _ _ (fun q hq => hops q (List.mem_cons_of_mem _ hq)) i hi
    intro j hj
    by_cases e : j = p.1
    · subst e
      simp only [Function.update_same, PMEMLIST_SIZE]
      exact set_load_dst m _ _ _ (hb0 _ hp.2)
    · simp only [Function.update_noteq e, PMEMLIST_SIZE]
      exact set_load_other m _ _ _ _ (hb0 j hj) (hd _ _ hp.1 hj (fun h => e h.symm))

/-- A byte outside every destination and every undo backup is not written. -/
theorem sets_frame (E : Env) (base : Nat) : ∀ (ops : List (Nat × Nat)) (k : Nat)
    (m : Nat → Nat) (a : Nat), (∀ p ∈ ops, ¬ InRegion a (slot p.1)) →
    (∀ b ∈ backups E base k ops.length, ¬ InRegion a b) →
    calls_mem E base k m (set_calls ops) a = m a := by
  intro ops
  induction ops with
  | nil => intro k m a _ _; rfl
  | cons p rest ih =>
    intro k m a hops hbk
    have hb0 : ¬ InRegion a ((base + E.pmalloc_off k) % U64, 16) := by
      apply hbk
      simp only [backups, List.mem_map, List.mem_range]
      exact ⟨0, by simp, by simp [PMEMLIST_SIZE]⟩
    have hbk1 : ∀ b ∈ backups E base (k + 1) rest.length, ¬ InRegion a b := by
      intro b hb
      apply hbk b
      simp only [backups, List.mem_map, List.mem_range] at hb ⊢
      obtain ⟨n, hn, e⟩ := hb
      exact ⟨n + 1, by simpa using hn, by rw [← e]; simp [Nat.add_assoc, Nat.add_comm 1 n]⟩
    have hp := hops p (List.mem_cons_self _ _)
    simp only [set_calls, List.map_cons, calls_mem, TxCall.npm, call_mem]
    have := ih (k + 1)
      (memcpy (memcpy m ((base + E.pmalloc_off k) % U64) p.1 PMEMLIST_SIZE) p.1 p.2
        PMEMLIST_SIZE) a (fun q hq => hops q (List.mem_cons_of_mem _ hq)) hbk1
    simp only [set_calls] at this
    rw [this]
    simp only [InRegion, slot, PMEMLIST_SIZE] at hp hb0
    simp [memcpy, PMEMLIST_SIZE, hp, hb0]

/-! ## The transaction of a list function -/

theorem set_calls_npm : ∀ ops : List (Nat × Nat), calls_npm (set_calls ops) = ops.length := by
  intro ops
  induction ops with
  | nil => rfl
  | cons p rest ih =>
    simp only [set_calls, List.map_cons, calls_npm, TxCall.npm, List.length_cons] at ih ⊢
    rw [ih]; omega

theorem run_sets_spec (E : Env) (tid : Nat) (P : pmemobjpool) (hM : ∀ k, E.Malloc_ok k = true) :
    ∀ (ops : List (Nat × Nat)) (s : State) (t : tx) (l : List (Nat × LogEntry)),
      LogOf s tid t l → s.pools t.pool = some P → s.Curthread_txinfop = some tid →
      run_sets E ops s = run_calls E tid (set_calls ops) s := by
  intro ops
  induction ops with
  | nil => intro s t l _ _ _; rfl
  | cons p rest ih =>
    intro s t l hL hP hcur
    obtain ⟨s1, t1, h1, hL1, hF, hS, _, _, _⟩ :=
      memcpy_tid_spec E s tid t l P p.1 p.2 PMEMLIST_SIZE hM hL hP
    have hP1 : s1.pools t1.pool = some P := by rw [hS.pools, hF.pool]; exact hP
    have hcur1 : s1.Curthread_txinfop = some tid := by rw [hS.cur]; exact hcur
    have := ih s1 t1 _ hL1 hP1 hcur1
    simp only [set_calls] at this
    simp [run_sets, PMEMOBJ_SET, pmemobj_memcpy, hcur, nonnull, h1, set_calls, run_calls,
      run_call, bind, Except.bind, pure, Except.pure, this]

theorem commit_fold_keeps (pool : Nat) : ∀ (es : List LogEntry) (s : State),
    (es.foldl (commit_step pool) s).pools = s.pools ∧
      (es.foldl (commit_step pool) s).npmalloc = s.npmalloc := by
  intro es
  induction es with
  | nil => intro s; exact ⟨rfl, rfl⟩
  | cons e es ih => intro s; simp [List.foldl, ih, commit_step]

/-- The commit of a thread whose only open frame is `tid` leaves the pools and
the allocator's count alone. -/
theorem commit_top_keeps (E : Env) (s : State) (tid : Nat) (t : tx) (l : List (Nat × LogEntry))
    (hcur : s.Curthread_txinfop = some tid) (hL : LogOf s tid t l) (hnext : t.next = none) :
    ∃ s3, pmemobj_tx_commit E s = Except.ok (s3, 0) ∧ s3.pools = s.pools ∧
      s3.npmalloc = s.npmalloc := by
  obtain ⟨s1, t1, h1, hL1, _, _, hn1, hp1, hstep⟩ := unlock_spec E s tid t l hL
  have h2 := commit_action_top s1 tid t1 l hL1 (hn1.trans hnext)
  refine ⟨{ (l.map Prod.snd).foldl (commit_step t1.pool) s1 with
      txs := s1.txs.set tid none, Curthread_txinfop := none }, ?_, ?_, ?_⟩
  · simp [pmemobj_tx_commit, pmemobj_tx_commit_tid, hcur, nonnull, h1, h2, bind, Except.bind]
  · show (List.foldl (commit_step t1.pool) s1 (List.map Prod.snd l)).pools = _
    rw [(commit_fold_keeps _ _ _).1, hstep.pools]
  · show (List.foldl (commit_step t1.pool) s1 (List.map Prod.snd l)).npmalloc = _
    rw [(commit_fold_keeps _ _ _).2, hstep.npmalloc]

/-- The transaction of a list function: it completes with status 0, the bytes
are those the field-sets leave, the thread is again where a list function can
run, and either no transaction was open and `pfree` is called on the undo
backups only, or the entries of the field-sets are linked behind the log of the
current frame and `pfree` is not called. -/
theorem list_tx_spec (E : Env) (s : State) (pool : Nat) (P : pmemobjpool) (env : Nat)
    (ops : List (Nat × Nat)) (hM : ∀ k, E.Malloc_ok k = true) (hP : s.pools pool = some P)
    (hops : ops ≠ []) (hr : TxReady s) :
    ∃ s3 evs, list_tx E s pool env ops = Except.ok (s3, 0) ∧
      s3.mem = calls_mem E P.addr s.npmalloc s.mem (set_calls ops) ∧
      s3.pools = s.pools ∧ s3.npmalloc = s.npmalloc + ops.length ∧
      s3.Curthread_txinfop = s.Curthread_txinfop ∧ TxReady s3 ∧
      s3.trace = s.trace ++ evs ∧
      ((s.Curthread_txinfop = none ∧
          pfrees evs = (calls_commit_frees E pool s.npmalloc (set_calls ops)).reverse) ∨
        (∃ tid t l t3 new, s.Curthread_txinfop = some tid ∧ LogOf s tid t l ∧
          LogOf s3 tid t3 (new ++ l) ∧ SameFrame t t3 ∧
          new.map Prod.snd = (calls_entries E s.npmalloc (set_calls ops)).reverse ∧
          pfrees evs = [])) := by
  have hcs : set_calls ops ≠ [] := by
    cases ops with
    | nil => exact absurd rfl hops
    | cons p rest => simp [set_calls]
  obtain ⟨s1, s2, t2, l2, evA, hb, hrun, hL2, hE2, hB2, hnext2, hpool2, hcur2, hpools2, hmem2,
    htr1, hsyA, htr2, hnp2, hlen2, hothers2, hkept2⟩ :=
    begin_run_spec E s pool P (some env) BeginCall.plain (set_calls ops) hM hP
  have hb1 : pmemobj_tx_begin E s pool (some env) = Except.ok (s1, s.txs.length) := hb
  obtain ⟨s1b, t1b, hbb, htxs1, _, hpool1, hh1, htl1, hcur1, _, hpools1, _, _, _⟩ :=
    run_begin_spec E s pool (some env) BeginCall.plain hM
  have e1 : s1b = s1 := by
    have := hbb.symm.trans hb
    injection this with this
    injection this
  subst e1
  have hL1 : LogOf s1b s.txs.length t1b [] := begin_LogOf s s1b t1b htxs1 hh1 htl1
  have hP1 : s1b.pools t1b.pool = some P := by rw [hpools1, hpool1]; exact hP
  have hsets : run_sets E ops s1b = Except.ok s2 := by
    rw [run_sets_spec E s.txs.length P hM ops s1b t1b [] hL1 hP1 hcur1]; exact hrun
  have hnp : s2.npmalloc = s.npmalloc + ops.length := by rw [hnp2, set_calls_npm]
  have hl2ne : l2 ≠ [] := ne_nil_of_map_snd hE2 (calls_entries_ne_nil E _ _ hcs)
  rcases hr with hnone | ⟨Pp, tP, lP, hcurP, hLP, hlPne⟩
  · -- no transaction was open
    obtain ⟨s3, evU, hc, hsyU, hmem3, htr3, hcur3⟩ :=
      commit_top E s2 s.txs.length t2 l2 hcur2 hL2 (hnext2.trans hnone)
    obtain ⟨s3b, hcb, hpools3, hnp3⟩ :=
      commit_top_keeps E s2 s.txs.length t2 l2 hcur2 hL2 (hnext2.trans hnone)
    have e3 : s3 = s3b := by
      have := hc.symm.trans hcb
      injection this with this
      injection this
    subst e3
    refine ⟨s3, evA ++ calls_events E pool s.npmalloc (set_calls ops) ++
      (evU ++ commit_trace t2.pool (l2.map Prod.snd)), ?_, ?_, ?_, ?_, ?_, ?_, ?_, ?_⟩
    · simp [list_tx, hb1, hsets, hc, bind, Except.bind, pure, Except.pure]
    · rw [hmem3, hmem2]
    · rw [hpools3, hpools2]
    · rw [hnp3, hnp]
    · rw [hcur3, hnone]
    · exact Or.inl hcur3
    · rw [htr3, htr2, htr1]; simp [List.append_assoc]
    · left
      refine ⟨hnone, ?_⟩
      simp only [pfrees_append, IsSync_pfrees evA hsyA, IsSync_pfrees evU hsyU,
        calls_events_pfrees, List.nil_append, hE2, hpool2]
      exact commit_frees_spec E pool _ _
  · -- a transaction was open: the new frame is nested in it
    have hPlt : Pp < s.txs.length := by
      have := hLP.1
      by_contra hge
      rw [List.getElem?_eq_none (by omega)] at this
      exact absurd this (by simp)
    have hLP2 : LogOf s2 Pp tP lP := hLP.preserved (hothers2 _ hPlt) hkept2
    have hdisj : ∀ x ∈ l2, ∀ y ∈ lP, x.1 ≠ y.1 := by
      intro x hx y hy
      have hxge := hB2 x hx
      have hylt := PrevPath.lt lP _ hLP.2.1 y hy
      omega
    obtain ⟨s3, tP1, evC, hc, hLP3, hF3, hcur3, hmem3, htr3, hsyC, hpools3, hnp3⟩ :=
      commit_nested E s2 s.txs.length Pp t2 tP l2 lP hL2 hLP2 (hnext2.trans hcurP) hl2ne hlPne
        hdisj (by omega) hcur2
    refine ⟨s3, evA ++ calls_events E pool s.npmalloc (set_calls ops) ++ evC, ?_, ?_, ?_, ?_, ?_,
      ?_, ?_, ?_⟩
    · simp [list_tx, hb1, hsets, hc, bind, Except.bind, pure, Except.pure]
    · rw [hmem3, hmem2]
    · rw [hpools3, hpools2]
    · rw [hnp3, hnp]
    · rw [hcur3, hcurP]
    · refine Or.inr ⟨Pp, tP1, l2 ++ lP, hcur3, hLP3, ?_⟩
      simp [hl2ne]
    · rw [htr3, htr2, htr1]; simp [List.append_assoc]
    · right
      refine ⟨Pp, tP, lP, tP1, l2, hcurP, hLP, hLP3, hF3, hE2, ?_⟩
      simp only [pfrees_append, IsSync_pfrees evA hsyA, IsSync_pfrees evC hsyC,
        calls_events_pfrees, List.nil_append]

/-! ## Cycles -/

theorem Cyc_cons {α : Type} (R : α → α → Prop) (a : α) (l : List α) :
    Cyc R (a :: l) ↔ List.Chain R a (l ++ [a]) := by
  simp [Cyc, List.Chain']

theorem Cyc_rotate {α : Type} (R : α → α → Prop) (u v : List α) :
    Cyc R (u ++ v) ↔ Cyc R (v ++ u) := by
  cases u with
  | nil => simp
  | cons a u =>
    cases v with
    | nil => simp
    | cons b v =>
      have e1 : (a :: u ++ b :: v) ++ (a :: u ++ b :: v).take 1 = (a :: u) ++ b :: (v ++ [a]) := by
        simp
      have e2 : (b :: v ++ a :: u) ++ (b :: v ++ a :: u).take 1 = (b :: v) ++ a :: (u ++ [b]) := by
        simp
      have s1 : List.Chain' R ((a :: u) ++ b :: (v ++ [a])) ↔
          List.Chain' R ((a :: u) ++ [b]) ∧ List.Chain' R (b :: (v ++ [a])) := List.chain'_split
      have s2 : List.Chain' R ((b :: v) ++ a :: (u ++ [b])) ↔
          List.Chain' R ((b :: v) ++ [a]) ∧ List.Chain' R (a :: (u ++ [b])) := List.chain'_split
      unfold Cyc
      rw [e1, e2, s1, s2]
      exact And.comm

theorem chain_change {α : Type} (R S : α → α → Prop) : ∀ (l : List α) (p n : α),
    l.head? = some n → l.getLast? = some p → l.Nodup →
    (∀ a b, a ∈ l → b ∈ l → a ≠ p → b ≠ n → R a b → S a b) →
    List.Chain' R l → List.Chain' S l := by
  intro l p n hn hp hnd hk hc
  rw [List.chain'_iff_get] at hc ⊢
  intro i hi
  have h1 := hc i hi
  have hlen : 0 < l.length := by omega
  have hne : l ≠ [] := List.ne_nil_of_length_pos hlen
  have hp2 : l.get ⟨l.length - 1, by omega⟩ = p := by
    rw [List.getLast?_eq_getLast _ hne] at hp
    injection hp with hp
    rw [← hp, List.getLast_eq_getElem]
    rfl
  have hn2 : l.get ⟨0, hlen⟩ = n := by
    cases l with
    | nil => exact absurd rfl hne
    | cons x xs => simpa using hn
  apply hk _ _ (List.get_mem _ _ _) (List.get_mem _ _ _) _ _ h1
  · intro e
    rw [← hp2] at e
    have := (List.Nodup.get_inj_iff hnd).1 e
    simp only [Fin.mk.injEq] at this
    omega
  · intro e
    rw [← hn2] at e
    have := (List.Nodup.get_inj_iff hnd).1 e
    simp only [Fin.mk.injEq] at this
    omega

/-- At the end of a cycle `C` that begins with `n` and ends with `p`, the
elements `mid` are replaced by the elements `mid1`. -/
theorem Cyc_change {α : Type} (R S : α → α → Prop) (C mid mid1 : List α) (p n : α)
    (hn : C.head? = some n) (hp : C.getLast? = some p) (hnd : C.Nodup)
    (hk : ∀ a b, a ∈ C → b ∈ C → a ≠ p → b ≠ n → R a b → S a b)
    (hnew : List.Chain' S (p :: (mid1 ++ [n])))
    (h : Cyc R (C ++ mid)) : Cyc S (C ++ mid1) ∧ List.Chain' R (p :: (mid ++ [n])) := by
  have hne : C ≠ [] := by
    intro e; rw [e] at hn; simp at hn
  obtain ⟨M, e⟩ : ∃ M, C = M ++ [p] := by
    rw [List.getLast?_eq_getLast _ hne] at hp
    injection hp with hp
    exact ⟨C.dropLast, by rw [← hp]; exact (List.dropLast_append_getLast hne).symm⟩
  have t1 : ∀ x : List α, (C ++ x).take 1 = [n] := by
    intro x
    cases C with
    | nil => exact absurd rfl hne
    | cons c cs =>
      simp only [List.head?_cons, Option.some.injEq] at hn
      simp [hn]
  unfold Cyc at h ⊢
  rw [t1] at h ⊢
  have g1 : C ++ mid ++ [n] = M ++ p :: (mid ++ [n]) := by rw [e]; simp
  have g2 : C ++ mid1 ++ [n] = M ++ p :: (mid1 ++ [n]) := by rw [e]; simp
  have s1 : List.Chain' R (M ++ p :: (mid ++ [n])) ↔
      List.Chain' R (M ++ [p]) ∧ List.Chain' R (p :: (mid ++ [n])) := List.chain'_split
  have s2 : List.Chain' S (M ++ p :: (mid1 ++ [n])) ↔
      List.Chain' S (M ++ [p]) ∧ List.Chain' S (p :: (mid1 ++ [n])) := List.chain'_split
  rw [g1, s1] at h
  rw [g2, s2]
  refine ⟨⟨?_, hnew⟩, h.2⟩
  rw [← e]
  have h1 := h.1
  rw [← e] at h1
  exact chain_change R S C p n hn hp hnd hk h1

/-- In a cycle that begins with `h`, the elements `mid` between `pre` and `post`
are replaced by the elements `mid1`; `p` is the element before them and `n` the
element after them. -/
theorem ring_change {α : Type} (R S : α → α → Prop) (h : α) (pre mid mid1 post : List α)
    (p n : α) (hp : (h :: pre).getLast? = some p) (hn : (post ++ [h]).head? = some n)
    (hnd : (h :: (pre ++ post)).Nodup)
    (hk : ∀ a b, a ∈ h :: (pre ++ post) → b ∈ h :: (pre ++ post) → a ≠ p → b ≠ n →
      R a b → S a b)
    (hnew : List.Chain' S (p :: (mid1 ++ [n])))
    (hc : Cyc R (h :: (pre ++ mid ++ post))) :
    Cyc S (h :: (pre ++ mid1 ++ post)) ∧ List.Chain' R (p :: (mid ++ [n])) := by
  have e1 : h :: (pre ++ mid ++ post) = (h :: pre ++ mid) ++ post := by simp
  have e2 : post ++ (h :: pre ++ mid) = (post ++ h :: pre) ++ mid := by simp
  have e3 : h :: (pre ++ mid1 ++ post) = (h :: pre ++ mid1) ++ post := by simp
  have e4 : post ++ (h :: pre ++ mid1) = (post ++ h :: pre) ++ mid1 := by simp
  rw [e1, Cyc_rotate, e2] at hc
  rw [e3, Cyc_rotate, e4]
  have hmem : ∀ a, a ∈ post ++ h :: pre → a ∈ h :: (pre ++ post) := by
    intro a ha
    simp only [List.mem_append, List.mem_cons] at ha ⊢
    tauto
  apply Cyc_change R S (post ++ h :: pre) mid mid1 p n _ _ _ _ hnew hc
  · cases post with
    | nil => simpa using hn
    | cons c cs => simpa using hn
  · rw [List.getLast?_append_of_ne_nil _ (List.cons_ne_nil _ _)]
    exact hp
  · have : (post ++ h :: pre).Perm (h :: (pre ++ post)) := by
      have := (List.perm_append_comm : (post ++ h :: pre).Perm ((h :: pre) ++ post))
      simpa using this
    exact this.nodup_iff.2 hnd
  · intro a b ha hb
    exact hk a b (hmem a ha) (hmem b hb)

/-! ## Well-formed lists as cycles of neighbours -/

theorem chain_and {α : Type} (R S : α → α → Prop) : ∀ (l : List α) (a : α),
    List.Chain (fun x y => R x y ∧ S x y) a l ↔ List.Chain R a l ∧ List.Chain S a l := by
  intro l
  induction l with
  | nil => intro a; simp
  | cons b l ih =>
    intro a
    simp only [List.chain_cons, ih]
    tauto

theorem Walk_iff_chain (f : PMEMoid → PMEMoid) (h : PMEMoid) : ∀ (xs : List PMEMoid)
    (a : PMEMoid), Walk f h (f a) xs ↔ List.Chain (fun u v => f u = v) a (xs ++ [h]) := by
  intro xs
  induction xs with
  | nil => intro a; simp [Walk]
  | cons x rest ih =>
    intro a
    simp only [Walk, List.cons_append, List.chain_cons, ih]

theorem walks_iff_cyc (m : Nat → Nat) (h : PMEMoid) (xs : List PMEMoid) :
    (NextWalk m h xs ∧ PrevWalk m h xs.reverse) ↔ Cyc (Adj m) (h :: xs) := by
  rw [Cyc_cons]
  have e : Adj m = fun a b => nxt m a = b ∧ prv m b = a := by
    funext a b; rfl
  rw [e, chain_and]
  unfold NextWalk PrevWalk
  rw [Walk_iff_chain, Walk_iff_chain]
  have r : h :: (xs.reverse ++ [h]) = (h :: (xs ++ [h])).reverse := by
    rw [List.reverse_cons, List.reverse_append]; rfl
  have c1 : List.Chain (fun a b => prv m a = b) h (xs.reverse ++ [h]) ↔
      List.Chain' (fun a b => prv m a = b) (h :: (xs ++ [h])).reverse := by
    rw [← r]; rfl
  rw [c1, List.chain'_reverse]
  rfl

theorem WellFormed_iff (m : Nat → Nat) (h : PMEMoid) (xs : List PMEMoid) :
    WellFormed m h xs ↔ Cyc (Adj m) (h :: xs) ∧ Apart (h :: xs) := by
  unfold WellFormed
  rw [← walks_iff_cyc]
  exact ⟨fun w => ⟨⟨w.1, w.2.1⟩, w.2.2⟩, fun w => ⟨w.1.1, w.1.2, w.2⟩⟩

/-- In a cycle every element has its neighbours in the cycle. -/
theorem Cyc_next_head (m : Nat → Nat) (h : PMEMoid) (xs : List PMEMoid)
    (hc : Cyc (Adj m) (h :: xs)) : (xs ++ [h]).head? = some (nxt m h) := by
  rw [Cyc_cons] at hc
  cases xs with
  | nil =>
    simp only [List.nil_append, List.chain_cons] at hc
    simp [hc.1.1]
  | cons x xs =>
    simp only [List.cons_append, List.chain_cons] at hc
    simp [hc.1.1]

theorem Cyc_prev_last (m : Nat → Nat) (h : PMEMoid) (xs : List PMEMoid)
    (hc : Cyc (Adj m) (h :: xs)) : (h :: xs).getLast? = some (prv m h) := by
  have e : h :: xs = [h] ++ xs := rfl
  rw [e, Cyc_rotate] at hc
  cases xs with
  | nil =>
    simp only [List.nil_append, Cyc_cons, List.chain_cons] at hc
    simp [hc.1.2]
  | cons x xs =>
    obtain ⟨M, p, e2⟩ : ∃ M p, x :: xs = M ++ [p] :=
      ⟨(x :: xs).dropLast, (x :: xs).getLast (List.cons_ne_nil _ _),
        (List.dropLast_append_getLast _).symm⟩
    rw [e2] at hc ⊢
    have t : (M ++ [p] ++ [h]).take 1 = (M ++ [p]).take 1 := by
      cases M <;> simp
    unfold Cyc at hc
    have g : M ++ [p] ++ [h] ++ (M ++ [p] ++ [h]).take 1 = M ++ p :: h :: ((M ++ [p]).take 1) := by
      rw [t]; simp
    have s1 : List.Chain' (Adj m) (M ++ p :: h :: ((M ++ [p]).take 1)) ↔
        List.Chain' (Adj m) (M ++ [p]) ∧ List.Chain' (Adj m) (p :: h :: ((M ++ [p]).take 1)) :=
      List.chain'_split
    rw [g, s1] at hc
    have := hc.2
    simp only [List.chain'_cons] at this
    have e3 : h :: (M ++ [p]) = (h :: M) ++ [p] := rfl
    rw [e3, List.getLast?_append]
    simp [this.1.2]

/-! ## The parameters of a list function in memory -/

theorem store_oids_other : ∀ (ps : List (Nat × PMEMoid)) (m : Nat → Nat) (b : Nat),
    (∀ p ∈ ps, Disj (slot p.1) (slot b)) →
    load_oid (store_oids m ps) b = load_oid m b := by
  intro ps
  induction ps with
  | nil => intro m b _; rfl
  | cons p ps ih =>
    intro m b h
    have h1 := ih (store_oid m p.1 p.2) b (fun q hq => h q (List.mem_cons_of_mem _ hq))
    have h2 := load_store_other m p.1 b p.2 (h p (List.mem_cons_self _ _))
    simp only [store_oids, List.foldl] at h1 ⊢
    rw [h1, h2]

theorem store_oids_auto : ∀ (ps : List (Nat × PMEMoid)) (m : Nat → Nat),
    (ps.map Prod.fst).Pairwise (fun a b => Disj (slot a) (slot b)) → (∀ p ∈ ps, Rep p.2) →
    ∀ a ∈ ps.map Prod.fst, load_oid (store_oids m ps) a = (ps.lookup a).getD {} := by
  intro ps
  induction ps with
  | nil => intro m _ _ a ha; simp at ha
  | cons p ps ih =>
    intro m hd hrep a ha
    simp only [List.map_cons, List.pairwise_cons] at hd
    have e : store_oids m (p :: ps) = store_oids (store_oid m p.1 p.2) ps := rfl
    rw [e]
    by_cases hap : a = p.1
    · subst hap
      rw [store_oids_other ps _ p.1 (fun q hq =>
        Disj.symm (hd.1 q.1 (List.mem_map_of_mem _ hq)))]
      rw [load_store_same m p.1 p.2 (hrep p (List.mem_cons_self _ _))]
      obtain ⟨p1, p2⟩ := p
      simp [List.lookup]
    · have ha2 : a ∈ ps.map Prod.fst := by
        simp only [List.map_cons, List.mem_cons] at ha
        rcases ha with ha | ha
        · exact absurd ha hap
        · exact ha
      rw [ih _ hd.2 (fun q hq => hrep q (List.mem_cons_of_mem _ hq)) a ha2]
      obtain ⟨p1, p2⟩ := p
      have : (a == p1) = false := by simpa using hap
      simp [List.lookup, this]

theorem store_oids_frame : ∀ (ps : List (Nat × PMEMoid)) (m : Nat → Nat) (a : Nat),
    (∀ p ∈ ps, ¬ InRegion a (slot p.1)) → store_oids m ps a = m a := by
  intro ps
  induction ps with
  | nil => intro m a _; rfl
  | cons p ps ih =>
    intro m a h
    have h1 := ih (store_oid m p.1 p.2) a (fun q hq => h q (List.mem_cons_of_mem _ hq))
    have h2 := h p (List.mem_cons_self _ _)
    simp only [store_oids, List.foldl] at h1 ⊢
    rw [h1]
    simp only [InRegion, slot, PMEMLIST_SIZE] at h2
    simp [store_oid, store_bytes, oid_bytes_length, h2]

theorem backups_snd (E : Env) (base k n : Nat) (b : Region) (hb : b ∈ backups E base k n) :
    b.2 = PMEMLIST_SIZE := by
  simp only [backups, List.mem_map, List.mem_range] at hb
  obtain ⟨i, _, e⟩ := hb
  rw [← e]

/-- The object ids in the places after a list function has stored its
parameters and run its field-sets. -/
theorem sets_load (E : Env) (base k : Nat) (m : Nat → Nat) (ns : List PMEMoid)
    (ps : List (Nat × PMEMoid)) (sops : List (SlotId × SlotId))
    (hl : Layout ns (ps.map Prod.fst) (backups E base k sops.length))
    (hrep : ∀ p ∈ ps, Rep p.2)
    (hops : ∀ p ∈ sops, SlotId.In ns (ps.map Prod.fst) p.1 ∧ SlotId.In ns (ps.map Prod.fst) p.2)
    (i : SlotId) (hi : SlotId.In ns (ps.map Prod.fst) i) :
    load_oid (calls_mem E base k (store_oids m ps) (set_calls (slot_ops sops))) i.addr =
      sets_abs (slots0 m ps) sops i := by
  have h1 := sets_mem E base (SlotId.In ns (ps.map Prod.fst))
    (fun i j hi hj hne => SlotId.disj_of_layout hl i j hi hj hne) sops k (store_oids m ps) hops
    (fun b hb j hj => SlotId.disj_backup hl b hb (backups_snd E base k _ b hb) j hj) i hi
  unfold slot_ops
  rw [h1]
  apply sets_abs_congr (SlotId.In ns (ps.map Prod.fst)) sops _ _ _ hops i hi
  intro j hj
  have hoth : ∀ j : SlotId, SlotId.In ns (ps.map Prod.fst) j → (∀ a, j ≠ SlotId.auto a) →
      load_oid (store_oids m ps) j.addr = load_oid m j.addr := by
    intro j hj hne
    apply store_oids_other
    intro p hp
    exact SlotId.disj_of_layout hl (SlotId.auto p.1) j (List.mem_map_of_mem _ hp) hj
      (fun e => hne p.1 e.symm)
  cases j with
  | next o => exact hoth _ hj (fun a e => by cases e)
  | prev o => exact hoth _ hj (fun a e => by cases e)
  | auto a => exact store_oids_auto ps m hl.2.1 hrep a hj

/-! ## The list functions as transactions of field-sets -/

theorem list_init_head_eq (E : Env) (s : State) (pool : Nat) (head : PMEMoid) (au : Auto) :
    pmemobj_list_init_head E s pool head au =
      list_tx E { s with mem := store_oids s.mem [(au.head, head)] } pool au.env
        (slot_ops [(SlotId.next head, SlotId.auto au.head),
          (SlotId.prev head, SlotId.auto au.head)]) := by
  simp only [pmemobj_list_init_head, list_tx, run_sets, slot_ops, List.map, SlotId.addr,
    store_oids, List.foldl, bind_assoc, pure_bind]

theorem list_add_eq (E : Env) (s : State) (pool : Nat) (new prev next : PMEMoid) (au : Auto) :
    __pmemobj_list_add E s pool new prev next au =
      list_tx E { s with mem := store_oids s.mem [(au.new, new), (au.prev, prev), (au.next, next)] }
        pool au.env
        (slot_ops [(SlotId.prev next, SlotId.auto au.new), (SlotId.next new, SlotId.auto au.next),
          (SlotId.prev new, SlotId.auto au.prev), (SlotId.next prev, SlotId.auto au.new)]) := by
  simp only [__pmemobj_list_add, list_tx, run_sets, slot_ops, List.map, SlotId.addr,
    store_oids, List.foldl, bind_assoc, pure_bind]

theorem list_del_eq (E : Env) (s : State) (pool : Nat) (prev next : PMEMoid) (au : Auto) :
    __pmemobj_list_del E s pool prev next au =
      list_tx E { s with mem := store_oids s.mem [(au.prev, prev), (au.next, next)] }
        pool au.env
        (slot_ops [(SlotId.prev next, SlotId.auto au.prev),
          (SlotId.next prev, SlotId.auto au.next)]) := by
  simp only [__pmemobj_list_del, list_tx, run_sets, slot_ops, List.map, SlotId.addr,
    store_oids, List.foldl, bind_assoc, pure_bind]

theorem list_replace_eq (E : Env) (s : State) (pool : Nat) (old new : PMEMoid) (au : Auto)
    (hM : ∀ k, E.Malloc_ok k = true) :
    pmemobj_list_replace E s pool old new au =
      list_tx E { s with mem := store_oids s.mem [(au.new, new)] } pool au.env
        (slot_ops [(SlotId.next new, SlotId.next old),
          (SlotId.prev (nxt (store_oid s.mem au.new new) old), SlotId.auto au.new),
          (SlotId.prev new, SlotId.prev old),
          (SlotId.next (prv (store_oid s.mem au.new new) old), SlotId.auto au.new)]) := by
  obtain ⟨s1, t1, hb, _, _, _, _, _, _, _, _, _, _, hmem, _⟩ :=
    begin_spec E { s with mem := store_oid s.mem au.new new } pool (some au.env) hM
  simp only [pmemobj_list_replace, list_tx, run_sets, slot_ops, List.map, SlotId.addr,
    store_oids, List.foldl, bind_assoc, pure_bind, nxt, prv]
  rw [hb]
  show (Except.ok (s1, _) >>= _) = (Except.ok (s1, _) >>= _)
  simp only [bind, Except.bind, hmem]

/-- A list function that stores its parameters `ps` and runs the field-sets
`sops` in a transaction: it completes with status 0, the places hold what the
field-sets put there, a byte outside the parameters, the destinations and the
undo backups is unchanged, and the thread is left as `list_tx_spec` says. -/
theorem list_tx_links (E : Env) (s : State) (pool : Nat) (P : pmemobjpool) (env : Nat)
    (ns : List PMEMoid) (ps : List (Nat × PMEMoid)) (sops : List (SlotId × SlotId))
    (hM : ∀ k, E.Malloc_ok k = true) (hP : s.pools pool = some P) (hne : sops ≠ [])
    (hr : TxReady s)
    (hl : Layout ns (ps.map Prod.fst) (backups E P.addr s.npmalloc sops.length))
    (hrep : ∀ p ∈ ps, Rep p.2)
    (hops : ∀ p ∈ sops, SlotId.In ns (ps.map Prod.fst) p.1 ∧
      SlotId.In ns (ps.map Prod.fst) p.2) :
    ∃ s3 evs, list_tx E { s with mem := store_oids s.mem ps } pool env (slot_ops sops) =
        Except.ok (s3, 0) ∧
      (∀ i, SlotId.In ns (ps.map Prod.fst) i →
        load_oid s3.mem i.addr = sets_abs (slots0 s.mem ps) sops i) ∧
      (∀ a, (∀ p ∈ ps, ¬ InRegion a (slot p.1)) → (∀ p ∈ sops, ¬ InRegion a (slot p.1.addr)) →
        (∀ b ∈ backups E P.addr s.npmalloc sops.length, ¬ InRegion a b) → s3.mem a = s.mem a) ∧
      s3.pools = s.pools ∧ s3.npmalloc = s.npmalloc + sops.length ∧
      s3.Curthread_txinfop = s.Curthread_txinfop ∧ TxReady s3 ∧
      s3.trace = s.trace ++ evs ∧
      ((s.Curthread_txinfop = none ∧
          pfrees evs =
            (calls_commit_frees E pool s.npmalloc (set_calls (slot_ops sops))).reverse) ∨
        (∃ tid t l t3 new, s.Curthread_txinfop = some tid ∧ LogOf s tid t l ∧
          LogOf s3 tid t3 (new ++ l) ∧ SameFrame t t3 ∧
          new.map Prod.snd = (calls_entries E s.npmalloc (set_calls (slot_ops sops))).reverse ∧
          pfrees evs = [])) := by
  have hne2 : slot_ops sops ≠ [] := by
    cases sops with
    | nil => exact absurd rfl hne
    | cons p rest => simp [slot_ops]
  have hlen : (slot_ops sops).length = sops.length := by simp [slot_ops]
  obtain ⟨s3, evs, h1, hmem, hpools, hnp, hcur, hr3, htr, hdis⟩ :=
    list_tx_spec E { s with mem := store_oids s.mem ps } pool P env (slot_ops sops) hM hP hne2 hr
  refine ⟨s3, evs, h1, ?_, ?_, hpools, by rw [hnp, hlen], hcur, hr3, htr, hdis⟩
  · intro i hi
    rw [hmem]
    exact sets_load E P.addr s.npmalloc s.mem ns ps sops hl hrep hops i hi
  · intro a ha1 ha2 ha3
    rw [hmem]
    have := sets_frame E P.addr (slot_ops sops) s.npmalloc (store_oids s.mem ps) a
      (fun p hp => by
        simp only [slot_ops, List.mem_map] at hp
        obtain ⟨q, hq, e⟩ := hp
        rw [← e]
        exact ha2 q hq)
      (by rw [hlen]; exact ha3)
    rw [this]
    exact store_oids_frame ps s.mem a ha1

/-! ## The links after each list function -/

theorem slot_ne {a b : Nat} (h : Disj (slot a) (slot b)) : a ≠ b := by
  intro e
  subst e
  simp [Disj, slot, PMEMLIST_SIZE] at h

/-- The links after `__pmemobj_list_add`. -/
theorem list_add_links (E : Env) (s : State) (pool : Nat) (P : pmemobjpool)
    (new prev next : PMEMoid) (au : Auto) (ns : List PMEMoid)
    (hM : ∀ k, E.Malloc_ok k = true) (hP : s.pools pool = some P) (hr : TxReady s)
    (hl : Layout ns [au.new, au.prev, au.next] (backups E P.addr s.npmalloc 4))
    (hnew : new ∈ ns) (hprev : prev ∈ ns) (hnext : next ∈ ns)
    (rnew : Rep new) (rprev : Rep prev) (rnext : Rep next) :
    ∃ s3, __pmemobj_list_add E s pool new prev next au = Except.ok (s3, 0) ∧
      (∀ o ∈ ns, nxt s3.mem o = if o = prev then new else if o = new then next else nxt s.mem o) ∧
      (∀ o ∈ ns, prv s3.mem o = if o = new then prev else if o = next then new else prv s.mem o) ∧
      s3.pools = s.pools ∧ s3.npmalloc = s.npmalloc + 4 ∧
      s3.Curthread_txinfop = s.Curthread_txinfop ∧ TxReady s3 := by
  have hloc := hl.2.1
  simp only [List.pairwise_cons, List.mem_cons, List.mem_singleton, forall_eq_or_imp, forall_eq,
    List.not_mem_nil, false_implies, implies_true, List.Pairwise.nil, and_true] at hloc
  obtain ⟨⟨d1, d2⟩, d3⟩ := hloc
  have n1 := slot_ne d1
  have n2 := slot_ne d2
  have n3 := slot_ne d3
  have b1 : (au.prev == au.new) = false := by simpa using Ne.symm n1
  have b2 : (au.next == au.new) = false := by simpa using Ne.symm n2
  have b3 : (au.next == au.prev) = false := by simpa using Ne.symm n3
  obtain ⟨s3, evs, h1, hlinks, _, hpools, hnp, hcur, hr3, _, _⟩ :=
    list_tx_links E s pool P au.env ns [(au.new, new), (au.prev, prev), (au.next, next)]
      [(SlotId.prev next, SlotId.auto au.new), (SlotId.next new, SlotId.auto au.next),
        (SlotId.prev new, SlotId.auto au.prev), (SlotId.next prev, SlotId.auto au.new)]
      hM hP (by simp) hr hl (by simp [rnew, rprev, rnext])
      (by simp [SlotId.In, hnew, hprev, hnext])
  refine ⟨s3, by rw [list_add_eq]; exact h1, ?_, ?_, hpools, hnp, hcur, hr3⟩
  · intro o ho
    have := hlinks (SlotId.next o) ho
    simp only [SlotId.addr] at this
    unfold nxt
    rw [this]
    simp [sets_abs, Function.update_apply, slots0, List.lookup, b1, b2, b3, nxt]
  · intro o ho
    have := hlinks (SlotId.prev o) ho
    simp only [SlotId.addr] at this
    unfold prv
    rw [this]
    simp [sets_abs, Function.update_apply, slots0, List.lookup, b1, b2, b3, prv]

/-- The links after `__pmemobj_list_del`, the bytes it leaves alone, and what it
logs. -/
theorem list_del_links (E : Env) (s : State) (pool : Nat) (P : pmemobjpool)
    (prev next : PMEMoid) (au : Auto) (ns : List PMEMoid)
    (hM : ∀ k, E.Malloc_ok k = true) (hP : s.pools pool = some P) (hr : TxReady s)
    (hl : Layout ns [au.prev, au.next] (backups E P.addr s.npmalloc 2))
    (hprev : prev ∈ ns) (hnext : next ∈ ns) (rprev : Rep prev) (rnext : Rep next) :
    ∃ s3 evs, __pmemobj_list_del E s pool prev next au = Except.ok (s3, 0) ∧
      (∀ o ∈ ns, nxt s3.mem o = if o = prev then next else nxt s.mem o) ∧
      (∀ o ∈ ns, prv s3.mem o = if o = next then prev else prv s.mem o) ∧
      s3.pools = s.pools ∧ s3.npmalloc = s.npmalloc + 2 ∧
      s3.Curthread_txinfop = s.Curthread_txinfop ∧ TxReady s3 ∧
      (∀ a, ¬ InRegion a (slot au.prev) → ¬ InRegion a (slot au.next) →
        ¬ InRegion a (slot (pmemobj_direct next + PMEMlist_prev)) →
        ¬ InRegion a (slot (pmemobj_direct prev + PMEMlist_next)) →
        (∀ b ∈ backups E P.addr s.npmalloc 2, ¬ InRegion a b) → s3.mem a = s.mem a) ∧
      s3.trace = s.trace ++ evs ∧
      ((s.Curthread_txinfop = none ∧
          pfrees evs = [(pool, E.pmalloc_off (s.npmalloc + 1)), (pool, E.pmalloc_off s.npmalloc)]) ∨
        (∃ tid t l t3 new, s.Curthread_txinfop = some tid ∧ LogOf s tid t l ∧
          LogOf s3 tid t3 (new ++ l) ∧ SameFrame t t3 ∧
          new.map Prod.snd =
            [⟨op_t.TXOP_SET, ⟨pmemobj_direct prev + PMEMlist_next,
                E.pmalloc_off (s.npmalloc + 1), PMEMLIST_SIZE⟩⟩,
              ⟨op_t.TXOP_ALLOC, ⟨E.pmalloc_off (s.npmalloc + 1), 0, 0⟩⟩,
              ⟨op_t.TXOP_SET, ⟨pmemobj_direct next + PMEMlist_prev,
                E.pmalloc_off s.npmalloc, PMEMLIST_SIZE⟩⟩,
              ⟨op_t.TXOP_ALLOC, ⟨E.pmalloc_off s.npmalloc, 0, 0⟩⟩] ∧
          pfrees evs = [])) := by
  have hloc := hl.2.1
  simp only [List.pairwise_cons, List.mem_cons, List.mem_singleton, forall_eq_or_imp, forall_eq,
    List.not_mem_nil, false_implies, implies_true, List.Pairwise.nil, and_true] at hloc
  have n1 := slot_ne hloc
  have b1 : (au.next == au.prev) = false := by simpa using Ne.symm n1
  obtain ⟨s3, evs, h1, hlinks, hframe, hpools, hnp, hcur, hr3, htr, hdis⟩ :=
    list_tx_links E s pool P au.env ns [(au.prev, prev), (au.next, next)]
      [(SlotId.prev next, SlotId.auto au.prev), (SlotId.next prev, SlotId.auto au.next)]
      hM hP (by simp) hr hl (by simp [rprev, rnext]) (by simp [SlotId.In, hprev, hnext])
  refine ⟨s3, evs, by rw [list_del_eq]; exact h1, ?_, ?_, hpools, hnp, hcur, hr3, ?_, htr, ?_⟩
  · intro o ho
    have := hlinks (SlotId.next o) ho
    simp only [SlotId.addr] at this
    unfold nxt
    rw [this]
    simp [sets_abs, Function.update_apply, slots0, List.lookup, b1, nxt]
  · intro o ho
    have := hlinks (SlotId.prev o) ho
    simp only [SlotId.addr] at this
    unfold prv
    rw [this]
    simp [sets_abs, Function.update_apply, slots0, List.lookup, b1, prv]
  · intro a a1 a2 a3 a4 a5
    apply hframe a
    · simp [a1, a2]
    · simp [SlotId.addr, a3, a4]
    · exact a5
  · rcases hdis with ⟨hn, hpf⟩ | ⟨tid, t, l, t3, new, hc, hL, hL3, hF, hE, hpf⟩
    · left
      refine ⟨hn, ?_⟩
      rw [hpf]
      simp [slot_ops, set_calls, calls_commit_frees, call_commit_frees, TxCall.npm]
    · right
      refine ⟨tid, t, l, t3, new, hc, hL, hL3, hF, ?_, hpf⟩
      rw [hE]
      simp [slot_ops, set_calls, calls_entries, call_entries, TxCall.npm, SlotId.addr]

/-- The links after `pmemobj_list_replace`. -/
theorem list_replace_links (E : Env) (s : State) (pool : Nat) (P : pmemobjpool)
    (old new : PMEMoid) (au : Auto) (ns : List PMEMoid)
    (hM : ∀ k, E.Malloc_ok k = true) (hP : s.pools pool = some P) (hr : TxReady s)
    (hl : Layout ns [au.new] (backups E P.addr s.npmalloc 4))
    (hold : old ∈ ns) (hnew : new ∈ ns) (hn : nxt s.mem old ∈ ns) (hp : prv s.mem old ∈ ns)
    (hne : old ≠ nxt s.mem old) (rnew : Rep new) :
    ∃ s3, pmemobj_list_replace E s pool old new au = Except.ok (s3, 0) ∧
      (∀ o ∈ ns, nxt s3.mem o =
        if o = prv s.mem old then new else if o = new then nxt s.mem old else nxt s.mem o) ∧
      (∀ o ∈ ns, prv s3.mem o =
        if o = new then prv s.mem old else if o = nxt s.mem old then new else prv s.mem o) ∧
      s3.pools = s.pools ∧ s3.npmalloc = s.npmalloc + 4 ∧
      s3.Curthread_txinfop = s.Curthread_txinfop ∧ TxReady s3 := by
  have hd : ∀ j : SlotId, SlotId.In ns [au.new] j → (∀ a, j ≠ SlotId.auto a) →
      load_oid (store_oid s.mem au.new new) j.addr = load_oid s.mem j.addr := by
    intro j hj hna
    apply load_store_other
    exact SlotId.disj_of_layout hl (SlotId.auto au.new) j (by simp [SlotId.In]) hj
      (fun e => hna au.new e.symm)
  have e1 : nxt (store_oid s.mem au.new new) old = nxt s.mem old :=
    hd (SlotId.next old) hold (fun a e => by cases e)
  have e2 : prv (store_oid s.mem au.new new) old = prv s.mem old :=
    hd (SlotId.prev old) hold (fun a e => by cases e)
  obtain ⟨s3, evs, h1, hlinks, _, hpools, hnp, hcur, hr3, _, _⟩ :=
    list_tx_links E s pool P au.env ns [(au.new, new)]
      [(SlotId.next new, SlotId.next old), (SlotId.prev (nxt s.mem old), SlotId.auto au.new),
        (SlotId.prev new, SlotId.prev old), (SlotId.next (prv s.mem old), SlotId.auto au.new)]
      hM hP (by simp) hr hl (by simp [rnew]) (by simp [SlotId.In, hold, hnew, hn, hp])
  refine ⟨s3, by rw [list_replace_eq E s pool old new au hM, e1, e2]; exact h1, ?_, ?_, hpools,
    hnp, hcur, hr3⟩
  · intro o ho
    have := hlinks (SlotId.next o) ho
    simp only [SlotId.addr] at this
    unfold nxt
    rw [this]
    simp [sets_abs, Function.update_apply, slots0, List.lookup, nxt]
  · intro o ho
    have := hlinks (SlotId.prev o) ho
    simp only [SlotId.addr] at this
    unfold prv
    rw [this]
    simp [sets_abs, Function.update_apply, slots0, List.lookup, prv, nxt]
    have hne2 : ¬ old = load_oid s.mem (pmemobj_direct old + PMEMlist_next) := hne
    simp [hne2]

/-- The links after `pmemobj_list_init_head`. -/
theorem list_init_links (E : Env) (s : State) (pool : Nat) (P : pmemobjpool)
    (head : PMEMoid) (au : Auto) (ns : List PMEMoid)
    (hM : ∀ k, E.Malloc_ok k = true) (hP : s.pools pool = some P) (hr : TxReady s)
    (hl : Layout ns [au.head] (backups E P.addr s.npmalloc 2))
    (hhead : head ∈ ns) (rhead : Rep head) :
    ∃ s3, pmemobj_list_init_head E s pool head au = Except.ok (s3, 0) ∧
      (∀ o ∈ ns, nxt s3.mem o = if o = head then head else nxt s.mem o) ∧
      (∀ o ∈ ns, prv s3.mem o = if o = head then head else prv s.mem o) ∧
      s3.pools = s.pools ∧ s3.npmalloc = s.npmalloc + 2 ∧
      s3.Curthread_txinfop = s.Curthread_txinfop ∧ TxReady s3 := by
  obtain ⟨s3, evs, h1, hlinks, _, hpools, hnp, hcur, hr3, _, _⟩ :=
    list_tx_links E s pool P au.env ns [(au.head, head)]
      [(SlotId.next head, SlotId.auto au.head), (SlotId.prev head, SlotId.auto au.head)]
      hM hP (by simp) hr hl (by simp [rhead]) (by simp [SlotId.In, hhead])
  refine ⟨s3, by rw [list_init_head_eq]; exact h1, ?_, ?_, hpools, hnp, hcur, hr3⟩
  · intro o ho
    have := hlinks (SlotId.next o) ho
    simp only [SlotId.addr] at this
    unfold nxt
    rw [this]
    simp [sets_abs, Function.update_apply, slots0, List.lookup, nxt]
  · intro o ho
    have := hlinks (SlotId.prev o) ho
    simp only [SlotId.addr] at this
    unfold prv
    rw [this]
    simp [sets_abs, Function.update_apply, slots0, List.lookup, prv]

/-! ## Well-formed lists under the list functions -/

theorem chain_true {α : Type} (l : List α) : List.Chain' (fun _ _ => True) l := by
  rw [List.chain'_iff_get]
  intro i hi
  trivial

/-- The neighbours of a part `mid` of a cycle. -/
theorem ring_mid {α : Type} (R : α → α → Prop) (h : α) (pre mid post : List α) (p n : α)
    (hp : (h :: pre).getLast? = some p) (hn : (post ++ [h]).head? = some n)
    (hnd : (h :: (pre ++ post)).Nodup) (hc : Cyc R (h :: (pre ++ mid ++ post))) :
    List.Chain' R (p :: (mid ++ [n])) :=
  (ring_change R (fun _ _ => True) h pre mid [] post p n hp hn hnd (fun _ _ _ _ _ _ _ => trivial)
    (chain_true _) hc).2

theorem Apart.sublist {l1 l2 : List PMEMoid} (h : Apart l2) (hs : l1.Sublist l2) : Apart l1 :=
  List.Pairwise.sublist hs h

theorem Apart.perm {l1 l2 : List PMEMoid} (h : Apart l2) (hs : l1.Perm l2) : Apart l1 :=
  (List.Perm.pairwise_iff (fun hxy => Disj.symm hxy) hs).2 h

theorem getLast_mem_cons {α : Type} (h : α) (pre : List α) (p : α)
    (hp : (h :: pre).getLast? = some p) : p ∈ h :: pre := by
  rw [List.getLast?_eq_getLast _ (List.cons_ne_nil _ _)] at hp
  injection hp with hp
  rw [← hp]
  exact List.getLast_mem _

theorem head_mem_snoc {α : Type} (h : α) (post : List α) (n : α)
    (hn : (post ++ [h]).head? = some n) : n ∈ post ++ [h] := by
  cases post with
  | nil => simp at hn; simp [hn]
  | cons c cs => simp at hn; simp [hn]

/-- A part `mid` of a well-formed list is replaced by `mid1` when the links of
the other nodes change only at the node before and the node after. -/
theorem wf_change (m m3 : Nat → Nat) (h : PMEMoid) (pre mid mid1 post : List PMEMoid)
    (p n : PMEMoid) (hwf : WellFormed m h (pre ++ mid ++ post))
    (hap : Apart (h :: (pre ++ mid1 ++ post)))
    (hp : (h :: pre).getLast? = some p) (hn : (post ++ [h]).head? = some n)
    (hnx : ∀ o ∈ h :: (pre ++ post), o ≠ p → nxt m3 o = nxt m o)
    (hpv : ∀ o ∈ h :: (pre ++ post), o ≠ n → prv m3 o = prv m o)
    (hnew : List.Chain' (Adj m3) (p :: (mid1 ++ [n]))) :
    WellFormed m3 h (pre ++ mid1 ++ post) := by
  rw [WellFormed_iff] at hwf ⊢
  have hsub : (h :: (pre ++ post)).Sublist (h :: (pre ++ mid ++ post)) := by
    apply List.Sublist.cons₂
    rw [List.append_assoc]
    exact List.Sublist.append (List.Sublist.refl _) (List.sublist_append_right _ _)
  have hnd : (h :: (pre ++ post)).Nodup := (hwf.2.sublist hsub).nodup
  refine ⟨(ring_change (Adj m) (Adj m3) h pre mid mid1 post p n hp hn hnd ?_ hnew hwf.1).1, hap⟩
  intro a b ha hb hap2 hbn hab
  exact ⟨by rw [hnx a ha hap2]; exact hab.1, by rw [hpv b hb hbn]; exact hab.2⟩

/-- The neighbours of an item of a well-formed list. -/
theorem wf_neighbours (m : Nat → Nat) (h : PMEMoid) (pre post : List PMEMoid)
    (item p n : PMEMoid) (hwf : WellFormed m h (pre ++ item :: post))
    (hp : (h :: pre).getLast? = some p) (hn : (post ++ [h]).head? = some n) :
    prv m item = p ∧ nxt m item = n := by
  rw [WellFormed_iff] at hwf
  have hsub : (h :: (pre ++ post)).Sublist (h :: (pre ++ item :: post)) := by
    apply List.Sublist.cons₂
    exact List.Sublist.append (List.Sublist.refl _) (List.sublist_cons_self _ _)
  have hnd : (h :: (pre ++ post)).Nodup := (hwf.2.sublist hsub).nodup
  have e : h :: (pre ++ item :: post) = h :: (pre ++ [item] ++ post) := by simp
  rw [e] at hwf
  have := ring_mid (Adj m) h pre [item] post p n hp hn hnd hwf.1
  simp only [List.singleton_append, List.chain'_cons, List.chain'_singleton, and_true] at this
  exact ⟨this.1.2, this.2.1⟩

/-- A list whose nodes have the same links is as well-formed. -/
theorem WellFormed_congr (m m3 : Nat → Nat) (h : PMEMoid) (xs : List PMEMoid)
    (hnx : ∀ o ∈ h :: xs, nxt m3 o = nxt m o) (hpv : ∀ o ∈ h :: xs, prv m3 o = prv m o)
    (hwf : WellFormed m h xs) : WellFormed m3 h xs := by
  have e : xs = [] ++ [] ++ xs := rfl
  rw [e] at hwf ⊢
  have h1 : (xs ++ [h]).head? = some (nxt m h) :=
    Cyc_next_head m h xs ((WellFormed_iff m h xs).1 hwf).1
  have hn1 := head_mem_snoc h xs _ h1
  have hadj : Adj m h (nxt m h) := by
    have c := ((WellFormed_iff m h xs).1 hwf).1
    rw [Cyc_cons] at c
    cases xs with
    | nil =>
      simp only [List.nil_append, List.chain_cons] at c
      have : nxt m h = h := c.1.1
      rw [this]; exact c.1
    | cons x xs =>
      simp only [List.cons_append, List.chain_cons] at c
      have : nxt m h = x := c.1.1
      rw [this]; exact c.1
  have hn2 : nxt m h ∈ h :: xs := by
    simp only [List.mem_append, List.mem_singleton, List.mem_cons] at hn1 ⊢
    tauto
  apply wf_change m m3 h [] [] [] xs h (nxt m h) hwf ((WellFormed_iff m h _).1 hwf).2 rfl h1
  · intro o ho _; exact hnx o ho
  · intro o ho _; exact hpv o ho
  · simp only [List.nil_append, List.chain'_cons, List.chain'_singleton, and_true]
    exact ⟨hnx h (List.mem_cons_self _ _),
      by rw [hpv _ hn2]; exact hadj.2⟩

theorem wf_adj_head (m : Nat → Nat) (h : PMEMoid) (xs : List PMEMoid)
    (hwf : WellFormed m h xs) : Adj m h (nxt m h) ∧ nxt m h ∈ h :: xs := by
  have c := ((WellFormed_iff m h xs).1 hwf).1
  have h1 : (xs ++ [h]).head? = some (nxt m h) := Cyc_next_head m h xs c
  have hn1 := head_mem_snoc h xs _ h1
  have hn2 : nxt m h ∈ h :: xs := by
    simp only [List.mem_append, List.mem_singleton, List.mem_cons] at hn1 ⊢
    tauto
  refine ⟨?_, hn2⟩
  rw [Cyc_cons] at c
  cases xs with
  | nil =>
    simp only [List.nil_append, List.chain_cons] at c
    have : nxt m h = h := c.1.1
    rw [this]; exact c.1
  | cons x xs =>
    simp only [List.cons_append, List.chain_cons] at c
    have : nxt m h = x := c.1.1
    rw [this]; exact c.1

theorem wf_adj_last (m : Nat → Nat) (h : PMEMoid) (xs : List PMEMoid)
    (hwf : WellFormed m h xs) : Adj m (prv m h) h ∧ prv m h ∈ h :: xs := by
  have c := (WellFormed_iff m h xs).1 hwf
  have h1 : (h :: xs).getLast? = some (prv m h) := Cyc_prev_last m h xs c.1
  have hm := getLast_mem_cons h xs _ h1
  refine ⟨?_, hm⟩
  have e : h :: xs = h :: (xs ++ [] ++ []) := by simp
  have c1 := c.1
  rw [e] at c1
  have := ring_mid (Adj m) h xs [] [] (prv m h) h h1 rfl (by simpa using c.2.nodup) c1
  simpa using this

theorem wf_rep (m : Nat → Nat) (h : PMEMoid) (xs : List PMEMoid)
    (hwf : WellFormed m h xs) : Rep h := by
  have := (wf_adj_head m h xs hwf).1.2
  rw [← this]
  exact load_oid_rep _ _

theorem not_mem_of_apart {x : PMEMoid} {l : List PMEMoid} (h : Apart (x :: l)) : x ∉ l :=
  (List.nodup_cons.1 h.nodup).1

/-- The function `pmemobj_list_add` on a well-formed list. -/
theorem list_add_wf (E : Env) (s : State) (pool : Nat) (P : pmemobjpool) (h : PMEMoid)
    (xs : List PMEMoid) (x : PMEMoid) (au : Auto)
    (hM : ∀ k, E.Malloc_ok k = true) (hP : s.pools pool = some P) (hr : TxReady s)
    (hwf : WellFormed s.mem h xs) (hx : Rep x)
    (hl : Layout (x :: h :: xs) [au.new, au.prev, au.next] (backups E P.addr s.npmalloc 4)) :
    ∃ s3, pmemobj_list_add E s pool x h au = Except.ok (s3, 0) ∧
      WellFormed s3.mem h (x :: xs) ∧
      (∀ o ∈ h :: xs, nxt s3.mem o = if o = h then x else nxt s.mem o) ∧
      (∀ o ∈ h :: xs, prv s3.mem o = if o = nxt s.mem h then x else prv s.mem o) ∧
      nxt s3.mem x = nxt s.mem h ∧ prv s3.mem x = h ∧
      s3.pools = s.pools ∧ s3.npmalloc = s.npmalloc + 4 ∧
      s3.Curthread_txinfop = s.Curthread_txinfop ∧ TxReady s3 := by
  obtain ⟨hadj, hn⟩ := wf_adj_head s.mem h xs hwf
  have hxn : x ∉ h :: xs := not_mem_of_apart hl.1
  have hnx : nxt s.mem h ≠ x := fun e => hxn (e ▸ hn)
  have hhx : h ≠ x := fun e => hxn (e ▸ List.mem_cons_self _ _)
  obtain ⟨s3, h1, hnxt, hprv, hpools, hnp, hcur, hr3⟩ :=
    list_add_links E s pool P x h (nxt s.mem h) au (x :: h :: xs) hM hP hr hl
      (List.mem_cons_self _ _) (List.mem_cons_of_mem _ (List.mem_cons_self _ _))
      (List.mem_cons_of_mem _ hn) hx (wf_rep s.mem h xs hwf) (load_oid_rep _ _)
  have f1 : ∀ o ∈ h :: xs, nxt s3.mem o = if o = h then x else nxt s.mem o := by
    intro o ho
    have hox : o ≠ x := fun e => hxn (e ▸ ho)
    rw [hnxt o (List.mem_cons_of_mem _ ho)]
    simp [hox]
  have f2 : ∀ o ∈ h :: xs, prv s3.mem o = if o = nxt s.mem h then x else prv s.mem o := by
    intro o ho
    have hox : o ≠ x := fun e => hxn (e ▸ ho)
    rw [hprv o (List.mem_cons_of_mem _ ho)]
    simp [hox]
  have f3 : nxt s3.mem x = nxt s.mem h := by
    rw [hnxt x (List.mem_cons_self _ _)]
    simp [Ne.symm hhx]
  have f4 : prv s3.mem x = h := by
    rw [hprv x (List.mem_cons_self _ _)]
    simp
  refine ⟨s3, h1, ?_, f1, f2, f3, f4, hpools, hnp, hcur, hr3⟩
  have e0 : xs = [] ++ [] ++ xs := rfl
  have hwf0 : WellFormed s.mem h ([] ++ [] ++ xs) := hwf
  have := wf_change s.mem s3.mem h [] [] [x] xs h (nxt s.mem h) hwf0
    (hl.1.perm (List.Perm.swap _ _ _)) rfl
    (Cyc_next_head s.mem h xs ((WellFormed_iff _ _ _).1 hwf).1)
    (fun o ho hne => by rw [f1 o ho]; simp [hne])
    (fun o ho hne => by rw [f2 o ho]; simp [hne])
    (by
      simp only [List.singleton_append, List.chain'_cons, List.chain'_singleton, and_true]
      refine ⟨⟨?_, f4⟩, ⟨f3, ?_⟩⟩
      · rw [f1 h (List.mem_cons_self _ _)]; simp
      · rw [f2 _ hn]; simp)
  exact this

/-- The function `pmemobj_list_add_tail` on a well-formed list. -/
theorem list_add_tail_wf (E : Env) (s : State) (pool : Nat) (P : pmemobjpool) (h : PMEMoid)
    (xs : List PMEMoid) (x : PMEMoid) (au : Auto)
    (hM : ∀ k, E.Malloc_ok k = true) (hP : s.pools pool = some P) (hr : TxReady s)
    (hwf : WellFormed s.mem h xs) (hx : Rep x)
    (hl : Layout (x :: h :: xs) [au.new, au.prev, au.next] (backups E P.addr s.npmalloc 4)) :
    ∃ s3, pmemobj_list_add_tail E s pool x h au = Except.ok (s3, 0) ∧
      WellFormed s3.mem h (xs ++ [x]) ∧
      s3.pools = s.pools ∧ s3.npmalloc = s.npmalloc + 4 ∧
      s3.Curthread_txinfop = s.Curthread_txinfop ∧ TxReady s3 := by
  obtain ⟨hadj, hp⟩ := wf_adj_last s.mem h xs hwf
  have hxn : x ∉ h :: xs := not_mem_of_apart hl.1
  have hpx : prv s.mem h ≠ x := fun e => hxn (e ▸ hp)
  have hhx : h ≠ x := fun e => hxn (e ▸ List.mem_cons_self _ _)
  obtain ⟨s3, h1, hnxt, hprv, hpools, hnp, hcur, hr3⟩ :=
    list_add_links E s pool P x (prv s.mem h) h au (x :: h :: xs) hM hP hr hl
      (List.mem_cons_self _ _) (List.mem_cons_of_mem _ hp)
      (List.mem_cons_of_mem _ (List.mem_cons_self _ _)) hx (load_oid_rep _ _)
      (wf_rep s.mem h xs hwf)
  have f1 : ∀ o ∈ h :: xs, nxt s3.mem o = if o = prv s.mem h then x else nxt s.mem o := by
    intro o ho
    have hox : o ≠ x := fun e => hxn (e ▸ ho)
    rw [hnxt o (List.mem_cons_of_mem _ ho)]
    simp [hox]
  have f2 : ∀ o ∈ h :: xs, prv s3.mem o = if o = h then x else prv s.mem o := by
    intro o ho
    have hox : o ≠ x := fun e => hxn (e ▸ ho)
    rw [hprv o (List.mem_cons_of_mem _ ho)]
    simp [hox]
  have f3 : nxt s3.mem x = h := by
    rw [hnxt x (List.mem_cons_self _ _)]
    simp [Ne.symm hpx]
  have f4 : prv s3.mem x = prv s.mem h := by
    rw [hprv x (List.mem_cons_self _ _)]
    simp
  refine ⟨s3, h1, ?_, hpools, hnp, hcur, hr3⟩
  have hwf0 : WellFormed s.mem h (xs ++ [] ++ []) := by simpa using hwf
  have hap : Apart (h :: (xs ++ [x] ++ [])) := by
    apply hl.1.perm
    have : (h :: (xs ++ [x])).Perm (x :: h :: xs) := by
      have p1 : (xs ++ [x]).Perm (x :: xs) := List.perm_append_singleton _ _
      exact (List.Perm.cons h p1).trans (List.Perm.swap _ _ _)
    simpa using this
  have := wf_change s.mem s3.mem h xs [] [x] [] (prv s.mem h) h hwf0 hap
    (Cyc_prev_last s.mem h xs ((WellFormed_iff _ _ _).1 hwf).1) rfl
    (fun o ho hne => by
      rw [f1 o (by simpa using ho)]; simp [hne])
    (fun o ho hne => by
      rw [f2 o (by simpa using ho)]; simp [hne])
    (by
      simp only [List.singleton_append, List.chain'_cons, List.chain'_singleton, and_true]
      refine ⟨⟨?_, f4⟩, ⟨f3, ?_⟩⟩
      · rw [f1 _ hp]; simp
      · rw [f2 h (List.mem_cons_self _ _)]; simp)
  simpa using this

theorem mem_of_pre {α : Type} (h item : α) (pre post : List α) (p : α) (hp : p ∈ h :: pre) :
    p ∈ h :: (pre ++ item :: post) := by
  rcases List.mem_cons.1 hp with hp | hp
  · exact hp ▸ List.mem_cons_self _ _
  · exact List.mem_cons_of_mem _ (List.mem_append_left _ hp)

theorem mem_of_post {α : Type} (h item : α) (pre post : List α) (n : α) (hn : n ∈ post ++ [h]) :
    n ∈ h :: (pre ++ item :: post) := by
  rcases List.mem_append.1 hn with hn | hn
  · exact List.mem_cons_of_mem _ (List.mem_append_right _ (List.mem_cons_of_mem _ hn))
  · rw [List.mem_singleton.1 hn]; exact List.mem_cons_self _ _

theorem mem_of_rest {α : Type} (h item : α) (pre post : List α) (o : α)
    (ho : o ∈ h :: (pre ++ post)) : o ∈ h :: (pre ++ item :: post) := by
  rcases List.mem_cons.1 ho with ho | ho
  · exact ho ▸ List.mem_cons_self _ _
  · rcases List.mem_append.1 ho with ho | ho
    · exact List.mem_cons_of_mem _ (List.mem_append_left _ ho)
    · exact List.mem_cons_of_mem _ (List.mem_append_right _ (List.mem_cons_of_mem _ ho))

/-- An item of a well-formed list has its two neighbours in the list, and stands
between them. -/
theorem wf_item (m : Nat → Nat) (h : PMEMoid) (xs : List PMEMoid) (item : PMEMoid)
    (hwf : WellFormed m h xs) (hitem : item ∈ xs) :
    ∃ pre post, xs = pre ++ item :: post ∧
      (h :: pre).getLast? = some (prv m item) ∧ (post ++ [h]).head? = some (nxt m item) ∧
      prv m item ∈ h :: pre ∧ nxt m item ∈ post ++ [h] ∧
      item ∉ h :: (pre ++ post) ∧ Adj m (prv m item) item ∧ Adj m item (nxt m item) := by
  obtain ⟨pre, post, e⟩ := List.append_of_mem hitem
  subst e
  have hp0 : (h :: pre).getLast? = some ((h :: pre).getLast (List.cons_ne_nil _ _)) :=
    List.getLast?_eq_getLast _ _
  have hn0 : ∃ n, (post ++ [h]).head? = some n := by
    cases post with
    | nil => exact ⟨h, rfl⟩
    | cons c cs => exact ⟨c, rfl⟩
  obtain ⟨n, hn⟩ := hn0
  obtain ⟨e1, e2⟩ := wf_neighbours m h pre post item _ n hwf hp0 hn
  have hnd := ((WellFormed_iff m h _).1 hwf).2.nodup
  have hnot : item ∉ h :: (pre ++ post) := by
    have : (item :: (h :: (pre ++ post))).Nodup := by
      have p : (item :: (h :: (pre ++ post))).Perm (h :: (pre ++ item :: post)) := by
        refine (List.Perm.swap _ _ _).trans (List.Perm.cons h ?_)
        exact (List.perm_middle).symm
      exact p.nodup_iff.2 hnd
    exact (List.nodup_cons.1 this).1
  have c := ((WellFormed_iff m h _).1 hwf).1
  have e : h :: (pre ++ item :: post) = h :: (pre ++ [item] ++ post) := by simp
  rw [e] at c
  have hnd2 : (h :: (pre ++ post)).Nodup := by
    have hsub : (h :: (pre ++ post)).Sublist (h :: (pre ++ item :: post)) := by
      apply List.Sublist.cons₂
      exact List.Sublist.append (List.Sublist.refl _) (List.sublist_cons_self _ _)
    exact hnd.sublist hsub
  have hch := ring_mid (Adj m) h pre [item] post _ n hp0 hn hnd2 c
  simp only [List.singleton_append, List.chain'_cons, List.chain'_singleton, and_true] at hch
  refine ⟨pre, post, rfl, by rw [e1]; exact hp0, by rw [e2]; exact hn, ?_, ?_, hnot, ?_, ?_⟩
  · rw [e1]; exact List.getLast_mem _
  · rw [e2]; exact head_mem_snoc h post n hn
  · rw [e1]; exact hch.1
  · rw [e2]; exact hch.2

theorem Layout.restrict {ns ns1 : List PMEMoid} {ls : List Nat} {bs : List Region}
    (hl : Layout ns ls bs) (hap : Apart ns1) (hsub : ∀ o ∈ ns1, o ∈ ns) : Layout ns1 ls bs :=
  ⟨hap, hl.2.1, fun o ho => hl.2.2.1 o (hsub o ho),
    fun b hb o ho => hl.2.2.2.1 b hb o (hsub o ho), hl.2.2.2.2⟩

/-- The function `pmemobj_list_del` on a well-formed list. -/
theorem list_del_wf (E : Env) (s : State) (pool : Nat) (P : pmemobjpool) (h : PMEMoid)
    (xs : List PMEMoid) (item : PMEMoid) (au : Auto)
    (hM : ∀ k, E.Malloc_ok k = true) (hP : s.pools pool = some P) (hr : TxReady s)
    (hwf : WellFormed s.mem h xs) (hitem : item ∈ xs)
    (hl : Layout (h :: xs) [au.prev, au.next] (backups E P.addr s.npmalloc 2)) :
    ∃ s3 evs, pmemobj_list_del E s pool item au = Except.ok (s3, 0) ∧
      WellFormed s3.mem h (xs.erase item) ∧
      (∀ o ∈ h :: xs, nxt s3.mem o =
        if o = prv s.mem item then nxt s.mem item else nxt s.mem o) ∧
      (∀ o ∈ h :: xs, prv s3.mem o =
        if o = nxt s.mem item then prv s.mem item else prv s.mem o) ∧
      s3.pools = s.pools ∧ s3.npmalloc = s.npmalloc + 2 ∧
      s3.Curthread_txinfop = s.Curthread_txinfop ∧ TxReady s3 ∧
      (∀ a, ¬ InRegion a (slot au.prev) → ¬ InRegion a (slot au.next) →
        ¬ InRegion a (slot (pmemobj_direct (nxt s.mem item) + PMEMlist_prev)) →
        ¬ InRegion a (slot (pmemobj_direct (prv s.mem item) + PMEMlist_next)) →
        (∀ b ∈ backups E P.addr s.npmalloc 2, ¬ InRegion a b) → s3.mem a = s.mem a) ∧
      s3.trace = s.trace ++ evs ∧
      ((s.Curthread_txinfop = none ∧
          pfrees evs = [(pool, E.pmalloc_off (s.npmalloc + 1)), (pool, E.pmalloc_off s.npmalloc)]) ∨
        (∃ tid t l t3 new, s.Curthread_txinfop = some tid ∧ LogOf s tid t l ∧
          LogOf s3 tid t3 (new ++ l) ∧ SameFrame t t3 ∧
          new.map Prod.snd =
            [⟨op_t.TXOP_SET, ⟨pmemobj_direct (prv s.mem item) + PMEMlist_next,
                E.pmalloc_off (s.npmalloc + 1), PMEMLIST_SIZE⟩⟩,
              ⟨op_t.TXOP_ALLOC, ⟨E.pmalloc_off (s.npmalloc + 1), 0, 0⟩⟩,
              ⟨op_t.TXOP_SET, ⟨pmemobj_direct (nxt s.mem item) + PMEMlist_prev,
                E.pmalloc_off s.npmalloc, PMEMLIST_SIZE⟩⟩,
              ⟨op_t.TXOP_ALLOC, ⟨E.pmalloc_off s.npmalloc, 0, 0⟩⟩] ∧
          pfrees evs = [])) := by
  obtain ⟨pre, post, e, hp, hn, hpm, hnm, hnot, hadj1, hadj2⟩ := wf_item s.mem h xs item hwf hitem
  have hpin : prv s.mem item ∈ h :: xs := by
    rw [e]; exact mem_of_pre h item pre post _ hpm
  have hnin : nxt s.mem item ∈ h :: xs := by
    rw [e]; exact mem_of_post h item pre post _ hnm
  obtain ⟨s3, evs, h1, hnxt, hprv, hpools, hnp, hcur, hr3, hframe, htr, hdis⟩ :=
    list_del_links E s pool P (prv s.mem item) (nxt s.mem item) au (h :: xs) hM hP hr hl
      hpin hnin (load_oid_rep _ _) (load_oid_rep _ _)
  refine ⟨s3, evs, h1, ?_, hnxt, hprv, hpools, hnp, hcur, hr3, hframe, htr, hdis⟩
  have hnd := ((WellFormed_iff _ _ _).1 hwf).2.nodup
  have hipre : item ∉ pre := fun hi => hnot (by simp [hi])
  have her : xs.erase item = pre ++ [] ++ post := by
    rw [e, List.erase_append_right _ hipre]
    simp
  rw [her]
  have hwf0 : WellFormed s.mem h (pre ++ [item] ++ post) := by
    rw [e] at hwf; simpa using hwf
  have hsubl : ∀ o ∈ h :: (pre ++ post), o ∈ h :: xs := by
    intro o ho
    rw [e]; exact mem_of_rest h item pre post o ho
  have hap : Apart (h :: (pre ++ [] ++ post)) := by
    have hsub : (h :: (pre ++ [] ++ post)).Sublist (h :: xs) := by
      rw [e]
      apply List.Sublist.cons₂
      simp only [List.append_nil]
      exact List.Sublist.append (List.Sublist.refl _) (List.sublist_cons_self _ _)
    exact hl.1.sublist hsub
  apply wf_change s.mem s3.mem h pre [item] [] post (prv s.mem item) (nxt s.mem item) hwf0 hap
    hp hn
  · intro o ho hne
    rw [hnxt o (hsubl o ho)]; simp [hne]
  · intro o ho hne
    rw [hprv o (hsubl o ho)]; simp [hne]
  · simp only [List.nil_append, List.chain'_cons, List.chain'_singleton, and_true]
    exact ⟨by rw [hnxt _ hpin]; simp, by rw [hprv _ hnin]; simp⟩

theorem map_subst {α : Type} [DecidableEq α] (pre post : List α) (old x : α)
    (h1 : old ∉ pre) (h2 : old ∉ post) :
    (pre ++ old :: post).map (fun o => if o = old then x else o) = pre ++ x :: post := by
  have e1 : ∀ l : List α, old ∉ l → l.map (fun o => if o = old then x else o) = l := by
    intro l hl
    induction l with
    | nil => rfl
    | cons a l ih =>
      simp only [List.mem_cons, not_or] at hl
      simp only [List.map_cons, ih hl.2]
      rw [if_neg (fun e => hl.1 e.symm)]
  simp [e1 pre h1, e1 post h2]

/-- The function `pmemobj_list_replace` on a well-formed list. -/
theorem list_replace_wf (E : Env) (s : State) (pool : Nat) (P : pmemobjpool) (h : PMEMoid)
    (xs : List PMEMoid) (old x : PMEMoid) (au : Auto)
    (hM : ∀ k, E.Malloc_ok k = true) (hP : s.pools pool = some P) (hr : TxReady s)
    (hwf : WellFormed s.mem h xs) (hold : old ∈ xs) (hx : Rep x)
    (hl : Layout (x :: h :: xs) [au.new] (backups E P.addr s.npmalloc 4)) :
    ∃ s3, pmemobj_list_replace E s pool old x au = Except.ok (s3, 0) ∧
      WellFormed s3.mem h (xs.map (fun o => if o = old then x else o)) ∧
      (∀ o ∈ x :: h :: xs, nxt s3.mem o =
        if o = prv s.mem old then x else if o = x then nxt s.mem old else nxt s.mem o) ∧
      (∀ o ∈ x :: h :: xs, prv s3.mem o =
        if o = x then prv s.mem old else if o = nxt s.mem old then x else prv s.mem o) ∧
      nxt s3.mem old = nxt s.mem old ∧ prv s3.mem old = prv s.mem old ∧
      s3.pools = s.pools ∧ s3.npmalloc = s.npmalloc + 4 ∧
      s3.Curthread_txinfop = s.Curthread_txinfop ∧ TxReady s3 := by
  obtain ⟨pre, post, e, hp, hn, hpm, hnm, hnot, hadj1, hadj2⟩ := wf_item s.mem h xs old hwf hold
  have hxn : x ∉ h :: xs := not_mem_of_apart hl.1
  have hpin : prv s.mem old ∈ h :: xs := by
    rw [e]; exact mem_of_pre h old pre post _ hpm
  have hnin : nxt s.mem old ∈ h :: xs := by
    rw [e]; exact mem_of_post h old pre post _ hnm
  have holdin : old ∈ h :: xs := List.mem_cons_of_mem _ hold
  have hpo : prv s.mem old ≠ old := by
    intro e2
    apply hnot
    rcases List.mem_cons.1 hpm with q | q
    · rw [← e2, q]; exact List.mem_cons_self _ _
    · rw [← e2]; exact List.mem_cons_of_mem _ (List.mem_append_left _ q)
  have hno : nxt s.mem old ≠ old := by
    intro e2
    apply hnot
    rcases List.mem_append.1 hnm with q | q
    · rw [← e2]; exact List.mem_cons_of_mem _ (List.mem_append_right _ q)
    · rw [← e2, List.mem_singleton.1 q]; exact List.mem_cons_self _ _
  have hox : old ≠ x := fun e2 => hxn (e2 ▸ holdin)
  have hpx : prv s.mem old ≠ x := fun e2 => hxn (e2 ▸ hpin)
  have hnx : nxt s.mem old ≠ x := fun e2 => hxn (e2 ▸ hnin)
  obtain ⟨s3, h1, hnxt, hprv, hpools, hnp, hcur, hr3⟩ :=
    list_replace_links E s pool P old x au (x :: h :: xs) hM hP hr hl
      (List.mem_cons_of_mem _ holdin) (List.mem_cons_self _ _) (List.mem_cons_of_mem _ hnin)
      (List.mem_cons_of_mem _ hpin) (Ne.symm hno) hx
  have g1 : nxt s3.mem old = nxt s.mem old := by
    rw [hnxt old (List.mem_cons_of_mem _ holdin)]
    simp [Ne.symm hpo, hox]
  have g2 : prv s3.mem old = prv s.mem old := by
    rw [hprv old (List.mem_cons_of_mem _ holdin)]
    simp [Ne.symm hno, hox]
  refine ⟨s3, h1, ?_, hnxt, hprv, g1, g2, hpools, hnp, hcur, hr3⟩
  have hnd := ((WellFormed_iff _ _ _).1 hwf).2.nodup
  have hopre : old ∉ pre := fun hi => hnot (List.mem_cons_of_mem _ (List.mem_append_left _ hi))
  have hopost : old ∉ post :=
    fun hi => hnot (List.mem_cons_of_mem _ (List.mem_append_right _ hi))
  have hmap : xs.map (fun o => if o = old then x else o) = pre ++ [x] ++ post := by
    rw [e, map_subst pre post old x hopre hopost]; simp
  rw [hmap]
  have hwf0 : WellFormed s.mem h (pre ++ [old] ++ post) := by
    rw [e] at hwf; simpa using hwf
  have hsubl : ∀ o ∈ h :: (pre ++ post), o ∈ h :: xs := by
    intro o ho
    rw [e]; exact mem_of_rest h old pre post o ho
  have hap : Apart (h :: (pre ++ [x] ++ post)) := by
    have h2 : Apart (x :: h :: (pre ++ post)) := by
      apply hl.1.sublist
      apply List.Sublist.cons₂
      rw [e]
      apply List.Sublist.cons₂
      exact List.Sublist.append (List.Sublist.refl _) (List.sublist_cons_self _ _)
    apply h2.perm
    have p1 : (pre ++ [x] ++ post).Perm (x :: (pre ++ post)) := by
      simp
    exact (List.Perm.cons h p1).trans (List.Perm.swap _ _ _)
  apply wf_change s.mem s3.mem h pre [old] [x] post (prv s.mem old) (nxt s.mem old) hwf0 hap
    hp hn
  · intro o ho hne
    have hox2 : o ≠ x := fun e2 => hxn (e2 ▸ hsubl o ho)
    rw [hnxt o (List.mem_cons_of_mem _ (hsubl o ho))]; simp [hne, hox2]
  · intro o ho hne
    have hox2 : o ≠ x := fun e2 => hxn (e2 ▸ hsubl o ho)
    rw [hprv o (List.mem_cons_of_mem _ (hsubl o ho))]; simp [hne, hox2]
  · simp only [List.singleton_append, List.chain'_cons, List.chain'_singleton, and_true]
    refine ⟨⟨?_, ?_⟩, ⟨?_, ?_⟩⟩
    · rw [hnxt _ (List.mem_cons_of_mem _ hpin)]; simp
    · rw [hprv _ (List.mem_cons_self _ _)]; simp
    · rw [hnxt _ (List.mem_cons_self _ _)]; simp [Ne.symm hpx]
    · rw [hprv _ (List.mem_cons_of_mem _ hnin)]; simp [hnx]

/-- The function `pmemobj_list_init_head`. -/
theorem list_init_wf (E : Env) (s : State) (pool : Nat) (P : pmemobjpool) (h : PMEMoid)
    (au : Auto) (hM : ∀ k, E.Malloc_ok k = true) (hP : s.pools pool = some P) (hr : TxReady s)
    (hh : Rep h) (hl : Layout [h] [au.head] (backups E P.addr s.npmalloc 2)) :
    ∃ s3, pmemobj_list_init_head E s pool h au = Except.ok (s3, 0) ∧
      WellFormed s3.mem h [] ∧ nxt s3.mem h = h ∧ prv s3.mem h = h ∧
      s3.pools = s.pools ∧ s3.npmalloc = s.npmalloc + 2 ∧
      s3.Curthread_txinfop = s.Curthread_txinfop ∧ TxReady s3 := by
  obtain ⟨s3, h1, hnxt, hprv, hpools, hnp, hcur, hr3⟩ :=
    list_init_links E s pool P h au [h] hM hP hr hl (List.mem_cons_self _ _) hh
  have f1 : nxt s3.mem h = h := by rw [hnxt h (List.mem_cons_self _ _)]; simp
  have f2 : prv s3.mem h = h := by rw [hprv h (List.mem_cons_self _ _)]; simp
  refine ⟨s3, h1, ⟨?_, ?_, hl.1⟩, f1, f2, hpools, hnp, hcur, hr3⟩
  · simp [NextWalk, Walk, f1]
  · simp [PrevWalk, Walk, f2]

/-! ## Allocation, free and object ids -/

/-- C11. For every live frame with a well-formed log on a valid pool, and every
size: when `Malloc` returns memory, `pmemobj_alloc_tid` returns the object id
whose `pool` is the mapped address of the frame's pool and whose `off` is the
offset `pmalloc` produced, calls `pmalloc` once, and appends exactly one Alloc
entry holding that offset as the newest entry of the frame's log. Under the
allocator's contract (the offset is not 0 and the object lies within the pool:
`off + size` is at most the pool size, and `off` is below the pool size also
when `size` is 0), for a pool mapped within the 64-bit address space, the
object id is not null and `pmemobj_direct` of it lies in
`[pool_base, pool_base + pool_size)`. -/
theorem alloc_tid_returns_oid_in_pool (E : Env) (s : State) (tid : Nat) (t : tx)
    (l : List (Nat × LogEntry)) (P : pmemobjpool) (size : Nat)
    (hM : ∀ k, E.Malloc_ok k = true) (hL : LogOf s tid t l) (hP : s.pools t.pool = some P) :
    ∃ s1 t1 oid, pmemobj_alloc_tid E s tid size = Except.ok (s1, oid) ∧
      oid = { pool := P.addr, off := E.pmalloc_off s.npmalloc } ∧
      s1.trace = s.trace ++ [Event.pmalloc t.pool size oid.off] ∧
      LogOf s1 tid t1 ((s.txops.length, ⟨op_t.TXOP_ALLOC, ⟨oid.off, 0, 0⟩⟩) :: l) ∧
      (oid.off ≠ 0 → oid.off + size ≤ P.size → (0 < size ∨ oid.off < P.size) →
        P.addr + P.size ≤ U64 →
        pmemobj_nulloid oid = 0 ∧ P.addr ≤ pmemobj_direct oid ∧
          pmemobj_direct oid < P.addr + P.size) := by
  obtain ⟨s1, t1, h1, hL1, _, _, _, htr, _⟩ := alloc_tid_spec E s tid t l P size hM hL hP
  refine ⟨s1, t1, _, h1, rfl, htr, hL1, ?_⟩
  intro h0 hin hsz hmap
  have hlt : E.pmalloc_off s.npmalloc < P.size := by
    rcases hsz with hsz | hsz
    · simp only at hin; omega
    · exact hsz
  have hmod : (P.addr + E.pmalloc_off s.npmalloc) % U64 = P.addr + E.pmalloc_off s.npmalloc :=
    Nat.mod_eq_of_lt (by omega)
  refine ⟨by simp [pmemobj_nulloid, h0], ?_, ?_⟩
  · simp only [pmemobj_direct, hmod]; omega
  · simp only [pmemobj_direct, hmod]; omega

theorem alloc_tid_returns_oid_in_pool_witness :
    ∃ s1 t1 oid, pmemobj_alloc_tid sample_env sample_open_state 0 32 = Except.ok (s1, oid) ∧
      oid = { pool := 1000, off := 500 } ∧
      s1.trace = sample_open_state.trace ++ [Event.pmalloc 1000 32 oid.off] ∧
      LogOf s1 0 t1 ((1, ⟨op_t.TXOP_ALLOC, ⟨oid.off, 0, 0⟩⟩) ::
        [(0, ⟨op_t.TXOP_FREE, { addr := 300 }⟩)]) ∧
      pmemobj_nulloid oid = 0 ∧ 1000 ≤ pmemobj_direct oid ∧
        pmemobj_direct oid < 1000 + 2097152 := by
  obtain ⟨s1, t1, oid, h1, h2, h3, h4, h5⟩ :=
    alloc_tid_returns_oid_in_pool sample_env sample_open_state 0 sample_frame
      [(0, ⟨op_t.TXOP_FREE, { addr := 300 }⟩)] sample_pool 32 (fun _ => rfl) sample_open_log rfl
  subst h2
  exact ⟨s1, t1, _, h1, rfl, h3, h4, h5 (by decide) (by decide) (by decide) (by decide)⟩

/-- C12. For every live frame `tid` with a well-formed log `l` and every object
id: when `Malloc` returns memory, `pmemobj_free_tid` returns 0, appends exactly
one Free entry carrying `oid.off` as the newest entry (the tail) of the
frame's log, and calls nothing (the trace and the bytes are unchanged). The
on-abort action of that entry does nothing in any state. If the frame is the
outermost one, an abort right after makes exactly the `pfree` calls it makes
for `l`, and a commit first calls `pfree` on `oid.off` and then makes the calls
it makes for `l`. If the frame is nested in a frame whose log is not empty,
its commit calls `pfree` on nothing and hands the entry to the parent's log. -/
theorem free_tid_defers_pfree_to_commit (E : Env) (s : State) (tid : Nat) (t : tx)
    (l : List (Nat × LogEntry)) (P : pmemobjpool) (oid : PMEMoid) (errnum : Int)
    (hM : ∀ k, E.Malloc_ok k = true) (hL : LogOf s tid t l)
    (hcur : s.Curthread_txinfop = some tid) (hP : s.pools t.pool = some P) :
    ∃ s1 t1, pmemobj_free_tid E s tid oid = Except.ok (s1, 0) ∧
      LogOf s1 tid t1 ((s.txops.length, ⟨op_t.TXOP_FREE, ⟨oid.off, 0, 0⟩⟩) :: l) ∧
      s1.trace = s.trace ∧ s1.mem = s.mem ∧
      (∀ s0 txp, onabort_funcs op_t.TXOP_FREE s0 txp ⟨oid.off, 0, 0⟩ = Except.ok s0) ∧
      (t.next = none →
        (∃ s2 evs, pmemobj_tx_abort E s1 errnum = Except.ok (s2, 0) ∧
          s2.trace = s1.trace ++ evs ∧
          pfrees evs = pfrees (abort_trace t.pool (l.map Prod.snd))) ∧
        (∃ s2 evs, pmemobj_tx_commit E s1 = Except.ok (s2, 0) ∧
          s2.trace = s1.trace ++ evs ∧
          pfrees evs = (t.pool, oid.off) :: pfrees (commit_trace t.pool (l.map Prod.snd)))) ∧
      (∀ Pp tP lP, t.next = some Pp → LogOf s Pp tP lP → lP ≠ [] → tid ≠ Pp →
        (∀ x ∈ l, ∀ y ∈ lP, x.1 ≠ y.1) →
        ∃ s2 tP1 evs, pmemobj_tx_commit E s1 = Except.ok (s2, 0) ∧
          s2.trace = s1.trace ++ evs ∧ pfrees evs = [] ∧
          LogOf s2 Pp tP1
            (((s.txops.length, ⟨op_t.TXOP_FREE, ⟨oid.off, 0, 0⟩⟩) :: l) ++ lP)) := by
  obtain ⟨s1, t1, h1, hL1, hF, hS, hmem, htr, _⟩ := free_tid_spec E s tid t l oid hM hL
  have hcur1 : s1.Curthread_txinfop = some tid := by rw [hS.cur]; exact hcur
  have hP1 : s1.pools t1.pool = some P := by rw [hS.pools, hF.pool]; exact hP
  refine ⟨s1, t1, h1, hL1, htr, hmem, fun _ _ => rfl, ?_, ?_⟩
  · intro hnext
    have hnext1 : t1.next = none := by rw [hF.next]; exact hnext
    constructor
    · obtain ⟨s2, evsU, ha, hsy, _, htr2, _⟩ :=
        abort_top E s1 tid t1 _ P errnum hcur1 hL1 hnext1 hP1
      refine ⟨s2, _, ha, htr2, ?_⟩
      rw [pfrees_append, IsSync_pfrees evsU hsy, hF.pool]
      simp [abort_trace, abort_events]
    · obtain ⟨s2, evsU, hc, hsy, _, htr2, _⟩ := commit_top E s1 tid t1 _ hcur1 hL1 hnext1
      refine ⟨s2, _, hc, htr2, ?_⟩
      rw [pfrees_append, IsSync_pfrees evsU hsy, hF.pool]
      simp [commit_trace, commit_events, pfrees]
  · intro Pp tP lP hnext hLP hne hTP hdisj
    have hLP1 : LogOf s1 Pp tP lP := hLP.preserved (hS.others Pp (Ne.symm hTP)) hS.kept
    have hdisj1 : ∀ x ∈ (s.txops.length, (⟨op_t.TXOP_FREE, ⟨oid.off, 0, 0⟩⟩ : LogEntry)) :: l,
        ∀ y ∈ lP, x.1 ≠ y.1 := by
      intro x hx y hy
      rcases List.mem_cons.1 hx with hx | hx
      · have := PrevPath.lt lP _ hLP.2.1 y hy
        rw [hx]; simp only; omega
      · exact hdisj x hx y hy
    obtain ⟨s2, tP1, evC, hc, hLP2, _, _, _, htr2, hsy, _, _⟩ :=
      commit_nested E s1 tid Pp t1 tP _ lP hL1 hLP1 (by rw [hF.next]; exact hnext)
        (List.cons_ne_nil _ _) hne hdisj1 hTP hcur1
    exact ⟨s2, tP1, evC, hc, htr2, IsSync_pfrees evC hsy, hLP2⟩

theorem free_tid_defers_pfree_to_commit_witness :
    ∃ s1 t1, pmemobj_free_tid sample_env sample_open_state 0 { pool := 1000, off := 64 } =
        Except.ok (s1, 0) ∧
      LogOf s1 0 t1 ((1, ⟨op_t.TXOP_FREE, ⟨64, 0, 0⟩⟩) ::
        [(0, ⟨op_t.TXOP_FREE, { addr := 300 }⟩)]) ∧
      s1.trace = sample_open_state.trace ∧
      (∃ s2 evs, pmemobj_tx_abort sample_env s1 5 = Except.ok (s2, 0) ∧
        s2.trace = s1.trace ++ evs ∧ pfrees evs = []) ∧
      (∃ s2 evs, pmemobj_tx_commit sample_env s1 = Except.ok (s2, 0) ∧
        s2.trace = s1.trace ++ evs ∧ pfrees evs = [(1000, 64), (1000, 300)]) := by
  obtain ⟨s1, t1, h1, h2, h3, _, _, h5, _⟩ :=
    free_tid_defers_pfree_to_commit sample_env sample_open_state 0 sample_frame
      [(0, ⟨op_t.TXOP_FREE, { addr := 300 }⟩)] sample_pool { pool := 1000, off := 64 } 5
      (fun _ => rfl) sample_open_log rfl rfl
  exact ⟨s1, t1, h1, h2, h3, (h5 rfl).1, (h5 rfl).2⟩

/-- C13. For every object id, `pmemobj_direct` and `pmemobj_direct_ntx` return the
same address, `oid.pool + oid.off` in 64-bit arithmetic; `pmemobj_nulloid`
returns 1 exactly when `oid.off` is 0 and 0 otherwise; and for a null object id
(whose `pool` is a 64-bit word) `pmemobj_direct` is the pool base. -/
theorem direct_is_pool_plus_off (oid : PMEMoid) :
    pmemobj_direct oid = (oid.pool + oid.off) % U64 ∧
      pmemobj_direct_ntx oid = pmemobj_direct oid ∧
      (pmemobj_nulloid oid = 1 ↔ oid.off = 0) ∧ (pmemobj_nulloid oid = 0 ↔ oid.off ≠ 0) ∧
      (oid.off = 0 → oid.pool < U64 → pmemobj_direct oid = oid.pool) := by
  refine ⟨rfl, rfl, ?_, ?_, ?_⟩
  · unfold pmemobj_nulloid; split <;> simp_all
  · unfold pmemobj_nulloid; split <;> simp_all
  · intro h0 hp
    simp only [pmemobj_direct, h0, Nat.add_zero]
    exact Nat.mod_eq_of_lt hp

theorem direct_is_pool_plus_off_witness :
    pmemobj_direct { pool := 1000, off := 0 } = 1000 ∧
      pmemobj_direct_ntx { pool := 1000, off := 64 } = 1064 ∧
      pmemobj_nulloid { pool := 1000, off := 0 } = 1 ∧
      pmemobj_nulloid { pool := 1000, off := 64 } = 0 :=
  ⟨(direct_is_pool_plus_off { pool := 1000, off := 0 }).2.2.2.2 rfl (by decide),
    by decide, by decide, by decide⟩

/-! ## The list primitive -/

/-- C14. For every well-formed circular list with head `h` and forward traversal
`xs` and every node `x` that is a different object from `h` and from every
item: `pmemobj_list_add(pool, x, h)` called outside any transaction on a valid
pool returns 0 and leaves a well-formed list whose forward traversal is `x`
followed by `xs`. It is assumed that `Malloc` returns memory, that `x` is a
value of the C type, and that the automatic variables of the call and the four
undo backups overlap no node and, the variables, not one another. -/
theorem list_add_puts_node_first (E : Env) (s : State) (pool : Nat) (P : pmemobjpool)
    (h : PMEMoid) (xs : List PMEMoid) (x : PMEMoid) (au : Auto)
    (hM : ∀ k, E.Malloc_ok k = true) (hcur : s.Curthread_txinfop = none)
    (hP : s.pools pool = some P) (hwf : WellFormed s.mem h xs) (hx : Rep x)
    (hl : Layout (x :: h :: xs) [au.new, au.prev, au.next] (backups E P.addr s.npmalloc 4)) :
    ∃ s1, pmemobj_list_add E s pool x h au = Except.ok (s1, 0) ∧
      WellFormed s1.mem h (x :: xs) ∧ s1.Curthread_txinfop = none := by
  obtain ⟨s1, h1, hwf1, _, _, _, _, _, _, hc, _⟩ :=
    list_add_wf E s pool P h xs x au hM hP (Or.inl hcur) hwf hx hl
  exact ⟨s1, h1, hwf1, hc.trans hcur⟩

theorem list_add_puts_node_first_witness :
    WellFormed sample_list_state.mem sample_h [sample_a, sample_b] ∧
    ∃ s1, pmemobj_list_add sample_env sample_list_state 1000 sample_x sample_h sample_auto =
        Except.ok (s1, 0) ∧
      WellFormed s1.mem sample_h [sample_x, sample_a, sample_b] ∧
      s1.Curthread_txinfop = none :=
  ⟨by decide, list_add_puts_node_first sample_env sample_list_state 1000 sample_pool sample_h
    [sample_a, sample_b] sample_x sample_auto (fun _ => rfl) rfl rfl (by decide) (by decide)
    (by decide)⟩

/-- C15. For every well-formed circular list with head `h` and forward traversal
`xs` and every node `x` that is a different object from `h` and from every
item: `pmemobj_list_add_tail(pool, x, h)` on a valid pool, called outside any
transaction or inside one whose current frame has logged something, returns 0
and leaves a well-formed list whose forward traversal is `xs` followed by `x`.
The assumptions on `Malloc`, `x`, the automatic variables and the undo backups
are those of C14. -/
theorem list_add_tail_puts_node_last (E : Env) (s : State) (pool : Nat) (P : pmemobjpool)
    (h : PMEMoid) (xs : List PMEMoid) (x : PMEMoid) (au : Auto)
    (hM : ∀ k, E.Malloc_ok k = true) (hr : TxReady s)
    (hP : s.pools pool = some P) (hwf : WellFormed s.mem h xs) (hx : Rep x)
    (hl : Layout (x :: h :: xs) [au.new, au.prev, au.next] (backups E P.addr s.npmalloc 4)) :
    ∃ s1, pmemobj_list_add_tail E s pool x h au = Except.ok (s1, 0) ∧
      WellFormed s1.mem h (xs ++ [x]) := by
  obtain ⟨s1, h1, hwf1, _⟩ := list_add_tail_wf E s pool P h xs x au hM hP hr hwf hx hl
  exact ⟨s1, h1, hwf1⟩

theorem list_add_tail_puts_node_last_witness :
    WellFormed sample_list_state.mem sample_h [sample_a, sample_b] ∧
    ∃ s1, pmemobj_list_add_tail sample_env sample_list_state 1000 sample_x sample_h
        sample_auto = Except.ok (s1, 0) ∧
      WellFormed s1.mem sample_h [sample_a, sample_b, sample_x] :=
  ⟨by decide, list_add_tail_puts_node_last sample_env sample_list_state 1000 sample_pool
    sample_h [sample_a, sample_b] sample_x sample_auto (fun _ => rfl) (Or.inl rfl) rfl
    (by decide) (by decide) (by decide)⟩

/-- C16. For every well-formed circular list with head `h` and forward traversal
`xs` and every `item` of `xs`: `pmemobj_list_del(pool, item)` on a valid pool,
called outside any transaction or inside one whose current frame has logged
something, returns 0 and leaves a well-formed list whose forward traversal is
`xs` without `item`. `item.prev` is the node before `item` and `item.next` the
node after it; every byte outside the field `next` of the former, the field
`prev` of the latter, the two automatic variables of the call and its two undo
backups is unchanged, so the links of `item` and all other links of the nodes
are as before. No Free entry is logged: called outside any transaction, `pfree`
is called on the two undo backups and on nothing else; called inside one, no
`pfree` call is made and the four entries handed to the current frame are Alloc
and Set entries. -/
theorem list_del_unlinks_only_item (E : Env) (s : State) (pool : Nat) (P : pmemobjpool)
    (h : PMEMoid) (xs : List PMEMoid) (item : PMEMoid) (au : Auto)
    (hM : ∀ k, E.Malloc_ok k = true) (hr : TxReady s)
    (hP : s.pools pool = some P) (hwf : WellFormed s.mem h xs) (hitem : item ∈ xs)
    (hl : Layout (h :: xs) [au.prev, au.next] (backups E P.addr s.npmalloc 2)) :
    ∃ s1 evs, pmemobj_list_del E s pool item au = Except.ok (s1, 0) ∧
      WellFormed s1.mem h (xs.erase item) ∧
      (∃ pre post, xs = pre ++ item :: post ∧
        (h :: pre).getLast? = some (prv s.mem item) ∧
        (post ++ [h]).head? = some (nxt s.mem item)) ∧
      (∀ a, ¬ InRegion a (slot (pmemobj_direct (prv s.mem item) + PMEMlist_next)) →
        ¬ InRegion a (slot (pmemobj_direct (nxt s.mem item) + PMEMlist_prev)) →
        ¬ InRegion a (slot au.prev) → ¬ InRegion a (slot au.next) →
        (∀ b ∈ backups E P.addr s.npmalloc 2, ¬ InRegion a b) → s1.mem a = s.mem a) ∧
      nxt s1.mem item = nxt s.mem item ∧ prv s1.mem item = prv s.mem item ∧
      (∀ o ∈ h :: xs, o ≠ prv s.mem item → nxt s1.mem o = nxt s.mem o) ∧
      (∀ o ∈ h :: xs, o ≠ nxt s.mem item → prv s1.mem o = prv s.mem o) ∧
      s1.trace = s.trace ++ evs ∧
      ((s.Curthread_txinfop = none ∧
          pfrees evs =
            [(pool, E.pmalloc_off (s.npmalloc + 1)), (pool, E.pmalloc_off s.npmalloc)]) ∨
        (∃ tid t l t3 new, s.Curthread_txinfop = some tid ∧ LogOf s tid t l ∧
          LogOf s1 tid t3 (new ++ l) ∧ new.length = 4 ∧
          (∀ e ∈ new, e.2.op ≠ op_t.TXOP_FREE) ∧ pfrees evs = [])) := by
  obtain ⟨pre, post, e, hp, hn, hpm, hnm, hnot, _, _⟩ := wf_item s.mem h xs item hwf hitem
  obtain ⟨s1, evs, h1, hwf1, hnxt, hprv, _, _, _, _, hframe, htr, hdis⟩ :=
    list_del_wf E s pool P h xs item au hM hP hr hwf hitem hl
  have hpo : item ≠ prv s.mem item := by
    intro e2
    apply hnot
    rcases List.mem_cons.1 hpm with q | q
    · rw [e2, q]; exact List.mem_cons_self _ _
    · rw [e2]; exact List.mem_cons_of_mem _ (List.mem_append_left _ q)
  have hno : item ≠ nxt s.mem item := by
    intro e2
    apply hnot
    rcases List.mem_append.1 hnm with q | q
    · rw [e2]; exact List.mem_cons_of_mem _ (List.mem_append_right _ q)
    · rw [e2, List.mem_singleton.1 q]; exact List.mem_cons_self _ _
  have hin : item ∈ h :: xs := List.mem_cons_of_mem _ hitem
  refine ⟨s1, evs, h1, hwf1, ⟨pre, post, e, hp, hn⟩, ?_, ?_, ?_, ?_, ?_, htr, ?_⟩
  · intro a a1 a2 a3 a4 a5
    exact hframe a a3 a4 a2 a1 a5
  · rw [hnxt item hin]; simp [hpo]
  · rw [hprv item hin]; simp [hno]
  · intro o ho hne
    rw [hnxt o ho]; simp [hne]
  · intro o ho hne
    rw [hprv o ho]; simp [hne]
  · rcases hdis with hd | ⟨tid, t, l, t3, new, hc, hL, hL3, _, hE, hpf⟩
    · exact Or.inl hd
    · right
      refine ⟨tid, t, l, t3, new, hc, hL, hL3, ?_, ?_, hpf⟩
      · have := congrArg List.length hE
        simpa using this
      · intro x hx
        have hm : x.2 ∈ new.map Prod.snd := List.mem_map_of_mem _ hx
        rw [hE] at hm
        simp only [List.mem_cons, List.mem_singleton, List.not_mem_nil, or_false] at hm
        rcases hm with q | q | q | q <;> rw [q] <;> simp

theorem list_del_unlinks_only_item_witness :
    WellFormed sample_list_state.mem sample_h [sample_a, sample_b] ∧
    ∃ s1 evs, pmemobj_list_del sample_env sample_list_state 1000 sample_a sample_auto =
        Except.ok (s1, 0) ∧
      WellFormed s1.mem sample_h [sample_b] ∧
      nxt s1.mem sample_a = nxt sample_list_state.mem sample_a ∧
      prv s1.mem sample_a = prv sample_list_state.mem sample_a ∧
      s1.trace = sample_list_state.trace ++ evs ∧
      pfrees evs = [(1000, 516), (1000, 500)] := by
  refine ⟨by decide, ?_⟩
  obtain ⟨s1, evs, h1, h2, _, _, h5, h6, _, _, h9, h10⟩ :=
    list_del_unlinks_only_item sample_env sample_list_state 1000 sample_pool sample_h
      [sample_a, sample_b] sample_a sample_auto (fun _ => rfl) (Or.inl rfl) rfl (by decide)
      (by decide) (by decide)
  refine ⟨s1, evs, h1, h2, h5, h6, h9, ?_⟩
  rcases h10 with ⟨_, hpf⟩ | ⟨tid, _, _, _, _, hc, _⟩
  · exact hpf
  · cases hc

/-- C17. For every well-formed circular list with head `h` and forward traversal
`xs` (of any length, a single item included), every `old` of `xs` and every node
`x` that is a different object from `h` and from every item:
`pmemobj_list_replace(pool, old, x)` on a valid pool, called outside any
transaction or inside one whose current frame has logged something, returns 0
and leaves a well-formed list whose forward traversal is `xs` with `x` in the
place of `old`; the fields `next` and `prev` of `old` are unchanged. It is
assumed that `Malloc` returns memory, that `x` is a value of the C type, and that
the automatic variable of the call and the four undo backups overlap no node. -/
theorem list_replace_puts_node_in_place (E : Env) (s : State) (pool : Nat) (P : pmemobjpool)
    (h : PMEMoid) (xs : List PMEMoid) (old x : PMEMoid) (au : Auto)
    (hM : ∀ k, E.Malloc_ok k = true) (hr : TxReady s)
    (hP : s.pools pool = some P) (hwf : WellFormed s.mem h xs) (hold : old ∈ xs) (hx : Rep x)
    (hl : Layout (x :: h :: xs) [au.new] (backups E P.addr s.npmalloc 4)) :
    ∃ s1, pmemobj_list_replace E s pool old x au = Except.ok (s1, 0) ∧
      WellFormed s1.mem h (xs.map (fun o => if o = old then x else o)) ∧
      nxt s1.mem old = nxt s.mem old ∧ prv s1.mem old = prv s.mem old := by
  obtain ⟨s1, h1, hwf1, _, _, g1, g2, _⟩ :=
    list_replace_wf E s pool P h xs old x au hM hP hr hwf hold hx hl
  exact ⟨s1, h1, hwf1, g1, g2⟩

theorem list_replace_puts_node_in_place_witness :
    WellFormed sample_list_state.mem sample_h [sample_a, sample_b] ∧
    ∃ s1, pmemobj_list_replace sample_env sample_list_state 1000 sample_b sample_x
        sample_auto = Except.ok (s1, 0) ∧
      WellFormed s1.mem sample_h [sample_a, sample_x] ∧
      nxt s1.mem sample_b = nxt sample_list_state.mem sample_b ∧
      prv s1.mem sample_b = prv sample_list_state.mem sample_b :=
  ⟨by decide, list_replace_puts_node_in_place sample_env sample_list_state 1000 sample_pool
    sample_h [sample_a, sample_b] sample_b sample_x sample_auto (fun _ => rfl) (Or.inl rfl) rfl
    (by decide) (by decide) (by decide) (by decide)⟩

/-- C18. For every well-formed circular list with head `h` and forward traversal
`xs` and every node `x` that is a different object from `h` and from every
item: `pmemobj_list_add(pool, x, h)` followed by `pmemobj_list_del(pool, x)`, on a
valid pool, both return 0 and leave the fields `next` and `prev` of `h` and of
every item of `xs` equal to their values before the add, so the list is again
well-formed with the forward traversal `xs` (and the backward traversal its
reverse). The assumptions on `Malloc`, `x`, the automatic variables of the two
calls and the undo backups of the two calls are those of C14 and C16. -/
theorem list_add_then_del_restores_links (E : Env) (s : State) (pool : Nat) (P : pmemobjpool)
    (h : PMEMoid) (xs : List PMEMoid) (x : PMEMoid) (au au2 : Auto)
    (hM : ∀ k, E.Malloc_ok k = true) (hr : TxReady s)
    (hP : s.pools pool = some P) (hwf : WellFormed s.mem h xs) (hx : Rep x)
    (hl : Layout (x :: h :: xs) [au.new, au.prev, au.next] (backups E P.addr s.npmalloc 4))
    (hl2 : Layout (x :: h :: xs) [au2.prev, au2.next]
      (backups E P.addr (s.npmalloc + 4) 2)) :
    ∃ s1 s2, pmemobj_list_add E s pool x h au = Except.ok (s1, 0) ∧
      pmemobj_list_del E s1 pool x au2 = Except.ok (s2, 0) ∧
      (∀ o ∈ h :: xs, nxt s2.mem o = nxt s.mem o ∧ prv s2.mem o = prv s.mem o) ∧
      WellFormed s2.mem h xs := by
  obtain ⟨hadj, hn⟩ := wf_adj_head s.mem h xs hwf
  have hxn : x ∉ h :: xs := not_mem_of_apart hl.1
  obtain ⟨s1, h1, hwf1, f1, f2, f3, f4, hpools, hnp, _, hr1⟩ :=
    list_add_wf E s pool P h xs x au hM hP hr hwf hx hl
  have hP1 : s1.pools pool = some P := by rw [hpools]; exact hP
  have hl2b : Layout (h :: x :: xs) [au2.prev, au2.next] (backups E P.addr s1.npmalloc 2) := by
    rw [hnp]
    refine hl2.restrict (hl2.1.perm (List.Perm.swap _ _ _)) ?_
    intro o ho
    exact (List.Perm.swap _ _ _).subset ho
  obtain ⟨s2, evs, h2, hwf2, g1, g2, _⟩ :=
    list_del_wf E s1 pool P h (x :: xs) x au2 hM hP1 hr1 hwf1 (List.mem_cons_self _ _) hl2b
  have hsub : ∀ o ∈ h :: xs, o ∈ h :: x :: xs := by
    intro o ho
    rcases List.mem_cons.1 ho with q | q
    · rw [q]; exact List.mem_cons_self _ _
    · exact List.mem_cons_of_mem _ (List.mem_cons_of_mem _ q)
  have key : ∀ o ∈ h :: xs, nxt s2.mem o = nxt s.mem o ∧ prv s2.mem o = prv s.mem o := by
    intro o ho
    constructor
    · rw [g1 o (hsub o ho), f4, f3, f1 o ho]
      by_cases q : o = h
      · simp [q]
      · simp [q]
    · rw [g2 o (hsub o ho), f4, f3, f2 o ho]
      by_cases q : o = nxt s.mem h
      · simp [q]; exact hadj.2.symm
      · simp [q]
  refine ⟨s1, s2, h1, h2, key, ?_⟩
  exact WellFormed_congr s.mem s2.mem h xs (fun o ho => (key o ho).1) (fun o ho => (key o ho).2)
    hwf

theorem list_add_then_del_restores_links_witness :
    WellFormed sample_list_state.mem sample_h [sample_a, sample_b] ∧
    ∃ s1 s2, pmemobj_list_add sample_env sample_list_state 1000 sample_x sample_h sample_auto =
        Except.ok (s1, 0) ∧
      pmemobj_list_del sample_env s1 1000 sample_x sample_auto2 = Except.ok (s2, 0) ∧
      (∀ o ∈ [sample_h, sample_a, sample_b],
        nxt s2.mem o = nxt sample_list_state.mem o ∧
        prv s2.mem o = prv sample_list_state.mem o) ∧
      WellFormed s2.mem sample_h [sample_a, sample_b] :=
  ⟨by decide, list_add_then_del_restores_links sample_env sample_list_state 1000 sample_pool
    sample_h [sample_a, sample_b] sample_x sample_auto sample_auto2 (fun _ => rfl) (Or.inl rfl)
    rfl (by decide) (by decide) (by decide) (by decide)⟩

/-- C19. For every well-formed circular list with head `h` and forward traversal
`xs`, every item `a` of `xs` and every node `b` that is a different object from
`h` and from every item: `pmemobj_list_replace(pool, a, b)` followed by
`pmemobj_list_replace(pool, b, a)`, on a valid pool, both return 0 and leave the
fields `next` and `prev` of `a`, of `h` and of every other item equal to their
values before the first call, so the list is again well-formed with the forward
traversal `xs`. The assumptions on `Malloc`, `b`, the automatic variable of each
call and the undo backups of the two calls are those of C17. -/
theorem list_replace_twice_restores_links (E : Env) (s : State) (pool : Nat) (P : pmemobjpool)
    (h : PMEMoid) (xs : List PMEMoid) (a b : PMEMoid) (au au2 : Auto)
    (hM : ∀ k, E.Malloc_ok k = true) (hr : TxReady s)
    (hP : s.pools pool = some P) (hwf : WellFormed s.mem h xs) (ha : a ∈ xs) (hb : Rep b)
    (hl : Layout (b :: h :: xs) [au.new] (backups E P.addr s.npmalloc 4))
    (hl2 : Layout (b :: h :: xs) [au2.new] (backups E P.addr (s.npmalloc + 4) 4)) :
    ∃ s1 s2, pmemobj_list_replace E s pool a b au = Except.ok (s1, 0) ∧
      pmemobj_list_replace E s1 pool b a au2 = Except.ok (s2, 0) ∧
      (∀ o ∈ h :: xs, nxt s2.mem o = nxt s.mem o ∧ prv s2.mem o = prv s.mem o) ∧
      WellFormed s2.mem h xs := by
  obtain ⟨pre, post, e, hp, hn, hpm, hnm, hnot, hadj1, hadj2⟩ := wf_item s.mem h xs a hwf ha
  have hbn : b ∉ h :: xs := not_mem_of_apart hl.1
  have hpin : prv s.mem a ∈ h :: xs := by
    rw [e]; exact mem_of_pre h a pre post _ hpm
  have hnin : nxt s.mem a ∈ h :: xs := by
    rw [e]; exact mem_of_post h a pre post _ hnm
  have hain : a ∈ h :: xs := List.mem_cons_of_mem _ ha
  have hpa : prv s.mem a ≠ a := by
    intro e2
    apply hnot
    rcases List.mem_cons.1 hpm with q | q
    · rw [← e2, q]; exact List.mem_cons_self _ _
    · rw [← e2]; exact List.mem_cons_of_mem _ (List.mem_append_left _ q)
  have hna : nxt s.mem a ≠ a := by
    intro e2
    apply hnot
    rcases List.mem_append.1 hnm with q | q
    · rw [← e2]; exact List.mem_cons_of_mem _ (List.mem_append_right _ q)
    · rw [← e2, List.mem_singleton.1 q]; exact List.mem_cons_self _ _
  have hpb : prv s.mem a ≠ b := fun e2 => hbn (e2 ▸ hpin)
  have hnb : nxt s.mem a ≠ b := fun e2 => hbn (e2 ▸ hnin)
  have hab : a ≠ b := fun e2 => hbn (e2 ▸ hain)
  have hra : Rep a := by
    have := hadj1.1
    rw [← this]
    exact load_oid_rep _ _
  obtain ⟨s1, h1, _, f1, f2, _, _, hpools, hnp, _, hr1⟩ :=
    list_replace_wf E s pool P h xs a b au hM hP hr hwf ha hb hl
  have hP1 : s1.pools pool = some P := by rw [hpools]; exact hP
  have hbin : b ∈ b :: h :: xs := List.mem_cons_self _ _
  have n1 : nxt s1.mem b = nxt s.mem a := by
    rw [f1 b hbin]; simp [Ne.symm hpb]
  have p1 : prv s1.mem b = prv s.mem a := by
    rw [f2 b hbin]; simp
  have hl2b : Layout (b :: h :: xs) [au2.new] (backups E P.addr s1.npmalloc 4) := by
    rw [hnp]; exact hl2
  obtain ⟨s2, h2, g1, g2, _⟩ :=
    list_replace_links E s1 pool P b a au2 (b :: h :: xs) hM hP1 hr1 hl2b hbin
      (List.mem_cons_of_mem _ hain) (by rw [n1]; exact List.mem_cons_of_mem _ hnin)
      (by rw [p1]; exact List.mem_cons_of_mem _ hpin) (by rw [n1]; exact Ne.symm hnb) hra
  have key : ∀ o ∈ h :: xs, nxt s2.mem o = nxt s.mem o ∧ prv s2.mem o = prv s.mem o := by
    intro o ho
    have hob : o ≠ b := fun e2 => hbn (e2 ▸ ho)
    have ho2 : o ∈ b :: h :: xs := List.mem_cons_of_mem _ ho
    constructor
    · rw [g1 o ho2, p1, n1, f1 o ho2]
      by_cases q : o = prv s.mem a
      · simp [q]; exact hadj1.1.symm
      · by_cases q2 : o = a
        · simp [q2, Ne.symm hpa]
        · simp [q, q2, hob]
    · rw [g2 o ho2, p1, n1, f2 o ho2]
      by_cases q : o = a
      · simp [q]
      · by_cases q2 : o = nxt s.mem a
        · simp [q2, hna]; exact hadj2.2.symm
        · simp [q, q2, hob]
  refine ⟨s1, s2, h1, h2, key, ?_⟩
  exact WellFormed_congr s.mem s2.mem h xs (fun o ho => (key o ho).1) (fun o ho => (key o ho).2)
    hwf

theorem list_replace_twice_restores_links_witness :
    WellFormed sample_list_state.mem sample_h [sample_a, sample_b] ∧
    ∃ s1 s2, pmemobj_list_replace sample_env sample_list_state 1000 sample_a sample_x
        sample_auto = Except.ok (s1, 0) ∧
      pmemobj_list_replace sample_env s1 1000 sample_x sample_a sample_auto2 =
        Except.ok (s2, 0) ∧
      (∀ o ∈ [sample_h, sample_a, sample_b],
        nxt s2.mem o = nxt sample_list_state.mem o ∧
        prv s2.mem o = prv sample_list_state.mem o) ∧
      WellFormed s2.mem sample_h [sample_a, sample_b] :=
  ⟨by decide, list_replace_twice_restores_links sample_env sample_list_state 1000 sample_pool
    sample_h [sample_a, sample_b] sample_a sample_x sample_auto sample_auto2 (fun _ => rfl)
    (Or.inl rfl) rfl (by decide) (by decide) (by decide) (by decide) (by decide)⟩

/-- C20. Well-formedness of a sentinel-headed list (`WellFormed`: following
`next` from `h.next` visits the items and reaches `h`, following `prev` from
`h.prev` visits the same items in the reverse order and reaches `h`, and the
nodes are different objects) holds with no item after `pmemobj_list_init_head`,
and is kept by `pmemobj_list_add` and `pmemobj_list_add_tail` of a node that is
not in the list, by `pmemobj_list_del` of an item, and by `pmemobj_list_replace`
of an item by a node that is not in the list. Each call is made on a valid pool,
outside any transaction or inside one whose current frame has logged
something, returns 0, and is assumed to have its automatic variables and undo
backups apart from the nodes. -/
theorem list_functions_keep_well_formed (E : Env) (s : State) (pool : Nat) (P : pmemobjpool)
    (h : PMEMoid) (xs : List PMEMoid) (x item : PMEMoid) (au : Auto)
    (hM : ∀ k, E.Malloc_ok k = true) (hr : TxReady s) (hP : s.pools pool = some P) :
    (Rep h → Layout [h] [au.head] (backups E P.addr s.npmalloc 2) →
      ∃ s1, pmemobj_list_init_head E s pool h au = Except.ok (s1, 0) ∧
        WellFormed s1.mem h []) ∧
    (WellFormed s.mem h xs →
      (Rep x →
        Layout (x :: h :: xs) [au.new, au.prev, au.next] (backups E P.addr s.npmalloc 4) →
        (∃ s1, pmemobj_list_add E s pool x h au = Except.ok (s1, 0) ∧
          WellFormed s1.mem h (x :: xs)) ∧
        (∃ s1, pmemobj_list_add_tail E s pool x h au = Except.ok (s1, 0) ∧
          WellFormed s1.mem h (xs ++ [x]))) ∧
      (item ∈ xs → Layout (h :: xs) [au.prev, au.next] (backups E P.addr s.npmalloc 2) →
        ∃ s1, pmemobj_list_del E s pool item au = Except.ok (s1, 0) ∧
          WellFormed s1.mem h (xs.erase item)) ∧
      (item ∈ xs → Rep x → Layout (x :: h :: xs) [au.new] (backups E P.addr s.npmalloc 4) →
        ∃ s1, pmemobj_list_replace E s pool item x au = Except.ok (s1, 0) ∧
          WellFormed s1.mem h (xs.map (fun o => if o = item then x else o)))) := by
  refine ⟨?_, ?_⟩
  · intro hh hl
    obtain ⟨s1, h1, hwf1, _⟩ := list_init_wf E s pool P h au hM hP hr hh hl
    exact ⟨s1, h1, hwf1⟩
  · intro hwf
    refine ⟨?_, ?_, ?_⟩
    · intro hx hl
      obtain ⟨s1, h1, hwf1, _⟩ := list_add_wf E s pool P h xs x au hM hP hr hwf hx hl
      obtain ⟨s2, h2, hwf2, _⟩ := list_add_tail_wf E s pool P h xs x au hM hP hr hwf hx hl
      exact ⟨⟨s1, h1, hwf1⟩, ⟨s2, h2, hwf2⟩⟩
    · intro hitem hl
      obtain ⟨s1, _, h1, hwf1, _⟩ := list_del_wf E s pool P h xs item au hM hP hr hwf hitem hl
      exact ⟨s1, h1, hwf1⟩
    · intro hitem hx hl
      obtain ⟨s1, h1, hwf1, _⟩ :=
        list_replace_wf E s pool P h xs item x au hM hP hr hwf hitem hx hl
      exact ⟨s1, h1, hwf1⟩

theorem list_functions_keep_well_formed_witness :
    (∃ s1, pmemobj_list_init_head sample_env sample_list_state 1000 sample_x sample_auto =
        Except.ok (s1, 0) ∧ WellFormed s1.mem sample_x []) ∧
    WellFormed sample_list_state.mem sample_h [sample_a, sample_b] ∧
    (∃ s1, pmemobj_list_add sample_env sample_list_state 1000 sample_x sample_h sample_auto =
        Except.ok (s1, 0) ∧ WellFormed s1.mem sample_h [sample_x, sample_a, sample_b]) ∧
    (∃ s1, pmemobj_list_add_tail sample_env sample_list_state 1000 sample_x sample_h
        sample_auto = Except.ok (s1, 0) ∧
      WellFormed s1.mem sample_h [sample_a, sample_b, sample_x]) ∧
    (∃ s1, pmemobj_list_del sample_env sample_list_state 1000 sample_b sample_auto =
        Except.ok (s1, 0) ∧ WellFormed s1.mem sample_h [sample_a]) ∧
    (∃ s1, pmemobj_list_replace sample_env sample_list_state 1000 sample_b sample_x
        sample_auto = Except.ok (s1, 0) ∧ WellFormed s1.mem sample_h [sample_a, sample_x]) := by
  have w : WellFormed sample_list_state.mem sample_h [sample_a, sample_b] := by decide
  have t := list_functions_keep_well_formed sample_env sample_list_state 1000 sample_pool sample_h
    [sample_a, sample_b] sample_x sample_b sample_auto (fun _ => rfl) (Or.inl rfl) rfl
  have t0 := list_functions_keep_well_formed sample_env sample_list_state 1000 sample_pool
    sample_x [] sample_x sample_b sample_auto (fun _ => rfl) (Or.inl rfl) rfl
  have t2 := t.2 w
  exact ⟨t0.1 (by decide) (by decide), w, (t2.1 (by decide) (by decide)).1,
    (t2.1 (by decide) (by decide)).2, t2.2.1 (by decide) (by decide),
    t2.2.2 (by decide) (by decide) (by decide)⟩

/-! ## Tests on a list -/

/-- C21. For every valid pool and every head object id `h` (a value of the C
type, whose linkage is apart from the automatic variable and the undo backups
of the call), `pmemobj_list_init_head(pool, h)`, called outside any transaction
or inside one whose current frame has logged something, returns 0 and leaves
`h.next` and `h.prev` both equal to `h`; so `pmemobj_list_empty(h)` is true,
object ids being equal when their offsets are, and the forward traversal from
`h` ends at once, having visited no item. -/
theorem list_init_head_makes_empty_list (E : Env) (s : State) (pool : Nat) (P : pmemobjpool)
    (h : PMEMoid) (au : Auto) (hM : ∀ k, E.Malloc_ok k = true) (hr : TxReady s)
    (hP : s.pools pool = some P) (hh : Rep h)
    (hl : Layout [h] [au.head] (backups E P.addr s.npmalloc 2)) :
    ∃ s1, pmemobj_list_init_head E s pool h au = Except.ok (s1, 0) ∧
      nxt s1.mem h = h ∧ prv s1.mem h = h ∧ pmemobj_list_empty s1 h = 1 ∧
      ∀ fuel, PMEMOBJ_LIST_FOREACH s1 h (fuel + 1) = Except.ok [] := by
  obtain ⟨s1, h1, _, hn, hp, _⟩ := list_init_wf E s pool P h au hM hP hr hh hl
  have hn1 : load_oid s1.mem (pmemobj_direct h + PMEMlist_next) = h := hn
  refine ⟨s1, h1, hn, hp, ?_, ?_⟩
  · simp [pmemobj_list_empty, hn1, pmemobj_oids_equal]
  · intro fuel
    simp [PMEMOBJ_LIST_FOREACH, list_foreach_from, hn1, pmemobj_oids_equal, pure, Except.pure]

theorem list_init_head_makes_empty_list_witness :
    ∃ s1, pmemobj_list_init_head sample_env sample_list_state 1000 sample_x sample_auto =
        Except.ok (s1, 0) ∧
      nxt s1.mem sample_x = sample_x ∧ prv s1.mem sample_x = sample_x ∧
      pmemobj_list_empty s1 sample_x = 1 ∧
      ∀ fuel, PMEMOBJ_LIST_FOREACH s1 sample_x (fuel + 1) = Except.ok [] :=
  list_init_head_makes_empty_list sample_env sample_list_state 1000 sample_pool sample_x
    sample_auto (fun _ => rfl) (Or.inl rfl) rfl (by decide) (by decide)

/-! ## The locks of nested frames at an abort -/

/-- C22, at the failing input. On the sample state: a transaction is begun with
`pmemobj_tx_begin_lock` on the mutex at 2000 and logs one `memcpy`; a nested one
is begun with `pmemobj_tx_begin_lock` on the mutex at 2100 and logs nothing; then
`pmemobj_tx_abort(5)` is called. The abort of the inner frame unlocks the pthread
mutex 1 of the inner lock, and then its splice dereferences the `NULL` `head` of
the empty log: `pmemobj_tx_abort` does not return and the pthread mutex 0 of the
outer frame is never unlocked. The lock record of the inner frame is cleared by
the unlock. When the inner frame has logged a `memcpy` the
same abort returns, having unlocked the pthread mutex 1, then 0, and then run
the actions. -/
theorem abort_faults_before_outer_unlock :
    ∃ s1 s2 s3 s4 s5 s6 t3 t4,
      pmemobj_tx_begin_lock sample_env sample_state 1000 none 2000 = Except.ok (s1, 0) ∧
      pmemobj_memcpy_tid sample_env s1 0 1100 1200 4 = Except.ok (s2, 0) ∧
      pmemobj_tx_begin_lock sample_env s2 1000 none 2100 = Except.ok (s3, 1) ∧
      s3.trace = [Event.pthread PthreadFn.mutex_init 0, Event.pthread PthreadFn.mutex_lock 0,
        Event.pmalloc 1000 4 500, Event.pthread PthreadFn.mutex_init 1,
        Event.pthread PthreadFn.mutex_lock 1] ∧
      tx_get s3 1 = Except.ok t3 ∧ t3.mutexp = some 2100 ∧
      pmemobj_unlock_locks_tid sample_env s3 1 = Except.ok s4 ∧
      s4.trace = s3.trace ++ [Event.pthread PthreadFn.mutex_unlock 1] ∧
      tx_get s4 1 = Except.ok t4 ∧ t4.mutexp = none ∧
      pmemobj_tx_action_tid s4 1 onabort_funcs = Except.error Fault.null_deref ∧
      pmemobj_tx_abort sample_env s3 5 = Except.error Fault.null_deref ∧
      pmemobj_memcpy_tid sample_env s3 1 1102 1210 4 = Except.ok (s5, 0) ∧
      pmemobj_tx_abort sample_env s5 5 = Except.ok (s6, 0) ∧
      s6.trace = s5.trace ++ [Event.pthread PthreadFn.mutex_unlock 1,
        Event.pthread PthreadFn.mutex_unlock 0, Event.pfree 1000 516, Event.pfree 1000 500] :=
  ⟨_, _, _, _, _, _, _, _, rfl, rfl, rfl, rfl, rfl, rfl, rfl, rfl, rfl, rfl, rfl, rfl, rfl, rfl,
    rfl⟩

/-! ## The root object -/

/-- A call of `pmemobj_root_direct` that finds the root object there: the root
lock, bound to the pthread mutex `p`, is locked and unlocked, and the address of
the root object is returned. -/
theorem root_direct_found (E : Env) (s : State) (pop size p : Nat) (P : pmemobjpool)
    (hP : s.pools pop = some P) (hoff : P.root.off ≠ 0)
    (hcell : s.mutexes (rootlock pop) = { runid := E.Runid, pthreadp := some p }) :
    pmemobj_root_direct E s pop size = Except.ok ({ s with
      trace := s.trace ++ [Event.pthread PthreadFn.mutex_lock p,
        Event.pthread PthreadFn.mutex_unlock p] }, pmemobj_direct P.root) := by
  have hr : (s.mutexes (rootlock pop)).runid = E.Runid := by rw [hcell]
  simp [pmemobj_root_direct, pmemobj_mutex_lock, pmemobj_mutex_unlock, mutexof, hr, hcell,
    pthread_call, pool_get, hP, hoff, bind, Except.bind, pure, Except.pure]

/-- A call of `pmemobj_root_direct` that finds no root object, the root lock
being bound to the pthread mutex `p`: one `pmalloc` call under the lock. -/
theorem root_direct_created (E : Env) (s : State) (pop size p : Nat) (P : pmemobjpool)
    (hP : s.pools pop = some P) (hoff : P.root.off = 0)
    (hcell : s.mutexes (rootlock pop) = { runid := E.Runid, pthreadp := some p }) :
    pmemobj_root_direct E s pop size = Except.ok ({ s with
      pools := Function.update s.pools pop (some { P with
        root := { pool := P.addr, off := E.pmalloc_off s.npmalloc } }),
      npmalloc := s.npmalloc + 1,
      trace := s.trace ++ [Event.pthread PthreadFn.mutex_lock p,
        Event.pmalloc pop size (E.pmalloc_off s.npmalloc),
        Event.pthread PthreadFn.mutex_unlock p] },
      (P.addr + E.pmalloc_off s.npmalloc) % U64) := by
  have hr : (s.mutexes (rootlock pop)).runid = E.Runid := by rw [hcell]
  simp [pmemobj_root_direct, pmemobj_mutex_lock, pmemobj_mutex_unlock, mutexof, hr, hcell,
    pthread_call, pool_get, hP, hoff, pmalloc, pmemobj_direct, bind, Except.bind, pure,
    Except.pure]

/-- A call of `pmemobj_root_direct` that finds no root object and the root lock
not bound in this run: the lock is bound to a new pthread mutex first. -/
theorem root_direct_created_unbound (E : Env) (s : State) (pop size : Nat) (P : pmemobjpool)
    (hM : E.Malloc_ok s.nmalloc = true) (hinit : E.pthread_ret s.trace.length = 0)
    (hP : s.pools pop = some P) (hoff : P.root.off = 0)
    (hcell : (s.mutexes (rootlock pop)).runid ≠ E.Runid) :
    pmemobj_root_direct E s pop size = Except.ok ({ s with
      pools := Function.update s.pools pop (some { P with
        root := { pool := P.addr, off := E.pmalloc_off s.npmalloc } }),
      mutexes := Function.update s.mutexes (rootlock pop)
        { runid := E.Runid, pthreadp := some s.npthread },
      nmalloc := s.nmalloc + 1, npthread := s.npthread + 1, errno := 0,
      npmalloc := s.npmalloc + 1,
      trace := s.trace ++ [Event.pthread PthreadFn.mutex_init s.npthread,
        Event.pthread PthreadFn.mutex_lock s.npthread,
        Event.pmalloc pop size (E.pmalloc_off s.npmalloc),
        Event.pthread PthreadFn.mutex_unlock s.npthread] },
      (P.addr + E.pmalloc_off s.npmalloc) % U64) := by
  simp [pmemobj_root_direct, pmemobj_mutex_lock, pmemobj_mutex_unlock, mutexof, hcell, Malloc,
    hM, hinit, pthread_call, pool_get, hP, hoff, pmalloc, pmemobj_direct, bind, Except.bind,
    pure, Except.pure]

theorem root_found_events_sync (p : Nat) : ∀ n, IsSync (root_found_events p n)
  | 0 => IsSync_nil
  | n + 1 => by
    intro e he
    simp only [root_found_events, List.mem_cons] at he
    rcases he with rfl | rfl | he
    · exact ⟨_, _, rfl⟩
    · exact ⟨_, _, rfl⟩
    · exact root_found_events_sync p n e he

/-- Calls of `pmemobj_root_direct` on a pool that has its root object. -/
theorem root_direct_calls_found (E : Env) (pop p : Nat) (P : pmemobjpool)
    (hoff : P.root.off ≠ 0) : ∀ (sizes : List Nat) (s : State), s.pools pop = some P →
      s.mutexes (rootlock pop) = { runid := E.Runid, pthreadp := some p } →
      root_direct_calls E pop sizes s = Except.ok ({ s with
        trace := s.trace ++ root_found_events p sizes.length },
        List.replicate sizes.length (pmemobj_direct P.root)) := by
  intro sizes
  induction sizes with
  | nil => intro s _ _; simp [root_direct_calls, root_found_events, pure, Except.pure]
  | cons size rest ih =>
    intro s hP hcell
    have h2 := ih { s with trace := s.trace ++ [Event.pthread PthreadFn.mutex_lock p,
        Event.pthread PthreadFn.mutex_unlock p] } hP hcell
    simp [root_direct_calls, root_direct_found E s pop size p P hP hoff hcell, h2,
      root_found_events, List.replicate_succ, bind, Except.bind, pure, Except.pure]

/-- A first call of `pmemobj_root_direct` that leaves the root object there,
followed by further calls. -/
theorem root_direct_calls_cons (E : Env) (pop p size r : Nat) (rest : List Nat) (s sA : State)
    (P1 : pmemobjpool) (h1 : pmemobj_root_direct E s pop size = Except.ok (sA, r))
    (hP1 : sA.pools pop = some P1) (hoff : P1.root.off ≠ 0)
    (hc : sA.mutexes (rootlock pop) = { runid := E.Runid, pthreadp := some p })
    (hr : pmemobj_direct P1.root = r) :
    root_direct_calls E pop (size :: rest) s = Except.ok ({ sA with
      trace := sA.trace ++ root_found_events p rest.length },
      List.replicate (rest.length + 1) r) := by
  have h2 := root_direct_calls_found E pop p P1 hoff rest sA hP1 hc
  simp only [root_direct_calls, h1, h2, bind, Except.bind, pure, Except.pure, hr]
  rfl

/-- C23. For every pool whose root offset is 0 and every non-empty sequence of
`pmemobj_root_direct` calls, with any sizes, in which `pmalloc` stores a nonzero
offset: the calls return, all with the same address (the pool's address plus
that offset, in 64-bit arithmetic); `pmalloc` is called exactly once, by the
first call, between the lock and the unlock of the root lock; the root object id
is that offset in this pool afterwards; and every call has locked the pthread
mutex of the root lock and unlocked it before it returns. The root lock is
bound to a pthread mutex of this run, or it is bound by the first call, for
which `Malloc` returns memory and `pthread_mutex_init` returns 0. -/
theorem root_direct_allocates_once (E : Env) (s : State) (pop : Nat) (P : pmemobjpool)
    (size : Nat) (rest : List Nat) (hM : E.Malloc_ok s.nmalloc = true)
    (hinit : E.pthread_ret s.trace.length = 0) (hP : s.pools pop = some P)
    (h0 : P.root.off = 0) (hoff : E.pmalloc_off s.npmalloc ≠ 0)
    (hcell : (s.mutexes (rootlock pop)).runid = E.Runid →
      (s.mutexes (rootlock pop)).pthreadp ≠ none) :
    ∃ s1 p evs0 evs, root_direct_calls E pop (size :: rest) s = Except.ok (s1,
        List.replicate (rest.length + 1) ((P.addr + E.pmalloc_off s.npmalloc) % U64)) ∧
      s1.trace = s.trace ++ evs ∧
      evs = evs0 ++ [Event.pthread PthreadFn.mutex_lock p,
        Event.pmalloc pop size (E.pmalloc_off s.npmalloc),
        Event.pthread PthreadFn.mutex_unlock p] ++ root_found_events p rest.length ∧
      (evs0 = [] ∨ evs0 = [Event.pthread PthreadFn.mutex_init p]) ∧
      pmallocs evs = [(pop, E.pmalloc_off s.npmalloc)] ∧
      s1.pools pop = some { P with
        root := { pool := P.addr, off := E.pmalloc_off s.npmalloc } } ∧
      s1.npmalloc = s.npmalloc + 1 := by
  by_cases hb : (s.mutexes (rootlock pop)).runid = E.Runid
  · obtain ⟨p, hp⟩ := Option.ne_none_iff_exists'.1 (hcell hb)
    have hc : s.mutexes (rootlock pop) = { runid := E.Runid, pthreadp := some p } := by
      rw [← hb, ← hp]
    have h1 := root_direct_created E s pop size p P hP h0 hc
    have h2 := root_direct_calls_cons E pop p size _ rest s _ { P with
      root := { pool := P.addr, off := E.pmalloc_off s.npmalloc } } h1 (by simp) hoff hc rfl
    refine ⟨_, p, [], _, h2, ?_, rfl, Or.inl rfl, ?_, ?_, ?_⟩
    · simp
    · simp [pmallocs, pmallocs_append, IsSync_pmallocs _ (root_found_events_sync p _)]
    · simp
    · rfl
  · have h1 := root_direct_created_unbound E s pop size P hM hinit hP h0 hb
    have h2 := root_direct_calls_cons E pop s.npthread size _ rest s _ { P with
      root := { pool := P.addr, off := E.pmalloc_off s.npmalloc } } h1 (by simp) hoff
      (by simp) rfl
    refine ⟨_, s.npthread, [Event.pthread PthreadFn.mutex_init s.npthread], _, h2, ?_, rfl,
      Or.inr rfl, ?_, ?_, ?_⟩
    · simp
    · simp [pmallocs, pmallocs_append, IsSync_pmallocs _ (root_found_events_sync s.npthread _)]
    · simp
    · rfl

theorem root_direct_allocates_once_witness :
    ∃ s1 p evs0 evs, root_direct_calls sample_heap_env 1000 [32, 64, 0] sample_state =
        Except.ok (s1, List.replicate 3 9192) ∧
      s1.trace = sample_state.trace ++ evs ∧
      evs = evs0 ++ [Event.pthread PthreadFn.mutex_lock p, Event.pmalloc 1000 32 8192,
        Event.pthread PthreadFn.mutex_unlock p] ++ root_found_events p 2 ∧
      (evs0 = [] ∨ evs0 = [Event.pthread PthreadFn.mutex_init p]) ∧
      pmallocs evs = [(1000, 8192)] ∧
      s1.pools 1000 = some { sample_pool with root := { pool := 1000, off := 8192 } } ∧
      s1.npmalloc = 1 :=
  root_direct_allocates_once sample_heap_env sample_state 1000 sample_pool 32 [64, 0] rfl rfl rfl
    rfl (by decide) (by decide)

/-- C24, at the failing input. The sample file, which has never held a pool, is
opened and mapped at 1000; `pmemobj_root_direct` creates the root object at the
offset 8192 and returns 9192; the pool is closed. The file, which now has a
valid header and the root offset 8192, is opened again and mapped at 5000:
`pmemobj_root_direct` returns 9192 again, the base of the earlier mapping plus
the root offset, which is an address of no pool now; the mapping base plus the
root offset is 13192. -/
theorem root_direct_keeps_first_base :
    ∃ s1 f1 s2 s3 f3 s4 f4 s5 P,
      pmemobj_pool_open sample_open sample_boot sample_file = Except.ok (s1, some 1000, f1) ∧
      pmemobj_root_direct sample_heap_env s1 1000 32 = Except.ok (s2, 9192) ∧
      pmemobj_pool_close s2 1000 = Except.ok (s3, f3) ∧
      s3.pools 1000 = none ∧
      util_convert_hdr sample_reopen f3.pop.hdr = true ∧ f3.pop.root.off = 8192 ∧
      pmemobj_pool_open sample_reopen s3 f3 = Except.ok (s4, some 5000, f4) ∧
      s4.pools 5000 = some P ∧ P.addr = 5000 ∧ P.root = { pool := 1000, off := 8192 } ∧
      pmemobj_root_direct sample_heap_env s4 5000 32 = Except.ok (s5, 9192) ∧
      P.addr + P.root.off = 13192 :=
  ⟨_, _, _, _, _, _, _, _, _, rfl, rfl, rfl, rfl, rfl, rfl, rfl, rfl, rfl, rfl, rfl, rfl⟩

/-- C25, at the failing input. The sample file, which has never held a pool and
whose byte at the offset `o` is `o % 5 + 1`, is opened and mapped at 1000; the
pool has no root object. The first `pmemobj_root_direct(pop, 32)` returns 9192,
having called `pmalloc` and written no byte: the first bytes of the object are
3 and 4, as they were before the call. -/
theorem root_direct_does_not_zero :
    ∃ s1 f1 s2 P,
      pmemobj_pool_open sample_open sample_boot sample_file = Except.ok (s1, some 1000, f1) ∧
      s1.pools 1000 = some P ∧ P.root.off = 0 ∧
      pmemobj_root_direct sample_heap_env s1 1000 32 = Except.ok (s2, 9192) ∧
      s1.mem 9192 = 3 ∧ s1.mem 9193 = 4 ∧ s2.mem 9192 = 3 ∧ s2.mem 9193 = 4 ∧
      (∀ a, s2.mem a = s1.mem a) ∧
      s2.trace = s1.trace ++ [Event.pthread PthreadFn.mutex_init 0,
        Event.pthread PthreadFn.mutex_lock 0, Event.pmalloc 1000 32 8192,
        Event.pthread PthreadFn.mutex_unlock 0] :=
  ⟨_, _, _, _, rfl, rfl, rfl, rfl, rfl, rfl, rfl, rfl, fun _ => rfl, rfl⟩

/-! ## Opening a pool -/

/-- C26. For every file whose size is smaller than `PMEMOBJ_MIN_POOL` (2 MiB) and
on which `stat` succeeds, `pmemobj_pool_open` returns `NULL` with `errno` set to
`EINVAL`; it has called neither `open` nor `util_map`: nothing else of the state
has changed, no call is traced, no pool is mapped, and the file is as it was. -/
theorem pool_open_rejects_small_file (O : OpenEnv) (s : State) (f : File)
    (hstat : O.stat_errno = none) (hsize : f.st_size < PMEMOBJ_MIN_POOL) :
    pmemobj_pool_open O s f = Except.ok ({ s with errno := EINVAL }, none, f) ∧
      PMEMOBJ_MIN_POOL = 2 * 1024 * 1024 := by
  refine ⟨?_, rfl⟩
  simp [pmemobj_pool_open, hstat, hsize, pure, Except.pure]

theorem pool_open_rejects_small_file_witness :
    sample_small_file.st_size < PMEMOBJ_MIN_POOL ∧
    pmemobj_pool_open sample_open sample_boot sample_small_file =
      Except.ok ({ sample_boot with errno := EINVAL }, none, sample_small_file) ∧
    PMEMOBJ_MIN_POOL = 2 * 1024 * 1024 :=
  ⟨by decide, pool_open_rejects_small_file sample_open sample_boot sample_small_file rfl
    (by decide)⟩

/-- The branch of `pmemobj_pool_open` that finds no valid header. -/
theorem pool_open_create (O : OpenEnv) (s : State) (f : File) (addr : Nat)
    (hstat : O.stat_errno = none) (hsize : PMEMOBJ_MIN_POOL ≤ f.st_size)
    (hopen : O.open_errno = none) (hmap : O.util_map = some addr)
    (hv : util_convert_hdr O f.pop.hdr = false) :
    ∃ s1 P1, pmemobj_pool_open O s f = Except.ok (s1, some addr, file_of s1 addr f.st_size) ∧
      s1.pools addr = some P1 ∧
      P1.hdr = (util_checksum O
        { signature := O.OBJ_HDR_SIG.take O.POOL_HDR_SIG_LEN,
          major := O.OBJ_FORMAT_MAJOR,
          compat_features := O.OBJ_FORMAT_COMPAT,
          incompat_features := O.OBJ_FORMAT_INCOMPAT,
          ro_compat_features := O.OBJ_FORMAT_RO_COMPAT,
          uuid := O.uuid,
          crtime := O.time } true).1 ∧
      P1.root = { f.pop.root with off := 0 } ∧ P1.addr = addr ∧ P1.size = f.st_size ∧
      s1.mutexes (rootlock addr) = {} ∧ s1.errno = s.errno ∧
      s1.trace = s.trace ++ [Event.util_map f.st_size addr, Event.persist addr POOL_HDR_SIZE,
        Event.allocator_init addr] := by
  have hlt : ¬ f.st_size < PMEMOBJ_MIN_POOL := Nat.not_lt.2 hsize
  refine ⟨{ map_file s f addr with
      pools := Function.update s.pools addr (some
        { addr := addr, size := f.st_size, root := { f.pop.root with off := 0 },
          hdr := (util_checksum O
            { signature := O.OBJ_HDR_SIG.take O.POOL_HDR_SIG_LEN,
              major := O.OBJ_FORMAT_MAJOR,
              compat_features := O.OBJ_FORMAT_COMPAT,
              incompat_features := O.OBJ_FORMAT_INCOMPAT,
              ro_compat_features := O.OBJ_FORMAT_RO_COMPAT,
              uuid := O.uuid,
              crtime := O.time } true).1 }),
      mutexes := Function.update (map_file s f addr).mutexes (rootlock addr) {},
      trace := s.trace ++ [Event.util_map f.st_size addr, Event.persist addr POOL_HDR_SIZE,
        Event.allocator_init addr] },
    { addr := addr, size := f.st_size, root := { f.pop.root with off := 0 },
      hdr := (util_checksum O
        { signature := O.OBJ_HDR_SIG.take O.POOL_HDR_SIG_LEN,
          major := O.OBJ_FORMAT_MAJOR,
          compat_features := O.OBJ_FORMAT_COMPAT,
          incompat_features := O.OBJ_FORMAT_INCOMPAT,
          ro_compat_features := O.OBJ_FORMAT_RO_COMPAT,
          uuid := O.uuid,
          crtime := O.time } true).1 }, ?_, ?_, rfl, rfl, rfl, rfl, ?_, rfl, rfl⟩
  · simp [pmemobj_pool_open, hstat, hlt, hopen, util_map, hmap, map_file, pool_get, hv,
      pool_open_finish, bind, Except.bind, pure, Except.pure]
  · simp
  · simp

/-- The branch of `pmemobj_pool_open` that finds a valid header of another pool
type. -/
theorem pool_open_wrong_type (O : OpenEnv) (s : State) (f : File) (addr : Nat)
    (hstat : O.stat_errno = none) (hsize : PMEMOBJ_MIN_POOL ≤ f.st_size)
    (hopen : O.open_errno = none) (hmap : O.util_map = some addr)
    (hv : util_convert_hdr O f.pop.hdr = true)
    (hsig : f.pop.hdr.signature.take O.POOL_HDR_SIG_LEN ≠
      O.OBJ_HDR_SIG.take O.POOL_HDR_SIG_LEN) :
    pmemobj_pool_open O s f = Except.ok ({ map_file s f addr with
      pools := Function.update s.pools addr none,
      errno := EINVAL,
      trace := s.trace ++ [Event.util_map f.st_size addr, Event.util_unmap addr f.st_size] },
      none,
      file_of { map_file s f addr with
        errno := EINVAL,
        trace := s.trace ++ [Event.util_map f.st_size addr] } addr f.st_size) := by
  have hlt : ¬ f.st_size < PMEMOBJ_MIN_POOL := Nat.not_lt.2 hsize
  simp [pmemobj_pool_open, hstat, hlt, hopen, util_map, hmap, map_file, pool_get, hv, hsig,
    pool_open_err, util_unmap, bind, Except.bind, pure, Except.pure]

/-- C27, counterexample. The sample file of 2 MiB carries the object-store
signature and its header checksum does not verify; `stat`, `open` and `util_map`
succeed. `pmemobj_pool_open` does not fail: it returns the pool, mapped at 1000,
`errno` is still 0, and the file has a new header, the root offset 0 where it was
500, and a zeroed root lock where a bound one was. -/
theorem pool_open_bad_checksum_not_refused :
    PMEMOBJ_MIN_POOL ≤ sample_damaged_file.st_size ∧
    sample_damaged_file.pop.hdr.signature = sample_open.OBJ_HDR_SIG ∧
    (util_checksum sample_open sample_damaged_file.pop.hdr false).2 = false ∧
    ∃ s1 f1, pmemobj_pool_open sample_open sample_boot sample_damaged_file =
        Except.ok (s1, some 1000, f1) ∧
      sample_boot.errno = 0 ∧ s1.errno = 0 ∧
      sample_damaged_file.pop.hdr.uuid = 5 ∧ f1.pop.hdr.uuid = 77 ∧
      sample_damaged_file.pop.root.off = 500 ∧ f1.pop.root.off = 0 ∧
      sample_damaged_file.mutexes 4112 = { runid := 3, pthreadp := some 0 } ∧
      f1.mutexes 4112 = {} :=
  ⟨by decide, rfl, rfl, _, _, rfl, rfl, rfl, rfl, rfl, rfl, rfl, rfl, rfl⟩

/-- C27, amended. For every file of at least 2 MiB whose header checksum does
not verify, with the object-store signature or without it, when `stat`, `open`
and `util_map` succeed: `pmemobj_pool_open` takes the file as holding no pool.
It returns the pool (the address of the mapping) and leaves `errno` as it was;
the file then has a new header, with the uuid and the time of this call and a
checksum that verifies, the root offset 0 and a zeroed root lock. -/
theorem pool_open_bad_checksum_starts_anew (O : OpenEnv) (s : State) (f : File) (addr : Nat)
    (hstat : O.stat_errno = none) (hsize : PMEMOBJ_MIN_POOL ≤ f.st_size)
    (hopen : O.open_errno = none) (hmap : O.util_map = some addr)
    (hsum : (util_checksum O f.pop.hdr false).2 = false) :
    ∃ s1 f1, pmemobj_pool_open O s f = Except.ok (s1, some addr, f1) ∧
      s1.errno = s.errno ∧
      f1.pop.hdr.uuid = O.uuid ∧ f1.pop.hdr.crtime = O.time ∧
      (util_checksum O f1.pop.hdr false).2 = true ∧
      f1.pop.root.off = 0 ∧ f1.mutexes (rootlock 0) = {} := by
  have hv : util_convert_hdr O f.pop.hdr = false := by simp [util_convert_hdr, hsum]
  obtain ⟨s1, P1, h1, hP1, hhdr, hroot, _, _, hlock, herr, _⟩ :=
    pool_open_create O s f addr hstat hsize hopen hmap hv
  have hpop : (file_of s1 addr f.st_size).pop = P1 := by simp [file_of, hP1]
  refine ⟨s1, _, h1, herr, ?_, ?_, ?_, ?_, ?_⟩
  · rw [hpop, hhdr]; rfl
  · rw [hpop, hhdr]; rfl
  · rw [hpop, hhdr]; simp [util_checksum]
  · rw [hpop, hroot]
  · have ha : addr + rootlock 0 = rootlock addr := by simp [rootlock]; omega
    show s1.mutexes (addr + rootlock 0) = {}
    rw [ha, hlock]

theorem pool_open_bad_checksum_starts_anew_witness :
    ∃ s1 f1, pmemobj_pool_open sample_open sample_boot sample_damaged_file =
        Except.ok (s1, some 1000, f1) ∧
      s1.errno = sample_boot.errno ∧
      f1.pop.hdr.uuid = sample_open.uuid ∧ f1.pop.hdr.crtime = sample_open.time ∧
      (util_checksum sample_open f1.pop.hdr false).2 = true ∧
      f1.pop.root.off = 0 ∧ f1.mutexes (rootlock 0) = {} :=
  pool_open_bad_checksum_starts_anew sample_open sample_boot sample_damaged_file 1000 rfl
    (by decide) rfl rfl rfl

/-- C28, counterexample. The sample file of 2 MiB has a valid header of another
pool type: its signature is not the object-store signature; `stat`, `open` and
`util_map` succeed. `pmemobj_pool_open` does not initialize a pool: it returns
`NULL` with `errno` set to `EINVAL`, the file is unmapped again, and its header
and root descriptor are as they were. -/
theorem pool_open_refuses_other_pool_type :
    PMEMOBJ_MIN_POOL ≤ sample_log_file.st_size ∧
    sample_log_file.pop.hdr.signature ≠ sample_open.OBJ_HDR_SIG ∧
    ∃ s1 f1, pmemobj_pool_open sample_open sample_boot sample_log_file =
        Except.ok (s1, none, f1) ∧
      s1.errno = EINVAL ∧ s1.pools 1000 = none ∧ f1.pop = sample_log_file.pop ∧
      f1.mutexes 4112 = sample_log_file.mutexes 4112 ∧
      s1.trace = [Event.util_map 2097152 1000, Event.util_unmap 1000 2097152] :=
  ⟨by decide, by decide, _, _, rfl, rfl, rfl, rfl, rfl, rfl⟩

/-- C28, amended. For every file of at least 2 MiB, when `stat`, `open` and
`util_map` succeed: if the file has no valid header (`util_convert_hdr` answers
0: its major version is 0 or its checksum does not verify), `pmemobj_pool_open`
returns the pool and has initialized it: the header has the signature
`OBJ_HDR_SIG`, the major version `OBJ_FORMAT_MAJOR` and the three feature masks
of the library, the root offset is 0 and the root lock cell is zeroed. If the
file has a valid header whose signature is not `OBJ_HDR_SIG`, the call returns
`NULL` with `errno` set to `EINVAL`, the file is unmapped again and its header
and root descriptor are as they were. -/
theorem pool_open_initializes_without_valid_header (O : OpenEnv) (s : State) (f : File)
    (addr : Nat) (hstat : O.stat_errno = none) (hsize : PMEMOBJ_MIN_POOL ≤ f.st_size)
    (hopen : O.open_errno = none) (hmap : O.util_map = some addr) :
    (util_convert_hdr O f.pop.hdr = false →
      ∃ s1 P1 f1, pmemobj_pool_open O s f = Except.ok (s1, some addr, f1) ∧
        s1.pools addr = some P1 ∧ f1.pop = P1 ∧
        P1.hdr.signature = O.OBJ_HDR_SIG.take O.POOL_HDR_SIG_LEN ∧
        P1.hdr.major = O.OBJ_FORMAT_MAJOR ∧
        P1.hdr.compat_features = O.OBJ_FORMAT_COMPAT ∧
        P1.hdr.incompat_features = O.OBJ_FORMAT_INCOMPAT ∧
        P1.hdr.ro_compat_features = O.OBJ_FORMAT_RO_COMPAT ∧
        P1.root.off = 0 ∧ s1.mutexes (rootlock addr) = {} ∧
        persists s1.trace = persists s.trace ++ [(addr, POOL_HDR_SIZE)]) ∧
    (util_convert_hdr O f.pop.hdr = true →
      f.pop.hdr.signature.take O.POOL_HDR_SIG_LEN ≠ O.OBJ_HDR_SIG.take O.POOL_HDR_SIG_LEN →
      ∃ s1 f1, pmemobj_pool_open O s f = Except.ok (s1, none, f1) ∧
        s1.errno = EINVAL ∧ s1.pools addr = none ∧ f1.pop = f.pop ∧
        f1.mutexes (rootlock 0) = f.mutexes (rootlock 0)) := by
  refine ⟨?_, ?_⟩
  · intro hv
    obtain ⟨s1, P1, h1, hP1, hhdr, hroot, _, _, hlock, _, htr⟩ :=
      pool_open_create O s f addr hstat hsize hopen hmap hv
    refine ⟨s1, P1, _, h1, hP1, by simp [file_of, hP1], ?_, ?_, ?_, ?_, ?_, ?_, hlock, ?_⟩
    · rw [hhdr]; rfl
    · rw [hhdr]; rfl
    · rw [hhdr]; rfl
    · rw [hhdr]; rfl
    · rw [hhdr]; rfl
    · rw [hroot]
    · rw [htr, persists_append]; rfl
  · intro hv hsig
    refine ⟨_, _, pool_open_wrong_type O s f addr hstat hsize hopen hmap hv hsig, rfl, ?_, ?_, ?_⟩
    · simp
    · simp [file_of, map_file]
    · have hlt : rootlock 0 < f.st_size :=
        Nat.lt_of_lt_of_le (by decide : rootlock 0 < PMEMOBJ_MIN_POOL) hsize
      simp [file_of, map_file, hlt]

theorem pool_open_initializes_without_valid_header_witness :
    (∃ s1 P1 f1, pmemobj_pool_open sample_open sample_boot sample_file =
        Except.ok (s1, some 1000, f1) ∧
      s1.pools 1000 = some P1 ∧ f1.pop = P1 ∧
      P1.hdr.signature = sample_open.OBJ_HDR_SIG.take sample_open.POOL_HDR_SIG_LEN ∧
      P1.hdr.major = sample_open.OBJ_FORMAT_MAJOR ∧
      P1.hdr.compat_features = sample_open.OBJ_FORMAT_COMPAT ∧
      P1.hdr.incompat_features = sample_open.OBJ_FORMAT_INCOMPAT ∧
      P1.hdr.ro_compat_features = sample_open.OBJ_FORMAT_RO_COMPAT ∧
      P1.root.off = 0 ∧ s1.mutexes (rootlock 1000) = {} ∧
      persists s1.trace = persists sample_boot.trace ++ [(1000, POOL_HDR_SIZE)]) ∧
    (∃ s1 f1, pmemobj_pool_open sample_open sample_boot sample_log_file =
        Except.ok (s1, none, f1) ∧
      s1.errno = EINVAL ∧ s1.pools 1000 = none ∧ f1.pop = sample_log_file.pop ∧
      f1.mutexes (rootlock 0) = sample_log_file.mutexes (rootlock 0)) :=
  ⟨(pool_open_initializes_without_valid_header sample_open sample_boot sample_file 1000 rfl
      (by decide) rfl rfl).1 rfl,
    (pool_open_initializes_without_valid_header sample_open sample_boot sample_log_file 1000 rfl
      (by decide) rfl rfl).2 rfl (by decide)⟩

/-! ## Binding a persistent lock to a pthread object -/

/-- The first `mutexof` on a cell of another run, when `Malloc` returns memory
and `pthread_mutex_init` returns 0. -/
theorem mutexof_binds (E : Env) (s : State) (m : Nat) (hM : E.Malloc_ok s.nmalloc = true)
    (hinit : E.pthread_ret s.trace.length = 0) (hne : (s.mutexes m).runid ≠ E.Runid) :
    mutexof E s m = ({ s with
      nmalloc := s.nmalloc + 1, npthread := s.npthread + 1, errno := 0,
      mutexes := Function.update s.mutexes m { runid := E.Runid, pthreadp := some s.npthread },
      trace := s.trace ++ [Event.pthread PthreadFn.mutex_init s.npthread] },
      some s.npthread) := by
  simp [mutexof, hne, Malloc, hM, pthread_call, hinit]

/-- A `mutexof` on a cell of this run returns the pointer the cell holds and
changes nothing. -/
theorem mutexof_bound (E : Env) (s : State) (m : Nat) (h : (s.mutexes m).runid = E.Runid) :
    mutexof E s m = (s, (s.mutexes m).pthreadp) := by
  simp [mutexof, h]

theorem rwlockof_binds (E : Env) (s : State) (m : Nat) (hM : E.Malloc_ok s.nmalloc = true)
    (hinit : E.pthread_ret s.trace.length = 0) (hne : (s.rwlocks m).runid ≠ E.Runid) :
    rwlockof E s m = ({ s with
      nmalloc := s.nmalloc + 1, npthread := s.npthread + 1, errno := 0,
      rwlocks := Function.update s.rwlocks m { runid := E.Runid, pthreadp := some s.npthread },
      trace := s.trace ++ [Event.pthread PthreadFn.rwlock_init s.npthread] },
      some s.npthread) := by
  simp [rwlockof, hne, Malloc, hM, pthread_call, hinit]

theorem rwlockof_bound (E : Env) (s : State) (m : Nat) (h : (s.rwlocks m).runid = E.Runid) :
    rwlockof E s m = (s, (s.rwlocks m).pthreadp) := by
  simp [rwlockof, h]

theorem condof_binds (E : Env) (s : State) (m : Nat) (hM : E.Malloc_ok s.nmalloc = true)
    (hinit : E.pthread_ret s.trace.length = 0) (hne : (s.conds m).runid ≠ E.Runid) :
    condof E s m = ({ s with
      nmalloc := s.nmalloc + 1, npthread := s.npthread + 1, errno := 0,
      conds := Function.update s.conds m { runid := E.Runid, pthreadp := some s.npthread },
      trace := s.trace ++ [Event.pthread PthreadFn.cond_init s.npthread] },
      some s.npthread) := by
  simp [condof, hne, Malloc, hM, pthread_call, hinit]

theorem condof_bound (E : Env) (s : State) (m : Nat) (h : (s.conds m).runid = E.Runid) :
    condof E s m = (s, (s.conds m).pthreadp) := by
  simp [condof, h]

/-- C29. For every `PMEMmutex` cell whose stored run id differs from `Runid`, when
`Malloc` returns memory and `pthread_mutex_init` returns 0, the first `mutexof`
call makes one `Malloc` call, initializes the new pthread mutex (a fresh
pointer), stores its pointer in the cell and sets the run id of the cell to
`Runid`, and returns the pointer; every later `mutexof` call of the same run, in
any state in which the cell still holds what the first call stored, returns that
same pointer and changes nothing: no `Malloc` call, no pthread call. The same
holds for `rwlockof` with `pthread_rwlock_init` and for `condof` with
`pthread_cond_init`. -/
theorem sync_cell_binds_once (E : Env) (s : State) (c : Nat)
    (hM : E.Malloc_ok s.nmalloc = true) (hinit : E.pthread_ret s.trace.length = 0) :
    ((s.mutexes c).runid ≠ E.Runid →
      (mutexof E s c).2 = some s.npthread ∧
      (mutexof E s c).1.mutexes c = { runid := E.Runid, pthreadp := some s.npthread } ∧
      (mutexof E s c).1.nmalloc = s.nmalloc + 1 ∧
      (mutexof E s c).1.npthread = s.npthread + 1 ∧
      (mutexof E s c).1.trace = s.trace ++ [Event.pthread PthreadFn.mutex_init s.npthread] ∧
      ∀ s1 : State, s1.mutexes c = (mutexof E s c).1.mutexes c →
        mutexof E s1 c = (s1, some s.npthread)) ∧
    ((s.rwlocks c).runid ≠ E.Runid →
      (rwlockof E s c).2 = some s.npthread ∧
      (rwlockof E s c).1.rwlocks c = { runid := E.Runid, pthreadp := some s.npthread } ∧
      (rwlockof E s c).1.nmalloc = s.nmalloc + 1 ∧
      (rwlockof E s c).1.npthread = s.npthread + 1 ∧
      (rwlockof E s c).1.trace = s.trace ++ [Event.pthread PthreadFn.rwlock_init s.npthread] ∧
      ∀ s1 : State, s1.rwlocks c = (rwlockof E s c).1.rwlocks c →
        rwlockof E s1 c = (s1, some s.npthread)) ∧
    ((s.conds c).runid ≠ E.Runid →
      (condof E s c).2 = some s.npthread ∧
      (condof E s c).1.conds c = { runid := E.Runid, pthreadp := some s.npthread } ∧
      (condof E s c).1.nmalloc = s.nmalloc + 1 ∧
      (condof E s c).1.npthread = s.npthread + 1 ∧
      (condof E s c).1.trace = s.trace ++ [Event.pthread PthreadFn.cond_init s.npthread] ∧
      ∀ s1 : State, s1.conds c = (condof E s c).1.conds c →
        condof E s1 c = (s1, some s.npthread)) := by
  refine ⟨?_, ?_, ?_⟩
  · intro hne
    rw [mutexof_binds E s c hM hinit hne]
    refine ⟨rfl, by simp, rfl, rfl, rfl, ?_⟩
    intro s1 h1
    have h2 : s1.mutexes c = { runid := E.Runid, pthreadp := some s.npthread } := by
      rw [h1]; simp
    rw [mutexof_bound E s1 c (by rw [h2]), h2]
  · intro hne
    rw [rwlockof_binds E s c hM hinit hne]
    refine ⟨rfl, by simp, rfl, rfl, rfl, ?_⟩
    intro s1 h1
    have h2 : s1.rwlocks c = { runid := E.Runid, pthreadp := some s.npthread } := by
      rw [h1]; simp
    rw [rwlockof_bound E s1 c (by rw [h2]), h2]
  · intro hne
    rw [condof_binds E s c hM hinit hne]
    refine ⟨rfl, by simp, rfl, rfl, rfl, ?_⟩
    intro s1 h1
    have h2 : s1.conds c = { runid := E.Runid, pthreadp := some s.npthread } := by
      rw [h1]; simp
    rw [condof_bound E s1 c (by rw [h2]), h2]

theorem sync_cell_binds_once_witness :
    ((mutexof sample_env sample_state 2000).2 = some 0 ∧
      (mutexof sample_env sample_state 2000).1.mutexes 2000 = { runid := 7, pthreadp := some 0 } ∧
      (mutexof sample_env sample_state 2000).1.nmalloc = 1 ∧
      (mutexof sample_env sample_state 2000).1.npthread = 1 ∧
      (mutexof sample_env sample_state 2000).1.trace = [Event.pthread PthreadFn.mutex_init 0] ∧
      ∀ s1 : State, s1.mutexes 2000 = (mutexof sample_env sample_state 2000).1.mutexes 2000 →
        mutexof sample_env s1 2000 = (s1, some 0)) ∧
    ((rwlockof sample_env sample_state 2000).2 = some 0 ∧
      (rwlockof sample_env sample_state 2000).1.rwlocks 2000 = { runid := 7, pthreadp := some 0 } ∧
      (rwlockof sample_env sample_state 2000).1.nmalloc = 1 ∧
      (rwlockof sample_env sample_state 2000).1.npthread = 1 ∧
      (rwlockof sample_env sample_state 2000).1.trace = [Event.pthread PthreadFn.rwlock_init 0] ∧
      ∀ s1 : State, s1.rwlocks 2000 = (rwlockof sample_env sample_state 2000).1.rwlocks 2000 →
        rwlockof sample_env s1 2000 = (s1, some 0)) ∧
    ((condof sample_env sample_state 2000).2 = some 0 ∧
      (condof sample_env sample_state 2000).1.conds 2000 = { runid := 7, pthreadp := some 0 } ∧
      (condof sample_env sample_state 2000).1.nmalloc = 1 ∧
      (condof sample_env sample_state 2000).1.npthread = 1 ∧
      (condof sample_env sample_state 2000).1.trace = [Event.pthread PthreadFn.cond_init 0] ∧
      ∀ s1 : State, s1.conds 2000 = (condof sample_env sample_state 2000).1.conds 2000 →
        condof sample_env s1 2000 = (s1, some 0)) :=
  have t := sync_cell_binds_once sample_env sample_state 2000 rfl rfl
  ⟨t.1 (by decide), t.2.1 (by decide), t.2.2 (by decide)⟩

/-- C30, at the failing input. The sample file is opened and mapped at 1000; the
persistent mutex at the offset 8192 of the pool is locked, which binds it to
the new pthread mutex 0, and unlocked; the pool is closed and, in the same run,
opened again, mapped at 5000. The cell, now at 13192, still holds the run id of
this run and the pointer to the pthread mutex 0: the first `pmemobj_mutex_lock`
after the reopen locks that pthread mutex, without a `Malloc` call and without
`pthread_mutex_init`. -/
theorem reopen_keeps_pthread_mutex :
    ∃ s1 f1 s2 s3 s4 f4 s5 f5 s6,
      pmemobj_pool_open sample_open sample_boot sample_file = Except.ok (s1, some 1000, f1) ∧
      pmemobj_mutex_lock sample_env s1 9192 = (s2, 0) ∧
      pmemobj_mutex_unlock sample_env s2 9192 = (s3, 0) ∧
      s3.mutexes 9192 = { runid := 7, pthreadp := some 0 } ∧
      s3.trace = s1.trace ++ [Event.pthread PthreadFn.mutex_init 0,
        Event.pthread PthreadFn.mutex_lock 0, Event.pthread PthreadFn.mutex_unlock 0] ∧
      pmemobj_pool_close s3 1000 = Except.ok (s4, f4) ∧
      pmemobj_pool_open sample_reopen s4 f4 = Except.ok (s5, some 5000, f5) ∧
      s5.mutexes 13192 = { runid := 7, pthreadp := some 0 } ∧
      pmemobj_mutex_lock sample_env s5 13192 = (s6, 0) ∧
      s6.nmalloc = s5.nmalloc ∧ s6.npthread = s5.npthread ∧
      s6.trace = s5.trace ++ [Event.pthread PthreadFn.mutex_lock 0] :=
  ⟨_, _, _, _, _, _, _, _, _, rfl, rfl, rfl, rfl, rfl, rfl, rfl, rfl, rfl, rfl, rfl, rfl⟩


/-! ## Calls on persistent cells when `Malloc` fails -/

theorem mutexof_nomem (E : Env) (s : State) (c : Nat) (hne : (s.mutexes c).runid ≠ E.Runid)
    (hM : E.Malloc_ok s.nmalloc = false) :
    mutexof E s c = ({ s with
      nmalloc := s.nmalloc + 1,
      mutexes := Function.update s.mutexes c { s.mutexes c with pthreadp := none } }, none) := by
  simp [mutexof, hne, Malloc, hM]

theorem rwlockof_nomem (E : Env) (s : State) (c : Nat) (hne : (s.rwlocks c).runid ≠ E.Runid)
    (hM : E.Malloc_ok s.nmalloc = false) :
    rwlockof E s c = ({ s with
      nmalloc := s.nmalloc + 1,
      rwlocks := Function.update s.rwlocks c { s.rwlocks c with pthreadp := none } }, none) := by
  simp [rwlockof, hne, Malloc, hM]

theorem condof_nomem (E : Env) (s : State) (c : Nat) (hne : (s.conds c).runid ≠ E.Runid)
    (hM : E.Malloc_ok s.nmalloc = false) :
    condof E s c = ({ s with
      nmalloc := s.nmalloc + 1,
      conds := Function.update s.conds c { s.conds c with pthreadp := none } }, none) := by
  simp [condof, hne, Malloc, hM]

theorem mutexof_nmalloc (E : Env) (s : State) (c : Nat) (hne : (s.mutexes c).runid ≠ E.Runid) :
    (mutexof E s c).1.nmalloc = s.nmalloc + 1 := by
  by_cases hM : E.Malloc_ok s.nmalloc = true
  · by_cases hi : E.pthread_ret s.trace.length = 0
    · simp [mutexof, hne, Malloc, hM, pthread_call, hi]
    · simp [mutexof, hne, Malloc, hM, pthread_call, hi]
  · simp [mutexof, hne, Malloc, hM]

theorem rwlockof_nmalloc (E : Env) (s : State) (c : Nat) (hne : (s.rwlocks c).runid ≠ E.Runid) :
    (rwlockof E s c).1.nmalloc = s.nmalloc + 1 := by
  by_cases hM : E.Malloc_ok s.nmalloc = true
  · by_cases hi : E.pthread_ret s.trace.length = 0
    · simp [rwlockof, hne, Malloc, hM, pthread_call, hi]
    · simp [rwlockof, hne, Malloc, hM, pthread_call, hi]
  · simp [rwlockof, hne, Malloc, hM]

theorem condof_nmalloc (E : Env) (s : State) (c : Nat) (hne : (s.conds c).runid ≠ E.Runid) :
    (condof E s c).1.nmalloc = s.nmalloc + 1 := by
  by_cases hM : E.Malloc_ok s.nmalloc = true
  · by_cases hi : E.pthread_ret s.trace.length = 0
    · simp [condof, hne, Malloc, hM, pthread_call, hi]
    · simp [condof, hne, Malloc, hM, pthread_call, hi]
  · simp [condof, hne, Malloc, hM]

/-- What follows the binding in a call on one cell leaves the count of `Malloc`
calls as it is. -/
theorem sync_tail_nmalloc (E : Env) (r : State × Option Nat) (fn : PthreadFn) :
    (match r.2 with
      | none => tx_error r.1 ENOMEM
      | some p => pthread_call E r.1 fn p).1.nmalloc = r.1.nmalloc := by
  cases r.2 <;> rfl

/-- A call on a cell of another run calls `Malloc` once, whatever `Malloc`
answers. -/
theorem run_sync_mallocs (E : Env) (s : State) (c : Nat) (call : SyncCall)
    (hne : (cell_of s call.kind c).runid ≠ E.Runid) :
    (run_sync E s c call).1.nmalloc = s.nmalloc + 1 := by
  cases call <;> simp only [cell_of, SyncCall.kind] at hne <;>
    first
    | exact (sync_tail_nmalloc E (mutexof E s c) _).trans (mutexof_nmalloc E s c hne)
    | exact (sync_tail_nmalloc E (rwlockof E s c) _).trans (rwlockof_nmalloc E s c hne)
    | exact (sync_tail_nmalloc E (condof E s c) _).trans (condof_nmalloc E s c hne)

/-- A call on a cell of another run for which `Malloc` returns `NULL`. -/
theorem run_sync_nomem (E : Env) (s : State) (c : Nat) (call : SyncCall)
    (hne : (cell_of s call.kind c).runid ≠ E.Runid) (hM : E.Malloc_ok s.nmalloc = false) :
    (run_sync E s c call).2 = -1 ∧ (run_sync E s c call).1.errno = ENOMEM ∧
      (run_sync E s c call).1.trace = s.trace ∧
      (cell_of (run_sync E s c call).1 call.kind c).runid = (cell_of s call.kind c).runid := by
  cases call <;> simp only [cell_of, SyncCall.kind] at hne <;>
    first
    | simp [run_sync, pmemobj_mutex_init, pmemobj_mutex_lock, pmemobj_mutex_trylock,
        pmemobj_mutex_unlock, mutexof_nomem E s c hne hM, tx_error, cell_of, SyncCall.kind]
    | simp [run_sync, pmemobj_rwlock_init, pmemobj_rwlock_rdlock, pmemobj_rwlock_wrlock,
        pmemobj_rwlock_timedrdlock, pmemobj_rwlock_timedwrlock, pmemobj_rwlock_tryrdlock,
        pmemobj_rwlock_trywrlock, pmemobj_rwlock_unlock, rwlockof_nomem E s c hne hM, tx_error,
        cell_of, SyncCall.kind]
    | simp [run_sync, pmemobj_cond_init, pmemobj_cond_broadcast, pmemobj_cond_signal,
        condof_nomem E s c hne hM, tx_error, cell_of, SyncCall.kind]

/-- What `mutexof` traces: nothing, or the `pthread_mutex_init` of the binding. -/
theorem mutexof_trace (E : Env) (s : State) (m : Nat) :
    (mutexof E s m).1.conds = s.conds ∧
      ((mutexof E s m).1.trace = s.trace ∨
        ∃ p, (mutexof E s m).1.trace = s.trace ++ [Event.pthread PthreadFn.mutex_init p]) := by
  by_cases h1 : (s.mutexes m).runid = E.Runid
  · simp [mutexof, h1]
  · by_cases hM : E.Malloc_ok s.nmalloc = true
    · by_cases hi : E.pthread_ret s.trace.length = 0
      · simp [mutexof, h1, Malloc, hM, pthread_call, hi]
      · simp [mutexof, h1, Malloc, hM, pthread_call, hi]
    · simp [mutexof, h1, Malloc, hM]

/-- What `condof` traces: nothing, or the `pthread_cond_init` of the binding. -/
theorem condof_trace (E : Env) (s : State) (c : Nat) :
    (condof E s c).1.mutexes = s.mutexes ∧
      ((condof E s c).1.trace = s.trace ∨
        ∃ p, (condof E s c).1.trace = s.trace ++ [Event.pthread PthreadFn.cond_init p]) := by
  by_cases h1 : (s.conds c).runid = E.Runid
  · simp [condof, h1]
  · by_cases hM : E.Malloc_ok s.nmalloc = true
    · by_cases hi : E.pthread_ret s.trace.length = 0
      · simp [condof, h1, Malloc, hM, pthread_call, hi]
      · simp [condof, h1, Malloc, hM, pthread_call, hi]
    · simp [condof, h1, Malloc, hM]

/-- The two functions that wait on a condition variable, when the condition
variable cannot be allocated. -/
theorem cond_wait_nomem_cond (E : Env) (s : State) (c m t : Nat)
    (hne : (s.conds c).runid ≠ E.Runid) (hM : E.Malloc_ok s.nmalloc = false) :
    ∀ r, r = pmemobj_cond_wait E s c m ∨ r = pmemobj_cond_timedwait E s c m t →
      r.2 = -1 ∧ r.1.errno = ENOMEM ∧ (r.1.conds c).runid = (s.conds c).runid ∧
      (r.1.trace = s.trace ∨
        ∃ p, r.1.trace = s.trace ++ [Event.pthread PthreadFn.mutex_init p]) := by
  have hc := condof_nomem E s c hne hM
  have hm := mutexof_trace E (condof E s c).1 m
  rw [hc] at hm
  intro r hr
  have hr2 : r = tx_error (mutexof E (condof E s c).1 m).1 ENOMEM := by
    rcases hr with rfl | rfl
    · simp only [pmemobj_cond_wait, hc]
    · simp only [pmemobj_cond_timedwait, hc]
  rw [hc] at hr2
  subst hr2
  refine ⟨rfl, rfl, ?_, hm.2⟩
  show ((mutexof E _ m).1.conds c).runid = _
  rw [hm.1]
  simp

/-- The two functions that wait on a condition variable, when the mutex cannot
be allocated. -/
theorem cond_wait_nomem_mutex (E : Env) (s : State) (c m t : Nat)
    (hne : (s.mutexes m).runid ≠ E.Runid)
    (hM : E.Malloc_ok (condof E s c).1.nmalloc = false) :
    ∀ r, r = pmemobj_cond_wait E s c m ∨ r = pmemobj_cond_timedwait E s c m t →
      r.2 = -1 ∧ r.1.errno = ENOMEM ∧ (r.1.mutexes m).runid = (s.mutexes m).runid ∧
      (r.1.trace = s.trace ∨
        ∃ p, r.1.trace = s.trace ++ [Event.pthread PthreadFn.cond_init p]) := by
  have hc := condof_trace E s c
  have hne1 : ((condof E s c).1.mutexes m).runid ≠ E.Runid := by rw [hc.1]; exact hne
  have hm := mutexof_nomem E (condof E s c).1 m hne1 hM
  intro r hr
  have hr2 : r = tx_error (mutexof E (condof E s c).1 m).1 ENOMEM := by
    rcases hr with rfl | rfl
    · simp only [pmemobj_cond_wait, hm]
      cases (condof E s c).2 <;> rfl
    · simp only [pmemobj_cond_timedwait, hm]
      cases (condof E s c).2 <;> rfl
  rw [hm] at hr2
  subst hr2
  refine ⟨rfl, rfl, ?_, hc.2⟩
  simp [tx_error, hc.1]

/-- C31. For every function of `obj.c` that works on a persistent cell
(`pmemobj_mutex_init`, `_lock`, `_trylock`, `_unlock`, the eight rwlock
functions, `pmemobj_cond_init`, `_broadcast`, `_signal`) and every cell whose run
id differs from `Runid`: when `Malloc` returns `NULL`, the call returns -1 with
`errno` set to `ENOMEM`, has made no pthread call, and has left the run id of the
cell as it was, so that every later call on the cell calls `Malloc` again. The
same holds for `pmemobj_cond_wait` and `pmemobj_cond_timedwait`, which work on a
condition variable and a mutex, when either of the two cannot be allocated: the
only pthread call they may have made is the initialization that binds the other
cell. -/
theorem sync_calls_fail_with_enomem (E : Env) (s : State) (c m t : Nat) (call : SyncCall) :
    ((cell_of s call.kind c).runid ≠ E.Runid → E.Malloc_ok s.nmalloc = false →
      (run_sync E s c call).2 = -1 ∧ (run_sync E s c call).1.errno = ENOMEM ∧
      (run_sync E s c call).1.trace = s.trace ∧
      (cell_of (run_sync E s c call).1 call.kind c).runid = (cell_of s call.kind c).runid ∧
      ∀ later : SyncCall, later.kind = call.kind →
        (run_sync E (run_sync E s c call).1 c later).1.nmalloc =
          (run_sync E s c call).1.nmalloc + 1) ∧
    ((s.conds c).runid ≠ E.Runid → E.Malloc_ok s.nmalloc = false →
      ∀ r, r = pmemobj_cond_wait E s c m ∨ r = pmemobj_cond_timedwait E s c m t →
        r.2 = -1 ∧ r.1.errno = ENOMEM ∧ (r.1.conds c).runid = (s.conds c).runid ∧
        (r.1.trace = s.trace ∨
          ∃ p, r.1.trace = s.trace ++ [Event.pthread PthreadFn.mutex_init p]) ∧
        (condof E r.1 c).1.nmalloc = r.1.nmalloc + 1) ∧
    ((s.mutexes m).runid ≠ E.Runid → E.Malloc_ok (condof E s c).1.nmalloc = false →
      ∀ r, r = pmemobj_cond_wait E s c m ∨ r = pmemobj_cond_timedwait E s c m t →
        r.2 = -1 ∧ r.1.errno = ENOMEM ∧ (r.1.mutexes m).runid = (s.mutexes m).runid ∧
        (r.1.trace = s.trace ∨
          ∃ p, r.1.trace = s.trace ++ [Event.pthread PthreadFn.cond_init p]) ∧
        (mutexof E r.1 m).1.nmalloc = r.1.nmalloc + 1) := by
  refine ⟨?_, ?_, ?_⟩
  · intro hne hM
    obtain ⟨h1, h2, h3, h4⟩ := run_sync_nomem E s c call hne hM
    refine ⟨h1, h2, h3, h4, ?_⟩
    intro later hk
    apply run_sync_mallocs
    rw [hk, h4]
    exact hne
  · intro hne hM r hr
    obtain ⟨h1, h2, h3, h4⟩ := cond_wait_nomem_cond E s c m t hne hM r hr
    exact ⟨h1, h2, h3, h4, condof_nmalloc E r.1 c (by rw [h3]; exact hne)⟩
  · intro hne hM r hr
    obtain ⟨h1, h2, h3, h4⟩ := cond_wait_nomem_mutex E s c m t hne hM r hr
    exact ⟨h1, h2, h3, h4, mutexof_nmalloc E r.1 m (by rw [h3]; exact hne)⟩

theorem sync_calls_fail_with_enomem_witness :
    ((run_sync sample_nomem_env sample_state 2000 SyncCall.rwlock_tryrdlock).2 = -1 ∧
      (run_sync sample_nomem_env sample_state 2000 SyncCall.rwlock_tryrdlock).1.errno = ENOMEM ∧
      (run_sync sample_nomem_env sample_state 2000 SyncCall.rwlock_tryrdlock).1.trace =
        sample_state.trace ∧
      (cell_of (run_sync sample_nomem_env sample_state 2000 SyncCall.rwlock_tryrdlock).1
        CellKind.rwlock 2000).runid = (cell_of sample_state CellKind.rwlock 2000).runid ∧
      ∀ later : SyncCall, later.kind = CellKind.rwlock →
        (run_sync sample_nomem_env
          (run_sync sample_nomem_env sample_state 2000 SyncCall.rwlock_tryrdlock).1 2000
          later).1.nmalloc =
          (run_sync sample_nomem_env sample_state 2000 SyncCall.rwlock_tryrdlock).1.nmalloc + 1) ∧
    (∀ r, r = pmemobj_cond_wait sample_nomem_env sample_state 2000 2100 ∨
        r = pmemobj_cond_timedwait sample_nomem_env sample_state 2000 2100 5 →
      r.2 = -1 ∧ r.1.errno = ENOMEM ∧
      (r.1.conds 2000).runid = (sample_state.conds 2000).runid ∧
      (r.1.trace = sample_state.trace ∨
        ∃ p, r.1.trace = sample_state.trace ++ [Event.pthread PthreadFn.mutex_init p]) ∧
      (condof sample_nomem_env r.1 2000).1.nmalloc = r.1.nmalloc + 1) ∧
    (∀ r, r = pmemobj_cond_wait sample_nomem_env sample_state 2000 2100 ∨
        r = pmemobj_cond_timedwait sample_nomem_env sample_state 2000 2100 5 →
      r.2 = -1 ∧ r.1.errno = ENOMEM ∧
      (r.1.mutexes 2100).runid = (sample_state.mutexes 2100).runid ∧
      (r.1.trace = sample_state.trace ∨
        ∃ p, r.1.trace = sample_state.trace ++ [Event.pthread PthreadFn.cond_init p]) ∧
      (mutexof sample_nomem_env r.1 2100).1.nmalloc = r.1.nmalloc + 1) :=
  have t := sync_calls_fail_with_enomem sample_nomem_env sample_state 2000 2100 5
    SyncCall.rwlock_tryrdlock
  ⟨t.1 (by decide) rfl, t.2.1 (by decide) rfl, t.2.2 (by decide) rfl⟩

/-! ## The log of a frame in both directions -/

/-- The state after the branch of `pmemobj_tx_action_tid` for a nested frame:
`xl` is the oldest entry of the frame, `y` the newest entry of its parent. -/
theorem action_nested_eq (s : State) (T Pp : Nat) (tT tP : tx) (lT restP : List (Nat × LogEntry))
    (xl y : Nat × LogEntry) (hc pc : txop) (actions : op_t → Action)
    (hLT : LogOf s T tT lT) (hLP : LogOf s Pp tP (y :: restP)) (hnext : tT.next = some Pp)
    (hxl : lT.getLast? = some xl) (hhc : s.txops[xl.1]? = some hc)
    (hpc : s.txops[y.1]? = some pc) (hne : xl.1 ≠ y.1)
    (hcur : s.Curthread_txinfop = some T) :
    pmemobj_tx_action_tid s T actions = Except.ok ({ s with
      txops := (s.txops.set xl.1 { hc with prev := tP.tail }).set y.1 { pc with next := tT.head },
      txs := (s.txs.set Pp (some { tP with tail := tT.tail })).set T none,
      Curthread_txinfop := some Pp }, 0) := by
  obtain ⟨hTtx, _, hThead, _⟩ := hLT
  obtain ⟨hPtx, hPpath, _, _⟩ := hLP
  have hhead : tT.head = some xl.1 := by rw [hThead, hxl]; rfl
  obtain ⟨hPtl, _⟩ := hPpath
  simp [pmemobj_tx_action_tid, tx_get, hTtx, hnext, hPtx, hhead, nonnull, txop_get, hhc,
    txop_put, hPtl, hne, hpc, tx_put, hcur, bind, Except.bind, pure, Except.pure]

/-- A `next` path is kept when every cell of it keeps its `next`. -/
theorem NextPath.next_congr {h h1 : List txop} :
    ∀ (l : List Nat) (p : Option Nat),
      (∀ x ∈ l, ∀ c, h[x]? = some c → ∃ c1, h1[x]? = some c1 ∧ c1.next = c.next) →
      NextPath h p l → NextPath h1 p l := by
  intro l
  induction l with
  | nil => intro p _ hp; exact hp
  | cons x rest ih =>
    intro p hk hp
    obtain ⟨hp1, c, hc, hrest⟩ := hp
    obtain ⟨c1, hc1, e1⟩ := hk x (List.mem_cons_self _ _) c hc
    refine ⟨hp1, c1, hc1, ?_⟩
    rw [e1]
    exact ih _ (fun z hz => hk z (List.mem_cons_of_mem _ hz)) hrest

/-- Linking the last cell of one `next` path to the first cell of another. -/
theorem NextPath.next_splice {h h1 : List txop} (y : Nat) (q : Option Nat) (b : List Nat) :
    ∀ (a : List Nat) (p : Option Nat), NextPath h p (a ++ [y]) →
      (∀ x ∈ a, ∀ c, h[x]? = some c → ∃ c1, h1[x]? = some c1 ∧ c1.next = c.next) →
      (∃ c1, h1[y]? = some c1 ∧ c1.next = q) → NextPath h1 q b →
      NextPath h1 p (a ++ y :: b) := by
  intro a
  induction a with
  | nil =>
    intro p hp _ hy hb
    obtain ⟨hp1, _, _, _⟩ := hp
    obtain ⟨c1, hc1, e1⟩ := hy
    refine ⟨hp1, c1, hc1, ?_⟩
    rw [e1]
    exact hb
  | cons x rest ih =>
    intro p hp hk hy hb
    obtain ⟨hp1, c, hc, hrest⟩ := hp
    obtain ⟨c1, hc1, e1⟩ := hk x (List.mem_cons_self _ _) c hc
    refine ⟨hp1, c1, hc1, ?_⟩
    rw [e1]
    exact ih _ hrest (fun z hz => hk z (List.mem_cons_of_mem _ hz)) hy hb

theorem NextPath.next_cell_of_mem {h : List txop} :
    ∀ (l : List Nat) (p : Option Nat), NextPath h p l → ∀ x ∈ l, ∃ c, h[x]? = some c := by
  intro l
  induction l with
  | nil => intro p _ x hx; cases hx
  | cons y rest ih =>
    intro p hp x hx
    obtain ⟨_, c, hc, hrest⟩ := hp
    rcases List.mem_cons.1 hx with rfl | hx
    · exact ⟨c, hc⟩
    · exact ih _ hrest x hx

/-- The end of a nested frame, by commit or by abort: its locks are released and
its log is linked behind the log of its parent, in both directions; no action
is run. The other frames and the cells of the other logs are as they were. -/
theorem end_nested (E : Env) (s : State) (T Pp : Nat) (tT tP : tx)
    (lT lP : List (Nat × LogEntry)) (actions : op_t → Action)
    (hLT : LogOf s T tT lT) (hLP : LogOf s Pp tP lP) (hnext : tT.next = some Pp)
    (hTne : lT ≠ []) (hPne : lP ≠ []) (hdisj : ∀ x ∈ lT, ∀ y ∈ lP, x.1 ≠ y.1)
    (hTP : T ≠ Pp) (hcur : s.Curthread_txinfop = some T) :
    ∃ s0 s1 tP1 evsU, pmemobj_unlock_locks_tid E s T = Except.ok s0 ∧
      pmemobj_tx_action_tid s0 T actions = Except.ok (s1, 0) ∧
      LogOf s1 Pp tP1 (lT ++ lP) ∧ SameFrame tP tP1 ∧ s1.Curthread_txinfop = some Pp ∧
      s1.mem = s.mem ∧ s1.trace = s.trace ++ evsU ∧ IsSync evsU ∧ s1.pools = s.pools ∧
      s1.npmalloc = s.npmalloc ∧ s1.txs.length = s.txs.length ∧
      (∀ j, j ≠ T → j ≠ Pp → s1.txs[j]? = s.txs[j]?) ∧
      (∀ q, (∀ x ∈ lT, x.1 ≠ q) → (∀ y ∈ lP, y.1 ≠ q) → s1.txops[q]? = s.txops[q]?) ∧
      (NextPath s.txops tT.head (lT.map Prod.fst).reverse →
        NextPath s.txops tP.head (lP.map Prod.fst).reverse →
        NextPath s1.txops tP1.head ((lT ++ lP).map Prod.fst).reverse) := by
  obtain ⟨s0, t0, h0, hL0, _, _, hn0, _, hstep⟩ := unlock_spec E s T tT lT hLT
  obtain ⟨evsU, htr, hsy⟩ := hstep.trace
  have hLP0 : LogOf s0 Pp tP lP :=
    ⟨(hstep.others Pp (Ne.symm hTP)).trans hLP.1, by rw [hstep.txops]; exact hLP.2.1,
      hLP.2.2.1, hLP.2.2.2⟩
  obtain ⟨s1, tP1, h1, hL1, hF, hc1, hm1, ht1, hp1, hnp1, _, hlen1⟩ :=
    action_nested s0 T Pp t0 tP lT lP actions hL0 hLP0 (hn0.trans hnext) hTne hPne hdisj
      hTP (hstep.cur.trans hcur)
  -- the oldest cell of T and the newest cell of P
  obtain ⟨xl, hxl⟩ : ∃ xl, lT.getLast? = some xl := by
    cases hgl : lT.getLast? with
    | none => exact absurd (List.getLast?_eq_none_iff.1 hgl) hTne
    | some y => exact ⟨y, rfl⟩
  have hxlmem : xl ∈ lT := List.mem_of_getLast?_eq_some hxl
  obtain ⟨hc, hhc⟩ := PrevPath.cell_of_mem lT _ hL0.2.1 xl hxlmem
  obtain ⟨y, restP, rfl⟩ := List.exists_cons_of_ne_nil hPne
  have hymem : y ∈ y :: restP := List.mem_cons_self _ _
  obtain ⟨pc, hpc⟩ := PrevPath.cell_of_mem (y :: restP) _ hLP0.2.1 y hymem
  have hne : xl.1 ≠ y.1 := hdisj xl hxlmem y hymem
  have h2 := action_nested_eq s0 T Pp t0 tP lT restP xl y hc pc actions hL0 hLP0
    (hn0.trans hnext) hxl hhc hpc hne (hstep.cur.trans hcur)
  have hs1 : s1 = { s0 with
      txops := (s0.txops.set xl.1 { hc with prev := tP.tail }).set y.1 { pc with next := t0.head },
      txs := (s0.txs.set Pp (some { tP with tail := t0.tail })).set T none,
      Curthread_txinfop := some Pp } := by
    rw [h1] at h2
    injection h2 with h3
    injection h3
  have hxllt : xl.1 < s0.txops.length := (List.getElem?_eq_some_iff.1 hhc).1
  have hylt : y.1 < s0.txops.length := (List.getElem?_eq_some_iff.1 hpc).1
  have hhead0 : t0.head = some xl.1 := by rw [hL0.2.2.1, hxl]; rfl
  have hheadT : tT.head = some xl.1 := by rw [hLT.2.2.1, hxl]; rfl
  refine ⟨s0, s1, tP1, evsU, h0, h1, hL1, hF, hc1, hm1.trans hstep.mem, ht1.trans htr, hsy,
    hp1.trans hstep.pools, hnp1.trans hstep.npmalloc, hlen1.trans hstep.txs_len, ?_, ?_, ?_⟩
  · intro j hjT hjP
    rw [hs1]
    simp only [List.getElem?_set_ne (Ne.symm hjT), List.getElem?_set_ne (Ne.symm hjP)]
    exact hstep.others j hjT
  · intro q hqT hqP
    rw [hs1]
    simp only [List.getElem?_set_ne (hqP y hymem), List.getElem?_set_ne (hqT xl hxlmem)]
    rw [hstep.txops]
  · intro hNT hNP
    have hheadP : tP1.head = tP.head := by
      rw [hL1.2.2.1, hLP.2.2.1, List.getLast?_append_of_ne_nil _ (List.cons_ne_nil _ _)]
    rw [hheadP, List.map_append, List.reverse_append, List.map_cons, List.reverse_cons,
      List.append_assoc, List.singleton_append]
    rw [List.map_cons, List.reverse_cons] at hNP
    have hndP : (y.1 :: restP.map Prod.fst).Nodup := hLP.2.2.2
    rw [hs1]
    apply NextPath.next_splice y.1 (some xl.1) _ _ _ hNP
    · intro x hx c hcx
      have hxr : x ∈ restP.map Prod.fst := List.mem_reverse.1 hx
      have hxy : x ≠ y.1 := fun e => (List.nodup_cons.1 hndP).1 (e ▸ hxr)
      obtain ⟨z, hz, rfl⟩ := List.mem_map.1 hxr
      have hzx : xl.1 ≠ z.1 := hdisj xl hxlmem z (List.mem_cons_of_mem _ hz)
      refine ⟨c, ?_, rfl⟩
      simp only [List.getElem?_set_ne (Ne.symm hxy), List.getElem?_set_ne hzx]
      rw [hstep.txops]
      exact hcx
    · refine ⟨{ pc with next := t0.head }, ?_, hhead0⟩
      simp [hylt]
    · rw [← hheadT]
      apply NextPath.next_congr _ _ _ hNT
      intro x hx c hcx
      have hxr : x ∈ lT.map Prod.fst := List.mem_reverse.1 hx
      obtain ⟨z, hz, rfl⟩ := List.mem_map.1 hxr
      have hzy : z.1 ≠ y.1 := hdisj z hz y hymem
      rw [← hstep.txops] at hcx
      by_cases hzx : z.1 = xl.1
      · rw [hzx] at hcx
        rw [hhc] at hcx
        cases hcx
        refine ⟨{ hc with prev := tP.tail }, ?_, rfl⟩
        rw [hzx]
        simp [Ne.symm hne, hxllt]
      · refine ⟨c, ?_, rfl⟩
        simp only [List.getElem?_set_ne (Ne.symm hzy), List.getElem?_set_ne (Ne.symm hzx)]
        exact hcx

/-! ## The abort of a stack of nested transactions -/

/-- A stack of frames is untouched by a step that keeps its frames and the cells
of its logs. -/
theorem FrameStack.stack_preserved {s s1 : State} : ∀ (frames : List Frame) (p : Option Nat),
    FrameStack s p frames → (∀ f ∈ frames, s1.txs[f.1]? = s.txs[f.1]?) →
    (∀ q ∈ stack_cells frames, s1.txops[q]? = s.txops[q]?) → FrameStack s1 p frames := by
  intro frames
  induction frames with
  | nil => intro p hp _ _; exact hp
  | cons f rest ih =>
    intro p hp htx hcell
    obtain ⟨hp1, hL, hne, hrest⟩ := hp
    refine ⟨hp1, ⟨(htx f (List.mem_cons_self _ _)).trans hL.1, ?_, hL.2.2.1, hL.2.2.2⟩, hne,
      ih _ hrest (fun g hg => htx g (List.mem_cons_of_mem _ hg)) ?_⟩
    · apply PrevPath.congr _ _ _ hL.2.1
      intro x hx
      apply hcell
      simp only [stack_cells, List.mem_append]
      exact Or.inl (List.mem_map_of_mem _ hx)
    · intro q hq
      apply hcell
      simp only [stack_cells, List.mem_append]
      exact Or.inr hq

/-- The frames of a stack are cells of the frame table. -/
theorem FrameStack.tid_lt {s : State} : ∀ (frames : List Frame) (p : Option Nat),
    FrameStack s p frames → ∀ f ∈ frames, f.1 < s.txs.length := by
  intro frames
  induction frames with
  | nil => intro p _ f hf; cases hf
  | cons g rest ih =>
    intro p hp f hf
    obtain ⟨_, hL, _, hrest⟩ := hp
    rcases List.mem_cons.1 hf with rfl | hf
    · exact (List.getElem?_eq_some_iff.1 hL.1).1
    · exact ih _ hrest f hf

/-- The loop of `pmemobj_tx_abort` on a stack of frames: one call of
`pmemobj_tx_abort_tid` for each frame. -/
theorem abort_stack (E : Env) (errnum : Int) (P : pmemobjpool) (pool : Nat) :
    ∀ (n : Nat) (frames : List Frame) (s : State), frames.length = n →
    FrameStack s s.Curthread_txinfop frames →
    (frames.map Prod.fst).Nodup → (stack_cells frames).Nodup →
    frames.getLast?.map (fun f => f.2.1.pool) = some pool → s.pools pool = some P →
    ∃ s1 evsU,
      (∀ fuel status, frames.length ≤ fuel →
        tx_abort_loop E errnum fuel s status = Except.ok (s1, 0)) ∧
      (∀ fuel status, fuel < frames.length →
        tx_abort_loop E errnum fuel s status = Except.error Fault.diverge) ∧
      IsSync evsU ∧
      s1.mem = (stack_entries frames).foldl (abort_mem P.addr) s.mem ∧
      s1.trace = s.trace ++ (evsU ++ abort_trace pool (stack_entries frames)) ∧
      s1.Curthread_txinfop = none := by
  intro n
  induction n with
  | zero =>
    intro frames s hlen _ _ _ hpool _
    cases frames with
    | nil => simp at hpool
    | cons f rest => simp at hlen
  | succ n ih =>
    intro frames s hlen hst htid hcells hpool hP
    cases frames with
    | nil => simp at hlen
    | cons f rest =>
      obtain ⟨T, tT, lT⟩ := f
      obtain ⟨hcur, hLT, hTne, hrest⟩ := hst
      cases rest with
      | nil =>
        have hnext : tT.next = none := hrest
        have hpl : tT.pool = pool := by simpa using hpool
        obtain ⟨s0, t0, h0, hL0, _, _, hn0, hp0, hstep⟩ := unlock_spec E s T tT lT hLT
        obtain ⟨evsU, htr, hsy⟩ := hstep.trace
        have hP0 : s0.pools t0.pool = some P := by rw [hstep.pools, hp0, hpl]; exact hP
        have h2 := abort_action_top s0 T t0 lT P hL0 (hn0.trans hnext) hP0
        refine ⟨{ (lT.map Prod.snd).foldl (abort_step P.addr t0.pool) s0 with
          txs := s0.txs.set T none, Curthread_txinfop := none }, evsU, ?_, ?_, hsy, ?_, ?_, rfl⟩
        · intro fuel status hf
          cases fuel with
          | zero => simp at hf
          | succ fuel =>
            simp only [tx_abort_loop, hcur, pmemobj_tx_abort_tid, h0, h2, bind, Except.bind]
            cases fuel <;> simp [tx_abort_loop, pure, Except.pure]
        · intro fuel status hf
          have hf0 : fuel = 0 := by simpa using hf
          subst hf0
          simp [tx_abort_loop, hcur, throw, throwThe, MonadExceptOf.throw]
        · show (List.foldl (abort_step P.addr t0.pool) s0 (List.map Prod.snd lT)).mem = _
          rw [abort_fold_mem, hstep.mem]
          simp [stack_entries]
        · show (List.foldl (abort_step P.addr t0.pool) s0 (List.map Prod.snd lT)).trace = _
          rw [abort_fold_trace, htr, hp0, hpl, List.append_assoc]
          simp [stack_entries]
      | cons g rest =>
        obtain ⟨Pp, tP, lP⟩ := g
        obtain ⟨hnext, hLP, hPne, hrest2⟩ := hrest
        have hnext : tT.next = some Pp := hnext
        have htid2 : T ≠ Pp ∧ (∀ h ∈ rest, T ≠ h.1) ∧ (∀ h ∈ rest, Pp ≠ h.1) ∧
            (rest.map Prod.fst).Nodup := by
          simp only [List.map_cons, List.nodup_cons, List.mem_cons, List.mem_map, not_or,
            not_exists, not_and] at htid
          refine ⟨htid.1.1, fun h hh e => htid.1.2 h hh e.symm,
            fun h hh e => htid.2.1 h hh e.symm, htid.2.2⟩
        have hcells2 : (lT.map Prod.fst ++ (lP.map Prod.fst ++ stack_cells rest)).Nodup := hcells
        have hdisj : ∀ x ∈ lT, ∀ y ∈ lP, x.1 ≠ y.1 := by
          intro x hx y hy e
          have h1 := (List.nodup_append.1 hcells2).2.2
          exact h1 (List.mem_map_of_mem _ hx)
            (List.mem_append_left _ (e ▸ List.mem_map_of_mem _ hy))
        obtain ⟨s0, s1, tP1, evsU, h0, h1, hL1, hF, hc1, hm1, ht1, hsy, hp1, _, _, htxs, hops,
          _⟩ := end_nested E s T Pp tT tP lT lP onabort_funcs hLT hLP hnext hTne hPne hdisj
            htid2.1 hcur
        have hst1 : FrameStack s1 s1.Curthread_txinfop ((Pp, tP1, lT ++ lP) :: rest) := by
          refine ⟨hc1, hL1, by simp [hTne], ?_⟩
          show FrameStack s1 tP1.next rest
          rw [hF.next]
          apply FrameStack.stack_preserved rest _ hrest2
          · intro h hh
            exact htxs h.1 (Ne.symm (htid2.2.1 h hh)) (Ne.symm (htid2.2.2.1 h hh))
          · intro q hq
            apply hops
            · intro x hx e
              have h1 := (List.nodup_append.1 hcells2).2.2
              exact h1 (List.mem_map_of_mem _ hx)
                (List.mem_append_right _ (e ▸ hq))
            · intro y hy e
              have h1 := (List.nodup_append.1 (List.nodup_append.1 hcells2).2.1).2.2
              exact h1 (List.mem_map_of_mem _ hy) (e ▸ hq)
        have hcellsE : stack_cells ((Pp, tP1, lT ++ lP) :: rest) =
            stack_cells ((T, tT, lT) :: (Pp, tP, lP) :: rest) := by
          simp [stack_cells]
        have hentE : stack_entries ((Pp, tP1, lT ++ lP) :: rest) =
            stack_entries ((T, tT, lT) :: (Pp, tP, lP) :: rest) := by
          simp [stack_entries]
        have hpool1 : ((Pp, tP1, lT ++ lP) :: rest).getLast?.map (fun f => f.2.1.pool) =
            some pool := by
          cases rest with
          | nil =>
            simp only [List.getLast?_singleton, Option.map_some'] at hpool ⊢
            rw [List.getLast?_cons_cons] at hpool
            simp only [List.getLast?_singleton, Option.map_some'] at hpool
            rw [hF.pool]
            exact hpool
          | cons h rest =>
            rw [List.getLast?_cons_cons] at hpool ⊢
            rw [List.getLast?_cons_cons] at hpool
            exact hpool
        obtain ⟨s2, evs2, hA, hB, hsy2, hmem2, htr2, hcur2⟩ :=
          ih ((Pp, tP1, lT ++ lP) :: rest) s1 (by simpa using hlen) hst1
            (by
              simp only [List.map_cons, List.nodup_cons, List.mem_map, not_exists, not_and]
              exact ⟨fun h hh e => htid2.2.2.1 h hh e.symm, htid2.2.2.2⟩)
            (by rw [hcellsE]; exact hcells) hpool1 (by rw [hp1]; exact hP)
        have hab : pmemobj_tx_abort_tid E s T errnum = Except.ok (s1, 0) := by
          simp [pmemobj_tx_abort_tid, h0, h1, bind, Except.bind]
        refine ⟨s2, evsU ++ evs2, ?_, ?_, IsSync_append hsy hsy2, ?_, ?_, hcur2⟩
        · intro fuel status hf
          cases fuel with
          | zero => simp at hf
          | succ fuel =>
            simp only [tx_abort_loop, hcur, hab, bind, Except.bind]
            exact hA fuel 0 (by simpa using hf)
        · intro fuel status hf
          cases fuel with
          | zero => simp [tx_abort_loop, hcur, throw, throwThe, MonadExceptOf.throw]
          | succ fuel =>
            simp only [tx_abort_loop, hcur, hab, bind, Except.bind]
            exact hB fuel 0 (by simpa using hf)
        · rw [hmem2, hentE, hm1]
        · rw [htr2, hentE, ht1]
          simp [List.append_assoc]

/-- C32. For every stack of k ≥ 1 open frames whose logs are not empty,
`pmemobj_tx_abort` returns 0 after exactly k calls of `pmemobj_tx_abort_tid`
(its loop ends with k iterations allowed and does not end with fewer), runs the
on-abort action once for each entry, in the order: the entries of the innermost
frame from the last to the first, then those of its parent from the last to the
first, and so on to the outermost frame; beside these only lock calls are made,
and no transaction is current afterwards. -/
theorem abort_unwinds_all_frames (E : Env) (s : State) (frames : List Frame)
    (P : pmemobjpool) (pool : Nat) (errnum : Int)
    (hst : FrameStack s s.Curthread_txinfop frames)
    (htid : (frames.map Prod.fst).Nodup) (hcells : (stack_cells frames).Nodup)
    (hpool : frames.getLast?.map (fun f => f.2.1.pool) = some pool)
    (hP : s.pools pool = some P) :
    ∃ s1 evsU, pmemobj_tx_abort E s errnum = Except.ok (s1, 0) ∧
      (∀ fuel status, frames.length ≤ fuel →
        tx_abort_loop E errnum fuel s status = Except.ok (s1, 0)) ∧
      (∀ fuel status, fuel < frames.length →
        tx_abort_loop E errnum fuel s status = Except.error Fault.diverge) ∧
      IsSync evsU ∧
      s1.mem = (stack_entries frames).foldl (abort_mem P.addr) s.mem ∧
      s1.trace = s.trace ++ (evsU ++ abort_trace pool (stack_entries frames)) ∧
      s1.Curthread_txinfop = none := by
  obtain ⟨s1, evsU, hA, hB, hsy, hmem, htr, hcur⟩ :=
    abort_stack E errnum P pool frames.length frames s rfl hst htid hcells hpool hP
  refine ⟨s1, evsU, ?_, hA, hB, hsy, hmem, htr, hcur⟩
  unfold pmemobj_tx_abort
  apply hA
  have := nodup_length_le (frames.map Prod.fst) s.txs.length htid (by
    intro p hp
    obtain ⟨f, hf, rfl⟩ := List.mem_map.1 hp
    exact FrameStack.tid_lt frames _ hst f hf)
  simp only [List.length_map] at this
  omega

theorem abort_unwinds_all_frames_witness :
    ∃ s1 evsU, pmemobj_tx_abort sample_env sample_nested3 5 = Except.ok (s1, 0) ∧
      (∀ fuel status, sample_frames3.length ≤ fuel →
        tx_abort_loop sample_env 5 fuel sample_nested3 status = Except.ok (s1, 0)) ∧
      (∀ fuel status, fuel < sample_frames3.length →
        tx_abort_loop sample_env 5 fuel sample_nested3 status =
          Except.error Fault.diverge) ∧
      IsSync evsU ∧
      s1.mem = (stack_entries sample_frames3).foldl (abort_mem sample_pool.addr)
        sample_nested3.mem ∧
      s1.trace = sample_nested3.trace ++
        (evsU ++ abort_trace 1000 (stack_entries sample_frames3)) ∧
      s1.Curthread_txinfop = none :=
  abort_unwinds_all_frames sample_env sample_nested3 sample_frames3 sample_pool 1000 5
    ⟨rfl, ⟨rfl, ⟨rfl, _, rfl, rfl, rfl, rfl⟩, rfl, by decide⟩, List.cons_ne_nil _ _,
      rfl, ⟨rfl, ⟨rfl, _, rfl, rfl, rfl, ⟨rfl, _, rfl, rfl, rfl, rfl⟩⟩, rfl, by decide⟩,
      List.cons_ne_nil _ _,
      rfl, ⟨rfl, ⟨rfl, _, rfl, rfl, rfl, ⟨rfl, _, rfl, rfl, rfl, rfl⟩⟩, rfl, by decide⟩,
      List.cons_ne_nil _ _, rfl⟩
    (by decide) (by decide) rfl rfl

/-! ## The commit of a nested transaction with entries on both logs -/

/-- C33. For every parent frame P with a non-empty log and nested innermost frame
T with a non-empty log, `pmemobj_tx_commit_tid(T)` returns 0 and leaves P as the
current transaction of the thread; the log of P is then its former entries
followed by the entries of T, linked consistently in both directions (`prev`
from `tail` visits `lT ++ lP`, the newest first, and `next` from `head` visits
the same cells in the opposite order); only lock calls are made: `pfree` is
called on nothing, and the memory is as it was. -/
theorem nested_commit_appends_log (E : Env) (s : State) (T Pp : Nat) (tT tP : tx)
    (lT lP : List (Nat × LogEntry))
    (hLT : LogOf s T tT lT) (hNT : NextPath s.txops tT.head (lT.map Prod.fst).reverse)
    (hLP : LogOf s Pp tP lP) (hNP : NextPath s.txops tP.head (lP.map Prod.fst).reverse)
    (hnext : tT.next = some Pp) (hTne : lT ≠ []) (hPne : lP ≠ [])
    (hdisj : ∀ x ∈ lT, ∀ y ∈ lP, x.1 ≠ y.1) (hTP : T ≠ Pp)
    (hcur : s.Curthread_txinfop = some T) :
    ∃ s1 tP1 evsU, pmemobj_tx_commit_tid E s T = Except.ok (s1, 0) ∧
      s1.Curthread_txinfop = some Pp ∧ LogOf s1 Pp tP1 (lT ++ lP) ∧
      NextPath s1.txops tP1.head ((lT ++ lP).map Prod.fst).reverse ∧ SameFrame tP tP1 ∧
      s1.trace = s.trace ++ evsU ∧ IsSync evsU ∧ pfrees evsU = [] ∧ s1.mem = s.mem := by
  obtain ⟨s0, s1, tP1, evsU, h0, h1, hL1, hF, hc1, hm1, ht1, hsy, _, _, _, _, _, hN⟩ :=
    end_nested E s T Pp tT tP lT lP oncommit_funcs hLT hLP hnext hTne hPne hdisj hTP hcur
  refine ⟨s1, tP1, evsU, ?_, hc1, hL1, hN hNT hNP, hF, ht1, hsy, IsSync_pfrees evsU hsy, hm1⟩
  simp [pmemobj_tx_commit_tid, h0, h1, bind, Except.bind]

theorem nested_commit_appends_log_witness :
    ∃ s1 tP1 evsU, pmemobj_tx_commit_tid sample_env sample_nested 1 = Except.ok (s1, 0) ∧
      s1.Curthread_txinfop = some 0 ∧
      LogOf s1 0 tP1
        ([(3, ⟨op_t.TXOP_SET, { addr := 1102, data := 516, len := 4 }⟩),
          (2, ⟨op_t.TXOP_ALLOC, { addr := 516 }⟩)] ++
         [(1, ⟨op_t.TXOP_SET, { addr := 1100, data := 500, len := 4 }⟩),
          (0, ⟨op_t.TXOP_ALLOC, { addr := 500 }⟩)]) ∧
      NextPath s1.txops tP1.head
        [0, 1, 2, 3] ∧
      SameFrame { mutexp := some 2000, pool := 1000, head := some 0, tail := some 1 } tP1 ∧
      s1.trace = sample_nested.trace ++ evsU ∧ IsSync evsU ∧ pfrees evsU = [] ∧
      s1.mem = sample_nested.mem :=
  nested_commit_appends_log sample_env sample_nested 1 0
    { rwlockp := some 2100, pool := 1000, next := some 0, head := some 2, tail := some 3 }
    { mutexp := some 2000, pool := 1000, head := some 0, tail := some 1 }
    [(3, ⟨op_t.TXOP_SET, { addr := 1102, data := 516, len := 4 }⟩),
      (2, ⟨op_t.TXOP_ALLOC, { addr := 516 }⟩)]
    [(1, ⟨op_t.TXOP_SET, { addr := 1100, data := 500, len := 4 }⟩),
      (0, ⟨op_t.TXOP_ALLOC, { addr := 500 }⟩)]
    ⟨rfl, ⟨rfl, _, rfl, rfl, rfl, ⟨rfl, _, rfl, rfl, rfl, rfl⟩⟩, rfl, by decide⟩
    ⟨rfl, _, rfl, ⟨rfl, _, rfl, rfl⟩⟩
    ⟨rfl, ⟨rfl, _, rfl, rfl, rfl, ⟨rfl, _, rfl, rfl, rfl, rfl⟩⟩, rfl, by decide⟩
    ⟨rfl, _, rfl, ⟨rfl, _, rfl, rfl⟩⟩
    rfl (by simp) (by simp) (by decide) (by decide) rfl

/-! ## The run identifier and a zeroed cell -/

/-- C34, at the failing input. `clock_gettime` fails and `random()` returns 0, so
`obj_init` sets `Runid` to 0 (as it does when the clock reads 0 seconds and 0
nanoseconds). The first `mutexof` on a zeroed `PMEMmutex` then takes the cell for
bound: it returns the `NULL` pointer of the cell and changes nothing, so no
pthread mutex is allocated, and `pmemobj_mutex_lock` fails with `ENOMEM`. With
the `Runid` 7 of the sample environment the same call binds the cell to the new
pthread mutex 0. -/
theorem zeroed_cell_taken_as_bound :
    obj_init none 0 = 0 ∧ obj_init (some (0, 0)) 5 = 0 ∧ sample_zero_env.Runid = 0 ∧
    sample_state.mutexes 2000 = { runid := 0, pthreadp := none } ∧
    mutexof sample_zero_env sample_state 2000 = (sample_state, none) ∧
    pmemobj_mutex_lock sample_zero_env sample_state 2000 =
      ({ sample_state with errno := ENOMEM }, -1) ∧
    (mutexof sample_env sample_state 2000).2 = some 0 ∧
    (mutexof sample_env sample_state 2000).1.mutexes 2000 = { runid := 7, pthreadp := some 0 } :=
  ⟨rfl, rfl, rfl, rfl, rfl, rfl, rfl, rfl⟩

/-! ## The walk through the log of the test -/

theorem chunks_from_nil (data n c p : Nat) (hc : 0 < c) (hp : n ≤ p) :
    chunks_from data n c p = [] := by
  have h0 : (n - p + c - 1) / c = 0 := by
    have : n - p = 0 := Nat.sub_eq_zero_of_le hp
    rw [this, Nat.zero_add]
    exact Nat.div_eq_of_lt (by omega)
  simp [chunks_from, h0]

theorem chunks_count (n c p : Nat) (hc : 0 < c) (hp : p < n) :
    (n - p + c - 1) / c = (n - (p + c) + c - 1) / c + 1 := by
  by_cases h : c ≤ n - p
  · have e : n - p + c - 1 = (n - (p + c) + c - 1) + c := by omega
    rw [e, Nat.add_div_right _ hc]
  · have e1 : n - (p + c) = 0 := by omega
    rw [e1, Nat.zero_add]
    have h1 : (c - 1) / c = 0 := Nat.div_eq_of_lt (by omega)
    have h2 : (n - p + c - 1) / c = 1 := by
      apply Nat.div_eq_of_lt_le <;> omega
    rw [h1, h2]

theorem chunks_from_cons (data n c p : Nat) (hc : 0 < c) (hp : p < n) :
    chunks_from data n c p = (data + p, min c (n - p)) :: chunks_from data n c (p + c) := by
  unfold chunks_from
  rw [chunks_count n c p hc hp, List.range_succ_eq_map, List.map_cons, List.map_map]
  congr 1
  · simp
  · apply List.map_congr_left
    intro k _
    have e : p + (k + 1) * c = p + c + k * c := by ring
    simp [Function.comp, e]

/-- The loop of `objlog_walk` visits the slices from `position` on and stops
behind the first call that returns 0, when `position + chunksize` does not
wrap. -/
theorem objlog_walk_loop_spec (c n data : Nat) (cb : Nat → Nat → Nat → Int) (hc : 0 < c)
    (hcU : c < U64) (hn : n ≤ 2 ^ 63) :
    ∀ (fuel p k : Nat), n - p ≤ fuel → (p = 0 ∨ c ≤ p) →
      objlog_walk_loop c n data cb fuel p k =
        Except.ok (stop_at_zero cb k (chunks_from data n c p)) := by
  intro fuel
  induction fuel with
  | zero =>
    intro p k hf _
    have hp : n ≤ p := by omega
    simp [objlog_walk_loop, Nat.not_lt.2 hp, chunks_from_nil data n c p hc hp, stop_at_zero, pure,
      Except.pure]
  | succ fuel ih =>
    intro p k hf hinv
    by_cases hp : p < n
    · have hwrap : (p + c) % U64 = p + c := by
        apply Nat.mod_eq_of_lt
        rcases hinv with h0 | hle
        · rw [h0, Nat.zero_add]; exact hcU
        · have : U64 = 2 ^ 63 + 2 ^ 63 := by norm_num [U64]
          omega
      have hrec := ih (p + c) (k + 1) (by omega) (Or.inr (by omega))
      rw [chunks_from_cons data n c p hc hp]
      by_cases hz : cb k (data + p) (min c (n - p)) = 0
      · simp [objlog_walk_loop, hp, hz, stop_at_zero, pure, Except.pure]
      · simp [objlog_walk_loop, hp, hz, stop_at_zero, hwrap, hrec, bind, Except.bind, pure,
          Except.pure]
    · have hp2 : n ≤ p := Nat.not_lt.1 hp
      simp [objlog_walk_loop, hp, chunks_from_nil data n c p hc hp2, stop_at_zero, pure,
        Except.pure]

theorem stop_at_zero_all (cb : Nat → Nat → Nat → Int) (hcb : ∀ k b l, cb k b l ≠ 0) :
    ∀ (xs : List (Nat × Nat)) (k : Nat), stop_at_zero cb k xs = xs := by
  intro xs
  induction xs with
  | nil => intro k; rfl
  | cons x xs ih => intro k; simp [stop_at_zero, hcb, ih]

theorem read_bytes_add (m : Nat → Nat) (a l1 l2 : Nat) :
    read_bytes m a (l1 + l2) = read_bytes m a l1 ++ read_bytes m (a + l1) l2 := by
  simp [read_bytes, List.range_add, List.map_append, List.map_map, Function.comp, Nat.add_assoc]

/-- The slices from `p` on, read one after the other, are the bytes from `p` to
`n`. -/
theorem chunks_from_read (m : Nat → Nat) (data n c : Nat) (hc : 0 < c) :
    ∀ (fuel p : Nat), n - p ≤ fuel →
      ((chunks_from data n c p).map (fun x => read_bytes m x.1 x.2)).flatten =
        read_bytes m (data + p) (n - p) := by
  intro fuel
  induction fuel with
  | zero =>
    intro p hf
    have hp : n ≤ p := by omega
    have h0 : n - p = 0 := by omega
    simp [chunks_from_nil data n c p hc hp, h0, read_bytes]
  | succ fuel ih =>
    intro p hf
    by_cases hp : p < n
    · rw [chunks_from_cons data n c p hc hp, List.map_cons, List.flatten_cons,
        ih (p + c) (by omega)]
      by_cases hle : c ≤ n - p
      · have e : n - p = c + (n - (p + c)) := by omega
        rw [e, read_bytes_add, Nat.min_eq_left (by omega)]
        simp only [Nat.add_assoc]
      · have e1 : n - (p + c) = 0 := by omega
        rw [e1, Nat.min_eq_right (by omega)]
        simp [read_bytes]
    · have hp2 : n ≤ p := Nat.not_lt.1 hp
      have h0 : n - p = 0 := by omega
      simp [chunks_from_nil data n c p hc hp2, h0, read_bytes]

theorem chunks_from_get (data n c : Nat) (k : Nat) (hk : k < (n + c - 1) / c) :
    (chunks_from data n c 0)[k]? = some (data + k * c, min c (n - k * c)) := by
  simp [chunks_from, hk]

/-- A call of `pmemobj_root_direct` on a pool that has its root object returns
the address of the root object and writes no byte. -/
theorem root_direct_reads (E : Env) (s : State) (pop size : Nat) (P : pmemobjpool)
    (hP : s.pools pop = some P) (hoff : P.root.off ≠ 0) :
    ∃ s1, pmemobj_root_direct E s pop size = Except.ok (s1, pmemobj_direct P.root) ∧
      s1.mem = s.mem ∧ s1.pools = s.pools := by
  have hl := mutex_lock_sync E s (rootlock pop)
  have hu := mutex_unlock_sync E (pmemobj_mutex_lock E s (rootlock pop)).1 (rootlock pop)
  refine ⟨(pmemobj_mutex_unlock E (pmemobj_mutex_lock E s (rootlock pop)).1 (rootlock pop)).1,
    ?_, by rw [hu.mem, hl.mem], by rw [hu.pools, hl.pools]⟩
  simp [pmemobj_root_direct, pool_get, hl.pools, hu.pools, hP, hoff, bind, Except.bind, pure,
    Except.pure]

/-- C35. For every pool whose root object is a log of the test (`log` its
address, `data` the address of its data, `n` its write offset, which is at most
2^63 as every offset into an object is) and every chunk size `c` (a `size_t`),
`objlog_walk` returns, having written no byte. With `c = 0` it has called the
callback exactly once, on `data` with the length `n`. With `c > 0` it has called
it on the slices of `c` bytes from `data` on, the last one ending at `n`, one
after the other, and has stopped behind the first call that returned 0; when the
callback never returns 0 these are exactly `ceil(n / c)` calls, the `k`-th on
the `min(c, n - k * c)` bytes at `data + k * c`, and the slices read one after
the other are the `n` bytes at `data`. -/
theorem objlog_walk_visits_chunks (E : Env) (s : State) (pool c log data n : Nat)
    (P : pmemobjpool) (cb : Nat → Nat → Nat → Int) (hP : s.pools pool = some P)
    (hroot : P.root.off ≠ 0) (hlog : log = pmemobj_direct P.root)
    (hdata : data = pmemobj_direct (load_oid s.mem (log + log_s_data)))
    (hoff : n = load_le s.mem (log + log_s_offset) 8) (hn : n ≤ 2 ^ 63) (hc : c < U64) :
    ∃ s1 calls, objlog_walk E s pool c cb = Except.ok (s1, calls) ∧ s1.mem = s.mem ∧
      (c = 0 → calls = [(data, n)]) ∧
      (0 < c → calls = stop_at_zero cb 0 (chunks_from data n c 0)) ∧
      (0 < c → (∀ k b l, cb k b l ≠ 0) →
        calls.length = (n + c - 1) / c ∧
        (∀ k, k < (n + c - 1) / c → calls[k]? = some (data + k * c, min c (n - k * c))) ∧
        (calls.map (fun x => read_bytes s.mem x.1 x.2)).flatten = read_bytes s.mem data n) := by
  obtain ⟨s1, h1, hmem1, _⟩ := root_direct_reads E s pool LOG_S_SIZE P hP hroot
  have hl := mutex_lock_sync E s1 (log + log_s_mutex)
  have hu := mutex_unlock_sync E (pmemobj_mutex_lock E s1 (log + log_s_mutex)).1
    (log + log_s_mutex)
  have hm : (pmemobj_mutex_lock E s1 (log + log_s_mutex)).1.mem = s.mem := by
    rw [hl.mem, hmem1]
  by_cases h0 : c = 0
  · refine ⟨(pmemobj_mutex_unlock E (pmemobj_mutex_lock E s1 (log + log_s_mutex)).1
      (log + log_s_mutex)).1,
      [(data, n)], ?_, ?_, fun _ => rfl, fun h => absurd h0 (by omega),
      fun h => absurd h0 (by omega)⟩
    · simp only [objlog_walk, h1, bind, Except.bind, pure, Except.pure, ← hlog, hm, ← hdata,
        ← hoff, h0, if_true]
    · rw [hu.mem, hm]
  · have hpos : 0 < c := Nat.pos_of_ne_zero h0
    have hloop := objlog_walk_loop_spec c n data cb hpos hc hn (n + 1) 0 0 (by omega) (Or.inl rfl)
    refine ⟨(pmemobj_mutex_unlock E (pmemobj_mutex_lock E s1 (log + log_s_mutex)).1
      (log + log_s_mutex)).1,
      stop_at_zero cb 0 (chunks_from data n c 0), ?_, ?_, fun h => absurd h h0,
      fun _ => rfl, ?_⟩
    · simp only [objlog_walk, h1, bind, Except.bind, pure, Except.pure, ← hlog, hm, ← hdata,
        ← hoff, h0, if_false, hloop]
    · rw [hu.mem, hm]
    · intro _ hcb
      rw [stop_at_zero_all cb hcb]
      refine ⟨by simp [chunks_from], fun k hk => chunks_from_get data n c k hk, ?_⟩
      have := chunks_from_read s.mem data n c hpos n 0 (by omega)
      simpa using this

theorem objlog_walk_visits_chunks_witness :
    ∃ s1 calls, objlog_walk sample_env sample_log_state 1000 16 (fun _ _ _ => 1) =
        Except.ok (s1, calls) ∧ s1.mem = sample_log_state.mem ∧
      ((16 : Nat) = 0 → calls = [(9808, 40)]) ∧
      (0 < 16 → calls = stop_at_zero (fun _ _ _ => 1) 0 (chunks_from 9808 40 16 0)) ∧
      (0 < 16 → (∀ k b l : Nat, (fun _ _ _ => (1 : Int)) k b l ≠ 0) →
        calls.length = (40 + 16 - 1) / 16 ∧
        (∀ k, k < (40 + 16 - 1) / 16 → calls[k]? = some (9808 + k * 16, min 16 (40 - k * 16))) ∧
        (calls.map (fun x => read_bytes sample_log_state.mem x.1 x.2)).flatten =
          read_bytes sample_log_state.mem 9808 40) :=
  objlog_walk_visits_chunks sample_env sample_log_state 1000 16 9192 9808 40 sample_log_pool
    (fun _ _ _ => 1) rfl (by decide) rfl rfl rfl (by decide) (by decide)

/-! ## The commit of a nested transaction into a parent with an empty log -/

/-- C36, at the failing input. On the sample state a transaction P is begun and
logs nothing; a nested transaction T is begun and logs one `memcpy`; T is
committed. The splice has linked the head of T and then dereferences the `NULL`
`tail` of P: the commit does not complete. The same happens when
`pmemobj_list_add` is called as the first action of an outer transaction. -/
theorem nested_commit_into_empty_parent_faults :
    ∃ s1 s2 s3 s4 t1,
      pmemobj_tx_begin sample_env sample_state 1000 none = Except.ok (s1, 0) ∧
      pmemobj_tx_begin sample_env s1 1000 none = Except.ok (s2, 1) ∧
      pmemobj_memcpy_tid sample_env s2 1 1100 1200 4 = Except.ok (s3, 0) ∧
      tx_get s3 0 = Except.ok t1 ∧ t1.head = none ∧ t1.tail = none ∧
      pmemobj_tx_commit_tid sample_env s3 1 = Except.error Fault.null_deref ∧
      pmemobj_tx_commit sample_env s3 = Except.error Fault.null_deref ∧
      pmemobj_tx_begin sample_env sample_list_state 1000 none = Except.ok (s4, 0) ∧
      pmemobj_list_add sample_env s4 1000 sample_x sample_h sample_auto =
        Except.error Fault.null_deref :=
  ⟨_, _, _, _, _, rfl, rfl, rfl, rfl, rfl, rfl, rfl, rfl, rfl, rfl⟩

end Obj
